import Mathlib

/-!
# bit-quark: membership, ownership consensus and global state

A shallow embedding of the cluster core of bit-quark
(`MasterNode`, `ResourceManager`, `GlobalState` and the object store they
commit against) together with theorems about the embedded code.

Conventions of the embedding

* `std::unordered_map<std::string, V>` is an association list
  `List (String × V)`; `find`, `operator[]`, assignment and `erase` are
  `mapFind`, `mapIndex`, `mapSet` and `mapErase`.  The iteration order of
  an unordered map is unspecified; the list order is one admissible order.
* `std::vector` is `List`; `push_back` appends at the end.
* `int` and `long` are `Int`; the counters involved stay far from the
  limits of the machine types.
* Code that runs under a mutex is one atomic step; network requests are
  answered by an oracle passed as an argument.
-/

namespace BitQuark

/-! ## Unordered maps -/

/-- Result of `m.find(k)`: the value stored under `k`, if there is one. -/
def mapFind {α : Type} : List (String × α) → String → Option α
  | [], _ => none
  | (k', v) :: rest, k => if k' = k then some v else mapFind rest k

/-- Assignment `m[k] = v`: overwrites the row of `k` or adds a new row. -/
def mapSet {α : Type} : List (String × α) → String → α → List (String × α)
  | [], k, v => [(k, v)]
  | (k', v') :: rest, k, v =>
    if k' = k then (k, v) :: rest else (k', v') :: mapSet rest k v

/-- Removal `m.erase(k)`. -/
def mapErase {α : Type} (m : List (String × α)) (k : String) : List (String × α) :=
  m.filter (fun p => p.1 ≠ k)

/-- Read access `m[k]`: when `k` is absent a value-initialised row is
inserted first.  Returns the value read and the map afterwards. -/
def mapIndex {α : Type} [Inhabited α] (m : List (String × α)) (k : String) :
    α × List (String × α) :=
  match mapFind m k with
  | some v => (v, m)
  | none => (default, mapSet m k default)

/-- Keys of a map, in iteration order. -/
def mapKeys {α : Type} (m : List (String × α)) : List String :=
  m.map Prod.fst

/-- Read `body[k]` of a request or response body held in a local copy:
the stored string, or the empty string for an absent key. -/
def bodyAt (body : List (String × String)) (k : String) : String :=
  (mapIndex body k).1

/-! ## Networking -/

/-- Record `Servable::ResponseObj`. -/
structure ResponseObj where
  code : Int
  body : List (String × String)
  deriving DecidableEq, Repr

/-- A declared but not yet assigned `ResponseObj retObj;`. -/
instance : Inhabited ResponseObj := ⟨⟨0, []⟩⟩

/-! ## MasterNode -/

/-- Record `MasterNode::MasterNodeState`. -/
structure MasterNodeState where
  contactable : Bool
  id : String
  url : String
  deriving DecidableEq, Repr

/-- Value-initialised `MasterNodeState`, as inserted by `operator[]`. -/
instance : Inhabited MasterNodeState := ⟨⟨false, "", ""⟩⟩

/-- Local variables of a call of `MasterNode::handleMasterNodeStatusRequest`
that a thread of the pool is running, as they stand between two of its lock
sections.  `response` is `none` until the request is answered; `remoteNodes`
is `none` until the test `remoteNodes.size() > masterNodeCount` has run, then
the nodes that the loop over `remoteNodes` has still to visit (none when the
test failed). -/
structure StatusRequest where
  nodeId : String
  thisNodeId : String
  masterNodeCount : Nat
  nodeState : MasterNodeState
  response : Option ResponseObj
  ourMasterNodes : List String
  remoteNodes : Option (List String)
  deriving DecidableEq, Repr

/-- Local variables of the last block of `MasterNode::handleMasterEventLoop`
while it runs: `nextItem` is the dequeued pair whose join request is under
way. -/
structure JoinDrain where
  nodesRequested : List String
  nextItem : Option (String × String)
  deriving DecidableEq, Repr

/-- Member variables of `MasterNode` that carry cluster state.
`_masterNodesToJoin` is the content of the asynchronous queue of pairs
(node id, node url); `_masterThreadPool` is the list of node ids handed to the
thread pool whose status request has not begun yet.  The last two fields are
not members: `statusRequests` holds the local variables of the status requests
that threads of the pool are running, `joinDrain` those of the join block of
the master loop while it runs, so that a state determines what the lock
sections still to come will do. -/
structure MasterNode where
  _leftTimeout : Int
  _workerTimeout : Int
  _nodeId : String
  _nodeUrl : String
  _leftMasterNodes : List String
  _leftMasterNodeTimes : List (String × Int)
  _connectedWorkerNodes : List (String × Int)
  _masterNodes : List (String × MasterNodeState)
  _masterNodesToJoin : List (String × String)
  _masterThreadPool : List String
  statusRequests : List StatusRequest
  joinDrain : Option JoinDrain
  deriving DecidableEq, Repr

namespace MasterNode

/-- Constructor `MasterNode::MasterNode(hostname, port, nodeId)`;
`randomSha` is the value `Crypto::getRandomSha256()` would return. -/
def new (randomSha : String) (hostname : String) (port : Int) (nodeId : String) :
    MasterNode :=
  { _leftTimeout := 300
    _workerTimeout := 30
    _nodeId := if nodeId = "" then randomSha else nodeId
    _nodeUrl := "http://" ++ hostname ++ ":" ++ toString port
    _leftMasterNodes := []
    _leftMasterNodeTimes := []
    _connectedWorkerNodes := []
    _masterNodes := []
    _masterNodesToJoin := []
    _masterThreadPool := []
    statusRequests := []
    joinDrain := none }

/-- Method `MasterNode::setLeftNodeTimeout`. -/
def setLeftNodeTimeout (s : MasterNode) (timeout : Int) : Bool × MasterNode :=
  if timeout ≥ 30 then (true, { s with _leftTimeout := timeout }) else (false, s)

/-- Method `MasterNode::setWorkerNodeTimeout`. -/
def setWorkerNodeTimeout (s : MasterNode) (timeout : Int) : Bool × MasterNode :=
  if timeout ≥ 30 then (true, { s with _workerTimeout := timeout }) else (false, s)

/-- Method `MasterNode::getConnectedWorkers`. -/
def getConnectedWorkers (s : MasterNode) : List String :=
  s._connectedWorkerNodes.map Prod.fst

/-- Method `MasterNode::getConnectedMasters`. -/
def getConnectedMasters (s : MasterNode) : List String :=
  (s._masterNodes.filter (fun p => p.2.contactable)).map Prod.fst

/-- Method `MasterNode::getUrlForConnectedMasterNode`. -/
def getUrlForConnectedMasterNode (s : MasterNode) (nodeId : String) : String :=
  s._masterNodes.foldl
    (fun retVal p => if p.2.id = nodeId ∧ p.2.contactable = true then p.2.url else retVal) ""

/-- Method `MasterNode::isInQuorum`.  The product `0.5 * numberOfNodes` is a
`double`; every `int` and every half of an `int` is a `double`, so the
comparison is the exact one, taken here over the rationals. -/
def isInQuorum (s : MasterNode) : Bool :=
  let numberOfNodes : Int := s._masterNodes.length + 1
  let connectedNodes : Int :=
    s._masterNodes.foldl (fun n p => if p.2.contactable then n + 1 else n) 0 + 1
  decide ((connectedNodes : ℚ) > (1 / 2 : ℚ) * (numberOfNodes : ℚ))

/-- Method `MasterNode::handlerPostInternalMasterJoin`. -/
def handlerPostInternalMasterJoin (s : MasterNode) (body : List (String × String)) :
    ResponseObj × MasterNode :=
  let nodeId := bodyAt body "NodeId"
  let nodeUrl := bodyAt body "NodeUrl"
  let retObj0 : ResponseObj := default
  let retObj1 : ResponseObj :=
    if nodeId = "" then ⟨400, [("MissingArgument", "NodeId")]⟩ else retObj0
  let retObj2 : ResponseObj :=
    if nodeUrl = "" then ⟨400, [("MissingArgument", "NodeUrl")]⟩ else retObj1
  if nodeId ≠ "" ∧ nodeUrl ≠ "" then
    let found : Bool × Bool :=
      s._masterNodes.foldl
        (fun f p => (if p.1 = nodeId then true else f.1,
                     if p.2.url = nodeUrl then true else f.2))
        (false, false)
    let alreadyExistedId : Bool := if nodeId = s._nodeId then true else found.1
    let alreadyExistedUrl : Bool := if nodeUrl = s._nodeUrl then true else found.2
    let s1 : MasterNode :=
      if !alreadyExistedId && !alreadyExistedUrl then
        if nodeId ∈ s._leftMasterNodes then
          { s with _leftMasterNodes := s._leftMasterNodes.erase nodeId
                   _leftMasterNodeTimes := mapErase s._leftMasterNodeTimes nodeId }
        else s
      else s
    let s2 : MasterNode :=
      if !alreadyExistedId && !alreadyExistedUrl then
        { s1 with _masterNodes := mapSet s1._masterNodes nodeId ⟨false, nodeId, nodeUrl⟩ }
      else s1
    if alreadyExistedId then
      (⟨400, [("AddedNode", "False"), ("NodeId", nodeId), ("NodeUrl", nodeUrl),
              ("Message", "A node with the same ID already exists")]⟩, s2)
    else if alreadyExistedUrl then
      (⟨400, [("AddedNode", "False"), ("NodeId", nodeId), ("NodeUrl", nodeUrl),
              ("Message", "A node with the same URL already exists")]⟩, s2)
    else
      (⟨201, [("AddedNode", "True"), ("NodeId", nodeId), ("NodeUrl", nodeUrl),
              ("Message", "The node will be added to the cluster")]⟩, s2)
  else (retObj2, s)

/-- Method `MasterNode::handlerPostInternalMasterLeave`. -/
def handlerPostInternalMasterLeave (s : MasterNode) (body : List (String × String)) :
    ResponseObj × MasterNode :=
  let nodeId := bodyAt body "NodeId"
  let retObj0 : ResponseObj := default
  let retObj1 : ResponseObj :=
    if nodeId = "" then ⟨400, [("MissingArgument", "NodeId")]⟩ else retObj0
  if nodeId ≠ "" then
    let looked := mapIndex s._masterNodes nodeId
    let foundExistingNodeId : Bool := decide (looked.1.id = nodeId)
    let s1 : MasterNode := { s with _masterNodes := looked.2 }
    let s2 : MasterNode :=
      if foundExistingNodeId then
        { s1 with _leftMasterNodes := s1._leftMasterNodes ++ [nodeId]
                  _leftMasterNodeTimes := mapSet s1._leftMasterNodeTimes nodeId 0 }
      else s1
    let s3 : MasterNode :=
      if foundExistingNodeId then
        { s2 with _masterNodes := mapErase s2._masterNodes nodeId }
      else s2
    if !foundExistingNodeId then
      (⟨400, [("RemovedNode", "False"), ("NodeId", nodeId),
              ("Message", "No node exists with the provided ID")]⟩, s3)
    else
      (⟨202, [("RemovedNode", "True"), ("NodeId", nodeId),
              ("Message", "The node will be removed from the cluster")]⟩, s3)
  else (retObj1, s)

/-- First lock section of `MasterNode::handleMasterNodeStatusRequest`: the
number of peers, the row `_masterNodes[nodeId]` (inserted when absent) and the
own id are copied into the local variables of a new running call. -/
def statusRequestBegin (s : MasterNode) (nodeId : String) : MasterNode :=
  let masterNodeCount : Nat := s._masterNodes.length
  let looked := mapIndex s._masterNodes nodeId
  { s with
    _masterNodes := looked.2
    statusRequests := s.statusRequests ++
      [{ nodeId := nodeId
         thisNodeId := s._nodeId
         masterNodeCount := masterNodeCount
         nodeState := looked.1
         response := none
         ourMasterNodes := []
         remoteNodes := none }] }

/-- The answer `response` to the request of the `i`-th running call arrives:
`nodeState.contactable` is set and, when the answer does not name this node,
the pair of the polled node is put on the join queue.  Reads of
`response.body[...]` insert into the local copy of the response only, which no
later read observes. -/
def statusRequestAnswer (s : MasterNode) (i : Nat) (response : ResponseObj) : MasterNode :=
  match s.statusRequests[i]? with
  | some r =>
    if r.response = none then
      let nodeState : MasterNodeState :=
        { r.nodeState with contactable := decide (response.code < 300) }
      { s with
        _masterNodesToJoin :=
          if bodyAt response.body r.thisNodeId = "" then
            s._masterNodesToJoin ++ [(nodeState.id, nodeState.url)]
          else s._masterNodesToJoin
        statusRequests :=
          s.statusRequests.set i { r with nodeState := nodeState, response := some response } }
    else s
  | none => s

/-- The `i`-th running call extracts `remoteNodes` from its answer and tests
`remoteNodes.size() > masterNodeCount`; when the test succeeds the second lock
section copies the peer ids and the left ledger into `ourMasterNodes`. -/
def statusRequestCompare (s : MasterNode) (i : Nat) : MasterNode :=
  match s.statusRequests[i]? with
  | some r =>
    match r.response, r.remoteNodes with
    | some response, none =>
      let remoteNodes : List String :=
        (response.body.filter
          (fun p => decide (p.2 = "Connected") || decide (p.2 = "NotConnected"))).map Prod.fst
      if remoteNodes.length > r.masterNodeCount then
        { s with
          statusRequests := s.statusRequests.set i
            { r with ourMasterNodes := mapKeys s._masterNodes ++ s._leftMasterNodes
                     remoteNodes := some remoteNodes } }
      else
        { s with statusRequests := s.statusRequests.set i { r with remoteNodes := some [] } }
    | _, _ => s
  | none => s

/-- One round of the loop over `remoteNodes` in the `i`-th running call: a
remote node that is not this node and not in `ourMasterNodes` is put on the
join queue with the url the answer gives for it. -/
def statusRequestVisit (s : MasterNode) (i : Nat) : MasterNode :=
  match s.statusRequests[i]? with
  | some r =>
    match r.response, r.remoteNodes with
    | some response, some (remoteNode :: rest) =>
      { s with
        _masterNodesToJoin :=
          if remoteNode ≠ r.thisNodeId ∧ remoteNode ∉ r.ourMasterNodes then
            s._masterNodesToJoin ++ [(remoteNode, bodyAt response.body ("URL-" ++ remoteNode))]
          else s._masterNodesToJoin
        statusRequests := s.statusRequests.set i { r with remoteNodes := some rest } }
    | _, _ => s
  | none => s

/-- Last lock section of the `i`-th running call, once its loop is over:
`_masterNodes[nodeId] = nodeState` writes back the row read in the first lock
section, and the call returns. -/
def statusRequestCommit (s : MasterNode) (i : Nat) : MasterNode :=
  match s.statusRequests[i]? with
  | some r =>
    if r.remoteNodes = some [] then
      { s with
        _masterNodes := mapSet s._masterNodes r.nodeId r.nodeState
        statusRequests := s.statusRequests.eraseIdx i }
    else s
  | none => s

/-- Method `MasterNode::handleMasterNodeStatusRequest` when no other thread
runs between its lock sections; `makeRequest url` is the answer of
`Requests::makeRequest(GET, url, {})`.  The call is the new entry `i` of
`statusRequests`; the answer lists at most `response.body.size()` remote
nodes, so that many rounds end the loop over `remoteNodes`. -/
def handleMasterNodeStatusRequest (s : MasterNode) (nodeId : String)
    (makeRequest : String → ResponseObj) : MasterNode :=
  let i := s.statusRequests.length
  let response :=
    makeRequest ((mapIndex s._masterNodes nodeId).1.url ++ "/internal/master/status")
  let compared :=
    statusRequestCompare (statusRequestAnswer (statusRequestBegin s nodeId) i response) i
  statusRequestCommit
    ((List.range response.body.length).foldl (fun st _ => statusRequestVisit st i) compared) i

/-- First block of `MasterNode::handleMasterEventLoop`: every known node id is
handed to the thread pool. -/
def dispatchStatusRequests (s : MasterNode) : MasterNode :=
  { s with _masterThreadPool := s._masterThreadPool ++ mapKeys s._masterNodes }

/-- A thread of the pool takes the node id `nodeId` from the queue of the
pool. -/
def takeStatusRequest (s : MasterNode) (nodeId : String) : MasterNode :=
  { s with _masterThreadPool := s._masterThreadPool.erase nodeId }

/-- The thread pool runs the status request of one queued node id, no other
thread running meanwhile. -/
def runStatusRequest (s : MasterNode) (nodeId : String)
    (makeRequest : String → ResponseObj) : MasterNode :=
  handleMasterNodeStatusRequest (takeStatusRequest s nodeId) nodeId makeRequest

/-- Second block of `MasterNode::handleMasterEventLoop`, first loop: every
ledger entry found with an age above `_leftTimeout` is pushed on
`timedOutNodes`, and every entry ages by 5.  The accumulator is
(`timedOutNodes`, `_leftMasterNodeTimes`). -/
def markTimedOutNodes (leftTimeout : Int) (leftMasterNodes : List String)
    (acc : List String × List (String × Int)) : List String × List (String × Int) :=
  leftMasterNodes.foldl
    (fun acc leftNode =>
      ((if (mapIndex acc.2 leftNode).1 > leftTimeout then acc.1 ++ [leftNode] else acc.1),
       mapSet (mapIndex acc.2 leftNode).2 leftNode ((mapIndex acc.2 leftNode).1 + 5)))
    acc

/-- Second block of `MasterNode::handleMasterEventLoop`, second loop: every
marked node that is found in the ledger is erased from it and from the ages. -/
def removeTimedOutNodes (timedOutNodes : List String) (s : MasterNode) : MasterNode :=
  timedOutNodes.foldl
    (fun st expiredNode =>
      if expiredNode ∈ st._leftMasterNodes then
        { st with _leftMasterNodes := st._leftMasterNodes.erase expiredNode
                  _leftMasterNodeTimes := mapErase st._leftMasterNodeTimes expiredNode }
      else st)
    s

/-- Second block of `MasterNode::handleMasterEventLoop`: the left ledger. -/
def ageLeftMasterNodes (s : MasterNode) : MasterNode :=
  removeTimedOutNodes
    (markTimedOutNodes s._leftTimeout s._leftMasterNodes ([], s._leftMasterNodeTimes)).1
    { s with _leftMasterNodeTimes :=
        (markTimedOutNodes s._leftTimeout s._leftMasterNodes ([], s._leftMasterNodeTimes)).2 }

/-- Third block of `MasterNode::handleMasterEventLoop`, the dequeuing loop.
The accumulator is (`_masterNodes`, `nodesRequested`): a dequeued pair whose id
is not in `nodesRequested` gets a peer row (whatever the outcome of the join
request sent to its url) and its id is pushed on `nodesRequested`. -/
def dequeueMasterNodesToJoin (queue : List (String × String))
    (acc : List (String × MasterNodeState) × List String) :
    List (String × MasterNodeState) × List String :=
  queue.foldl
    (fun acc nextItem =>
      if nextItem.1 ∉ acc.2 then
        (mapSet acc.1 nextItem.1 ⟨false, nextItem.1, nextItem.2⟩, acc.2 ++ [nextItem.1])
      else acc)
    acc

/-- Third block of `MasterNode::handleMasterEventLoop` when no other thread
runs meanwhile: the queue of nodes to join is drained, with `nodesRequested`
starting as a copy of the left ledger. -/
def drainMasterNodesToJoin (s : MasterNode) : MasterNode :=
  if s._masterNodesToJoin ≠ [] then
    { s with
      _masterNodes :=
        (dequeueMasterNodesToJoin s._masterNodesToJoin (s._masterNodes, s._leftMasterNodes)).1
      _masterNodesToJoin := [] }
  else s

/-- Third block of `MasterNode::handleMasterEventLoop`, its lock section: when
the join queue is not empty, `nodesRequested` starts as a copy of the left
ledger.  The master loop is one thread, so it enters the block only when it
is not inside it. -/
def drainBegin (s : MasterNode) : MasterNode :=
  if s._masterNodesToJoin ≠ [] ∧ s.joinDrain = none then
    { s with joinDrain := some ⟨s._leftMasterNodes, none⟩ }
  else s

/-- Third block of `MasterNode::handleMasterEventLoop`, one test of the
dequeuing loop: the block ends when the queue is empty; otherwise the next
pair is dequeued, and a join request for it is under way unless its id is in
`nodesRequested`.  Only the master loop takes pairs off the queue, so the test
and the dequeue are one step. -/
def drainDequeue (s : MasterNode) : MasterNode :=
  match s.joinDrain with
  | some drain =>
    if drain.nextItem = none then
      match s._masterNodesToJoin with
      | [] => { s with joinDrain := none }
      | nextItem :: rest =>
        if nextItem.1 ∉ drain.nodesRequested then
          { s with _masterNodesToJoin := rest
                   joinDrain := some { drain with nextItem := some nextItem } }
        else { s with _masterNodesToJoin := rest }
    else s
  | none => s

/-- Third block of `MasterNode::handleMasterEventLoop`, the lock section after
the join request: the dequeued pair gets a peer row, whatever the outcome of
the request, and its id is pushed on `nodesRequested`. -/
def drainInsert (s : MasterNode) : MasterNode :=
  match s.joinDrain with
  | some drain =>
    match drain.nextItem with
    | some nextItem =>
      { s with
        _masterNodes := mapSet s._masterNodes nextItem.1 ⟨false, nextItem.1, nextItem.2⟩
        joinDrain := some ⟨drain.nodesRequested ++ [nextItem.1], none⟩ }
    | none => s
  | none => s

/-- Method `MasterNode::handleMasterEventLoop`, one iteration in which no
other thread runs between the lock sections: the status requests of all known
nodes run (`respond nodeId url` answers the request for `nodeId`), then the
left ledger is updated and the join queue is drained. -/
def handleMasterEventLoop (s : MasterNode) (respond : String → String → ResponseObj) :
    MasterNode :=
  let s0 := dispatchStatusRequests s
  let s1 := s0._masterThreadPool.foldl
    (fun st nodeId => runStatusRequest st nodeId (respond nodeId)) s0
  drainMasterNodesToJoin (ageLeftMasterNodes s1)

/-- Method `MasterNode::handleWorkerEventLoop`, one iteration. -/
def handleWorkerEventLoop (s : MasterNode) : MasterNode :=
  let nodesToRemove : List String :=
    (s._connectedWorkerNodes.filter (fun w => decide (w.2 ≥ s._workerTimeout))).map Prod.fst
  let aged : List (String × Int) := s._connectedWorkerNodes.map (fun w => (w.1, w.2 + 5))
  { s with _connectedWorkerNodes := nodesToRemove.foldl (fun m w => mapErase m w) aged }

/-- Method `MasterNode::handlerGetClusterStatus`.  In the assignment to
`connectionStatus["ClusterSize"]` the right-hand side, hence `size()`, is
evaluated before the key is inserted. -/
def handlerGetClusterStatus (s : MasterNode) : ResponseObj :=
  let connectionStatus0 : List (String × String) :=
    s._masterNodes.foldl
      (fun m p => mapSet m p.1 (if p.2.contactable then "Connected" else "NotConnected")) []
  let connectedNodes0 : Int :=
    connectionStatus0.foldl (fun n p => if p.2 = "Connected" then n + 1 else n) 0
  let connectionStatus1 := mapSet connectionStatus0 s._nodeId "SelfInstance"
  let connectedNodes : Int := connectedNodes0 + 1
  let quorumMet : Bool :=
    decide ((connectedNodes : ℚ) > (1 / 2 : ℚ) * ((connectionStatus1.length : Int) : ℚ))
  let connectionStatus2 :=
    mapSet connectionStatus1 "QuorumMet" (if quorumMet then "True" else "False")
  let clusterSize : String :=
    toString connectedNodes ++ "/" ++ toString ((connectionStatus2.length : Int) - 1)
  ⟨200, mapSet connectionStatus2 "ClusterSize" clusterSize⟩

/-- Method `MasterNode::handlerGetInternalMasterStatus`. -/
def handlerGetInternalMasterStatus (s : MasterNode) (routeArg : String) :
    ResponseObj × MasterNode :=
  let retObj0 := handlerGetClusterStatus s
  let retObj1 : ResponseObj :=
    if retObj0.code < 300 then
      { retObj0 with
        body := s._masterNodes.foldl (fun b p => mapSet b ("URL-" ++ p.1) p.2.url) retObj0.body }
    else retObj0
  let s1 : MasterNode :=
    if routeArg ≠ "" ∧ retObj1.code < 300 then
      { s with _connectedWorkerNodes := mapSet s._connectedWorkerNodes routeArg 0 }
    else s
  (retObj1, s1)

/-- States a master node can be in: the constructed node, changed by its
request handlers, its setters, the worker loop, and the lock sections and
queue operations of the master loop and of the status requests that the
threads of the pool run, taken in any order.  Every handler, every setter and
the worker loop change the state inside one section locked by `_masterLock`,
so each of them is one step, as each lock section of the other two is. -/
inductive Reachable : MasterNode → Prop
  | init (randomSha hostname : String) (port : Int) (nodeId : String) :
      randomSha ≠ "" → Reachable (new randomSha hostname port nodeId)
  | join (s : MasterNode) (body : List (String × String)) :
      Reachable s → Reachable (handlerPostInternalMasterJoin s body).2
  | leave (s : MasterNode) (body : List (String × String)) :
      Reachable s → Reachable (handlerPostInternalMasterLeave s body).2
  | status (s : MasterNode) (routeArg : String) :
      Reachable s → Reachable (handlerGetInternalMasterStatus s routeArg).2
  | leftTimeout (s : MasterNode) (timeout : Int) :
      Reachable s → Reachable (setLeftNodeTimeout s timeout).2
  | workerTimeout (s : MasterNode) (timeout : Int) :
      Reachable s → Reachable (setWorkerNodeTimeout s timeout).2
  | dispatch (s : MasterNode) :
      Reachable s → Reachable (dispatchStatusRequests s)
  | pollBegin (s : MasterNode) (nodeId : String) :
      Reachable s → nodeId ∈ s._masterThreadPool →
      Reachable (statusRequestBegin (takeStatusRequest s nodeId) nodeId)
  | pollAnswer (s : MasterNode) (i : Nat) (response : ResponseObj) :
      Reachable s → Reachable (statusRequestAnswer s i response)
  | pollCompare (s : MasterNode) (i : Nat) :
      Reachable s → Reachable (statusRequestCompare s i)
  | pollVisit (s : MasterNode) (i : Nat) :
      Reachable s → Reachable (statusRequestVisit s i)
  | pollCommit (s : MasterNode) (i : Nat) :
      Reachable s → Reachable (statusRequestCommit s i)
  | age (s : MasterNode) :
      Reachable s → Reachable (ageLeftMasterNodes s)
  | drainBegin (s : MasterNode) :
      Reachable s → Reachable (drainBegin s)
  | drainDequeue (s : MasterNode) :
      Reachable s → Reachable (drainDequeue s)
  | drainInsert (s : MasterNode) :
      Reachable s → Reachable (drainInsert s)
  | workerLoop (s : MasterNode) :
      Reachable s → Reachable (handleWorkerEventLoop s)

end MasterNode

/-! ## Object store -/

/-- State of an `S3DataStore` over a bucket directory whose requests succeed:
`objects` are the stored objects by key (relative to the directory) and
`dataSize` is `_internalMd.dataSize`.  The metadata object
`.s3datastore/metadata` is a function of `_internalMd` and is represented by
it; the memoization map caches sizes that agree with the stored objects. -/
structure S3DataStore where
  objects : List (String × String)
  dataSize : Int
  deriving DecidableEq, Repr

namespace S3DataStore

/-- Test `key[0] != '.'` on a non-empty key. -/
def notDotKey (key : String) : Bool :=
  decide (key.data.head? ≠ some '.')

/-- Method `S3DataStore::getItem`: the object, or the empty string when the
key is empty or names no object. -/
def getItem (d : S3DataStore) (key : String) : String :=
  if key ≠ "" then (mapFind d.objects key).getD "" else ""

/-- Method `S3DataStore::getObjectSize`. -/
def getObjectSize (d : S3DataStore) (key : String) : Int :=
  if key ≠ "" then
    match mapFind d.objects key with
    | some item => (item.utf8ByteSize : Int)
    | none => 0
  else 0

/-- Method `S3DataStore::addItem`. -/
def addItem (d : S3DataStore) (key item : String) : Bool × S3DataStore :=
  if key ≠ "" ∧ notDotKey key = true then
    (true, { objects := mapSet d.objects key item
             dataSize := d.dataSize + ((item.utf8ByteSize : Int) - getObjectSize d key) })
  else (false, d)

/-- Method `S3DataStore::deleteItem`; deleting a key that names no object
succeeds. -/
def deleteItem (d : S3DataStore) (key : String) : Bool × S3DataStore :=
  if key ≠ "" then
    if notDotKey key = true then
      (true, { objects := mapErase d.objects key
               dataSize := d.dataSize - getObjectSize d key })
    else (true, { d with objects := mapErase d.objects key })
  else (false, d)

/-- Method `S3DataStore::listItems`: the keys that start with `keyStart`, in
the store's key order, without empty keys and keys that start with a dot. -/
def listItems (d : S3DataStore) (keyStart : String) : List String :=
  ((mapKeys d.objects).filter
    (fun key => keyStart.data.isPrefixOf key.data && notDotKey key && decide (key ≠ ""))).insertionSort
      (fun a b => a ≤ b)

end S3DataStore

/-! ## Resources -/

/-- The file-string functions of `StandardModel::Utils` and the number
parsers of the standard library, which the code calls and this repository
does not define: `parseFileString` returns no vector for a string it cannot
parse, `stol` and `stoi` return no number where the C++ functions throw. -/
structure FileStringCodec where
  getFileString : List String → String
  parseFileString : String → Option (List String)
  stol : String → Option Int
  stoi : String → Option Int

/-- The values of the type `long`. -/
def inLong (n : Int) : Prop :=
  -9223372036854775808 ≤ n ∧ n ≤ 9223372036854775807

/-- The values of the type `int`. -/
def inInt (n : Int) : Prop :=
  -2147483648 ≤ n ∧ n ≤ 2147483647

instance (n : Int) : Decidable (inLong n) :=
  inferInstanceAs (Decidable (-9223372036854775808 ≤ n ∧ n ≤ 9223372036854775807))

instance (n : Int) : Decidable (inInt n) :=
  inferInstanceAs (Decidable (-2147483648 ≤ n ∧ n ≤ 2147483647))

/-- The `long` that 64-bit two's complement arithmetic yields where the exact
result is `n`. -/
def wrapLong (n : Int) : Int :=
  (n + 9223372036854775808) % 18446744073709551616 - 9223372036854775808

/-- The `int` that 32-bit two's complement arithmetic yields where the exact
result is `n`. -/
def wrapInt (n : Int) : Int :=
  (n + 2147483648) % 4294967296 - 2147483648

/-- Class `Resource::ResourceCost`; the members are a `long`, a `long` and an
`int`, so a cost the program holds satisfies `ResourceCost.InRange`. -/
structure ResourceCost where
  _resourceSize : Int
  _memorySize : Int
  _threadCount : Int
  deriving DecidableEq, Repr

/-- The three members lie in the ranges of their types. -/
def ResourceCost.InRange (cost : ResourceCost) : Prop :=
  inLong cost._resourceSize ∧ inLong cost._memorySize ∧ inInt cost._threadCount

instance (cost : ResourceCost) : Decidable cost.InRange :=
  inferInstanceAs (Decidable
    (inLong cost._resourceSize ∧ inLong cost._memorySize ∧ inInt cost._threadCount))

/-- Default constructor `ResourceCost::ResourceCost()`. -/
instance : Inhabited ResourceCost := ⟨⟨0, 0, 0⟩⟩

/-- What a `Resource` object answers to its virtual methods
`getResourceCost` and `getPackedVector`. -/
structure Resource where
  getResourceCost : ResourceCost
  getPackedVector : List String
  deriving DecidableEq, Repr

/-- Class `GlobalState::SimpleResourceWrapper`. -/
structure SimpleResourceWrapper where
  _resourceCost : ResourceCost
  _originalFileString : String
  deriving DecidableEq, Repr

namespace SimpleResourceWrapper

/-- Constructor `SimpleResourceWrapper(std::shared_ptr<Resource>)` for a
resource that is not null; `Resource::getFileString` packs the packed vector. -/
def ofResource (codec : FileStringCodec) (resource : Resource) : SimpleResourceWrapper :=
  { _resourceCost := resource.getResourceCost
    _originalFileString := codec.getFileString resource.getPackedVector }

/-- Method `SimpleResourceWrapper::getPackedVector`. -/
def getPackedVector (w : SimpleResourceWrapper) : List String :=
  [toString w._resourceCost._resourceSize, toString w._resourceCost._memorySize,
   toString w._resourceCost._threadCount, w._originalFileString]

/-- Method `Resource::getFileString` on a wrapper. -/
def getFileString (codec : FileStringCodec) (w : SimpleResourceWrapper) : String :=
  codec.getFileString w.getPackedVector

/-- Constructor `SimpleResourceWrapper(const std::string&)`, through
`setPackedVector`; no result where `stol` or `stoi` throws. -/
def ofFileString (codec : FileStringCodec) (fileString : String) :
    Option SimpleResourceWrapper :=
  match codec.parseFileString fileString with
  | none => some ⟨default, ""⟩
  | some packedVect =>
    if packedVect.length ≥ 4 then
      match codec.stol (packedVect.getD 0 ""), codec.stol (packedVect.getD 1 ""),
          codec.stoi (packedVect.getD 2 "") with
      | some size, some memory, some threads =>
        some ⟨⟨size, memory, threads⟩, packedVect.getD 3 ""⟩
      | _, _, _ => none
    else some ⟨default, ""⟩

end SimpleResourceWrapper

/-! ## GlobalState -/

/-- Enumeration `GlobalState::Mode`. -/
inductive Mode where
  | READ_ONLY
  | READ_WRITE
  deriving DecidableEq, Repr

/-- Member variables of `GlobalState`. -/
structure GlobalState where
  _accessMode : Mode
  _dataStore : S3DataStore
  deriving DecidableEq, Repr

namespace GlobalState

/-- Method `GlobalState::getResourceGroupPrefixedKey`. -/
def getResourceGroupPrefixedKey (groupId : String) : String :=
  "ResourceGroups/" ++ groupId

/-- Method `GlobalState::getResourcePrefixedKey`. -/
def getResourcePrefixedKey (groupId resourceId : String) : String :=
  "Resources/" ++ groupId ++ "/" ++ resourceId

/-- Method `GlobalState::getUnassignedPrefixedKey`. -/
def getUnassignedPrefixedKey (groupId : String) : String :=
  "Assignments/Unassigned/" ++ groupId

/-- Method `GlobalState::getAssignedPrefixedKey`. -/
def getAssignedPrefixedKey (resourceManagerId groupId : String) : String :=
  "Assignments/Assigned/" ++ resourceManagerId ++ "/" ++ groupId

/-- Method `GlobalState::claimManagedResourceGroup`. -/
def claimManagedResourceGroup (st : GlobalState) (resourceManagerId groupId : String) :
    Bool × GlobalState :=
  let unassignedResource := getUnassignedPrefixedKey groupId
  if st._dataStore.getItem unassignedResource = "UNASSIGNED" then
    let assignedResource := getAssignedPrefixedKey resourceManagerId groupId
    let added := st._dataStore.addItem assignedResource "ASSIGNED"
    if added.1 = true then
      let deleted := added.2.deleteItem unassignedResource
      (deleted.1, { st with _dataStore := deleted.2 })
    else (false, { st with _dataStore := added.2 })
  else (false, st)

/-- Method `GlobalState::dropManagedResourceGroup`. -/
def dropManagedResourceGroup (st : GlobalState) (resourceManagerId groupId : String) :
    Bool × GlobalState :=
  let assignedResource := getAssignedPrefixedKey resourceManagerId groupId
  if st._dataStore.getItem assignedResource = "ASSIGNED" then
    let unassignedResource := getUnassignedPrefixedKey groupId
    let added := st._dataStore.addItem unassignedResource "UNASSIGNED"
    if added.1 = true then
      let deleted := added.2.deleteItem assignedResource
      (deleted.1, { st with _dataStore := deleted.2 })
    else (false, { st with _dataStore := added.2 })
  else (false, st)

/-- The generators of the listing methods: every listed key with the first
`keyStart.size()` characters erased. -/
def listStripped (st : GlobalState) (keyStart : String) : List String :=
  (st._dataStore.listItems keyStart).map
    (fun resourceKey => String.mk (resourceKey.data.drop keyStart.data.length))

/-- Method `GlobalState::listManagedResourceGroups`. -/
def listManagedResourceGroups (st : GlobalState) (resourceManagerId : String) : List String :=
  listStripped st (getAssignedPrefixedKey resourceManagerId "")

/-- Method `GlobalState::listUnmanagedResourceGroups`. -/
def listUnmanagedResourceGroups (st : GlobalState) : List String :=
  listStripped st (getUnassignedPrefixedKey "")

/-- Method `GlobalState::listResourceGroups`. -/
def listResourceGroups (st : GlobalState) : List String :=
  listStripped st (getResourceGroupPrefixedKey "")

/-- Method `GlobalState::listResourcesInGroup`. -/
def listResourcesInGroup (st : GlobalState) (groupId : String) : List String :=
  listStripped st (getResourcePrefixedKey groupId "")

/-- Method `GlobalState::addResourceGroup`. -/
def addResourceGroup (codec : FileStringCodec) (st : GlobalState) (groupId : String) :
    Bool × GlobalState :=
  if st._accessMode = Mode.READ_WRITE then
    let groupPrefixedkey := getResourceGroupPrefixedKey groupId
    if groupId ≠ "" ∧ st._dataStore.getItem groupPrefixedkey = "" then
      let added := st._dataStore.addItem groupPrefixedkey
        (codec.getFileString ["0", "0", "0", "0"])
      if added.1 = true then
        let marked := added.2.addItem (getUnassignedPrefixedKey groupId) "UNASSIGNED"
        (marked.1, { st with _dataStore := marked.2 })
      else (false, { st with _dataStore := added.2 })
    else (false, st)
  else (false, st)

/-- The vector `currDetailsVect` read from the row of a group: empty when the
row does not parse. -/
def currDetailsVect (codec : FileStringCodec) (st : GlobalState) (groupId : String) :
    List String :=
  match codec.parseFileString (st._dataStore.getItem (getResourceGroupPrefixedKey groupId)) with
  | some parsed => parsed
  | none => []

/-- Method `GlobalState::removeResourceGroup`; the result is `none` where
`std::stoi` throws, the state is the one reached by then. -/
def removeResourceGroup (codec : FileStringCodec) (st : GlobalState) (groupId : String) :
    Option Bool × GlobalState :=
  if st._accessMode = Mode.READ_WRITE then
    let unassignedKey := getUnassignedPrefixedKey groupId
    if groupId ≠ "" ∧ st._dataStore.getItem unassignedKey = "UNASSIGNED" then
      let groupPrefixedkey := getResourceGroupPrefixedKey groupId
      let details := currDetailsVect codec st groupId
      if details.length ≥ 4 then
        match codec.stoi (details.getD 3 "") with
        | none => (none, st)
        | some count =>
          if count ≤ 0 then
            let deleted1 := st._dataStore.deleteItem groupPrefixedkey
            let deleted2 := deleted1.2.deleteItem unassignedKey
            (some (deleted1.1 && deleted2.1), { st with _dataStore := deleted2.2 })
          else (some false, st)
      else (some false, st)
    else (some false, st)
  else (some false, st)

/-- Method `GlobalState::getResourceInGroupCost`; `none` where the stored
resource makes `std::stol` or `std::stoi` throw. -/
def getResourceInGroupCost (codec : FileStringCodec) (st : GlobalState)
    (groupId resourceId : String) : Option ResourceCost :=
  (SimpleResourceWrapper.ofFileString codec
    (st._dataStore.getItem (getResourcePrefixedKey groupId resourceId))).map
      (fun w => w._resourceCost)

/-- Method `GlobalState::getResourceInGroup`. -/
def getResourceInGroup (codec : FileStringCodec) (st : GlobalState)
    (groupId resourceId : String) : Option String :=
  (SimpleResourceWrapper.ofFileString codec
    (st._dataStore.getItem (getResourcePrefixedKey groupId resourceId))).map
      (fun w => w._originalFileString)

/-- The cost and count read from `currDetailsVect`; `none` where a parser
throws. -/
def currCostAndCount (codec : FileStringCodec) (details : List String) :
    Option (ResourceCost × Int) :=
  match codec.stol (details.getD 0 ""), codec.stol (details.getD 1 ""),
      codec.stoi (details.getD 2 ""), codec.stoi (details.getD 3 "") with
  | some size, some memory, some threads, some count =>
    some (⟨size, memory, threads⟩, count)
  | _, _, _, _ => none

/-- Method `GlobalState::setResourceInGroup`; `resource` is `none` for a null
pointer, the result is `none` where a number parser throws.  The sums are
computed in `long`, `long` and `int` and the count in `int`, wrapping as the
compiled arithmetic does. -/
def setResourceInGroup (codec : FileStringCodec) (st : GlobalState)
    (groupId resourceId : String) (resource : Option Resource) :
    Option Bool × GlobalState :=
  match resource with
  | none => (some false, st)
  | some res =>
    if st._accessMode = Mode.READ_WRITE then
      let resourceData :=
        (SimpleResourceWrapper.ofResource codec res).getFileString codec
      if groupId ≠ "" ∧ resourceId ≠ "" ∧ resourceData ≠ "" then
        let groupPrefixedkey := getResourceGroupPrefixedKey groupId
        let details := currDetailsVect codec st groupId
        match getResourceInGroupCost codec st groupId resourceId with
        | none => (none, st)
        | some resourceItemCost =>
          if details.length ≥ 4 then
            match currCostAndCount codec details with
            | none => (none, st)
            | some (currCost, currCount) =>
              let added := st._dataStore.addItem
                (getResourcePrefixedKey groupId resourceId) resourceData
              if added.1 = true then
                let newCost := res.getResourceCost
                let packedVect : List String :=
                  [toString (wrapLong (currCost._resourceSize + newCost._resourceSize
                      - resourceItemCost._resourceSize)),
                   toString (wrapLong (currCost._memorySize + newCost._memorySize
                      - resourceItemCost._memorySize)),
                   toString (wrapInt (currCost._threadCount + newCost._threadCount
                      - resourceItemCost._threadCount)),
                   toString (wrapInt (currCount + 1))]
                let updated := added.2.addItem groupPrefixedkey
                  (codec.getFileString packedVect)
                (some updated.1, { st with _dataStore := updated.2 })
              else (some false, { st with _dataStore := added.2 })
          else (some false, st)
      else (some false, st)
    else (some false, st)

/-- Method `GlobalState::removeResourceInGroup`; the result is `none` where a
number parser throws, the state is the one reached by then.  The differences
are computed in `long`, `long` and `int` and the count in `int`. -/
def removeResourceInGroup (codec : FileStringCodec) (st : GlobalState)
    (groupId resourceId : String) : Option Bool × GlobalState :=
  if st._accessMode = Mode.READ_WRITE then
    if groupId ≠ "" ∧ resourceId ≠ "" then
      let groupPrefixedkey := getResourceGroupPrefixedKey groupId
      let details := currDetailsVect codec st groupId
      if details.length ≥ 4 then
        match currCostAndCount codec details with
        | none => (none, st)
        | some (currCost, currCount) =>
          let resourcePrefixedKey := getResourcePrefixedKey groupId resourceId
          let resourceToRemove := st._dataStore.getItem resourcePrefixedKey
          let removed := st._dataStore.deleteItem resourcePrefixedKey
          if removed.1 = true ∧ resourceToRemove ≠ "" then
            match SimpleResourceWrapper.ofFileString codec resourceToRemove with
            | none => (none, { st with _dataStore := removed.2 })
            | some wrapper =>
              let oldCost := wrapper._resourceCost
              let packedVect : List String :=
                [toString (wrapLong (currCost._resourceSize - oldCost._resourceSize)),
                 toString (wrapLong (currCost._memorySize - oldCost._memorySize)),
                 toString (wrapInt (currCost._threadCount - oldCost._threadCount)),
                 toString (wrapInt (currCount - 1))]
              let updated := removed.2.addItem groupPrefixedkey
                (codec.getFileString packedVect)
              (some updated.1, { st with _dataStore := updated.2 })
          else (some false, { st with _dataStore := removed.2 })
      else (some false, st)
    else (some false, st)
  else (some false, st)

/-- An id as the claims about the global state take it: not empty and free
of the path separator. -/
def validId (id : String) : Prop :=
  id ≠ "" ∧ '/' ∉ id.data

instance (id : String) : Decidable (validId id) := by
  unfold validId
  exact inferInstance

/-- A call of one of the mutating operations of `GlobalState`. -/
inductive Operation where
  | addResourceGroup (groupId : String)
  | removeResourceGroup (groupId : String)
  | claimManagedResourceGroup (resourceManagerId groupId : String)
  | dropManagedResourceGroup (resourceManagerId groupId : String)
  | setResourceInGroup (groupId resourceId : String) (resource : Option Resource)
  | removeResourceInGroup (groupId resourceId : String)

/-- All ids of the call are valid. -/
def Operation.idsValid : Operation → Prop
  | .addResourceGroup g => validId g
  | .removeResourceGroup g => validId g
  | .claimManagedResourceGroup m g => validId m ∧ validId g
  | .dropManagedResourceGroup m g => validId m ∧ validId g
  | .setResourceInGroup g r _ => validId g ∧ validId r
  | .removeResourceInGroup g r => validId g ∧ validId r

instance (op : Operation) : Decidable op.idsValid := by
  cases op <;> unfold Operation.idsValid <;> exact inferInstance

/-- The cost of the resource the call passes lies in the ranges of the member
types of `ResourceCost`, as the cost of every `Resource` object does. -/
def Operation.costsInRange : Operation → Prop
  | .setResourceInGroup _ _ (some resource) => resource.getResourceCost.InRange
  | _ => True

instance (op : Operation) : Decidable op.costsInRange := by
  cases op with
  | setResourceInGroup g r resource =>
    cases resource with
    | none => exact isTrue trivial
    | some resource => exact inferInstanceAs (Decidable resource.getResourceCost.InRange)
  | addResourceGroup g => exact isTrue trivial
  | removeResourceGroup g => exact isTrue trivial
  | claimManagedResourceGroup m g => exact isTrue trivial
  | dropManagedResourceGroup m g => exact isTrue trivial
  | removeResourceInGroup g r => exact isTrue trivial

/-- The state after a call, whatever it returned. -/
def applyOperation (codec : FileStringCodec) (st : GlobalState) : Operation → GlobalState
  | .addResourceGroup g => (addResourceGroup codec st g).2
  | .removeResourceGroup g => (removeResourceGroup codec st g).2
  | .claimManagedResourceGroup m g => (claimManagedResourceGroup st m g).2
  | .dropManagedResourceGroup m g => (dropManagedResourceGroup st m g).2
  | .setResourceInGroup g r resource => (setResourceInGroup codec st g r resource).2
  | .removeResourceInGroup g r => (removeResourceInGroup codec st g r).2

/-- The state after a sequence of calls. -/
def applyOperations (codec : FileStringCodec) (st : GlobalState) (ops : List Operation) :
    GlobalState :=
  ops.foldl (applyOperation codec) st

/-- A `GlobalState` in READ_WRITE mode over an empty store. -/
def emptyReadWrite : GlobalState :=
  ⟨Mode.READ_WRITE, ⟨[], 0⟩⟩

/-- Consistency of the rows and markers of a store: a group row has a valid
id and a non-empty value; an Unassigned marker belongs to a group with a row
and no Assigned marker; an Assigned marker belongs to a group with a row, no
Unassigned marker and no Assigned marker of another manager; every group row
has a marker. -/
def MarkersConsistent (objects : List (String × String)) : Prop :=
  (∀ g v, mapFind objects (getResourceGroupPrefixedKey g) = some v → validId g ∧ v ≠ "")
    ∧ (∀ g v, mapFind objects (getUnassignedPrefixedKey g) = some v →
        v = "UNASSIGNED" ∧ mapFind objects (getResourceGroupPrefixedKey g) ≠ none
          ∧ ∀ m, mapFind objects (getAssignedPrefixedKey m g) = none)
    ∧ (∀ m g v, '/' ∉ g.data → mapFind objects (getAssignedPrefixedKey m g) = some v →
        v = "ASSIGNED" ∧ mapFind objects (getResourceGroupPrefixedKey g) ≠ none
          ∧ mapFind objects (getUnassignedPrefixedKey g) = none
          ∧ ∀ m', mapFind objects (getAssignedPrefixedKey m' g) ≠ none → m' = m)
    ∧ (∀ g, mapFind objects (getResourceGroupPrefixedKey g) ≠ none →
        mapFind objects (getUnassignedPrefixedKey g) ≠ none
          ∨ ∃ m, mapFind objects (getAssignedPrefixedKey m g) ≠ none)

/-- A file-string encoding for the witnesses: fields joined by commas behind a
mark. -/
def witnessCodec : FileStringCodec :=
  { getFileString := fun v => "#" ++ String.intercalate "," v
    parseFileString := fun s =>
      if s.data.head? = some '#' then some ((String.mk s.data.tail).splitOn ",") else none
    stol := fun s => s.toInt?
    stoi := fun s => s.toInt? }

end GlobalState

/-! ## ResourceManager -/

namespace ResourceManager

/-- Enumeration `ResourceRequest::Operation`. -/
inductive Operation where
  | MANAGE
  | UNMANAGE
  deriving DecidableEq, Repr

/-- Enumerations `ResourceRequest::Vote` and `VotingHistory::Vote`. -/
inductive Vote where
  | YAY
  | NAY
  deriving DecidableEq, Repr

/-- Member variables of `ResourceManager::ResourceRequest`. -/
structure ResourceRequest where
  _age : Int
  _quorum : Int
  _operationInQuestion : Operation
  _resourceManagerId : String
  _resourceGroupInQuestion : String
  _yayVotes : List String
  _nayVotes : List String
  deriving DecidableEq, Repr

namespace ResourceRequest

/-- Constructor of `ResourceRequest`; `rand` is the value of `rand()`. -/
def new (resourceManagerId : String) (operation : Operation) (resourceGroup : String)
    (quorum : Int) (rand : Nat) : ResourceRequest :=
  { _age := ((rand % 10 : Nat) : Int)
    _quorum := quorum
    _operationInQuestion := operation
    _resourceManagerId := resourceManagerId
    _resourceGroupInQuestion := resourceGroup
    _yayVotes := []
    _nayVotes := [] }

/-- Method `ResourceRequest::incrementAge`. -/
def incrementAge (r : ResourceRequest) : ResourceRequest :=
  { r with _age := r._age + 1 }

/-- Method `ResourceRequest::getOperation`. -/
def getOperation (r : ResourceRequest) : Operation :=
  r._operationInQuestion

/-- Method `ResourceRequest::getResourceGroup`. -/
def getResourceGroup (r : ResourceRequest) : String :=
  r._resourceGroupInQuestion

/-- Method `ResourceRequest::vote`: the flag returned and the request
afterwards. -/
def vote (r : ResourceRequest) (resourceManagerId : String) (vote : Vote) :
    Bool × ResourceRequest :=
  if resourceManagerId ∉ r._yayVotes ∧ resourceManagerId ∉ r._nayVotes then
    match vote with
    | Vote.YAY => (true, { r with _yayVotes := r._yayVotes ++ [resourceManagerId] })
    | Vote.NAY => (true, { r with _nayVotes := r._nayVotes ++ [resourceManagerId] })
  else (false, r)

/-- Method `ResourceRequest::didRequestPass` with the default pass rate 0.5.
The quotient of the two sizes is a `float`; for lists of fewer than 2^24
voters the comparison with 0.5 is the exact one, taken here over the
rationals. -/
def didRequestPass (r : ResourceRequest) : Bool :=
  decide (r._nayVotes.length = 0
    ∨ ((r._yayVotes.length : ℚ) / (r._nayVotes.length : ℚ) > (1 / 2 : ℚ)))

/-- Method `ResourceRequest::hasMetQuorum`; the cast of `_quorum` to
`unsigned long` is the residue modulo 2^64. -/
def hasMetQuorum (r : ResourceRequest) : Bool :=
  decide (((r._yayVotes.length + r._nayVotes.length : Nat) : Int)
    ≥ r._quorum % 18446744073709551616)

/-- Method `ResourceRequest::getRequestAge`. -/
def getRequestAge (r : ResourceRequest) : Int :=
  r._age

end ResourceRequest

/-- Member variables of `ResourceManager::VotingHistory`. -/
structure VotingHistory where
  _voteValue : Vote
  _voteExpirationTimeout : Int
  _resourceManagerId : String
  _resourceGroup : String
  deriving DecidableEq, Repr

namespace VotingHistory

/-- Constructor of `VotingHistory`. -/
def new (resourceManagerId resourceGroup : String) (voteValue : Vote)
    (voteExpirationTimeout : Int) : VotingHistory :=
  { _voteValue := voteValue
    _voteExpirationTimeout := voteExpirationTimeout
    _resourceManagerId := resourceManagerId
    _resourceGroup := resourceGroup }

/-- Method `VotingHistory::decrementVoteTime`. -/
def decrementVoteTime (h : VotingHistory) : VotingHistory :=
  if h._voteExpirationTimeout > 0 then
    { h with _voteExpirationTimeout := h._voteExpirationTimeout - 1 }
  else h

/-- Method `VotingHistory::isVoteExpired`. -/
def isVoteExpired (h : VotingHistory) : Bool :=
  decide (h._voteExpirationTimeout ≤ 0)

end VotingHistory

end ResourceManager

/-- Member variables of `ResourceManager` and, in `toMasterNode`, of its base
class `MasterNode`.  The member `_nodeId` is the one `ResourceManager`
declares itself; the `_nodeId` of `MasterNode` is private to the base class.
The maps hold pointers that are never null: every value stored comes from
`std::make_shared`. -/
structure ResourceManager where
  toMasterNode : MasterNode
  _ageTimeout : Int
  _nodeId : String
  _globalState : GlobalState
  _removedResources : List ResourceManager.ResourceRequest
  _votedOnItems : List (String × ResourceManager.VotingHistory)
  _pendingRequests : List (String × ResourceManager.ResourceRequest)

namespace ResourceManager

/-- Constructor `ResourceManager::ResourceManager(hostname, port, credentials)`.
The base class is constructed as `MasterNode(hostname, port)`, that is with
the default empty node id; `_nodeId` of `ResourceManager` is not assigned and
stays the empty string it is default-constructed to; the global state is
opened with the default mode on the store `dataStore` the credentials name. -/
def new (randomSha : String) (hostname : String) (port : Int) (dataStore : S3DataStore) :
    ResourceManager :=
  { toMasterNode := MasterNode.new randomSha hostname port ""
    _ageTimeout := 30
    _nodeId := ""
    _globalState := ⟨Mode.READ_ONLY, dataStore⟩
    _removedResources := []
    _votedOnItems := []
    _pendingRequests := [] }

/-- Method `ResourceManager::setRequestAgeTimeout`. -/
def setRequestAgeTimeout (s : ResourceManager) (ageTimeout : Int) : Bool × ResourceManager :=
  if ageTimeout > 10 ∧ ageTimeout < 180 then
    (true, { s with _ageTimeout := ageTimeout + 5 })
  else (false, s)

/-- First loop of `ResourceManager::handleResourceEventLoop`: one pending
proposal.  Returns whether the item is removed, the proposal with its age
incremented and the global state after the claim attempt, if one was made. -/
def handleProposal (s : ResourceManager) (globalState : GlobalState)
    (proposal : ResourceRequest) : Bool × ResourceRequest × GlobalState :=
  let inQuorum := s.toMasterNode.isInQuorum
  let claimable : Bool :=
    decide (proposal.getOperation = Operation.MANAGE) && inQuorum && proposal.hasMetQuorum
      && proposal.didRequestPass
  let claimed : Bool × GlobalState :=
    if claimable then
      globalState.claimManagedResourceGroup s._nodeId proposal.getResourceGroup
    else (false, globalState)
  let removeItem1 : Bool :=
    if claimable && claimed.1 then true
    else if decide (proposal.getOperation = Operation.MANAGE) && inQuorum
        && proposal.hasMetQuorum && !proposal.didRequestPass then true
    else false
  let removeItem2 : Bool :=
    if proposal.getRequestAge > s._ageTimeout then true else removeItem1
  (removeItem2, proposal.incrementAge, claimed.2)

/-- First loop of `ResourceManager::handleResourceEventLoop` over the pending
proposals: the proposals kept and the global state afterwards. -/
def handlePendingRequests (s : ResourceManager) :
    List (String × ResourceRequest) → GlobalState →
      List (String × ResourceRequest) × GlobalState
  | [], globalState => ([], globalState)
  | (group, proposal) :: rest, globalState =>
    let handled := handleProposal s globalState proposal
    let others := handlePendingRequests s rest handled.2.2
    if handled.1 then others else ((group, handled.2.1) :: others.1, others.2)

/-- Second loop of `ResourceManager::handleResourceEventLoop`: the voting
history. -/
def ageVotedOnItems (voted : List (String × VotingHistory)) : List (String × VotingHistory) :=
  (voted.map (fun item => (item.1, item.2.decrementVoteTime))).filter
    (fun item => !item.2.isVoteExpired)

/-- Second block of `ResourceManager::handleResourceEventLoop`: the removed
resources that could not be dropped, and the global state afterwards. -/
def dropRemovedResources (nodeId : String) :
    List ResourceRequest → GlobalState → List ResourceRequest × GlobalState
  | [], globalState => ([], globalState)
  | item :: rest, globalState =>
    let dropped := globalState.dropManagedResourceGroup nodeId item.getResourceGroup
    let others := dropRemovedResources nodeId rest dropped.2
    if dropped.1 then others else (item :: others.1, others.2)

/-- Method `ResourceManager::handleResourceEventLoop`, one iteration; the
listing of the unmanaged groups at its end has no effect. -/
def handleResourceEventLoop (s : ResourceManager) : ResourceManager :=
  let handled := handlePendingRequests s s._pendingRequests s._globalState
  let voted := ageVotedOnItems s._votedOnItems
  let dropped := dropRemovedResources s._nodeId s._removedResources handled.2
  { s with _pendingRequests := handled.1
           _votedOnItems := voted
           _removedResources := dropped.1
           _globalState := dropped.2 }

/-- The body of a claim request sent by `handleClaimResourceRequest`. -/
def claimRequestBody (s : ResourceManager) (resourceGroup : String) :
    List (String × String) :=
  [("ResourceManagerId", s._nodeId), ("ResourceGroup", resourceGroup),
   ("ResourceOperation", "MANAGE")]

/-- Method `ResourceManager::handleClaimResourceRequest`; `rand` is the value
of `rand()` in the constructor of the proposal and `makeRequest url body` the
answer to the POST request. -/
def handleClaimResourceRequest (s : ResourceManager) (resourceGroup : String) (rand : Nat)
    (makeRequest : String → List (String × String) → ResponseObj) : ResourceManager :=
  let hasLocalHistory : Bool :=
    decide (mapFind s._pendingRequests resourceGroup ≠ none)
      || (match mapFind s._votedOnItems resourceGroup with
          | some history => decide (history._voteValue = Vote.YAY)
          | none => false)
  if hasLocalHistory then
    let connectedNodes := s.toMasterNode.getConnectedMasters
    let pending0 := mapSet s._pendingRequests resourceGroup
      (ResourceRequest.new s._nodeId Operation.MANAGE resourceGroup
        (((connectedNodes.length / 2 : Nat) : Int) + 1) rand)
    let pending1 := connectedNodes.foldl
      (fun pending masterNode =>
        if masterNode ≠ s._nodeId then
          let masterUrl := s.toMasterNode.getUrlForConnectedMasterNode masterNode
          let response := makeRequest (masterUrl ++ "/internal/master/resources")
            (claimRequestBody s resourceGroup)
          if response.code < 300 then
            let vote : Vote :=
              if bodyAt response.body "Vote" = "YAY" then Vote.YAY else Vote.NAY
            match mapFind pending resourceGroup with
            | some proposal =>
              if proposal.getResourceGroup = resourceGroup then
                mapSet pending resourceGroup (proposal.vote masterNode vote).2
              else pending
            | none => pending
          else pending
        else pending)
      pending0
    { s with _pendingRequests := pending1 }
  else s

/-- Method `ResourceManager::handlerGetInternalMasterResources`; `rand` is the
value of `rand()`.  The read `retObj.body["VOTE"]` inserts the key `VOTE` with
an empty value into the body that is returned. -/
def handlerGetInternalMasterResources (s : ResourceManager) (body : List (String × String))
    (rand : Nat) : ResponseObj × ResourceManager :=
  let managerId := bodyAt body "ResourceManagerId"
  let resourceGroup := bodyAt body "ResourceGroup"
  let operation := bodyAt body "ResourceOperation"
  let retObj : ResponseObj :=
    if mapFind s._pendingRequests resourceGroup = none
        ∧ mapFind s._votedOnItems resourceGroup = none then
      ⟨200, [("Vote", "YAY"), ("ResourceManagerId", managerId),
             ("ResourceGroup", resourceGroup), ("ResourceOperation", operation)]⟩
    else if mapFind s._pendingRequests resourceGroup = none
        ∧ (match mapFind s._votedOnItems resourceGroup with
           | some history =>
             decide (history._voteValue = Vote.YAY ∧ history._resourceManagerId = managerId)
           | none => false) = true then
      ⟨200, [("Vote", "YAY"), ("ResourceManagerId", managerId),
             ("ResourceGroup", resourceGroup), ("ResourceOperation", operation)]⟩
    else
      ⟨202, [("Vote", "NAY"), ("ResourceManagerId", managerId),
             ("ResourceGroup", resourceGroup), ("ResourceOperation", operation)]⟩
  let looked := mapIndex retObj.body "VOTE"
  let voted : List (String × VotingHistory) :=
    if looked.1 = "YAY" then
      if mapFind s._votedOnItems resourceGroup = none then
        mapSet s._votedOnItems resourceGroup
          (VotingHistory.new managerId resourceGroup Vote.YAY
            (s._ageTimeout + ((rand : Int) % (s._ageTimeout / 2))))
      else s._votedOnItems
    else s._votedOnItems
  ({ retObj with body := looked.2 }, { s with _votedOnItems := voted })

/-- The request after a sequence of `vote` calls, each given by the voting
manager id and its vote. -/
def ResourceRequest.votes (r : ResourceRequest) (calls : List (String × Vote)) :
    ResourceRequest :=
  calls.foldl (fun acc call => (acc.vote call.1 call.2).2) r

/-- A master constructed by `ResourceManager` (random id `5e3a`) that knows
two contactable peers. -/
def wonClaimMaster : MasterNode :=
  { MasterNode.new "5e3a" "localhost" 9996 "" with
    _masterNodes := [("N2", ⟨true, "N2", "http://localhost:9997"⟩),
                     ("N3", ⟨true, "N3", "http://localhost:9998"⟩)] }

/-- A resource manager whose proposal for the unassigned group `g` has the
YAY votes of both peers. -/
def wonClaimManager : ResourceManager :=
  { ResourceManager.new "5e3a" "localhost" 9996
      ⟨[("ResourceGroups/g", "#0,0,0,0"), ("Assignments/Unassigned/g", "UNASSIGNED")], 18⟩ with
    toMasterNode := wonClaimMaster
    _pendingRequests := [("g", ⟨0, 2, Operation.MANAGE, "", "g", ["N2", "N3"], []⟩)] }

end ResourceManager

namespace ResourceManager

/-- The test `hasLocalHistory` of `handleClaimResourceRequest`. -/
def hasLocalHistory (s : ResourceManager) (resourceGroup : String) : Bool :=
  decide (mapFind s._pendingRequests resourceGroup ≠ none)
    || (match mapFind s._votedOnItems resourceGroup with
        | some history => decide (history._voteValue = Vote.YAY)
        | none => false)

/-- The POST requests `handleClaimResourceRequest` makes, in order: the url
and the body of each. -/
def claimRequestsSent (s : ResourceManager) (resourceGroup : String) :
    List (String × List (String × String)) :=
  if hasLocalHistory s resourceGroup then
    (s.toMasterNode.getConnectedMasters.filter (fun masterNode => masterNode ≠ s._nodeId)).map
      (fun masterNode =>
        (s.toMasterNode.getUrlForConnectedMasterNode masterNode ++ "/internal/master/resources",
          claimRequestBody s resourceGroup))
  else []

/-- A resource manager just constructed, whose master knows two contactable
peers; nothing is pending and nothing has been voted on. -/
def freshClaimManager : ResourceManager :=
  { ResourceManager.new "5e3a" "localhost" 9996
      ⟨[("ResourceGroups/g", "#0,0,0,0"), ("Assignments/Unassigned/g", "UNASSIGNED")], 18⟩ with
    toMasterNode := wonClaimMaster }

end ResourceManager

namespace MasterNode

/-- The status word `handlerGetClusterStatus` reports for a peer. -/
def connectionWord (p : String × MasterNodeState) : String × String :=
  (p.1, if p.2.contactable then "Connected" else "NotConnected")

/-- A master constructed with the node id `QuorumMet`; it knows no peer. -/
def quorumMetNamedMaster : MasterNode :=
  MasterNode.new "5e3a" "localhost" 9996 "QuorumMet"

/-- A master constructed with the node id `N1`; it knows no peer. -/
def singleMaster : MasterNode :=
  MasterNode.new "5e3a" "localhost" 9996 "N1"

end MasterNode

namespace S3DataStore

/-- Method `S3DataStore::deleteEntireDataStore` when every request succeeds:
all objects are deleted and the data size is reset. -/
def deleteEntireDataStore (_d : S3DataStore) : Bool × S3DataStore :=
  (true, { objects := [], dataSize := 0 })

end S3DataStore

namespace GlobalState

/-- Method `GlobalState::clearEntireState`. -/
def clearEntireState (st : GlobalState) : Bool × GlobalState :=
  if st._accessMode = Mode.READ_WRITE then
    let cleared := st._dataStore.deleteEntireDataStore
    (cleared.1, { st with _dataStore := cleared.2 })
  else (false, st)

/-- A `GlobalState` opened in READ_ONLY mode on a store that holds the
unassigned group `g`. -/
def readOnlyUnassigned : GlobalState :=
  ⟨Mode.READ_ONLY,
    ⟨[("ResourceGroups/g", "#0,0,0,0"), ("Assignments/Unassigned/g", "UNASSIGNED")], 18⟩⟩

/-- A `GlobalState` opened in READ_ONLY mode on a store that holds the group
`g` assigned to the manager `m`. -/
def readOnlyAssigned : GlobalState :=
  ⟨Mode.READ_ONLY,
    ⟨[("ResourceGroups/g", "#0,0,0,0"), ("Assignments/Assigned/m/g", "ASSIGNED")], 16⟩⟩

end GlobalState

namespace FileStringCodec

/-- What the accounting of the group rows needs of the file-string functions
and the number parsers: a packed vector parses back to itself, the empty
string parses to fewer than four fields if at all, and a `long` printed by
`std::to_string` is read back by `stol`, an `int` by `stoi`. -/
structure Faithful (codec : FileStringCodec) : Prop where
  parse_pack : ∀ v : List String, codec.parseFileString (codec.getFileString v) = some v
  parse_empty : ∀ v : List String, codec.parseFileString "" = some v → v.length < 4
  stol_toString : ∀ n : Int, inLong n → codec.stol (toString n) = some n
  stoi_toString : ∀ n : Int, inInt n → codec.stoi (toString n) = some n

/-- One field of the exact encoding: a colon before every character and a
semicolon at the end. -/
def packField : List Char → List Char
  | [] => [';']
  | c :: cs => ':' :: c :: packField cs

/-- The fields of the exact encoding, one after the other. -/
def packFields : List String → List Char
  | [] => []
  | field :: rest => packField field.data ++ packFields rest

/-- Reads the fields of the exact encoding back; `quoted` tells that the
last character was a colon, `field` holds the characters of the current field
read so far. -/
def parseFields : List Char → Bool → List Char → Option (List String)
  | [], quoted, field => if quoted = false ∧ field = [] then some [] else none
  | c :: rest, true, field => parseFields rest false (field ++ [c])
  | c :: rest, false, field =>
    if c = ';' then
      (parseFields rest false []).map (fun fields => String.mk field :: fields)
    else if c = ':' then parseFields rest true field
    else none

/-- Value of a string of decimal digits. -/
def parseDigits (cs : List Char) : Option Nat :=
  cs.foldl
    (fun acc c => acc.bind (fun a => if c.isDigit then some (10 * a + (c.toNat - 48)) else none))
    (some 0)

/-- A number parser: decimal digits behind an optional minus sign. -/
def parseDecimal (s : String) : Option Int :=
  if s.data.head? = some '-' then
    if s.data.tail = [] then none else (parseDigits s.data.tail).map (fun n => -(n : Int))
  else if s.data = [] then none
  else (parseDigits s.data).map (fun n => (n : Int))

/-- A file-string encoding that loses nothing: a mark, then the fields of
`packFields`; numbers are read by `parseDecimal`, and a number outside the
range of the result type is refused, as `std::stol` and `std::stoi` throw
`std::out_of_range`. -/
def exactCodec : FileStringCodec :=
  { getFileString := fun v => String.mk ('#' :: packFields v)
    parseFileString := fun s =>
      match s.data with
      | [] => none
      | c :: rest => if c = '#' then parseFields rest false [] else none
    stol := fun s =>
      match parseDecimal s with
      | some n => if inLong n then some n else none
      | none => none
    stoi := fun s =>
      match parseDecimal s with
      | some n => if inInt n then some n else none
      | none => none }

end FileStringCodec

namespace GlobalState

/-- Tells whether `key` starts with the key of the resources of the group:
the test the listing behind `listResourcesInGroup` makes. -/
def isResourceOf (groupId key : String) : Bool :=
  (getResourcePrefixedKey groupId "").data.isPrefixOf key.data

/-- The live resource rows of a group: the objects stored under
`Resources/<groupId>/`. -/
def liveResources (objects : List (String × String)) (groupId : String) :
    List (String × String) :=
  objects.filter (fun p => isResourceOf groupId p.1)

/-- The cost stored in a resource row, as the constructor of
`SimpleResourceWrapper` reads it; the default cost where a parser throws. -/
def storedCost (codec : FileStringCodec) (value : String) : ResourceCost :=
  match SimpleResourceWrapper.ofFileString codec value with
  | some wrapper => wrapper._resourceCost
  | none => default

/-- Sum of a number read from the value of every row. -/
def valSum (h : String → Int) (rows : List (String × String)) : Int :=
  (rows.map (fun p => h p.2)).sum

/-- Sum of the sizes stored in the rows. -/
def sizeOfResources (codec : FileStringCodec) (rows : List (String × String)) : Int :=
  valSum (fun v => (storedCost codec v)._resourceSize) rows

/-- Sum of the memory sizes stored in the rows. -/
def memoryOfResources (codec : FileStringCodec) (rows : List (String × String)) : Int :=
  valSum (fun v => (storedCost codec v)._memorySize) rows

/-- Sum of the thread counts stored in the rows. -/
def threadsOfResources (codec : FileStringCodec) (rows : List (String × String)) : Int :=
  valSum (fun v => (storedCost codec v)._threadCount) rows

/-- The accounting of the group rows after at most `bound` calls: keys are
unique, every row under `Resources/` parses, a group without a row has no live
resource, and the row of a group holds the sums of the costs of its live
resources, reduced to the ranges of `long`, `long` and `int`, and a count that
is at least their number and at most `bound`. -/
def Accounted (codec : FileStringCodec) (bound : Nat) (objects : List (String × String)) :
    Prop :=
  (mapKeys objects).Nodup
    ∧ (∀ k v, mapFind objects k = some v → "Resources/".data.isPrefixOf k.data = true →
        SimpleResourceWrapper.ofFileString codec v ≠ none)
    ∧ (∀ g, validId g →
        (mapFind objects (getResourceGroupPrefixedKey g) = none → liveResources objects g = [])
        ∧ (∀ v, mapFind objects (getResourceGroupPrefixedKey g) = some v →
            ∃ count : Int, ((liveResources objects g).length : Int) ≤ count
              ∧ count ≤ (bound : Int)
              ∧ v = codec.getFileString
                  [toString (wrapLong (sizeOfResources codec (liveResources objects g))),
                   toString (wrapLong (memoryOfResources codec (liveResources objects g))),
                   toString (wrapInt (threadsOfResources codec (liveResources objects g))),
                   toString count]))

end GlobalState

namespace GlobalState

/-- The cost stored under a key: the default cost when the key names no
object. -/
def costAt (codec : FileStringCodec) (objects : List (String × String)) (key : String) :
    ResourceCost :=
  match mapFind objects key with
  | some value => storedCost codec value
  | none => default

end GlobalState

namespace GlobalState

/-- The state after `addResourceGroup("g")` and two calls of
`setResourceInGroup("g", "r", resource)` with the same resource, over the
exact encoding. -/
def setTwice : GlobalState :=
  applyOperations FileStringCodec.exactCodec emptyReadWrite
    [Operation.addResourceGroup "g",
     Operation.setResourceInGroup "g" "r" (some ⟨⟨1, 2, 3⟩, ["x"]⟩),
     Operation.setResourceInGroup "g" "r" (some ⟨⟨1, 2, 3⟩, ["x"]⟩)]

/-- Calls that add the group `g` and set two resources in it whose thread
counts are 2147483647, the largest `int`, and 1. -/
def threadsOverflowCalls : List Operation :=
  [Operation.addResourceGroup "g",
   Operation.setResourceInGroup "g" "r1" (some ⟨⟨0, 0, 2147483647⟩, ["x"]⟩),
   Operation.setResourceInGroup "g" "r2" (some ⟨⟨0, 0, 1⟩, ["y"]⟩)]

/-- The state after `threadsOverflowCalls` on the empty store, over the exact
encoding. -/
def threadsOverflow : GlobalState :=
  applyOperations FileStringCodec.exactCodec emptyReadWrite threadsOverflowCalls

/-- The state after the groups `a` and `a/b` are added, the resource `b/c` is
set in the group `a` and the resource `c` is removed from the group `a/b`:
both resource ids name the key `Resources/a/b/c`. -/
def negativeCount : GlobalState :=
  applyOperations FileStringCodec.exactCodec emptyReadWrite
    [Operation.addResourceGroup "a",
     Operation.addResourceGroup "a/b",
     Operation.setResourceInGroup "a" "b/c" (some ⟨⟨1, 2, 3⟩, ["x"]⟩),
     Operation.removeResourceInGroup "a/b" "c"]

end GlobalState

/-! ## WorkerNode -/

/-- Record `WorkerNode::KnownMasterNode`. -/
structure KnownMasterNode where
  lastContacted : Int
  id : String
  url : String
  deriving DecidableEq, Repr

/-- Default-constructed `KnownMasterNode`. -/
instance : Inhabited KnownMasterNode := ⟨⟨0, "", ""⟩⟩

/-- Member variables of `WorkerNode` that carry cluster state.  The index
`_currMasterNode` is an `unsigned long` that only ever steps by one below the
size of the vector; it is a natural number here. -/
structure WorkerNode where
  _inCluster : Bool
  _masterTimout : Int
  _nodeId : String
  _nodeUrl : String
  _currMasterNode : Nat
  _knownMasterNodes : List KnownMasterNode
  deriving DecidableEq, Repr

namespace WorkerNode

/-- Constructor `WorkerNode::WorkerNode(hostname, port, nodeId)`; `randomSha`
is the value `Crypto::getRandomSha256()` would return. -/
def new (randomSha : String) (hostname : String) (port : Int) (nodeId : String) :
    WorkerNode :=
  { _inCluster := false
    _masterTimout := 60
    _nodeId := if nodeId = "" then randomSha else nodeId
    _nodeUrl := "http://" ++ hostname ++ ":" ++ toString port
    _currMasterNode := 0
    _knownMasterNodes := [] }

/-- Method `WorkerNode::setMasterNodeTimeout`. -/
def setMasterNodeTimeout (s : WorkerNode) (timeout : Int) : Bool × WorkerNode :=
  if timeout ≥ 30 then (true, { s with _masterTimout := timeout }) else (false, s)

/-- Method `WorkerNode::getKnownMasters`. -/
def getKnownMasters (s : WorkerNode) : List String :=
  s._knownMasterNodes.map (fun knownMaster => knownMaster.id)

/-- Method `WorkerNode::getConnectedMaster`; no result where the index lies
outside the vector. -/
def getConnectedMaster (s : WorkerNode) : Option String :=
  if s._knownMasterNodes ≠ [] then
    (s._knownMasterNodes[s._currMasterNode]?).map (fun knownMaster => knownMaster.id)
  else some ""

/-- Method `WorkerNode::isInQuorum`. -/
def isInQuorum (s : WorkerNode) : Bool :=
  s._inCluster

/-- The vector `remoteNodes` of `handleWorkerEventLoop`: the keys of the
response that carry a connection word. -/
def remoteNodesOf (body : List (String × String)) : List String :=
  (body.filter (fun responseItem =>
    responseItem.2 = "Connected" ∨ responseItem.2 = "NotConnected")).map Prod.fst

/-- First loop of the diff in `handleWorkerEventLoop`: every remote node
that no local row names is pushed back with the url the response gives. -/
def addMissingNodes (body : List (String × String)) :
    List String → List KnownMasterNode → List KnownMasterNode
  | [], known => known
  | remoteNode :: rest, known =>
    if known.any (fun localNode => localNode.id = remoteNode) then
      addMissingNodes body rest known
    else
      addMissingNodes body rest (known ++ [⟨0, remoteNode, bodyAt body ("URL-" ++ remoteNode)⟩])

/-- The search `for ii ... if (_knownMasterNodes[ii].id == id) item = ii`
started from `start`: the last index whose row has the id. -/
def lastIndexOf (known : List KnownMasterNode) (id : String) (start : Nat) : Nat :=
  (List.range known.length).foldl
    (fun item ii => if (known.getD ii default).id = id then ii else item) start

/-- Second loop of the diff in `handleWorkerEventLoop`, which erases from
the vector it ranges over: the loop visits the positions `pos`, `pos + 1`, ...
up to the end the vector had when the loop began (`fuel` positions are
left); after an erase the next position is visited, so the row that moved
into the current position is passed over; a position past the current end
holds no row and nothing is done there.  Returns the vector and
`removedItemsLocally`. -/
def removeMissingNodes (remoteNodes : List String) (connectedId : String) :
    Nat → Nat → List KnownMasterNode → Bool → List KnownMasterNode × Bool
  | 0, _, known, removedItemsLocally => (known, removedItemsLocally)
  | fuel + 1, pos, known, removedItemsLocally =>
    match known[pos]? with
    | none => removeMissingNodes remoteNodes connectedId fuel (pos + 1) known removedItemsLocally
    | some localNode =>
      if localNode.id ∉ remoteNodes ∧ localNode.id ≠ connectedId then
        let itemToRemove := lastIndexOf known localNode.id (known.length + 1)
        if itemToRemove < known.length then
          removeMissingNodes remoteNodes connectedId fuel (pos + 1)
            (known.eraseIdx itemToRemove) true
        else
          removeMissingNodes remoteNodes connectedId fuel (pos + 1) known removedItemsLocally
      else removeMissingNodes remoteNodes connectedId fuel (pos + 1) known removedItemsLocally

/-- Method `WorkerNode::handleWorkerEventLoop`, one iteration without the
sleep; `makeRequest url` is the answer to the GET request.  No result where
the vector is indexed outside its bounds. -/
def handleWorkerEventLoop (s : WorkerNode) (makeRequest : String → ResponseObj) :
    Option WorkerNode :=
  if s._knownMasterNodes = [] then some { s with _inCluster := false }
  else
    match s._knownMasterNodes[s._currMasterNode]? with
    | none => none
    | some current =>
      let response := makeRequest (current.url ++ "/internal/master/status/" ++ s._nodeId)
      let quorumMet := bodyAt response.body "QuorumMet"
      let connectedMasterNode : KnownMasterNode :=
        if response.code ≥ 300 ∨ quorumMet ≠ "True" then
          { current with lastContacted := current.lastContacted + 5 }
        else { current with lastContacted := 0 }
      let known1 := s._knownMasterNodes.set s._currMasterNode connectedMasterNode
      let localIsInClusterValue : Bool := decide (response.code < 300 ∧ quorumMet = "True")
      let synced : List KnownMasterNode × Nat :=
        if localIsInClusterValue then
          let remoteNodes := remoteNodesOf response.body
          let known2 := addMissingNodes response.body remoteNodes known1
          let removed :=
            removeMissingNodes remoteNodes connectedMasterNode.id known2.length 0 known2 false
          if removed.2 then
            (removed.1, lastIndexOf removed.1 connectedMasterNode.id s._currMasterNode)
          else (removed.1, s._currMasterNode)
        else (known1, s._currMasterNode)
      if connectedMasterNode.lastContacted > s._masterTimout then
        let next := if synced.2 + 1 ≥ synced.1.length then 0 else synced.2 + 1
        match synced.1[next]? with
        | none => none
        | some target =>
          some { s with _inCluster := localIsInClusterValue
                        _currMasterNode := next
                        _knownMasterNodes := synced.1.set next { target with lastContacted := 0 } }
      else
        some { s with _inCluster := localIsInClusterValue
                      _currMasterNode := synced.2
                      _knownMasterNodes := synced.1 }

/-- Consecutive iterations of the worker loop, one poll oracle for each. -/
def runWorkerLoop (s : WorkerNode) : List (String → ResponseObj) → Option WorkerNode
  | [] => some s
  | makeRequest :: rest =>
    match handleWorkerEventLoop s makeRequest with
    | none => none
    | some next => runWorkerLoop next rest

/-- Method `WorkerNode::handlerPostInternalMasterJoin`. -/
def handlerPostInternalMasterJoin (s : WorkerNode) (body : List (String × String)) :
    ResponseObj × WorkerNode :=
  let nodeId := bodyAt body "NodeId"
  let nodeUrl := bodyAt body "NodeUrl"
  let retObj0 : ResponseObj := default
  let retObj1 : ResponseObj :=
    if nodeId = "" then ⟨400, [("MissingArgument", "NodeId")]⟩ else retObj0
  let retObj2 : ResponseObj :=
    if nodeUrl = "" then ⟨400, [("MissingArgument", "NodeUrl")]⟩ else retObj1
  if nodeId ≠ "" ∧ nodeUrl ≠ "" then
    let alreadyExistedId : Bool :=
      s._knownMasterNodes.any (fun localMasterNode => localMasterNode.id = nodeId)
        || decide (nodeId = s._nodeId)
    let alreadyExistedUrl : Bool :=
      s._knownMasterNodes.any (fun localMasterNode => localMasterNode.url = nodeUrl)
        || decide (nodeUrl = s._nodeUrl)
    let s' : WorkerNode :=
      if !alreadyExistedId && !alreadyExistedUrl then
        { s with _knownMasterNodes := s._knownMasterNodes ++ [⟨0, nodeId, nodeUrl⟩] }
      else s
    let retObj3 : ResponseObj :=
      if alreadyExistedId then
        ⟨400, [("AddedNode", "False"), ("NodeId", nodeId), ("NodeUrl", nodeUrl),
               ("Message", "A node with the same ID already exists")]⟩
      else if alreadyExistedUrl then
        ⟨400, [("AddedNode", "False"), ("NodeId", nodeId), ("NodeUrl", nodeUrl),
               ("Message", "A node with the same URL already exists")]⟩
      else
        ⟨201, [("AddedNode", "True"), ("NodeId", nodeId), ("NodeUrl", nodeUrl),
               ("Message", "The node will be added to the cluster")]⟩
    (retObj3, s')
  else (retObj2, s)

/-- A poll that fails: the master is not reachable. -/
def unreachable (_url : String) : ResponseObj :=
  ⟨500, []⟩

/-- A worker with master timeout 30 that knows the eight masters `M0` to
`M7`, none contacted yet. -/
def eightMasters : WorkerNode :=
  { (WorkerNode.new "5e3a" "localhost" 9986 "W1") with
    _masterTimout := 30
    _knownMasterNodes :=
      (List.range 8).map (fun i =>
        ⟨0, "M" ++ toString i, "http://localhost:" ++ toString (9990 + i)⟩) }

end WorkerNode

namespace WorkerNode

/-- The `lastContacted` value of the row the cursor points at. -/
def targetAge (s : WorkerNode) : Int :=
  (s._knownMasterNodes.getD s._currMasterNode default).lastContacted

/-- The polls of a list all fail or report no quorum. -/
def AllFail (polls : List (String → ResponseObj)) : Prop :=
  ∀ poll ∈ polls, ∀ url, (poll url).code ≥ 300 ∨ bodyAt (poll url).body "QuorumMet" ≠ "True"

/-- A worker state in which the cursor is a valid index and no row has a
negative `lastContacted`, with its number of rows and its timeout. -/
def Rotating (s : WorkerNode) (ids : List String) (timeout : Int) : Prop :=
  s.getKnownMasters = ids ∧ s._masterTimout = timeout
    ∧ s._currMasterNode < s._knownMasterNodes.length
    ∧ ∀ k ∈ s._knownMasterNodes, 0 ≤ k.lastContacted

end WorkerNode

namespace MasterNode

/-- The master `singleMaster` after the leave request for the unknown id
`ghost`, which it rejects. -/
def ghostLeft : MasterNode :=
  (handlerPostInternalMasterLeave singleMaster [("NodeId", "ghost")]).2

/-- The master `singleMaster` after the leave request for its own id `N1`,
which it rejects. -/
def selfLeft : MasterNode :=
  (handlerPostInternalMasterLeave singleMaster [("NodeId", "N1")]).2

end MasterNode

namespace WorkerNode

/-- A worker that knows the masters `M1`, `M2` and `M3` and is connected to
`M1`. -/
def threeMasters : WorkerNode :=
  { (WorkerNode.new "5e3a" "localhost" 9986 "W1") with
    _inCluster := true
    _knownMasterNodes :=
      [⟨0, "M1", "http://localhost:9996"⟩, ⟨0, "M2", "http://localhost:9997"⟩,
       ⟨0, "M3", "http://localhost:9998"⟩] }

/-- The status answer of a master `M1` that has quorum and knows no other
master. -/
def aloneInQuorum (_url : String) : ResponseObj :=
  ⟨200, [("M1", "SelfInstance"), ("QuorumMet", "True"), ("ClusterSize", "1/1")]⟩

end WorkerNode

namespace GlobalState

/-- A store in which the manager `a/b` holds the group `c`. -/
def slashedManagerStore : GlobalState :=
  ⟨Mode.READ_WRITE,
    ⟨[("ResourceGroups/c", "#0,0,0,0"), ("Assignments/Assigned/a/b/c", "ASSIGNED")], 16⟩⟩

end GlobalState

namespace MasterNode

/-- The node `N1` after it accepted a join and then a leave of `N2`. -/
def afterLeaveOfPeer : MasterNode :=
  (handlerPostInternalMasterLeave
    (handlerPostInternalMasterJoin singleMaster
      [("NodeId", "N2"), ("NodeUrl", "http://localhost:9997")]).2
    [("NodeId", "N2")]).2

end MasterNode

namespace MasterNode

/-- The node `N1` with default timeouts after a status request of the worker
`W1`. -/
def afterHeartbeat : MasterNode :=
  (handlerGetInternalMasterStatus singleMaster "W1").2

/-- The state after `n` iterations of the worker loop. -/
def runWorkerLoop (s : MasterNode) : Nat → MasterNode
  | 0 => s
  | n + 1 => runWorkerLoop (handleWorkerEventLoop s) n

end MasterNode

namespace ResourceManager

end ResourceManager

namespace WorkerNode

/-- Method `WorkerNode::handlerGetInternalWorkerStatus`. -/
def handlerGetInternalWorkerStatus (s : WorkerNode) : ResponseObj :=
  let connectionStatus0 : List (String × String) :=
    s._knownMasterNodes.foldl
      (fun m nodeState => mapSet m nodeState.id (toString nodeState.lastContacted)) []
  let connectionStatus1 :=
    mapSet connectionStatus0 "InCluster" (if s._inCluster then "True" else "False")
  let connectionStatus2 :=
    if s._knownMasterNodes ≠ [] ∧ s._currMasterNode < s._knownMasterNodes.length then
      mapSet connectionStatus1 "ConnectedTo"
        (s._knownMasterNodes.getD s._currMasterNode default).id
    else mapSet connectionStatus1 "ConnectedTo" "None"
  ⟨200, connectionStatus2⟩

/-- States a worker node can be in: the constructed node, changed by join
requests, by its setter and by iterations of its loop, each run without
interruption and with any answer to the poll. -/
inductive Reachable : WorkerNode → Prop
  | init (randomSha hostname : String) (port : Int) (nodeId : String) :
      Reachable (new randomSha hostname port nodeId)
  | join (s : WorkerNode) (body : List (String × String)) :
      Reachable s → Reachable (handlerPostInternalMasterJoin s body).2
  | masterTimeout (s : WorkerNode) (timeout : Int) :
      Reachable s → Reachable (setMasterNodeTimeout s timeout).2
  | loop (s next : WorkerNode) (makeRequest : String → ResponseObj) :
      Reachable s → handleWorkerEventLoop s makeRequest = some next → Reachable next

/-- A worker `W1` that accepted the join of the master `M1`. -/
def joinedOne : WorkerNode :=
  (handlerPostInternalMasterJoin (new "5e3a" "localhost" 9990 "W1")
    [("NodeId", "M1"), ("NodeUrl", "http://localhost:9996")]).2

end WorkerNode

namespace MasterNode

/-- The master `N1` at port 9996 after it accepted the join of `N2`. -/
def urlTakenJoined : MasterNode :=
  (handlerPostInternalMasterJoin singleMaster
    [("NodeId", "N2"), ("NodeUrl", "http://localhost:9997")]).2

/-- The master `N1` after it accepted the join of `N2`, handed `N2` to the
thread pool, and a thread of the pool ran the first lock section of the status
request for `N2`. -/
def staleBegun : MasterNode :=
  statusRequestBegin (takeStatusRequest (dispatchStatusRequests urlTakenJoined) "N2") "N2"

/-- The master `staleBegun` after it accepted the leave of `N2` while the
status request for `N2` is under way. -/
def staleLeft : MasterNode :=
  (handlerPostInternalMasterLeave staleBegun [("NodeId", "N2")]).2

/-- The master `staleLeft` after the status request for `N2` failed and ran to
its last lock section. -/
def staleCommitted : MasterNode :=
  statusRequestCommit (statusRequestCompare (statusRequestAnswer staleLeft 0 ⟨500, []⟩) 0) 0

/-- The master `staleCommitted` after it accepted a second leave of `N2`. -/
def doubledLedger : MasterNode :=
  (handlerPostInternalMasterLeave staleCommitted [("NodeId", "N2")]).2

/-- The master `N1` after it accepted the join of `N2`, handed `N2` to the
thread pool and then accepted the leave of `N2`, before any thread of the pool
has begun the status request for `N2`. -/
def staleQueued : MasterNode :=
  (handlerPostInternalMasterLeave (dispatchStatusRequests urlTakenJoined)
    [("NodeId", "N2")]).2

/-- Every request fails. -/
def noAnswer (_nodeId _url : String) : ResponseObj :=
  ⟨500, []⟩

end MasterNode

namespace MasterNode

end MasterNode

/-! ## MasterState -/

/-- Content of the `StandardModel::DataStore` a `MasterState` owns, by key.
The class is not defined in this repository: `getItem` is taken to return the
stored value, or the empty string for an absent key, and `addItem` with the
overwrite flag to store the value and return true. -/
structure DataStore where
  items : List (String × String)
  deriving DecidableEq, Repr

namespace DataStore

/-- Call `_dataStore->getItem(key)`. -/
def getItem (store : DataStore) (key : String) : String :=
  (mapFind store.items key).getD ""

/-- Call `_dataStore->addItem(key, value, true)`: the flag returned and the
store afterwards. -/
def addItem (store : DataStore) (key value : String) : Bool × DataStore :=
  (true, ⟨mapSet store.items key value⟩)

end DataStore

/-- Member variables of `MasterState`. -/
structure MasterState where
  _dataStore : DataStore
  _workerRef : List (String × Int)
  deriving DecidableEq, Repr

namespace MasterState

/-- Constructor `MasterState::MasterState()`: an empty store in a fresh
temporary directory. -/
def new : MasterState :=
  { _dataStore := ⟨[]⟩
    _workerRef := [] }

/-- Method `MasterState::doesWorkerExistLocally`. -/
def doesWorkerExistLocally (s : MasterState) (workerId : String) : Bool :=
  if workerId ≠ "" then
    s._workerRef.foldl
      (fun retFlag workerRefItem => if workerRefItem.1 = workerId then true else retFlag) false
  else false

/-- Method `MasterState::addWorker`. -/
def addWorker (s : MasterState) (workerId : String) : Bool × MasterState :=
  if workerId ≠ "" ∧ doesWorkerExistLocally s workerId = false then
    (true, { s with _workerRef := mapSet s._workerRef workerId 0 })
  else (false, s)

/-- Method `MasterState::removeWorker`; `_workerRef[workerId]` is read only
for a worker that exists. -/
def removeWorker (s : MasterState) (workerId : String) : Bool × MasterState :=
  if workerId ≠ "" ∧ doesWorkerExistLocally s workerId = true
      ∧ (mapIndex s._workerRef workerId).1 ≤ 0 then
    (true, { s with _workerRef := mapErase (mapIndex s._workerRef workerId).2 workerId })
  else (false, s)

/-- Method `MasterState::listWorkers`, as the list the generator yields. -/
def listWorkers (s : MasterState) : List String :=
  mapKeys s._workerRef

/-- The vector read from the store under `key`: the parsed value, or the
empty vector where `parseFileString` returns no vector. -/
def readVector (codec : FileStringCodec) (store : DataStore) (key : String) : List String :=
  (codec.parseFileString (store.getItem key)).getD []

/-- Method `MasterState::getWorkersForResourceGroup`, as the list the
generator yields. -/
def getWorkersForResourceGroup (codec : FileStringCodec) (s : MasterState)
    (resourceGroup : String) : List String :=
  readVector codec s._dataStore resourceGroup

/-- Method `MasterState::getResourceGroupsForWorker`, as the list the
generator yields. -/
def getResourceGroupsForWorker (codec : FileStringCodec) (s : MasterState)
    (workerId : String) : List String :=
  readVector codec s._dataStore workerId

/-- Method `MasterState::addAssociation`. -/
def addAssociation (codec : FileStringCodec) (s : MasterState)
    (workerId resourceGroup : String) : Bool × MasterState :=
  if workerId ≠ "" ∧ resourceGroup ≠ "" ∧ doesWorkerExistLocally s workerId = true then
    let workerResources := readVector codec s._dataStore workerId
    if resourceGroup ∉ workerResources then
      let resourceWorkers := readVector codec s._dataStore resourceGroup
      if workerId ∉ resourceWorkers then
        let addedWorker := s._dataStore.addItem workerId
          (codec.getFileString (workerResources ++ [resourceGroup]))
        let addedGroup : Bool × DataStore :=
          if addedWorker.1 then
            addedWorker.2.addItem resourceGroup
              (codec.getFileString (resourceWorkers ++ [workerId]))
          else (false, addedWorker.2)
        let retFlag : Bool := addedWorker.1 && addedGroup.1
        (retFlag,
          { _dataStore := addedGroup.2
            _workerRef :=
              if retFlag then
                mapSet (mapIndex s._workerRef workerId).2 workerId
                  ((mapIndex s._workerRef workerId).1 + 1)
              else s._workerRef })
      else (false, s)
    else (false, s)
  else (false, s)

/-- Method `MasterState::removeAssociation`; the list of the group is read
after the list of the worker has been written back. -/
def removeAssociation (codec : FileStringCodec) (s : MasterState)
    (workerId resourceGroup : String) : Bool × MasterState :=
  if workerId ≠ "" ∧ resourceGroup ≠ "" ∧ doesWorkerExistLocally s workerId = true then
    let workerResources := readVector codec s._dataStore workerId
    let removedWorker : Bool × DataStore :=
      if resourceGroup ∈ workerResources then
        s._dataStore.addItem workerId
          (codec.getFileString (workerResources.erase resourceGroup))
      else (false, s._dataStore)
    let resourceWorkers := readVector codec removedWorker.2 resourceGroup
    let removedGroup : Bool × DataStore :=
      if workerId ∈ resourceWorkers then
        removedWorker.2.addItem resourceGroup
          (codec.getFileString (resourceWorkers.erase workerId))
      else (false, removedWorker.2)
    let retFlag : Bool := removedWorker.1 && removedGroup.1
    (retFlag,
      { _dataStore := removedGroup.2
        _workerRef :=
          if retFlag then
            mapSet (mapIndex s._workerRef workerId).2 workerId
              ((mapIndex s._workerRef workerId).1 - 1)
          else s._workerRef })
  else (false, s)

/-- A call of one of the four mutating methods of `MasterState`. -/
inductive Call where
  | addWorker (workerId : String)
  | removeWorker (workerId : String)
  | addAssociation (workerId resourceGroup : String)
  | removeAssociation (workerId resourceGroup : String)
  deriving DecidableEq, Repr

/-- The state after a call. -/
def applyCall (codec : FileStringCodec) (s : MasterState) : Call → MasterState
  | Call.addWorker workerId => (addWorker s workerId).2
  | Call.removeWorker workerId => (removeWorker s workerId).2
  | Call.addAssociation workerId resourceGroup =>
    (addAssociation codec s workerId resourceGroup).2
  | Call.removeAssociation workerId resourceGroup =>
    (removeAssociation codec s workerId resourceGroup).2

/-- The state after a sequence of calls. -/
def applyCalls (codec : FileStringCodec) (s : MasterState) (calls : List Call) : MasterState :=
  calls.foldl (applyCall codec) s

/-- The ids of a call are non-empty, its worker id is none of the strings
`isGroup` marks and its group id is one of them. -/
def Call.separate (isGroup : String → Bool) : Call → Prop
  | Call.addWorker workerId => workerId ≠ "" ∧ isGroup workerId = false
  | Call.removeWorker workerId => workerId ≠ "" ∧ isGroup workerId = false
  | Call.addAssociation workerId resourceGroup =>
    workerId ≠ "" ∧ isGroup workerId = false ∧ resourceGroup ≠ "" ∧ isGroup resourceGroup = true
  | Call.removeAssociation workerId resourceGroup =>
    workerId ≠ "" ∧ isGroup workerId = false ∧ resourceGroup ≠ "" ∧ isGroup resourceGroup = true

/-- The state after `addWorker("a")`, `addAssociation("a", "b")` and
`addWorker("b")`. -/
def sharedKeyState : MasterState :=
  applyCalls FileStringCodec.exactCodec new
    [Call.addWorker "a", Call.addAssociation "a" "b", Call.addWorker "b"]

/-- Marks the strings that start with the letter `R`. -/
def startsWithR (id : String) : Bool :=
  id.data.head? = some 'R'

end MasterState

namespace MasterState

/-- Consistency of a `MasterState` whose worker ids are none of the strings
`isGroup` marks and whose group ids are among them: the workers are listed
once, under non-empty ids; the groups read for a worker id are pairwise
distinct group ids that each list the worker, their number is the counter of
the worker if it has one, and there are none for a string that is no worker;
the workers read for a group id are pairwise distinct worker ids that each
list the group. -/
def Consistent (codec : FileStringCodec) (isGroup : String → Bool) (s : MasterState) : Prop :=
  (mapKeys s._workerRef).Nodup
    ∧ (∀ w ∈ mapKeys s._workerRef, w ≠ "" ∧ isGroup w = false)
    ∧ (∀ w, isGroup w = false →
        (getResourceGroupsForWorker codec s w).Nodup
          ∧ (∀ g ∈ getResourceGroupsForWorker codec s w,
              isGroup g = true ∧ w ∈ getWorkersForResourceGroup codec s g)
          ∧ (∀ n, mapFind s._workerRef w = some n →
              n = ((getResourceGroupsForWorker codec s w).length : Int))
          ∧ (w ∉ mapKeys s._workerRef → getResourceGroupsForWorker codec s w = []))
    ∧ (∀ g, isGroup g = true →
        (getWorkersForResourceGroup codec s g).Nodup
          ∧ ∀ w ∈ getWorkersForResourceGroup codec s g,
              isGroup w = false ∧ g ∈ getResourceGroupsForWorker codec s w)

end MasterState

/-! ## Theorems: unordered maps -/

theorem mapFind_eq_none_iff {α : Type} (m : List (String × α)) (k : String) :
    mapFind m k = none ↔ k ∉ mapKeys m := by
  induction m with
  | nil => simp [mapFind, mapKeys]
  | cons p rest ih =>
    obtain ⟨k', v⟩ := p
    by_cases h : k' = k
    · simp [mapFind, mapKeys, h]
    · have h' : ¬ k = k' := fun e => h e.symm
      simpa [mapFind, mapKeys, h, h'] using ih

theorem mapFind_mem {α : Type} (m : List (String × α)) (k : String) (v : α)
    (h : mapFind m k = some v) : (k, v) ∈ m := by
  induction m with
  | nil => simp [mapFind] at h
  | cons p rest ih =>
    obtain ⟨k', v'⟩ := p
    by_cases hk : k' = k
    · simp [mapFind, hk] at h
      simp [hk, h]
    · simp [mapFind, hk] at h
      exact List.mem_cons_of_mem _ (ih h)

theorem mapKeys_mapSet {α : Type} (m : List (String × α)) (k : String) (v : α) (x : String) :
    x ∈ mapKeys (mapSet m k v) ↔ x = k ∨ x ∈ mapKeys m := by
  induction m with
  | nil => simp [mapSet, mapKeys]
  | cons p rest ih =>
    obtain ⟨k', v'⟩ := p
    by_cases hk : k' = k
    · subst hk
      simp [mapSet, mapKeys]
    · simp only [mapSet, hk, if_false, mapKeys, List.map_cons, List.mem_cons] at ih ⊢
      rw [ih]
      tauto

theorem mapKeys_mapErase {α : Type} (m : List (String × α)) (k : String) (x : String) :
    x ∈ mapKeys (mapErase m k) ↔ x ≠ k ∧ x ∈ mapKeys m := by
  simp only [mapKeys, mapErase, List.mem_map, List.mem_filter]
  constructor
  · rintro ⟨p, ⟨hp, hne⟩, rfl⟩
    exact ⟨by simpa using hne, p, hp, rfl⟩
  · rintro ⟨hne, p, hp, rfl⟩
    exact ⟨p, ⟨hp, by simpa using hne⟩, rfl⟩

theorem mapFind_mapSet_self {α : Type} (m : List (String × α)) (k : String) (v : α) :
    mapFind (mapSet m k v) k = some v := by
  induction m with
  | nil => simp [mapSet, mapFind]
  | cons p rest ih =>
    obtain ⟨k', v'⟩ := p
    by_cases hk : k' = k
    · simp [mapSet, mapFind, hk]
    · simp [mapSet, mapFind, hk, ih]

theorem mapFind_mapSet_ne {α : Type} (m : List (String × α)) (k x : String) (v : α)
    (h : x ≠ k) : mapFind (mapSet m k v) x = mapFind m x := by
  induction m with
  | nil => simp [mapSet, mapFind, Ne.symm h]
  | cons p rest ih =>
    obtain ⟨k', v'⟩ := p
    by_cases hk : k' = k
    · subst hk
      simp [mapSet, mapFind, Ne.symm h]
    · by_cases hx : k' = x
      · subst hx
        simp [mapSet, mapFind, hk]
      · simp [mapSet, mapFind, hk, hx, ih]

theorem mapFind_mapErase_ne {α : Type} (m : List (String × α)) (k x : String)
    (h : x ≠ k) : mapFind (mapErase m k) x = mapFind m x := by
  induction m with
  | nil => simp [mapErase, mapFind]
  | cons p rest ih =>
    obtain ⟨k', v'⟩ := p
    by_cases hk : k' = k
    · subst hk
      have e : mapErase ((k', v') :: rest) k' = mapErase rest k' := by simp [mapErase]
      rw [e, ih]
      simp [mapFind, Ne.symm h]
    · have e : mapErase ((k', v') :: rest) k = (k', v') :: mapErase rest k := by
        simp [mapErase, hk]
      rw [e]
      simp [mapFind, ih]

theorem mapFind_mapErase_self {α : Type} (m : List (String × α)) (k : String) :
    mapFind (mapErase m k) k = none := by
  rw [mapFind_eq_none_iff, mapKeys_mapErase]
  simp

theorem mapIndex_find_self {α : Type} [Inhabited α] (m : List (String × α)) (k : String) :
    mapFind (mapIndex m k).2 k = some (mapIndex m k).1 := by
  unfold mapIndex
  cases h : mapFind m k with
  | none => simp [mapFind_mapSet_self]
  | some v => simp [h]

theorem mapIndex_find_ne {α : Type} [Inhabited α] (m : List (String × α)) (k x : String)
    (h : x ≠ k) : mapFind (mapIndex m k).2 x = mapFind m x := by
  unfold mapIndex
  cases h' : mapFind m k with
  | none => simp [mapFind_mapSet_ne _ _ _ _ h]
  | some v => simp

theorem mapIndex_fst {α : Type} [Inhabited α] (m : List (String × α)) (k : String) :
    (mapIndex m k).1 = (mapFind m k).getD default := by
  unfold mapIndex
  cases h' : mapFind m k <;> simp

theorem mapFind_mapSet {α : Type} (m : List (String × α)) (k x : String) (v : α) :
    mapFind (mapSet m k v) x = if x = k then some v else mapFind m x := by
  by_cases h : x = k
  · subst h; simp [mapFind_mapSet_self]
  · simp [h, mapFind_mapSet_ne _ _ _ _ h]

theorem mapFind_mapErase {α : Type} (m : List (String × α)) (k x : String) :
    mapFind (mapErase m k) x = if x = k then none else mapFind m x := by
  by_cases h : x = k
  · subst h; simp [mapFind_mapErase_self]
  · simp [h, mapFind_mapErase_ne _ _ _ h]

/-- Two lists that split at the last occurrence of a separator agree part by part. -/
theorem split_first_sep (x : Char) (p q r s : List Char) (hp : x ∉ p) (hq : x ∉ q)
    (h : p ++ x :: r = q ++ x :: s) : p = q ∧ r = s := by
  induction p generalizing q with
  | nil =>
    cases q with
    | nil => simpa using h
    | cons c q' =>
      simp at h
      exact absurd h.1 (fun e => hq (by simp [e]))
  | cons c p' ih =>
    cases q with
    | nil =>
      simp at h
      exact absurd h.1.symm (fun e => hp (by simp [e]))
    | cons c' q' =>
      simp at h
      have hp' : x ∉ p' := fun e => hp (List.mem_cons_of_mem _ e)
      have hq' : x ∉ q' := fun e => hq (List.mem_cons_of_mem _ e)
      obtain ⟨e1, e2⟩ := ih q' hp' hq' h.2
      exact ⟨by rw [h.1, e1], e2⟩

theorem split_last_sep (x : Char) (l1 l2 a b : List Char) (ha : x ∉ a) (hb : x ∉ b)
    (h : l1 ++ x :: a = l2 ++ x :: b) : l1 = l2 ∧ a = b := by
  have h2 := congrArg List.reverse h
  simp only [List.reverse_append, List.reverse_cons, List.append_assoc, List.singleton_append]
    at h2
  obtain ⟨e1, e2⟩ := split_first_sep x a.reverse b.reverse l1.reverse l2.reverse
    (by simpa using ha) (by simpa using hb) h2
  exact ⟨List.reverse_injective e2, List.reverse_injective e1⟩

/-! ## Theorems: MasterNode -/

namespace MasterNode

theorem foldl_count_contactable (l : List (String × MasterNodeState)) (a : Int) :
    l.foldl (fun n p => if p.2.contactable then n + 1 else n) a
      = a + ((l.filter (fun p => p.2.contactable)).length : Int) := by
  induction l generalizing a with
  | nil => simp
  | cons p rest ih =>
    by_cases h : p.2.contactable = true
    · simp [List.foldl, h, ih]; ring
    · simp [List.foldl, h, ih]

/-- The comparison of `isInQuorum`, over the natural numbers. -/
theorem isInQuorum_eq_decide (s : MasterNode) :
    isInQuorum s
      = decide (2 * ((s._masterNodes.filter (fun p => p.2.contactable)).length + 1)
          > s._masterNodes.length + 1) := by
  have key : isInQuorum s = true
      ↔ 2 * ((s._masterNodes.filter (fun p => p.2.contactable)).length + 1)
          > s._masterNodes.length + 1 := by
    unfold isInQuorum
    simp only [decide_eq_true_eq, foldl_count_contactable]
    push_cast
    generalize (s._masterNodes.filter (fun p => p.2.contactable)).length = c
    generalize s._masterNodes.length = n
    constructor
    · intro h
      have h3 : ((n + 1 : ℕ) : ℚ) < ((2 * (c + 1) : ℕ) : ℚ) := by push_cast; linarith
      exact_mod_cast h3
    · intro h
      have h3 : ((n + 1 : ℕ) : ℚ) < ((2 * (c + 1) : ℕ) : ℚ) := by exact_mod_cast h
      push_cast at h3
      linarith
  cases hq : isInQuorum s with
  | true => exact (decide_eq_true (key.mp hq)).symm
  | false =>
    symm
    apply decide_eq_false
    intro hc
    rw [key.mpr hc] at hq
    exact Bool.noConfusion hq

/-- Claim C1.  With `n` known peers of which `c` are contactable, `isInQuorum`
returns true exactly when `2 * (c + 1) > n + 1`; on a tie, `2 * (c + 1) = n + 1`,
it returns false. -/
theorem isInQuorum_iff_strict_majority (s : MasterNode) (n c : Nat)
    (hn : s._masterNodes.length = n)
    (hc : (s._masterNodes.filter (fun p => p.2.contactable)).length = c) :
    (isInQuorum s = true ↔ 2 * (c + 1) > n + 1)
      ∧ (2 * (c + 1) = n + 1 → isInQuorum s = false) := by
  rw [isInQuorum_eq_decide, hn, hc]
  refine ⟨by simp, fun htie => ?_⟩
  apply decide_eq_false
  omega

/-- Witness for claim C1: a node with three peers, one of them contactable, is
on a tie (2 of 4) and is not in quorum. -/
theorem isInQuorum_iff_strict_majority_witness :
    (isInQuorum
        { new "r" "localhost" 9996 "N1" with
          _masterNodes := [("N2", ⟨true, "N2", "u2"⟩), ("N3", ⟨false, "N3", "u3"⟩),
                           ("N4", ⟨false, "N4", "u4"⟩)] } = true
        ↔ 2 * (1 + 1) > 3 + 1)
      ∧ (2 * (1 + 1) = 3 + 1 →
          isInQuorum
            { new "r" "localhost" 9996 "N1" with
              _masterNodes := [("N2", ⟨true, "N2", "u2"⟩), ("N3", ⟨false, "N3", "u3"⟩),
                               ("N4", ⟨false, "N4", "u4"⟩)] } = false) :=
  isInQuorum_iff_strict_majority _ 3 1 rfl rfl

theorem foldl_join_flags (l : List (String × MasterNodeState)) (nodeId nodeUrl : String)
    (a b : Bool) :
    l.foldl
        (fun (f : Bool × Bool) p => (if p.1 = nodeId then true else f.1,
                     if p.2.url = nodeUrl then true else f.2)) (a, b)
      = (a || decide (nodeId ∈ mapKeys l),
         b || decide (nodeUrl ∈ l.map (fun p => p.2.url))) := by
  induction l generalizing a b with
  | nil => simp [mapKeys]
  | cons p rest ih =>
    simp only [List.foldl, ih, mapKeys, List.map_cons, List.mem_cons]
    have e1 : (p.1 = nodeId) = (nodeId = p.1) := propext eq_comm
    have e2 : (p.2.url = nodeUrl) = (nodeUrl = p.2.url) := propext eq_comm
    simp only [e1, e2]
    by_cases h1 : nodeId = p.1 <;> by_cases h2 : nodeUrl = p.2.url <;>
      simp [h1, h2]

/-- Claim C2.  For a join body with non-empty `NodeId` and `NodeUrl` the handler
answers 201 exactly when the id differs from the own id and from every peer id
(the key of the peer row) and the url differs from the own url and from every
peer url; otherwise it answers 400, with the ID message whenever the id collides
and with the URL message when only the url collides. -/
theorem handlerPostInternalMasterJoin_201_iff (s : MasterNode)
    (body : List (String × String))
    (hid : bodyAt body "NodeId" ≠ "") (hurl : bodyAt body "NodeUrl" ≠ "") :
    ((handlerPostInternalMasterJoin s body).1.code = 201 ↔
        (bodyAt body "NodeId" ≠ s._nodeId
          ∧ (∀ p ∈ s._masterNodes, bodyAt body "NodeId" ≠ p.1)
          ∧ bodyAt body "NodeUrl" ≠ s._nodeUrl
          ∧ (∀ p ∈ s._masterNodes, bodyAt body "NodeUrl" ≠ p.2.url)))
      ∧ ((handlerPostInternalMasterJoin s body).1.code ≠ 201 →
          (handlerPostInternalMasterJoin s body).1.code = 400)
      ∧ ((bodyAt body "NodeId" = s._nodeId
            ∨ ∃ p ∈ s._masterNodes, bodyAt body "NodeId" = p.1) →
          (handlerPostInternalMasterJoin s body).1.code = 400
            ∧ mapFind (handlerPostInternalMasterJoin s body).1.body "Message"
                = some "A node with the same ID already exists")
      ∧ (¬ (bodyAt body "NodeId" = s._nodeId
              ∨ ∃ p ∈ s._masterNodes, bodyAt body "NodeId" = p.1) →
          (bodyAt body "NodeUrl" = s._nodeUrl
            ∨ ∃ p ∈ s._masterNodes, bodyAt body "NodeUrl" = p.2.url) →
          (handlerPostInternalMasterJoin s body).1.code = 400
            ∧ mapFind (handlerPostInternalMasterJoin s body).1.body "Message"
                = some "A node with the same URL already exists") := by
  have hk : (bodyAt body "NodeId" ∈ mapKeys s._masterNodes)
      ↔ ∃ p ∈ s._masterNodes, bodyAt body "NodeId" = p.1 := by
    simp [mapKeys, eq_comm]
  have hu : (bodyAt body "NodeUrl" ∈ s._masterNodes.map (fun p => p.2.url))
      ↔ ∃ p ∈ s._masterNodes, bodyAt body "NodeUrl" = p.2.url := by
    simp [eq_comm]
  have hall1 : (∀ p ∈ s._masterNodes, bodyAt body "NodeId" ≠ p.1)
      ↔ ¬ ∃ p ∈ s._masterNodes, bodyAt body "NodeId" = p.1 := by
    push_neg; exact Iff.rfl
  have hall2 : (∀ p ∈ s._masterNodes, bodyAt body "NodeUrl" ≠ p.2.url)
      ↔ ¬ ∃ p ∈ s._masterNodes, bodyAt body "NodeUrl" = p.2.url := by
    push_neg; exact Iff.rfl
  rw [hall1, hall2, ← hk, ← hu]
  unfold handlerPostInternalMasterJoin
  simp only [hid, hurl, ne_eq, not_false_eq_true, and_self, if_true, foldl_join_flags,
    Bool.false_or]
  by_cases h1 : bodyAt body "NodeId" = s._nodeId <;>
    by_cases h2 : bodyAt body "NodeId" ∈ mapKeys s._masterNodes <;>
    by_cases h3 : bodyAt body "NodeUrl" = s._nodeUrl <;>
    by_cases h4 : bodyAt body "NodeUrl" ∈ s._masterNodes.map (fun p => p.2.url) <;>
    simp [h1, h2, h3, h4, mapFind]

/-- Witness for claim C2: on a fresh node `N1`, a join of `N2` is accepted. -/
theorem handlerPostInternalMasterJoin_201_iff_witness :
    (handlerPostInternalMasterJoin (new "r" "localhost" 9996 "N1")
        [("NodeId", "N2"), ("NodeUrl", "http://localhost:9997")]).1.code = 201 :=
  ((handlerPostInternalMasterJoin_201_iff (new "r" "localhost" 9996 "N1")
      [("NodeId", "N2"), ("NodeUrl", "http://localhost:9997")]
      (by decide) (by decide)).1).2 (by decide)

/-- Claim C3.  In a state whose peer rows are stored under their own ids, a
leave request with a non-empty `NodeId` is answered 202 exactly when the id is
a known peer, and then the id is appended to the left ledger with age 0 and is
no longer a key of the peers; an unknown id is answered 400 with the message
`No node exists with the provided ID`, and an empty `NodeId` is answered 400
with the body `MissingArgument: NodeId`. -/
theorem handlerPostInternalMasterLeave_202_iff (s : MasterNode)
    (body : List (String × String))
    (hwf : ∀ p ∈ s._masterNodes, p.2.id = p.1) :
    (bodyAt body "NodeId" ≠ "" →
        ((handlerPostInternalMasterLeave s body).1.code = 202
            ↔ bodyAt body "NodeId" ∈ mapKeys s._masterNodes)
        ∧ ((handlerPostInternalMasterLeave s body).1.code = 202 →
            (handlerPostInternalMasterLeave s body).2._leftMasterNodes
                = s._leftMasterNodes ++ [bodyAt body "NodeId"]
              ∧ mapFind (handlerPostInternalMasterLeave s body).2._leftMasterNodeTimes
                  (bodyAt body "NodeId") = some 0
              ∧ bodyAt body "NodeId"
                  ∉ mapKeys (handlerPostInternalMasterLeave s body).2._masterNodes)
        ∧ (bodyAt body "NodeId" ∉ mapKeys s._masterNodes →
            (handlerPostInternalMasterLeave s body).1.code = 400
              ∧ mapFind (handlerPostInternalMasterLeave s body).1.body "Message"
                  = some "No node exists with the provided ID"))
      ∧ (bodyAt body "NodeId" = "" →
          (handlerPostInternalMasterLeave s body).1
            = ⟨400, [("MissingArgument", "NodeId")]⟩) := by
  refine ⟨fun hne => ?_, fun he => ?_⟩
  · cases hf : mapFind s._masterNodes (bodyAt body "NodeId") with
    | none =>
      have hnot : bodyAt body "NodeId" ∉ mapKeys s._masterNodes :=
        (mapFind_eq_none_iff _ _).mp hf
      have hd : ¬ ((default : MasterNodeState).id = bodyAt body "NodeId") :=
        fun e => hne e.symm
      simp [handlerPostInternalMasterLeave, hne, mapIndex, hf, hd, hnot, mapFind]
    | some row =>
      have hmem := mapFind_mem _ _ _ hf
      have hrow : row.id = bodyAt body "NodeId" := hwf _ hmem
      have hin : bodyAt body "NodeId" ∈ mapKeys s._masterNodes := by
        by_contra hc
        rw [← mapFind_eq_none_iff, hf] at hc
        exact Option.noConfusion hc
      simp [handlerPostInternalMasterLeave, hne, mapIndex, hf, hrow, hin,
        mapFind_mapSet_self, mapKeys_mapErase]
  · simp [handlerPostInternalMasterLeave, he]

/-- Witness for claim C3: node `N1` knows `N2`; the leave of `N2` is accepted. -/
theorem handlerPostInternalMasterLeave_202_iff_witness :
    (handlerPostInternalMasterLeave
        { new "r" "localhost" 9996 "N1" with
          _masterNodes := [("N2", ⟨false, "N2", "http://localhost:9997"⟩)] }
        [("NodeId", "N2")]).1.code = 202 :=
  (((handlerPostInternalMasterLeave_202_iff
        { new "r" "localhost" 9996 "N1" with
          _masterNodes := [("N2", ⟨false, "N2", "http://localhost:9997"⟩)] }
        [("NodeId", "N2")] (by decide)).1 (by decide)).1).2 (by decide)

/-! ### The left ledger -/

theorem markTimedOutNodes_cons (T : Int) (y : String) (rest : List String)
    (acc : List String × List (String × Int)) :
    markTimedOutNodes T (y :: rest) acc
      = markTimedOutNodes T rest
          ((if (mapIndex acc.2 y).1 > T then acc.1 ++ [y] else acc.1),
           mapSet (mapIndex acc.2 y).2 y ((mapIndex acc.2 y).1 + 5)) := rfl

theorem markTimedOutNodes_not_mem (T : Int) (X : String) (l : List String) (hX : X ∉ l)
    (acc : List String × List (String × Int)) :
    (X ∈ (markTimedOutNodes T l acc).1 ↔ X ∈ acc.1)
      ∧ mapFind (markTimedOutNodes T l acc).2 X = mapFind acc.2 X := by
  induction l generalizing acc with
  | nil => simp [markTimedOutNodes]
  | cons y rest ih =>
    have hy : X ≠ y := fun e => hX (by simp [e])
    have hr : X ∉ rest := fun e => hX (List.mem_cons_of_mem _ e)
    rw [markTimedOutNodes_cons]
    obtain ⟨h1, h2⟩ := ih hr
      ((if (mapIndex acc.2 y).1 > T then acc.1 ++ [y] else acc.1),
       mapSet (mapIndex acc.2 y).2 y ((mapIndex acc.2 y).1 + 5))
    refine ⟨?_, ?_⟩
    · rw [h1]
      split <;> simp [hy]
    · rw [h2]
      simp only
      rw [mapFind_mapSet_ne _ _ _ _ hy, mapIndex_find_ne _ _ _ hy]

theorem markTimedOutNodes_once (T : Int) (X : String) (a : Int) (l : List String)
    (hnd : l.Nodup) (hX : X ∈ l) (acc : List String × List (String × Int))
    (ha : mapFind acc.2 X = some a) :
    (X ∈ (markTimedOutNodes T l acc).1 ↔ (X ∈ acc.1 ∨ a > T))
      ∧ mapFind (markTimedOutNodes T l acc).2 X = some (a + 5) := by
  induction l generalizing acc with
  | nil => simp at hX
  | cons y rest ih =>
    rw [markTimedOutNodes_cons]
    rw [List.nodup_cons] at hnd
    by_cases hy : y = X
    · subst hy
      obtain ⟨h1, h2⟩ := markTimedOutNodes_not_mem T y rest hnd.1
        ((if (mapIndex acc.2 y).1 > T then acc.1 ++ [y] else acc.1),
         mapSet (mapIndex acc.2 y).2 y ((mapIndex acc.2 y).1 + 5))
      have hv : (mapIndex acc.2 y).1 = a := by
        rw [mapIndex_fst, ha]; rfl
      refine ⟨?_, ?_⟩
      · rw [h1, hv]
        split <;> simp [*]
      · rw [h2]
        simp only
        rw [mapFind_mapSet_self, hv]
    · have hr : X ∈ rest := by
        rcases List.mem_cons.mp hX with e | e
        · exact absurd e.symm hy
        · exact e
      have hne : X ≠ y := fun e => hy e.symm
      obtain ⟨h1, h2⟩ := ih hnd.2 hr
        ((if (mapIndex acc.2 y).1 > T then acc.1 ++ [y] else acc.1),
         mapSet (mapIndex acc.2 y).2 y ((mapIndex acc.2 y).1 + 5))
        (by simp only; rw [mapFind_mapSet_ne _ _ _ _ hne, mapIndex_find_ne _ _ _ hne, ha])
      refine ⟨?_, h2⟩
      rw [h1]
      split <;> simp [hne]

theorem removeTimedOutNodes_cons (y : String) (rest : List String) (s : MasterNode) :
    removeTimedOutNodes (y :: rest) s
      = removeTimedOutNodes rest
          (if y ∈ s._leftMasterNodes then
            { s with _leftMasterNodes := s._leftMasterNodes.erase y
                     _leftMasterNodeTimes := mapErase s._leftMasterNodeTimes y }
           else s) := rfl

/-- The removal loop changes the ledger and the ages only; the ledger shrinks
to a duplicate-free sublist, and an id that is not marked keeps its entry. -/
theorem removeTimedOutNodes_spec (mk : List String) (s : MasterNode) :
    (removeTimedOutNodes mk s)._masterNodes = s._masterNodes
      ∧ (removeTimedOutNodes mk s)._leftTimeout = s._leftTimeout
      ∧ (removeTimedOutNodes mk s)._masterNodesToJoin = s._masterNodesToJoin
      ∧ (removeTimedOutNodes mk s)._nodeId = s._nodeId
      ∧ (removeTimedOutNodes mk s)._nodeUrl = s._nodeUrl
      ∧ (∀ x, x ∈ (removeTimedOutNodes mk s)._leftMasterNodes → x ∈ s._leftMasterNodes)
      ∧ (s._leftMasterNodes.Nodup → (removeTimedOutNodes mk s)._leftMasterNodes.Nodup)
      ∧ (∀ X, X ∉ mk →
          ((X ∈ (removeTimedOutNodes mk s)._leftMasterNodes ↔ X ∈ s._leftMasterNodes)
            ∧ mapFind (removeTimedOutNodes mk s)._leftMasterNodeTimes X
                = mapFind s._leftMasterNodeTimes X)) := by
  induction mk generalizing s with
  | nil => simp [removeTimedOutNodes]
  | cons y rest ih =>
    rw [removeTimedOutNodes_cons]
    by_cases hy : y ∈ s._leftMasterNodes
    · simp only [hy, if_true]
      obtain ⟨h1, h2, h3, h4, h5, h6, h7, h8⟩ := ih
        { s with _leftMasterNodes := s._leftMasterNodes.erase y
                 _leftMasterNodeTimes := mapErase s._leftMasterNodeTimes y }
      refine ⟨h1, h2, h3, h4, h5, ?_, ?_, ?_⟩
      · intro x hx
        exact List.mem_of_mem_erase (h6 x hx)
      · intro hnd
        exact h7 (hnd.erase y)
      · intro X hX
        have hXy : X ≠ y := fun e => hX (by simp [e])
        have hXr : X ∉ rest := fun e => hX (List.mem_cons_of_mem _ e)
        obtain ⟨h9, h10⟩ := h8 X hXr
        refine ⟨?_, ?_⟩
        · rw [h9]
          exact List.mem_erase_of_ne hXy
        · rw [h10]
          exact mapFind_mapErase_ne _ _ _ hXy
    · simp only [hy, if_false]
      obtain ⟨h1, h2, h3, h4, h5, h6, h7, h8⟩ := ih s
      refine ⟨h1, h2, h3, h4, h5, h6, h7, ?_⟩
      intro X hX
      exact h8 X (fun e => hX (List.mem_cons_of_mem _ e))

theorem dequeueMasterNodesToJoin_cons (item : String × String)
    (rest : List (String × String))
    (acc : List (String × MasterNodeState) × List String) :
    dequeueMasterNodesToJoin (item :: rest) acc
      = dequeueMasterNodesToJoin rest
          (if item.1 ∉ acc.2 then
            (mapSet acc.1 item.1 ⟨false, item.1, item.2⟩, acc.2 ++ [item.1])
           else acc) := rfl

/-- The dequeuing loop never writes the row of an id that is in
`nodesRequested`. -/
theorem dequeueMasterNodesToJoin_skips (queue : List (String × String))
    (acc : List (String × MasterNodeState) × List String) (x : String) (hx : x ∈ acc.2) :
    mapFind (dequeueMasterNodesToJoin queue acc).1 x = mapFind acc.1 x := by
  induction queue generalizing acc with
  | nil => simp [dequeueMasterNodesToJoin]
  | cons item rest ih =>
    rw [dequeueMasterNodesToJoin_cons]
    by_cases h : item.1 ∈ acc.2
    · simp only [h, not_true_eq_false, if_false]
      exact ih acc hx
    · simp only [h, not_false_eq_true, if_true]
      have hne : x ≠ item.1 := fun e => h (e ▸ hx)
      rw [ih _ (by simp [hx])]
      exact mapFind_mapSet_ne _ _ _ _ hne

/-- The drain skips every id that is in the left ledger. -/
theorem drainMasterNodesToJoin_skips_ledger (s : MasterNode) (x : String)
    (hx : x ∈ s._leftMasterNodes) :
    mapFind (drainMasterNodesToJoin s)._masterNodes x = mapFind s._masterNodes x := by
  unfold drainMasterNodesToJoin
  split
  · exact dequeueMasterNodesToJoin_skips _ _ x hx
  · rfl

/-- A join request either leaves the state as it is or, for an id that is not
a key of the peers, inserts the peer row and erases the id from the ledger. -/
theorem handlerPostInternalMasterJoin_state (s : MasterNode)
    (body : List (String × String)) :
    (handlerPostInternalMasterJoin s body).2 = s
      ∨ ((handlerPostInternalMasterJoin s body).1.code = 201
          ∧ (handlerPostInternalMasterJoin s body).2._leftMasterNodes
              = s._leftMasterNodes.erase (bodyAt body "NodeId")
          ∧ (handlerPostInternalMasterJoin s body).2._masterNodes
              = mapSet s._masterNodes (bodyAt body "NodeId")
                  ⟨false, bodyAt body "NodeId", bodyAt body "NodeUrl"⟩) := by
  unfold handlerPostInternalMasterJoin
  simp only [foldl_join_flags, Bool.false_or]
  generalize bodyAt body "NodeId" = i
  generalize bodyAt body "NodeUrl" = u
  generalize decide (i ∈ mapKeys s._masterNodes) = b2
  generalize decide (u ∈ s._masterNodes.map (fun p => p.2.url)) = b4
  by_cases h0 : i ≠ "" ∧ u ≠ ""
  · rw [if_pos h0]
    by_cases h1 : i = s._nodeId <;> by_cases h3 : u = s._nodeUrl <;>
      by_cases h5 : i ∈ s._leftMasterNodes <;> cases b2 <;> cases b4 <;>
      simp [h1, h3, h5, List.erase_of_not_mem]
  · rw [if_neg h0]
    exact Or.inl rfl

/-- The state after a leave request: unchanged for an empty id; for an id
whose row carries that id, the id is pushed on the ledger with age 0 and its
row is erased; otherwise only the read access `_masterNodes[nodeId]` shows. -/
theorem handlerPostInternalMasterLeave_state (s : MasterNode)
    (body : List (String × String)) :
    (bodyAt body "NodeId" = "" → (handlerPostInternalMasterLeave s body).2 = s)
      ∧ (bodyAt body "NodeId" ≠ "" →
          (mapIndex s._masterNodes (bodyAt body "NodeId")).1.id = bodyAt body "NodeId" →
          (handlerPostInternalMasterLeave s body).1.code = 202
            ∧ (handlerPostInternalMasterLeave s body).2
              = { s with
                  _leftMasterNodes := s._leftMasterNodes ++ [bodyAt body "NodeId"]
                  _leftMasterNodeTimes := mapSet s._leftMasterNodeTimes (bodyAt body "NodeId") 0
                  _masterNodes :=
                    mapErase (mapIndex s._masterNodes (bodyAt body "NodeId")).2
                      (bodyAt body "NodeId") })
      ∧ (bodyAt body "NodeId" ≠ "" →
          (mapIndex s._masterNodes (bodyAt body "NodeId")).1.id ≠ bodyAt body "NodeId" →
          (handlerPostInternalMasterLeave s body).1.code = 400
            ∧ (handlerPostInternalMasterLeave s body).2
              = { s with _masterNodes := (mapIndex s._masterNodes (bodyAt body "NodeId")).2 }) := by
  refine ⟨fun h => ?_, fun h hf => ?_, fun h hf => ?_⟩
  · simp [handlerPostInternalMasterLeave, h]
  · simp [handlerPostInternalMasterLeave, h, hf]
  · simp [handlerPostInternalMasterLeave, h, hf]

end MasterNode

/-! ## Theorems: GlobalState -/

namespace GlobalState

theorem assignedKey_data (m g : String) :
    (getAssignedPrefixedKey m g).data
      = "Assignments/Assigned/".data ++ (m.data ++ ('/' :: g.data)) := by
  simp [getAssignedPrefixedKey, String.data_append]

theorem unassignedKey_data (g : String) :
    (getUnassignedPrefixedKey g).data = "Assignments/Unassigned/".data ++ g.data := by
  simp [getUnassignedPrefixedKey, String.data_append]

theorem groupKey_data (g : String) :
    (getResourceGroupPrefixedKey g).data = "ResourceGroups/".data ++ g.data := by
  simp [getResourceGroupPrefixedKey, String.data_append]

theorem resourceKey_data (g r : String) :
    (getResourcePrefixedKey g r).data
      = "Resources/".data ++ (g.data ++ ('/' :: r.data)) := by
  simp [getResourcePrefixedKey, String.data_append]

theorem unassigned_ne_assigned (g m g' : String) :
    getUnassignedPrefixedKey g ≠ getAssignedPrefixedKey m g' := by
  intro h
  have h2 := congrArg String.data h
  rw [assignedKey_data, unassignedKey_data] at h2
  simp at h2

theorem assignedKey_valid (m g : String) :
    getAssignedPrefixedKey m g ≠ "" ∧ S3DataStore.notDotKey (getAssignedPrefixedKey m g) = true := by
  refine ⟨?_, ?_⟩
  · intro h
    have h2 := congrArg String.data h
    rw [assignedKey_data] at h2
    simp at h2
  · simp [S3DataStore.notDotKey, assignedKey_data]

theorem unassignedKey_valid (g : String) :
    getUnassignedPrefixedKey g ≠ "" ∧ S3DataStore.notDotKey (getUnassignedPrefixedKey g) = true := by
  refine ⟨?_, ?_⟩
  · intro h
    have h2 := congrArg String.data h
    rw [unassignedKey_data] at h2
    simp at h2
  · simp [S3DataStore.notDotKey, unassignedKey_data]

theorem groupKey_inj (g g' : String) :
    getResourceGroupPrefixedKey g = getResourceGroupPrefixedKey g' ↔ g = g' := by
  constructor
  · intro h
    have h2 := congrArg String.data h
    rw [groupKey_data, groupKey_data] at h2
    exact String.ext (List.append_cancel_left h2)
  · intro h; rw [h]

theorem unassignedKey_inj (g g' : String) :
    getUnassignedPrefixedKey g = getUnassignedPrefixedKey g' ↔ g = g' := by
  constructor
  · intro h
    have h2 := congrArg String.data h
    rw [unassignedKey_data, unassignedKey_data] at h2
    exact String.ext (List.append_cancel_left h2)
  · intro h; rw [h]

theorem assignedKey_inj (m g m' g' : String) (hg : '/' ∉ g.data) (hg' : '/' ∉ g'.data) :
    getAssignedPrefixedKey m g = getAssignedPrefixedKey m' g' ↔ m = m' ∧ g = g' := by
  constructor
  · intro h
    have h2 := congrArg String.data h
    rw [assignedKey_data, assignedKey_data] at h2
    obtain ⟨e1, e2⟩ := split_last_sep '/' _ _ _ _ hg hg' (List.append_cancel_left h2)
    exact ⟨String.ext e1, String.ext e2⟩
  · rintro ⟨h1, h2⟩; rw [h1, h2]

theorem assignedKey_inj_left (m m' g : String) :
    getAssignedPrefixedKey m g = getAssignedPrefixedKey m' g ↔ m = m' := by
  constructor
  · intro h
    have h2 := congrArg String.data h
    rw [assignedKey_data, assignedKey_data] at h2
    exact String.ext (List.append_cancel_right (List.append_cancel_left h2))
  · intro h; rw [h]

theorem group_ne_unassigned (g g' : String) :
    getResourceGroupPrefixedKey g ≠ getUnassignedPrefixedKey g' := by
  intro h
  have h2 := congrArg String.data h
  rw [groupKey_data, unassignedKey_data] at h2
  simp at h2

theorem group_ne_assigned (g m g' : String) :
    getResourceGroupPrefixedKey g ≠ getAssignedPrefixedKey m g' := by
  intro h
  have h2 := congrArg String.data h
  rw [groupKey_data, assignedKey_data] at h2
  simp at h2

theorem group_ne_resource (g g' r : String) :
    getResourceGroupPrefixedKey g ≠ getResourcePrefixedKey g' r := by
  intro h
  have h2 := congrArg String.data h
  rw [groupKey_data, resourceKey_data] at h2
  simp at h2

theorem unassigned_ne_resource (g g' r : String) :
    getUnassignedPrefixedKey g ≠ getResourcePrefixedKey g' r := by
  intro h
  have h2 := congrArg String.data h
  rw [unassignedKey_data, resourceKey_data] at h2
  simp at h2

theorem assigned_ne_resource (m g g' r : String) :
    getAssignedPrefixedKey m g ≠ getResourcePrefixedKey g' r := by
  intro h
  have h2 := congrArg String.data h
  rw [assignedKey_data, resourceKey_data] at h2
  simp at h2

theorem groupKey_valid (g : String) :
    getResourceGroupPrefixedKey g ≠ ""
      ∧ S3DataStore.notDotKey (getResourceGroupPrefixedKey g) = true := by
  refine ⟨?_, ?_⟩
  · intro h
    have h2 := congrArg String.data h
    rw [groupKey_data] at h2
    simp at h2
  · simp [S3DataStore.notDotKey, groupKey_data]

theorem resourceKey_valid (g r : String) :
    getResourcePrefixedKey g r ≠ ""
      ∧ S3DataStore.notDotKey (getResourcePrefixedKey g r) = true := by
  refine ⟨?_, ?_⟩
  · intro h
    have h2 := congrArg String.data h
    rw [resourceKey_data] at h2
    simp at h2
  · simp [S3DataStore.notDotKey, resourceKey_data]

/-- Claim C5.  Over a store whose requests succeed, `claimManagedResourceGroup`
returns true exactly when the Unassigned marker of the group holds
`UNASSIGNED`; after a true result the Assigned key of the manager and group
holds `ASSIGNED`, the Unassigned marker is gone and every following claim of
the group returns false; after a false result the state is unchanged. -/
theorem claimManagedResourceGroup_spec (st : GlobalState) (m g : String) :
    ((claimManagedResourceGroup st m g).1 = true
        ↔ st._dataStore.getItem (getUnassignedPrefixedKey g) = "UNASSIGNED")
      ∧ ((claimManagedResourceGroup st m g).1 = true →
          (claimManagedResourceGroup st m g).2._dataStore.getItem
              (getAssignedPrefixedKey m g) = "ASSIGNED"
            ∧ mapFind (claimManagedResourceGroup st m g).2._dataStore.objects
                (getUnassignedPrefixedKey g) = none
            ∧ ∀ m2 : String,
                (claimManagedResourceGroup (claimManagedResourceGroup st m g).2 m2 g).1
                  = false)
      ∧ ((claimManagedResourceGroup st m g).1 = false →
          (claimManagedResourceGroup st m g).2 = st) := by
  obtain ⟨ha1, ha2⟩ := assignedKey_valid m g
  obtain ⟨hu1, hu2⟩ := unassignedKey_valid g
  have hne := unassigned_ne_assigned g m g
  by_cases h : st._dataStore.getItem (getUnassignedPrefixedKey g) = "UNASSIGNED"
  · have hobj : (claimManagedResourceGroup st m g).1 = true
        ∧ (claimManagedResourceGroup st m g).2._dataStore.objects
          = mapErase (mapSet st._dataStore.objects (getAssignedPrefixedKey m g) "ASSIGNED")
              (getUnassignedPrefixedKey g) := by
      simp [claimManagedResourceGroup, h, S3DataStore.addItem, S3DataStore.deleteItem,
        ha1, ha2, hu1, hu2]
    have hgone : mapFind (claimManagedResourceGroup st m g).2._dataStore.objects
        (getUnassignedPrefixedKey g) = none := by
      rw [hobj.2]
      exact mapFind_mapErase_self _ _
    have hkept : mapFind (claimManagedResourceGroup st m g).2._dataStore.objects
        (getAssignedPrefixedKey m g) = some "ASSIGNED" := by
      rw [hobj.2, mapFind_mapErase_ne _ _ _ (Ne.symm hne), mapFind_mapSet_self]
    refine ⟨⟨fun _ => h, fun _ => hobj.1⟩, ?_, ?_⟩
    · intro _
      refine ⟨?_, hgone, ?_⟩
      · simp [S3DataStore.getItem, ha1, hkept]
      · intro m2
        have hget : (claimManagedResourceGroup st m g).2._dataStore.getItem
            (getUnassignedPrefixedKey g) = "" := by
          simp [S3DataStore.getItem, hgone]
        rw [claimManagedResourceGroup, hget]
        simp
    · intro hf
      rw [hobj.1] at hf
      exact absurd hf (by decide)
  · refine ⟨?_, ?_, ?_⟩
    · simp [claimManagedResourceGroup, h]
    · intro ht
      simp [claimManagedResourceGroup, h] at ht
    · intro _
      simp [claimManagedResourceGroup, h]


theorem markersConsistent_setResource (objs : List (String × String)) (g r v : String)
    (h : MarkersConsistent objs) :
    MarkersConsistent (mapSet objs (getResourcePrefixedKey g r) v) := by
  unfold MarkersConsistent at h ⊢
  simpa only [mapFind_mapSet, group_ne_resource, unassigned_ne_resource,
    assigned_ne_resource, if_false] using h

theorem markersConsistent_eraseResource (objs : List (String × String)) (g r : String)
    (h : MarkersConsistent objs) :
    MarkersConsistent (mapErase objs (getResourcePrefixedKey g r)) := by
  unfold MarkersConsistent at h ⊢
  simpa only [mapFind_mapErase, group_ne_resource, unassigned_ne_resource,
    assigned_ne_resource, if_false] using h


theorem markersConsistent_rewriteGroup (objs : List (String × String)) (g0 v0 : String)
    (h : MarkersConsistent objs)
    (hrow : mapFind objs (getResourceGroupPrefixedKey g0) ≠ none) (hv : v0 ≠ "") :
    MarkersConsistent (mapSet objs (getResourceGroupPrefixedKey g0) v0) := by
  obtain ⟨h1, h2, h3, h4⟩ := h
  have hpres : ∀ g, mapFind objs (getResourceGroupPrefixedKey g) ≠ none →
      (if getResourceGroupPrefixedKey g = getResourceGroupPrefixedKey g0 then some v0
        else mapFind objs (getResourceGroupPrefixedKey g)) ≠ none := by
    intro g hg
    split
    · simp
    · exact hg
  have hback : ∀ g, (if getResourceGroupPrefixedKey g = getResourceGroupPrefixedKey g0
        then some v0 else mapFind objs (getResourceGroupPrefixedKey g)) ≠ none →
      mapFind objs (getResourceGroupPrefixedKey g) ≠ none := by
    intro g hg
    split at hg
    · rename_i e
      rw [e]; exact hrow
    · exact hg
  unfold MarkersConsistent
  simp only [mapFind_mapSet, Ne.symm (group_ne_unassigned _ _),
    Ne.symm (group_ne_assigned _ _ _), if_false]
  refine ⟨?_, ?_, ?_, ?_⟩
  · intro g v hgv
    split at hgv
    · rename_i e
      cases hgv
      have e' := (groupKey_inj _ _).mp e
      subst e'
      cases hf : mapFind objs (getResourceGroupPrefixedKey g) with
      | none => exact absurd hf hrow
      | some w => exact ⟨(h1 g w hf).1, hv⟩
    · exact h1 g v hgv
  · intro g v hgv
    obtain ⟨a, b, c⟩ := h2 g v hgv
    exact ⟨a, hpres g b, c⟩
  · intro m g v hg hgv
    obtain ⟨a, b, c, d⟩ := h3 m g v hg hgv
    exact ⟨a, hpres g b, c, d⟩
  · intro g hg
    exact h4 g (hback g hg)

theorem markersConsistent_add (objs : List (String × String)) (g0 v0 : String)
    (h : MarkersConsistent objs) (hg0 : validId g0)
    (hrow : mapFind objs (getResourceGroupPrefixedKey g0) = none) (hv : v0 ≠ "") :
    MarkersConsistent
      (mapSet (mapSet objs (getResourceGroupPrefixedKey g0) v0)
        (getUnassignedPrefixedKey g0) "UNASSIGNED") := by
  obtain ⟨h1, h2, h3, h4⟩ := h
  have hnoA : ∀ m, mapFind objs (getAssignedPrefixedKey m g0) = none := by
    intro m
    cases hf : mapFind objs (getAssignedPrefixedKey m g0) with
    | none => rfl
    | some w => exact absurd hrow (h3 m g0 w hg0.2 hf).2.1
  unfold MarkersConsistent
  simp only [mapFind_mapSet, group_ne_unassigned, Ne.symm (group_ne_unassigned _ _),
    Ne.symm (group_ne_assigned _ _ _), Ne.symm (unassigned_ne_assigned _ _ _),
    groupKey_inj, unassignedKey_inj, if_false]
  refine ⟨?_, ?_, ?_, ?_⟩
  · intro g v hgv
    split at hgv
    · rename_i e
      cases hgv
      subst e
      exact ⟨hg0, hv⟩
    · exact h1 g v hgv
  · intro g v hgv
    split at hgv
    · rename_i e
      cases hgv
      subst e
      exact ⟨rfl, by simp, hnoA⟩
    · rename_i e
      obtain ⟨a, b, c⟩ := h2 g v hgv
      exact ⟨a, by simp [e, b], c⟩
  · intro m g v hg hgv
    obtain ⟨a, b, c, d⟩ := h3 m g v hg hgv
    have hne : g ≠ g0 := by
      intro e
      subst e
      exact b hrow
    exact ⟨a, by simp [hne, b], by simp [hne, c], d⟩
  · intro g hg
    by_cases e : g = g0
    · left; simp [e]
    · simp only [e, if_false] at hg ⊢
      exact h4 g hg

theorem markersConsistent_remove (objs : List (String × String)) (g0 : String)
    (h : MarkersConsistent objs)
    (hu : mapFind objs (getUnassignedPrefixedKey g0) ≠ none) :
    MarkersConsistent
      (mapErase (mapErase objs (getResourceGroupPrefixedKey g0))
        (getUnassignedPrefixedKey g0)) := by
  obtain ⟨h1, h2, h3, h4⟩ := h
  obtain ⟨u, hu'⟩ := Option.ne_none_iff_exists'.mp hu
  obtain ⟨_, hrow0, hnoA⟩ := h2 g0 u hu'
  have hval0 : validId g0 := by
    obtain ⟨w, hw⟩ := Option.ne_none_iff_exists'.mp hrow0
    exact (h1 g0 w hw).1
  unfold MarkersConsistent
  simp only [mapFind_mapErase, group_ne_unassigned, Ne.symm (group_ne_unassigned _ _),
    Ne.symm (group_ne_assigned _ _ _), Ne.symm (unassigned_ne_assigned _ _ _),
    groupKey_inj, unassignedKey_inj, if_false]
  refine ⟨?_, ?_, ?_, ?_⟩
  · intro g v hgv
    split at hgv
    · exact Option.noConfusion hgv
    · exact h1 g v hgv
  · intro g v hgv
    split at hgv
    · exact Option.noConfusion hgv
    · rename_i e
      obtain ⟨a, b, c⟩ := h2 g v hgv
      exact ⟨a, by simp [e, b], c⟩
  · intro m g v hg hgv
    obtain ⟨a, b, c, d⟩ := h3 m g v hg hgv
    have hne : g ≠ g0 := by
      intro e
      subst e
      rw [hnoA m] at hgv
      exact Option.noConfusion hgv
    exact ⟨a, by simp [hne, b], by simp [hne, c], d⟩
  · intro g hg
    by_cases e : g = g0
    · simp [e] at hg
    · simp only [e, if_false] at hg ⊢
      exact h4 g hg


theorem markersConsistent_claim (objs : List (String × String)) (m0 g0 : String)
    (h : MarkersConsistent objs)
    (hu : mapFind objs (getUnassignedPrefixedKey g0) ≠ none) :
    MarkersConsistent
      (mapErase (mapSet objs (getAssignedPrefixedKey m0 g0) "ASSIGNED")
        (getUnassignedPrefixedKey g0)) := by
  obtain ⟨h1, h2, h3, h4⟩ := h
  obtain ⟨u, hu'⟩ := Option.ne_none_iff_exists'.mp hu
  obtain ⟨_, hrow0, hnoA⟩ := h2 g0 u hu'
  have hval0 : validId g0 := by
    obtain ⟨w, hw⟩ := Option.ne_none_iff_exists'.mp hrow0
    exact (h1 g0 w hw).1
  have hvalid : ∀ g, mapFind objs (getResourceGroupPrefixedKey g) ≠ none → '/' ∉ g.data := by
    intro g hg
    obtain ⟨w, hw⟩ := Option.ne_none_iff_exists'.mp hg
    exact (h1 g w hw).1.2
  unfold MarkersConsistent
  simp only [mapFind_mapErase, mapFind_mapSet, group_ne_unassigned, group_ne_assigned,
    unassigned_ne_assigned, Ne.symm (unassigned_ne_assigned _ _ _),
    unassignedKey_inj, if_false]
  refine ⟨h1, ?_, ?_, ?_⟩
  · intro g v hgv
    split at hgv
    · exact Option.noConfusion hgv
    · rename_i e
      obtain ⟨a, b, c⟩ := h2 g v hgv
      refine ⟨a, b, ?_⟩
      intro m
      have hk : getAssignedPrefixedKey m g ≠ getAssignedPrefixedKey m0 g0 := by
        intro ek
        exact e ((assignedKey_inj m g m0 g0 (hvalid g b) hval0.2).mp ek).2
      simp [hk, c m]
  · intro m g v hg hgv
    by_cases ek : getAssignedPrefixedKey m g = getAssignedPrefixedKey m0 g0
    · obtain ⟨em, eg⟩ := (assignedKey_inj m g m0 g0 hg hval0.2).mp ek
      subst em eg
      simp only [if_true] at hgv
      cases hgv
      refine ⟨rfl, hrow0, by simp, ?_⟩
      intro m' hm'
      by_contra hne
      have hk : getAssignedPrefixedKey m' g ≠ getAssignedPrefixedKey m g := by
        intro e2
        exact hne ((assignedKey_inj_left m' m g).mp e2)
      simp [hk, hnoA m'] at hm'
    · simp only [ek, if_false] at hgv
      obtain ⟨a, b, c, d⟩ := h3 m g v hg hgv
      have hne : g ≠ g0 := by
        intro e
        subst e
        rw [c] at hu'
        exact Option.noConfusion hu'
      refine ⟨a, b, by simp [hne, c], ?_⟩
      intro m' hm'
      have hk : getAssignedPrefixedKey m' g ≠ getAssignedPrefixedKey m0 g0 := by
        intro e2
        exact hne ((assignedKey_inj m' g m0 g0 hg hval0.2).mp e2).2
      simp only [hk, if_false] at hm'
      exact d m' hm'
  · intro g hg
    by_cases e : g = g0
    · subst e
      right
      exact ⟨m0, by simp⟩
    · rcases h4 g hg with hU | ⟨m, hm⟩
      · left; simp [e, hU]
      · right
        refine ⟨m, ?_⟩
        split
        · simp
        · exact hm

theorem markersConsistent_drop (objs : List (String × String)) (m0 g0 : String)
    (h : MarkersConsistent objs) (hg0 : '/' ∉ g0.data)
    (ha : mapFind objs (getAssignedPrefixedKey m0 g0) ≠ none) :
    MarkersConsistent
      (mapErase (mapSet objs (getUnassignedPrefixedKey g0) "UNASSIGNED")
        (getAssignedPrefixedKey m0 g0)) := by
  obtain ⟨h1, h2, h3, h4⟩ := h
  obtain ⟨a0, ha'⟩ := Option.ne_none_iff_exists'.mp ha
  obtain ⟨_, hrow0, hnoU, huniq⟩ := h3 m0 g0 a0 hg0 ha'
  have hvalid : ∀ g, mapFind objs (getResourceGroupPrefixedKey g) ≠ none → '/' ∉ g.data := by
    intro g hg
    obtain ⟨w, hw⟩ := Option.ne_none_iff_exists'.mp hg
    exact (h1 g w hw).1.2
  unfold MarkersConsistent
  simp only [mapFind_mapErase, mapFind_mapSet, group_ne_unassigned, group_ne_assigned,
    unassigned_ne_assigned, Ne.symm (unassigned_ne_assigned _ _ _),
    unassignedKey_inj, if_false]
  refine ⟨h1, ?_, ?_, ?_⟩
  · intro g v hgv
    split at hgv
    · rename_i e
      cases hgv
      subst e
      refine ⟨rfl, hrow0, ?_⟩
      intro m
      split
      · rfl
      · rename_i hk
        cases hf : mapFind objs (getAssignedPrefixedKey m g) with
        | none => rfl
        | some w =>
          have := huniq m (by rw [hf]; simp)
          subst this
          exact absurd rfl hk
    · obtain ⟨a, b, c⟩ := h2 g v hgv
      refine ⟨a, b, ?_⟩
      intro m
      split
      · rfl
      · exact c m
  · intro m g v hg hgv
    split at hgv
    · exact Option.noConfusion hgv
    · rename_i hk
      obtain ⟨a, b, c, d⟩ := h3 m g v hg hgv
      have hne : g ≠ g0 := by
        intro e
        subst e
        have := huniq m (by rw [hgv]; simp)
        subst this
        exact hk rfl
      refine ⟨a, b, by simp [hne, c], ?_⟩
      intro m' hm'
      split at hm'
      · exact absurd rfl hm'
      · exact d m' hm'
  · intro g hg
    by_cases e : g = g0
    · left; simp [e]
    · rcases h4 g hg with hU | ⟨m, hm⟩
      · left; simp [e, hU]
      · right
        refine ⟨m, ?_⟩
        have hk : getAssignedPrefixedKey m g ≠ getAssignedPrefixedKey m0 g0 := by
          intro e2
          exact e ((assignedKey_inj m g m0 g0 (hvalid g hg) hg0).mp e2).2
        simp [hk, hm]

end GlobalState

namespace S3DataStore

theorem addItem_valid (d : S3DataStore) (key item : String) (h1 : key ≠ "")
    (h2 : notDotKey key = true) :
    (d.addItem key item).1 = true
      ∧ (d.addItem key item).2.objects = mapSet d.objects key item := by
  simp [addItem, h1, h2]

theorem deleteItem_valid (d : S3DataStore) (key : String) (h1 : key ≠ "") :
    (d.deleteItem key).1 = true
      ∧ (d.deleteItem key).2.objects = mapErase d.objects key := by
  unfold deleteItem
  by_cases h2 : notDotKey key = true <;> simp [h1, h2]

theorem getItem_eq_find (d : S3DataStore) (key : String) (h1 : key ≠ "") :
    d.getItem key = (mapFind d.objects key).getD "" := by
  simp [getItem, h1]

theorem find_of_getItem (d : S3DataStore) (key v : String) (hv : v ≠ "")
    (h : d.getItem key = v) : mapFind d.objects key = some v := by
  unfold getItem at h
  split at h
  · cases hf : mapFind d.objects key with
    | none => rw [hf] at h; exact absurd h.symm hv
    | some w => rw [hf] at h; simp at h; rw [h]
  · exact absurd h.symm hv

end S3DataStore

namespace GlobalState

theorem claim_consistent (st : GlobalState) (m g : String)
    (h : MarkersConsistent st._dataStore.objects) :
    MarkersConsistent (claimManagedResourceGroup st m g).2._dataStore.objects := by
  obtain ⟨ha1, ha2⟩ := assignedKey_valid m g
  obtain ⟨hu1, _⟩ := unassignedKey_valid g
  by_cases hc : st._dataStore.getItem (getUnassignedPrefixedKey g) = "UNASSIGNED"
  · have hf := S3DataStore.find_of_getItem _ _ _ (by decide) hc
    obtain ⟨a1, a2⟩ := S3DataStore.addItem_valid st._dataStore _ "ASSIGNED" ha1 ha2
    obtain ⟨_, d2⟩ := S3DataStore.deleteItem_valid
      (st._dataStore.addItem (getAssignedPrefixedKey m g) "ASSIGNED").2 _ hu1
    have e : (claimManagedResourceGroup st m g).2._dataStore.objects
        = mapErase (mapSet st._dataStore.objects (getAssignedPrefixedKey m g) "ASSIGNED")
            (getUnassignedPrefixedKey g) := by
      simp only [claimManagedResourceGroup, hc, a1, if_true]
      rw [d2, a2]
    rw [e]
    exact markersConsistent_claim _ m g h (by rw [hf]; simp)
  · simpa [claimManagedResourceGroup, hc] using h

theorem drop_consistent (st : GlobalState) (m g : String) (hg : '/' ∉ g.data)
    (h : MarkersConsistent st._dataStore.objects) :
    MarkersConsistent (dropManagedResourceGroup st m g).2._dataStore.objects := by
  obtain ⟨ha1, _⟩ := assignedKey_valid m g
  obtain ⟨hu1, hu2⟩ := unassignedKey_valid g
  by_cases hc : st._dataStore.getItem (getAssignedPrefixedKey m g) = "ASSIGNED"
  · have hf := S3DataStore.find_of_getItem _ _ _ (by decide) hc
    obtain ⟨a1, a2⟩ := S3DataStore.addItem_valid st._dataStore _ "UNASSIGNED" hu1 hu2
    obtain ⟨_, d2⟩ := S3DataStore.deleteItem_valid
      (st._dataStore.addItem (getUnassignedPrefixedKey g) "UNASSIGNED").2 _ ha1
    have e : (dropManagedResourceGroup st m g).2._dataStore.objects
        = mapErase (mapSet st._dataStore.objects (getUnassignedPrefixedKey g) "UNASSIGNED")
            (getAssignedPrefixedKey m g) := by
      simp only [dropManagedResourceGroup, hc, a1, if_true]
      rw [d2, a2]
    rw [e]
    exact markersConsistent_drop _ m g h hg (by rw [hf]; simp)
  · simpa [dropManagedResourceGroup, hc] using h

theorem add_consistent (codec : FileStringCodec)
    (hpack : ∀ v : List String, v.length = 4 → codec.getFileString v ≠ "")
    (st : GlobalState) (g : String) (hg : validId g)
    (h : MarkersConsistent st._dataStore.objects) :
    MarkersConsistent (addResourceGroup codec st g).2._dataStore.objects := by
  obtain ⟨hr1, hr2⟩ := groupKey_valid g
  obtain ⟨hu1, hu2⟩ := unassignedKey_valid g
  unfold addResourceGroup
  by_cases hm : st._accessMode = Mode.READ_WRITE
  · by_cases hc : g ≠ "" ∧ st._dataStore.getItem (getResourceGroupPrefixedKey g) = ""
    · have hrow : mapFind st._dataStore.objects (getResourceGroupPrefixedKey g) = none := by
        cases hf : mapFind st._dataStore.objects (getResourceGroupPrefixedKey g) with
        | none => rfl
        | some w =>
          have hw := (h.1 g w hf).2
          have := hc.2
          rw [S3DataStore.getItem_eq_find _ _ hr1, hf] at this
          exact absurd this hw
      obtain ⟨a1, a2⟩ := S3DataStore.addItem_valid st._dataStore _
        (codec.getFileString ["0", "0", "0", "0"]) hr1 hr2
      obtain ⟨_, b2⟩ := S3DataStore.addItem_valid
        (st._dataStore.addItem (getResourceGroupPrefixedKey g)
          (codec.getFileString ["0", "0", "0", "0"])).2 _ "UNASSIGNED" hu1 hu2
      simp only [hm, hc, a1, if_true, and_self, ne_eq, not_false_eq_true]
      rw [b2, a2]
      exact markersConsistent_add _ g _ h hg hrow (hpack _ rfl)
    · simpa [hm, hc] using h
  · simpa [hm] using h

theorem remove_consistent (codec : FileStringCodec) (st : GlobalState) (g : String)
    (h : MarkersConsistent st._dataStore.objects) :
    MarkersConsistent (removeResourceGroup codec st g).2._dataStore.objects := by
  obtain ⟨hr1, _⟩ := groupKey_valid g
  obtain ⟨hu1, _⟩ := unassignedKey_valid g
  unfold removeResourceGroup
  by_cases hm : st._accessMode = Mode.READ_WRITE
  · by_cases hc : g ≠ "" ∧ st._dataStore.getItem (getUnassignedPrefixedKey g) = "UNASSIGNED"
    · have hf := S3DataStore.find_of_getItem _ _ _ (by decide) hc.2
      simp only [hm, hc, if_true, and_self, ne_eq, not_false_eq_true]
      split
      · split
        · exact h
        · split
          · obtain ⟨_, d1⟩ := S3DataStore.deleteItem_valid st._dataStore _ hr1
            obtain ⟨_, d2⟩ := S3DataStore.deleteItem_valid
              (st._dataStore.deleteItem (getResourceGroupPrefixedKey g)).2 _ hu1
            simp only
            rw [d2, d1]
            exact markersConsistent_remove _ g h (by rw [hf]; simp)
          · exact h
      · exact h
    · simpa [hm, hc] using h
  · simpa [hm] using h


theorem row_present_of_details (codec : FileStringCodec)
    (hparse : ∀ v : List String, codec.parseFileString "" = some v → v.length < 4)
    (st : GlobalState) (g : String) (h : (currDetailsVect codec st g).length ≥ 4) :
    mapFind st._dataStore.objects (getResourceGroupPrefixedKey g) ≠ none := by
  intro hf
  have hget : st._dataStore.getItem (getResourceGroupPrefixedKey g) = "" := by
    rw [S3DataStore.getItem_eq_find _ _ (groupKey_valid g).1, hf]
    rfl
  unfold currDetailsVect at h
  rw [hget] at h
  cases hp : codec.parseFileString "" with
  | none => rw [hp] at h; simp at h
  | some v =>
    rw [hp] at h
    have := hparse v hp
    simp only at h
    omega

theorem setResource_consistent (codec : FileStringCodec)
    (hpack : ∀ v : List String, v.length = 4 → codec.getFileString v ≠ "")
    (hparse : ∀ v : List String, codec.parseFileString "" = some v → v.length < 4)
    (st : GlobalState) (g r : String) (resource : Option Resource)
    (h : MarkersConsistent st._dataStore.objects) :
    MarkersConsistent (setResourceInGroup codec st g r resource).2._dataStore.objects := by
  obtain ⟨hr1, hr2⟩ := groupKey_valid g
  obtain ⟨hk1, hk2⟩ := resourceKey_valid g r
  unfold setResourceInGroup
  cases resource with
  | none => exact h
  | some res =>
    simp only
    split
    · split
      · split
        · exact h
        · split
          · rename_i hlen
            split
            · exact h
            · obtain ⟨a1, a2⟩ := S3DataStore.addItem_valid st._dataStore
                (getResourcePrefixedKey g r)
                ((SimpleResourceWrapper.ofResource codec res).getFileString codec) hk1 hk2
              simp only [a1, if_true]
              have b2 := fun item => (S3DataStore.addItem_valid
                (st._dataStore.addItem (getResourcePrefixedKey g r)
                  ((SimpleResourceWrapper.ofResource codec res).getFileString codec)).2
                (getResourceGroupPrefixedKey g) item hr1 hr2).2
              rw [b2]
              rw [a2]
              refine markersConsistent_rewriteGroup _ g _
                (markersConsistent_setResource _ g r _ h) ?_ (hpack _ rfl)
              rw [mapFind_mapSet, if_neg (group_ne_resource _ _ _)]
              exact row_present_of_details codec hparse st g hlen
          · exact h
      · exact h
    · exact h


theorem removeResource_consistent (codec : FileStringCodec)
    (hpack : ∀ v : List String, v.length = 4 → codec.getFileString v ≠ "")
    (hparse : ∀ v : List String, codec.parseFileString "" = some v → v.length < 4)
    (st : GlobalState) (g r : String)
    (h : MarkersConsistent st._dataStore.objects) :
    MarkersConsistent (removeResourceInGroup codec st g r).2._dataStore.objects := by
  obtain ⟨hr1, hr2⟩ := groupKey_valid g
  obtain ⟨hk1, _⟩ := resourceKey_valid g r
  obtain ⟨_, d2⟩ := S3DataStore.deleteItem_valid st._dataStore (getResourcePrefixedKey g r) hk1
  have herase : MarkersConsistent
      (st._dataStore.deleteItem (getResourcePrefixedKey g r)).2.objects := by
    rw [d2]
    exact markersConsistent_eraseResource _ g r h
  unfold removeResourceInGroup
  split
  · split
    · simp only
      split
      · rename_i hlen
        split
        · exact h
        · split
          · split
            · exact herase
            · have b2 := fun item => (S3DataStore.addItem_valid
                (st._dataStore.deleteItem (getResourcePrefixedKey g r)).2
                (getResourceGroupPrefixedKey g) item hr1 hr2).2
              simp only
              rw [b2]
              refine markersConsistent_rewriteGroup _ g _ herase ?_ (hpack _ rfl)
              rw [d2, mapFind_mapErase, if_neg (group_ne_resource _ _ _)]
              exact row_present_of_details codec hparse st g hlen
          · exact herase
      · exact h
    · exact h
  · exact h

/-- Every call with valid ids keeps the rows and markers consistent. -/
theorem applyOperation_consistent (codec : FileStringCodec)
    (hpack : ∀ v : List String, v.length = 4 → codec.getFileString v ≠ "")
    (hparse : ∀ v : List String, codec.parseFileString "" = some v → v.length < 4)
    (st : GlobalState) (op : Operation) (hop : op.idsValid)
    (h : MarkersConsistent st._dataStore.objects) :
    MarkersConsistent (applyOperation codec st op)._dataStore.objects := by
  cases op with
  | addResourceGroup g => exact add_consistent codec hpack st g hop h
  | removeResourceGroup g => exact remove_consistent codec st g h
  | claimManagedResourceGroup m g => exact claim_consistent st m g h
  | dropManagedResourceGroup m g => exact drop_consistent st m g hop.2.2 h
  | setResourceInGroup g r resource =>
    exact setResource_consistent codec hpack hparse st g r resource h
  | removeResourceInGroup g r => exact removeResource_consistent codec hpack hparse st g r h

theorem applyOperations_consistent (codec : FileStringCodec)
    (hpack : ∀ v : List String, v.length = 4 → codec.getFileString v ≠ "")
    (hparse : ∀ v : List String, codec.parseFileString "" = some v → v.length < 4)
    (ops : List Operation) (st : GlobalState) (hops : ∀ op ∈ ops, op.idsValid)
    (h : MarkersConsistent st._dataStore.objects) :
    MarkersConsistent (applyOperations codec st ops)._dataStore.objects := by
  induction ops generalizing st with
  | nil => exact h
  | cons op rest ih =>
    exact ih (applyOperation codec st op)
      (fun o ho => hops o (List.mem_cons_of_mem _ ho))
      (applyOperation_consistent codec hpack hparse st op (hops op (by simp)) h)

/-- Claim C6.  Starting from an empty store in READ_WRITE mode, after any
sequence of `addResourceGroup`, `removeResourceGroup`,
`claimManagedResourceGroup`, `dropManagedResourceGroup`, `setResourceInGroup`
and `removeResourceInGroup` calls with valid ids, every group that has a
ResourceGroups row has exactly one assignment marker: either its Unassigned
marker and no Assigned marker, or no Unassigned marker and an Assigned marker
under exactly one manager id.  The file-string encoding is any one that packs
four fields into a non-empty string and does not parse the empty string into
four fields or more. -/
theorem group_has_exactly_one_marker (codec : FileStringCodec)
    (hpack : ∀ v : List String, v.length = 4 → codec.getFileString v ≠ "")
    (hparse : ∀ v : List String, codec.parseFileString "" = some v → v.length < 4)
    (ops : List Operation) (hops : ∀ op ∈ ops, op.idsValid) (g : String)
    (hrow : mapFind (applyOperations codec emptyReadWrite ops)._dataStore.objects
      (getResourceGroupPrefixedKey g) ≠ none) :
    (mapFind (applyOperations codec emptyReadWrite ops)._dataStore.objects
          (getUnassignedPrefixedKey g) ≠ none
        ∧ ∀ m, mapFind (applyOperations codec emptyReadWrite ops)._dataStore.objects
          (getAssignedPrefixedKey m g) = none)
      ∨ (mapFind (applyOperations codec emptyReadWrite ops)._dataStore.objects
          (getUnassignedPrefixedKey g) = none
        ∧ ∃ m, mapFind (applyOperations codec emptyReadWrite ops)._dataStore.objects
            (getAssignedPrefixedKey m g) ≠ none
          ∧ ∀ m', mapFind (applyOperations codec emptyReadWrite ops)._dataStore.objects
            (getAssignedPrefixedKey m' g) ≠ none → m' = m) := by
  have hinit : MarkersConsistent emptyReadWrite._dataStore.objects := by
    simp [MarkersConsistent, emptyReadWrite, mapFind]
  obtain ⟨h1, h2, h3, h4⟩ :=
    applyOperations_consistent codec hpack hparse ops emptyReadWrite hops hinit
  have hval : '/' ∉ g.data := by
    obtain ⟨w, hw⟩ := Option.ne_none_iff_exists'.mp hrow
    exact (h1 g w hw).1.2
  rcases h4 g hrow with hU | ⟨m, hm⟩
  · left
    obtain ⟨u, hu⟩ := Option.ne_none_iff_exists'.mp hU
    exact ⟨hU, (h2 g u hu).2.2⟩
  · right
    obtain ⟨a, ha⟩ := Option.ne_none_iff_exists'.mp hm
    obtain ⟨_, _, c, d⟩ := h3 m g a hval ha
    exact ⟨c, m, hm, d⟩

/-- Witness for claim C6: group `g` is added and claimed by `N1`; it has its
row and exactly the Assigned marker of `N1`. -/
theorem group_has_exactly_one_marker_witness :
    (mapFind (applyOperations witnessCodec emptyReadWrite
          [Operation.addResourceGroup "g", Operation.claimManagedResourceGroup "N1" "g"]
        )._dataStore.objects (getUnassignedPrefixedKey "g") ≠ none
        ∧ ∀ m, mapFind (applyOperations witnessCodec emptyReadWrite
          [Operation.addResourceGroup "g", Operation.claimManagedResourceGroup "N1" "g"]
        )._dataStore.objects (getAssignedPrefixedKey m "g") = none)
      ∨ (mapFind (applyOperations witnessCodec emptyReadWrite
          [Operation.addResourceGroup "g", Operation.claimManagedResourceGroup "N1" "g"]
        )._dataStore.objects (getUnassignedPrefixedKey "g") = none
        ∧ ∃ m, mapFind (applyOperations witnessCodec emptyReadWrite
            [Operation.addResourceGroup "g", Operation.claimManagedResourceGroup "N1" "g"]
          )._dataStore.objects (getAssignedPrefixedKey m "g") ≠ none
          ∧ ∀ m', mapFind (applyOperations witnessCodec emptyReadWrite
            [Operation.addResourceGroup "g", Operation.claimManagedResourceGroup "N1" "g"]
          )._dataStore.objects (getAssignedPrefixedKey m' "g") ≠ none → m' = m) :=
  group_has_exactly_one_marker witnessCodec
    (by intro v _; simp [witnessCodec, String.ext_iff])
    (by intro v hv; simp [witnessCodec] at hv)
    [Operation.addResourceGroup "g", Operation.claimManagedResourceGroup "N1" "g"]
    (by decide) "g" (by decide)

end GlobalState

/-! ## Theorems: ResourceManager -/

namespace ResourceManager
open GlobalState

theorem wonClaimMaster_inQuorum : wonClaimMaster.isInQuorum = true := by
  rw [MasterNode.isInQuorum_eq_decide]
  decide

theorem wonClaim_handled :
    handleProposal wonClaimManager wonClaimManager._globalState
        ⟨0, 2, Operation.MANAGE, "", "g", ["N2", "N3"], []⟩
      = (true, ⟨1, 2, Operation.MANAGE, "", "g", ["N2", "N3"], []⟩,
          ⟨Mode.READ_ONLY,
            ⟨[("ResourceGroups/g", "#0,0,0,0"), ("Assignments/Assigned//g", "ASSIGNED")],
             16⟩⟩) := by
  have hq : wonClaimManager.toMasterNode.isInQuorum = true := wonClaimMaster_inQuorum
  unfold handleProposal
  rw [hq]
  decide

theorem wonClaim_loop :
    (handleResourceEventLoop wonClaimManager)._pendingRequests = []
      ∧ (handleResourceEventLoop wonClaimManager)._globalState
          = ⟨Mode.READ_ONLY,
              ⟨[("ResourceGroups/g", "#0,0,0,0"), ("Assignments/Assigned//g", "ASSIGNED")],
               16⟩⟩ := by
  have e : wonClaimManager._pendingRequests
      = [("g", ⟨0, 2, Operation.MANAGE, "", "g", ["N2", "N3"], []⟩)] := rfl
  have e2 : wonClaimManager._removedResources = [] := rfl
  simp only [handleResourceEventLoop]
  rw [e, e2]
  simp only [handlePendingRequests, wonClaim_handled, dropRemovedResources]
  decide

/-- Claim C7, evaluated on the code.  The member `_nodeId` of a constructed
`ResourceManager` is the empty string, whatever the id of its master is.  The
master of `wonClaimManager` reports `5e3a` as `SelfInstance`; the manager
names itself by the empty id in its claim requests, and after the resource
loop has committed the won claim of `g` the Assigned marker of `g` stands
under the empty manager id: `listManagedResourceGroups` yields `g` for the
empty id and nothing for `5e3a`. -/
theorem claim_committed_under_empty_manager_id :
    (∀ (randomSha hostname : String) (port : Int) (dataStore : S3DataStore),
        (ResourceManager.new randomSha hostname port dataStore)._nodeId = ""
          ∧ (randomSha ≠ "" →
              (ResourceManager.new randomSha hostname port dataStore).toMasterNode._nodeId
                ≠ (ResourceManager.new randomSha hostname port dataStore)._nodeId))
      ∧ mapFind (MasterNode.handlerGetClusterStatus wonClaimManager.toMasterNode).body "5e3a"
          = some "SelfInstance"
      ∧ mapFind (claimRequestBody wonClaimManager "g") "ResourceManagerId" = some ""
      ∧ (handleResourceEventLoop wonClaimManager)._pendingRequests = []
      ∧ mapFind (handleResourceEventLoop wonClaimManager)._globalState._dataStore.objects
          (getAssignedPrefixedKey "" "g") = some "ASSIGNED"
      ∧ (handleResourceEventLoop wonClaimManager)._globalState.listManagedResourceGroups ""
          = ["g"]
      ∧ (handleResourceEventLoop wonClaimManager)._globalState.listManagedResourceGroups
          "5e3a" = [] := by
  refine ⟨?_, ?_, ?_, wonClaim_loop.1, ?_, ?_, ?_⟩
  · intro randomSha hostname port dataStore
    refine ⟨rfl, ?_⟩
    intro h
    simpa [ResourceManager.new, MasterNode.new] using h
  · decide
  · decide
  · rw [wonClaim_loop.2]; decide
  · rw [wonClaim_loop.2]; decide
  · rw [wonClaim_loop.2]; decide

namespace ResourceRequest

/-- The lists of a request have no duplicates and no common voter. -/
theorem vote_keeps_lists_sound (r : ResourceRequest) (voter : String) (v : Vote)
    (h : r._yayVotes.Nodup ∧ r._nayVotes.Nodup ∧ ∀ x ∈ r._yayVotes, x ∉ r._nayVotes) :
    (r.vote voter v).2._yayVotes.Nodup ∧ (r.vote voter v).2._nayVotes.Nodup
      ∧ ∀ x ∈ (r.vote voter v).2._yayVotes, x ∉ (r.vote voter v).2._nayVotes := by
  obtain ⟨h1, h2, h3⟩ := h
  unfold vote
  by_cases hc : voter ∉ r._yayVotes ∧ voter ∉ r._nayVotes
  · cases v with
    | YAY =>
      simp only [hc, not_false_eq_true, and_self, if_true]
      refine ⟨?_, h2, ?_⟩
      · rw [List.nodup_append]
        refine ⟨h1, List.nodup_singleton _, ?_⟩
        intro a ha hb
        rw [List.mem_singleton] at hb
        exact hc.1 (hb ▸ ha)
      · intro x hx
        rw [List.mem_append, List.mem_singleton] at hx
        rcases hx with hx | hx
        · exact h3 x hx
        · rw [hx]; exact hc.2
    | NAY =>
      simp only [hc, not_false_eq_true, and_self, if_true]
      refine ⟨h1, ?_, ?_⟩
      · rw [List.nodup_append]
        refine ⟨h2, List.nodup_singleton _, ?_⟩
        intro a ha hb
        rw [List.mem_singleton] at hb
        exact hc.2 (hb ▸ ha)
      · intro x hx hn
        rw [List.mem_append, List.mem_singleton] at hn
        rcases hn with hn | hn
        · exact h3 x hx hn
        · exact hc.1 (hn ▸ hx)
  · simp only [hc, if_false]
    exact ⟨h1, h2, h3⟩

/-- A vote call never removes a recorded voter. -/
theorem vote_keeps_voters (r : ResourceRequest) (voter : String) (v : Vote) :
    (∀ x ∈ r._yayVotes, x ∈ (r.vote voter v).2._yayVotes)
      ∧ (∀ x ∈ r._nayVotes, x ∈ (r.vote voter v).2._nayVotes) := by
  unfold vote
  by_cases hc : voter ∉ r._yayVotes ∧ voter ∉ r._nayVotes
  · cases v <;> simp only [hc, not_false_eq_true, and_self, if_true] <;>
      exact ⟨fun x hx => by simp [hx], fun x hx => by simp [hx]⟩
  · simp only [hc, if_false]
    exact ⟨fun _ hx => hx, fun _ hx => hx⟩

theorem votes_keeps_lists_sound (calls : List (String × Vote)) (r : ResourceRequest)
    (h : r._yayVotes.Nodup ∧ r._nayVotes.Nodup ∧ ∀ x ∈ r._yayVotes, x ∉ r._nayVotes) :
    (r.votes calls)._yayVotes.Nodup ∧ (r.votes calls)._nayVotes.Nodup
      ∧ ∀ x ∈ (r.votes calls)._yayVotes, x ∉ (r.votes calls)._nayVotes := by
  induction calls generalizing r with
  | nil => exact h
  | cons call rest ih => exact ih _ (vote_keeps_lists_sound r call.1 call.2 h)

theorem votes_keeps_voters (calls : List (String × Vote)) (r : ResourceRequest) :
    (∀ x ∈ r._yayVotes, x ∈ (r.votes calls)._yayVotes)
      ∧ (∀ x ∈ r._nayVotes, x ∈ (r.votes calls)._nayVotes) := by
  induction calls generalizing r with
  | nil => exact ⟨fun _ hx => hx, fun _ hx => hx⟩
  | cons call rest ih =>
    obtain ⟨a1, a2⟩ := vote_keeps_voters r call.1 call.2
    obtain ⟨b1, b2⟩ := ih (r.vote call.1 call.2).2
    exact ⟨fun x hx => b1 x (a1 x hx), fun x hx => b2 x (a2 x hx)⟩

theorem votes_append (r : ResourceRequest) (calls later : List (String × Vote)) :
    r.votes (calls ++ later) = (r.votes calls).votes later := by
  simp [votes, List.foldl_append]

/-- Claim C8.  `vote` returns true exactly when the voter is in neither list,
and then appends the voter to the list of its vote and leaves the other list
as it is; otherwise it returns false and the request is unchanged.  After any
sequence of vote calls on a new request the two lists are duplicate-free and
disjoint, and a voter recorded on one side stays on that side, and off the
other, through all later calls. -/
theorem vote_single_shot :
    (∀ (r : ResourceRequest) (voter : String) (v : Vote),
        ((r.vote voter v).1 = true ↔ (voter ∉ r._yayVotes ∧ voter ∉ r._nayVotes))
          ∧ ((r.vote voter v).1 = true →
              (r.vote voter v).2
                = match v with
                  | Vote.YAY => { r with _yayVotes := r._yayVotes ++ [voter] }
                  | Vote.NAY => { r with _nayVotes := r._nayVotes ++ [voter] })
          ∧ ((r.vote voter v).1 = false → (r.vote voter v).2 = r))
      ∧ (∀ (managerId : String) (op : Operation) (group : String) (quorum : Int) (rand : Nat)
          (calls later : List (String × Vote)) (voter : String),
          ((new managerId op group quorum rand).votes calls)._yayVotes.Nodup
            ∧ ((new managerId op group quorum rand).votes calls)._nayVotes.Nodup
            ∧ (∀ x ∈ ((new managerId op group quorum rand).votes calls)._yayVotes,
                x ∉ ((new managerId op group quorum rand).votes calls)._nayVotes)
            ∧ (voter ∈ ((new managerId op group quorum rand).votes calls)._yayVotes →
                voter ∈ ((new managerId op group quorum rand).votes (calls ++ later))._yayVotes
                  ∧ voter
                    ∉ ((new managerId op group quorum rand).votes (calls ++ later))._nayVotes)
            ∧ (voter ∈ ((new managerId op group quorum rand).votes calls)._nayVotes →
                voter ∈ ((new managerId op group quorum rand).votes (calls ++ later))._nayVotes
                  ∧ voter
                    ∉ ((new managerId op group quorum rand).votes
                        (calls ++ later))._yayVotes)) := by
  refine ⟨?_, ?_⟩
  · intro r voter v
    unfold vote
    by_cases hc : voter ∉ r._yayVotes ∧ voter ∉ r._nayVotes
    · cases v <;> simp [hc]
    · simp only [hc, if_false]
      simp
  · intro managerId op group quorum rand calls later voter
    have h0 : (new managerId op group quorum rand)._yayVotes.Nodup
        ∧ (new managerId op group quorum rand)._nayVotes.Nodup
        ∧ ∀ x ∈ (new managerId op group quorum rand)._yayVotes,
            x ∉ (new managerId op group quorum rand)._nayVotes := by
      simp [new]
    obtain ⟨a1, a2, a3⟩ := votes_keeps_lists_sound calls _ h0
    obtain ⟨b1, b2, b3⟩ := votes_keeps_lists_sound (calls ++ later) _ h0
    obtain ⟨c1, c2⟩ := votes_keeps_voters later
      ((new managerId op group quorum rand).votes calls)
    rw [votes_append] at b3 ⊢
    refine ⟨a1, a2, a3, ?_, ?_⟩
    · intro hv
      exact ⟨c1 voter hv, b3 voter (c1 voter hv)⟩
    · intro hv
      exact ⟨c2 voter hv, fun hy => b3 voter hy (c2 voter hv)⟩

/-- Witness for claim C8: a first vote of `N2` is registered, a second vote of
`N2` on the other side is refused. -/
theorem vote_single_shot_witness :
    ((new "" Operation.MANAGE "g" 2 0).vote "N2" Vote.YAY).1 = true
      ∧ (((new "" Operation.MANAGE "g" 2 0).vote "N2" Vote.YAY).2.vote "N2" Vote.NAY).2
          = ((new "" Operation.MANAGE "g" 2 0).vote "N2" Vote.YAY).2 :=
  ⟨((vote_single_shot.1 (new "" Operation.MANAGE "g" 2 0) "N2" Vote.YAY).1).mpr (by decide),
   (vote_single_shot.1 ((new "" Operation.MANAGE "g" 2 0).vote "N2" Vote.YAY).2 "N2"
      Vote.NAY).2.2 (by decide)⟩

end ResourceRequest

/-- The body of every reply of the vote handler has no entry under `VOTE`
before the handler reads that key. -/
theorem reply_body_find (vote managerId resourceGroup operation key : String)
    (hkey : key ≠ "VOTE") :
    mapFind (mapIndex [("Vote", vote), ("ResourceManagerId", managerId),
        ("ResourceGroup", resourceGroup), ("ResourceOperation", operation)] "VOTE").2 key
      = mapFind [("Vote", vote), ("ResourceManagerId", managerId),
        ("ResourceGroup", resourceGroup), ("ResourceOperation", operation)] key :=
  mapIndex_find_ne _ _ _ hkey

theorem reply_body_read (vote managerId resourceGroup operation : String) :
    (mapIndex [("Vote", vote), ("ResourceManagerId", managerId),
        ("ResourceGroup", resourceGroup), ("ResourceOperation", operation)] "VOTE").1 = "" := by
  rw [mapIndex_fst]
  have h : mapFind [("Vote", vote), ("ResourceManagerId", managerId),
      ("ResourceGroup", resourceGroup), ("ResourceOperation", operation)] "VOTE" = none := by
    simp [mapFind]
  rw [h]
  rfl

/-- Claim C9.  The vote handler replies `YAY` exactly when the requested group
has no pending local proposal and either has no voting-history entry or has
one whose vote is YAY and whose manager id is the requesting one; in every
other case it replies `NAY`.  The reply carries the `ResourceManagerId`,
`ResourceGroup` and `ResourceOperation` of the request. -/
theorem handlerGetInternalMasterResources_vote (s : ResourceManager)
    (body : List (String × String)) (rand : Nat) :
    (mapFind (handlerGetInternalMasterResources s body rand).1.body "Vote" = some "YAY"
        ↔ (mapFind s._pendingRequests (bodyAt body "ResourceGroup") = none
            ∧ (mapFind s._votedOnItems (bodyAt body "ResourceGroup") = none
                ∨ ∃ history,
                    mapFind s._votedOnItems (bodyAt body "ResourceGroup") = some history
                      ∧ history._voteValue = Vote.YAY
                      ∧ history._resourceManagerId = bodyAt body "ResourceManagerId")))
      ∧ (mapFind (handlerGetInternalMasterResources s body rand).1.body "Vote" = some "YAY"
          ∨ mapFind (handlerGetInternalMasterResources s body rand).1.body "Vote"
              = some "NAY")
      ∧ mapFind (handlerGetInternalMasterResources s body rand).1.body "ResourceManagerId"
          = some (bodyAt body "ResourceManagerId")
      ∧ mapFind (handlerGetInternalMasterResources s body rand).1.body "ResourceGroup"
          = some (bodyAt body "ResourceGroup")
      ∧ mapFind (handlerGetInternalMasterResources s body rand).1.body "ResourceOperation"
          = some (bodyAt body "ResourceOperation") := by
  unfold handlerGetInternalMasterResources
  simp only
  cases hp : mapFind s._pendingRequests (bodyAt body "ResourceGroup") with
  | some proposal =>
    simp [reply_body_find, mapFind]
  | none =>
    cases hv : mapFind s._votedOnItems (bodyAt body "ResourceGroup") with
    | none => simp [reply_body_find, mapFind]
    | some history =>
      by_cases hc : history._voteValue = Vote.YAY
          ∧ history._resourceManagerId = bodyAt body "ResourceManagerId"
      · simp [reply_body_find, mapFind, hc]
      · have hc' : ¬ (history._voteValue = Vote.YAY
            ∧ history._resourceManagerId = bodyAt body "ResourceManagerId") := hc
        simp only [not_and] at hc
        simp [reply_body_find, mapFind, hc, hc']

/-- Claim C10, evaluated on the code.  The vote handler never changes the
state of the manager: the read `retObj.body["VOTE"]` finds no such key in a
body that carries `Vote`, so no voting history is recorded.  On a manager
without pending proposals and history, the request of `N1` for group `g` is
answered YAY, the history stays empty, and the request of `N2` for the same
group is answered YAY as well. -/
theorem yay_vote_not_recorded :
    (∀ (s : ResourceManager) (body : List (String × String)) (rand : Nat),
        (handlerGetInternalMasterResources s body rand).2._votedOnItems = s._votedOnItems)
      ∧ mapFind (handlerGetInternalMasterResources
            (ResourceManager.new "5e3a" "localhost" 9996 ⟨[], 0⟩)
            [("ResourceManagerId", "N1"), ("ResourceGroup", "g"),
             ("ResourceOperation", "MANAGE")] 7).1.body "Vote" = some "YAY"
      ∧ (handlerGetInternalMasterResources
            (ResourceManager.new "5e3a" "localhost" 9996 ⟨[], 0⟩)
            [("ResourceManagerId", "N1"), ("ResourceGroup", "g"),
             ("ResourceOperation", "MANAGE")] 7).2._votedOnItems = []
      ∧ mapFind (handlerGetInternalMasterResources
            (handlerGetInternalMasterResources
              (ResourceManager.new "5e3a" "localhost" 9996 ⟨[], 0⟩)
              [("ResourceManagerId", "N1"), ("ResourceGroup", "g"),
               ("ResourceOperation", "MANAGE")] 7).2
            [("ResourceManagerId", "N2"), ("ResourceGroup", "g"),
             ("ResourceOperation", "MANAGE")] 3).1.body "Vote" = some "YAY" := by
  refine ⟨?_, by decide, by decide, by decide⟩
  intro s body rand
  unfold handlerGetInternalMasterResources
  simp only
  split_ifs <;> simp_all [reply_body_read]

end ResourceManager

namespace ResourceManager

theorem claim_fold_keeps (s : ResourceManager) (g : String)
    (makeRequest : String → List (String × String) → ResponseObj) (nodes : List String) :
    ∀ pending : List (String × ResourceRequest),
      (∃ p, mapFind pending g = some p ∧ p._operationInQuestion = Operation.MANAGE
        ∧ p._resourceGroupInQuestion = g ∧ p._resourceManagerId = s._nodeId) →
      ∃ p, mapFind (nodes.foldl
        (fun pending masterNode =>
          if masterNode ≠ s._nodeId then
            let masterUrl := s.toMasterNode.getUrlForConnectedMasterNode masterNode
            let response := makeRequest (masterUrl ++ "/internal/master/resources")
              (claimRequestBody s g)
            if response.code < 300 then
              let vote : Vote :=
                if bodyAt response.body "Vote" = "YAY" then Vote.YAY else Vote.NAY
              match mapFind pending g with
              | some proposal =>
                if proposal.getResourceGroup = g then
                  mapSet pending g (proposal.vote masterNode vote).2
                else pending
              | none => pending
            else pending
          else pending) pending) g = some p ∧ p._operationInQuestion = Operation.MANAGE
        ∧ p._resourceGroupInQuestion = g ∧ p._resourceManagerId = s._nodeId := by
  induction nodes with
  | nil => intro pending h; simpa using h
  | cons n rest ih =>
    intro pending h
    rw [List.foldl_cons]
    apply ih
    obtain ⟨p, hp, h1, h2, h3⟩ := h
    by_cases hn : n ≠ s._nodeId
    · rw [if_pos hn]
      simp only [hp, ResourceRequest.getResourceGroup, h2, if_true]
      split_ifs
      all_goals first
        | exact ⟨p, hp, h1, h2, h3⟩
        | (refine ⟨_, mapFind_mapSet_self _ _ _, ?_⟩
           unfold ResourceRequest.vote
           split_ifs <;> simp [h1, h2, h3])
    · rw [if_neg hn]
      exact ⟨p, hp, h1, h2, h3⟩

namespace ResourceRequest

/-- C12: `didRequestPass` with the default pass rate is true exactly when
there are no NAY votes or twice the number of YAY votes exceeds the number of
NAY votes; every proposal with 2 YAY and 3 NAY votes therefore passes. -/
theorem didRequestPass_iff_double_yay_exceeds_nay :
    (∀ r : ResourceRequest, r.didRequestPass = true ↔
      (r._nayVotes.length = 0 ∨ 2 * r._yayVotes.length > r._nayVotes.length))
    ∧ (∀ r : ResourceRequest, r._yayVotes.length = 2 → r._nayVotes.length = 3 →
        r._yayVotes.length < r._nayVotes.length ∧ r.didRequestPass = true) := by
  have key : ∀ r : ResourceRequest, r.didRequestPass = true ↔
      (r._nayVotes.length = 0 ∨ 2 * r._yayVotes.length > r._nayVotes.length) := by
    intro r
    unfold didRequestPass
    rw [decide_eq_true_iff]
    by_cases h0 : r._nayVotes.length = 0
    · simp [h0]
    · have hpos : (0 : ℚ) < (r._nayVotes.length : ℚ) := by
        exact_mod_cast Nat.pos_of_ne_zero h0
      simp only [h0, false_or, gt_iff_lt]
      rw [lt_div_iff₀ hpos]
      constructor
      · intro h
        have h2 : ((r._nayVotes.length : ℚ)) < 2 * (r._yayVotes.length : ℚ) := by linarith
        exact_mod_cast h2
      · intro h
        have h2 : ((r._nayVotes.length : ℚ)) < 2 * (r._yayVotes.length : ℚ) := by exact_mod_cast h
        linarith
  refine ⟨key, ?_⟩
  intro r hy hn
  refine ⟨by omega, (key r).2 (Or.inr (by omega))⟩

end ResourceRequest

/-- C11: `handleClaimResourceRequest` proceeds exactly when the group HAS
local history.  For a group that is neither pending nor YAY-voted the state
is unchanged and no request is sent; for a group that is pending or YAY-voted
a fresh MANAGE proposal of this manager replaces or creates the pending entry
and a claim request goes to every connected master other than the manager. -/
theorem handleClaimResourceRequest_proceeds_iff_history :
    (∀ (s : ResourceManager) (g : String) (rand : Nat)
        (makeRequest : String → List (String × String) → ResponseObj),
        mapFind s._pendingRequests g = none →
        (∀ h, mapFind s._votedOnItems g = some h → h._voteValue ≠ Vote.YAY) →
        (handleClaimResourceRequest s g rand makeRequest)._pendingRequests = s._pendingRequests
          ∧ mapFind (handleClaimResourceRequest s g rand makeRequest)._pendingRequests g = none
          ∧ claimRequestsSent s g = [])
    ∧ (∀ (s : ResourceManager) (g : String) (rand : Nat)
        (makeRequest : String → List (String × String) → ResponseObj),
        (mapFind s._pendingRequests g ≠ none
          ∨ ∃ h, mapFind s._votedOnItems g = some h ∧ h._voteValue = Vote.YAY) →
        (∃ p, mapFind (handleClaimResourceRequest s g rand makeRequest)._pendingRequests g
            = some p
          ∧ p._operationInQuestion = Operation.MANAGE ∧ p._resourceGroupInQuestion = g
          ∧ p._resourceManagerId = s._nodeId)
        ∧ claimRequestsSent s g
          = (s.toMasterNode.getConnectedMasters.filter
              (fun masterNode => masterNode ≠ s._nodeId)).map
              (fun masterNode =>
                (s.toMasterNode.getUrlForConnectedMasterNode masterNode
                    ++ "/internal/master/resources",
                  claimRequestBody s g)))
    ∧ ((handleClaimResourceRequest freshClaimManager "g" 0
          (fun _ _ => ⟨200, [("Vote", "YAY")]⟩))._pendingRequests = []
        ∧ claimRequestsSent freshClaimManager "g" = []) := by
  refine ⟨?_, ?_, ?_⟩
  · intro s g rand makeRequest hp hv
    have hh : (decide (mapFind s._pendingRequests g ≠ none)
        || (match mapFind s._votedOnItems g with
            | some history => decide (history._voteValue = Vote.YAY)
            | none => false)) = false := by
      cases hf : mapFind s._votedOnItems g with
      | none => simp [hp]
      | some h => simp [hp, hv h hf]
    refine ⟨?_, ?_, ?_⟩
    · unfold handleClaimResourceRequest
      simp only [hh]
      simp
    · unfold handleClaimResourceRequest
      simp only [hh]
      simpa using hp
    · unfold claimRequestsSent hasLocalHistory
      rw [hh]
      simp
  · intro s g rand makeRequest hist
    have hh : (decide (mapFind s._pendingRequests g ≠ none)
        || (match mapFind s._votedOnItems g with
            | some history => decide (history._voteValue = Vote.YAY)
            | none => false)) = true := by
      rcases hist with hp | ⟨h, hf, hy⟩
      · simp [hp]
      · simp [hf, hy]
    refine ⟨?_, ?_⟩
    · unfold handleClaimResourceRequest
      simp only [hh, if_true]
      apply claim_fold_keeps
      exact ⟨_, mapFind_mapSet_self _ _ _, rfl, rfl, rfl⟩
    · unfold claimRequestsSent hasLocalHistory
      rw [hh]
      simp
  · constructor
    · rfl
    · rfl

end ResourceManager

theorem mapFind_append {α : Type} (a b : List (String × α)) (k : String) :
    mapFind (a ++ b) k = match mapFind a k with
      | some v => some v
      | none => mapFind b k := by
  induction a with
  | nil => simp [mapFind]
  | cons x rest ih =>
    obtain ⟨k', v⟩ := x
    by_cases h : k' = k
    · simp [mapFind, h]
    · simp [mapFind, h, ih]

namespace ResourceManager

theorem handleProposal_removed_iff (s : ResourceManager) (gs : GlobalState)
    (p : ResourceRequest) (hop : p._operationInQuestion = Operation.MANAGE)
    (hq0 : 0 ≤ p._quorum) (hq1 : p._quorum < 18446744073709551616) :
    (handleProposal s gs p).1 = true ↔
      (p._age > s._ageTimeout
        ∨ (s.toMasterNode.isInQuorum = true
          ∧ ((p._yayVotes.length : Int) + (p._nayVotes.length : Int) ≥ p._quorum)
          ∧ (p.didRequestPass = false
            ∨ (p.didRequestPass = true
              ∧ (gs.claimManagedResourceGroup s._nodeId p._resourceGroupInQuestion).1
                = true)))) := by
  have hm : p.hasMetQuorum = true ↔
      ((p._yayVotes.length : Int) + (p._nayVotes.length : Int) ≥ p._quorum) := by
    unfold ResourceRequest.hasMetQuorum
    rw [decide_eq_true_iff, Int.emod_eq_of_lt hq0 hq1]
    push_cast
    exact Iff.rfl
  rw [← hm]
  unfold handleProposal
  simp only [ResourceRequest.getOperation, ResourceRequest.getResourceGroup,
    ResourceRequest.getRequestAge, hop]
  by_cases hage : p._age > s._ageTimeout
  · simp [hage]
  · cases hQ : s.toMasterNode.isInQuorum <;> cases hM : p.hasMetQuorum <;>
      cases hP : p.didRequestPass <;> simp [hage]

theorem handleProposal_age (s : ResourceManager) (gs : GlobalState) (p : ResourceRequest) :
    (handleProposal s gs p).2.1 = p.incrementAge := rfl

theorem handlePendingRequests_append (s : ResourceManager) :
    ∀ (a b : List (String × ResourceRequest)) (gs : GlobalState),
      handlePendingRequests s (a ++ b) gs
        = ((handlePendingRequests s a gs).1
            ++ (handlePendingRequests s b (handlePendingRequests s a gs).2).1,
           (handlePendingRequests s b (handlePendingRequests s a gs).2).2) := by
  intro a
  induction a with
  | nil => intro b gs; simp [handlePendingRequests]
  | cons x rest ih =>
    intro b gs
    obtain ⟨g, p⟩ := x
    simp only [List.cons_append, handlePendingRequests, List.append_eq, ih]
    split_ifs <;> simp

theorem handlePendingRequests_mem (s : ResourceManager) :
    ∀ (l : List (String × ResourceRequest)) (gs : GlobalState),
      ∀ e ∈ (handlePendingRequests s l gs).1,
        ∃ e0 ∈ l, e = (e0.1, e0.2.incrementAge) := by
  intro l
  induction l with
  | nil => intro gs e he; simp [handlePendingRequests] at he
  | cons x rest ih =>
    intro gs e he
    obtain ⟨g, p⟩ := x
    simp only [handlePendingRequests] at he
    split_ifs at he with hr
    · obtain ⟨e0, h0, h1⟩ := ih _ e he
      exact ⟨e0, List.mem_cons_of_mem _ h0, h1⟩
    · rcases List.mem_cons.1 he with h | h
      · exact ⟨(g, p), List.mem_cons_self _ _, by rw [h]; rfl⟩
      · obtain ⟨e0, h0, h1⟩ := ih _ e h
        exact ⟨e0, List.mem_cons_of_mem _ h0, h1⟩

theorem handlePendingRequests_find_none (s : ResourceManager)
    (l : List (String × ResourceRequest)) (gs : GlobalState) (g : String)
    (h : g ∉ mapKeys l) : mapFind (handlePendingRequests s l gs).1 g = none := by
  rw [mapFind_eq_none_iff]
  intro hg
  unfold mapKeys at hg
  obtain ⟨e, he, hk⟩ := List.mem_map.1 hg
  obtain ⟨e0, h0, h1⟩ := handlePendingRequests_mem s l gs e he
  apply h
  unfold mapKeys
  refine List.mem_map.2 ⟨e0, h0, ?_⟩
  rw [← hk, h1]

/-- C13: one iteration of the resource loop removes the pending MANAGE
proposal of group `g` exactly when its age exceeds the age timeout, or the
node is in quorum, the votes cast reach the quorum of the proposal and the
proposal either did not pass or passed and the claim of its group, made on
the global state the loop has reached at that entry, succeeded; a proposal
that stays has its age increased by one, every entry left is an entry of
before with its age increased by one, and a proposal older than the timeout
is gone. -/
theorem handleResourceEventLoop_pending (s : ResourceManager)
    (before after : List (String × ResourceRequest)) (g : String) (p : ResourceRequest)
    (hpend : s._pendingRequests = before ++ (g, p) :: after)
    (hkeys : (mapKeys s._pendingRequests).Nodup)
    (hop : p._operationInQuestion = Operation.MANAGE)
    (hq0 : 0 ≤ p._quorum) (hq1 : p._quorum < 18446744073709551616) :
    (mapFind (handleResourceEventLoop s)._pendingRequests g = none ↔
      (p._age > s._ageTimeout
        ∨ (s.toMasterNode.isInQuorum = true
          ∧ ((p._yayVotes.length : Int) + (p._nayVotes.length : Int) ≥ p._quorum)
          ∧ (p.didRequestPass = false
            ∨ (p.didRequestPass = true
              ∧ ((handlePendingRequests s before s._globalState).2.claimManagedResourceGroup
                  s._nodeId p._resourceGroupInQuestion).1 = true)))))
    ∧ (mapFind (handleResourceEventLoop s)._pendingRequests g ≠ none →
        mapFind (handleResourceEventLoop s)._pendingRequests g
          = some { p with _age := p._age + 1 })
    ∧ (∀ e ∈ (handleResourceEventLoop s)._pendingRequests,
        ∃ e0 ∈ s._pendingRequests, e = (e0.1, { e0.2 with _age := e0.2._age + 1 }))
    ∧ (p._age > s._ageTimeout → g ∉ mapKeys (handleResourceEventLoop s)._pendingRequests) := by
  have hnd : g ∉ mapKeys before ∧ g ∉ mapKeys after := by
    rw [hpend] at hkeys
    unfold mapKeys at hkeys ⊢
    rw [List.map_append, List.map_cons] at hkeys
    have h1 := List.nodup_append.1 hkeys
    have h2 := List.nodup_cons.1 h1.2.1
    refine ⟨fun hb => ?_, h2.1⟩
    exact h1.2.2 hb (List.mem_cons_self _ _)
  have hres : (handleResourceEventLoop s)._pendingRequests
      = (handlePendingRequests s s._pendingRequests s._globalState).1 := rfl
  have hfind : mapFind (handleResourceEventLoop s)._pendingRequests g
      = if (handleProposal s (handlePendingRequests s before s._globalState).2 p).1 = true
        then none else some p.incrementAge := by
    rw [hres, hpend, handlePendingRequests_append, mapFind_append,
      handlePendingRequests_find_none s before _ g hnd.1]
    simp only [handlePendingRequests]
    split_ifs with hr
    · exact handlePendingRequests_find_none s after _ g hnd.2
    · simp [mapFind, handleProposal_age]
  have hiff := handleProposal_removed_iff s (handlePendingRequests s before s._globalState).2
    p hop hq0 hq1
  refine ⟨?_, ?_, ?_, ?_⟩
  · rw [hfind, ← hiff]
    split_ifs with hr <;> simp [hr]
  · intro hne
    rw [hfind] at hne ⊢
    split_ifs at hne ⊢ with hr
    · exact absurd rfl hne
    · rfl
  · intro e he
    rw [hres] at he
    exact handlePendingRequests_mem s _ _ e he
  · intro hage
    rw [← mapFind_eq_none_iff, hfind, if_pos (hiff.2 (Or.inl hage))]

/-- Witness for C13: the proposal of `wonClaimManager` for `g` has met its
quorum and passed, its claim succeeds, and the iteration removes it. -/
theorem handleResourceEventLoop_pending_witness :
    mapFind (handleResourceEventLoop wonClaimManager)._pendingRequests "g" = none :=
  (handleResourceEventLoop_pending wonClaimManager [] []
    "g" ⟨0, 2, Operation.MANAGE, "", "g", ["N2", "N3"], []⟩ rfl (by decide) rfl
    (by decide) (by decide)).1.2
    (Or.inr ⟨wonClaimMaster_inQuorum, by decide, Or.inr ⟨by decide, by decide⟩⟩)

end ResourceManager

theorem mapSet_absent {α : Type} (m : List (String × α)) (k : String) (v : α)
    (h : k ∉ mapKeys m) : mapSet m k v = m ++ [(k, v)] := by
  induction m with
  | nil => rfl
  | cons x rest ih =>
    obtain ⟨k', v'⟩ := x
    simp only [mapKeys, List.map_cons, List.mem_cons, not_or] at h
    have hne : ¬ k' = k := fun e => h.1 e.symm
    simp only [mapSet, hne, if_false, List.cons_append]
    rw [ih h.2]

theorem toString_natCast_int (k : Nat) : toString ((k : Nat) : Int) = toString k := rfl

namespace MasterNode

theorem statusFold_eq (l : List (String × MasterNodeState)) :
    ∀ acc : List (String × String), (mapKeys l).Nodup →
      (∀ k ∈ mapKeys l, k ∉ mapKeys acc) →
      l.foldl (fun m p =>
          mapSet m p.1 (if p.2.contactable then "Connected" else "NotConnected")) acc
        = acc ++ l.map connectionWord := by
  induction l with
  | nil => intro acc _ _; simp
  | cons x rest ih =>
    intro acc hnd hdis
    simp only [mapKeys, List.map_cons, List.nodup_cons] at hnd
    rw [List.foldl_cons, mapSet_absent acc x.1 _ (hdis x.1 (by simp [mapKeys])), ih]
    · simp [connectionWord]
    · exact hnd.2
    · intro k hk
      simp only [mapKeys, List.map_append, List.map_cons, List.map_nil, List.mem_append,
        List.mem_singleton, not_or]
      refine ⟨hdis k (by simp only [mapKeys, List.map_cons]; exact List.mem_cons_of_mem _ hk), ?_⟩
      intro e
      apply hnd.1
      rw [← e]
      exact hk

theorem statusCount_eq (l : List (String × MasterNodeState)) :
    ∀ a : Int, (l.map connectionWord).foldl
        (fun n p => if p.2 = "Connected" then n + 1 else n) a
      = a + ((l.filter (fun p => p.2.contactable)).length : Int) := by
  induction l with
  | nil => intro a; simp
  | cons x rest ih =>
    intro a
    rw [List.map_cons, List.foldl_cons, ih]
    cases hx : x.2.contactable
    · simp [connectionWord, hx]
    · simp [connectionWord, hx]
      ring

theorem quorumTest_eq (c n : Nat) :
    decide ((((c : Int) + 1 : Int) : ℚ) > (1 / 2 : ℚ) * (((n + 1 : Nat) : Int) : ℚ))
      = decide (2 * (c + 1) > n + 1) := by
  apply Bool.decide_congr
  push_cast
  constructor
  · intro h
    have h2 : ((n : ℚ) + 1) < 2 * ((c : ℚ) + 1) := by linarith
    exact_mod_cast h2
  · intro h
    have h2 : ((n : ℚ) + 1) < 2 * ((c : ℚ) + 1) := by exact_mod_cast h
    linarith

theorem handlerGetClusterStatus_eq (s : MasterNode)
    (hkeys : (mapKeys s._masterNodes).Nodup)
    (hown : s._nodeId ∉ mapKeys s._masterNodes)
    (hq : "QuorumMet" ∉ mapKeys s._masterNodes)
    (hownq : s._nodeId ≠ "QuorumMet") :
    handlerGetClusterStatus s
        = ⟨200, mapSet (s._masterNodes.map connectionWord
            ++ [(s._nodeId, "SelfInstance"),
                ("QuorumMet",
                  if 2 * ((s._masterNodes.filter (fun p => p.2.contactable)).length + 1)
                      > s._masterNodes.length + 1 then "True" else "False")])
            "ClusterSize"
            (toString ((s._masterNodes.filter (fun p => p.2.contactable)).length + 1)
              ++ "/" ++ toString (s._masterNodes.length + 1))⟩ := by
  have hk : mapKeys (s._masterNodes.map connectionWord) = mapKeys s._masterNodes := by
    simp [mapKeys, connectionWord, Function.comp_def]
  unfold handlerGetClusterStatus
  simp only []
  rw [statusFold_eq s._masterNodes [] hkeys (by simp [mapKeys]), List.nil_append,
    statusCount_eq, mapSet_absent _ s._nodeId _ (by rw [hk]; exact hown)]
  have hlen : (((s._masterNodes.map connectionWord ++ [(s._nodeId, "SelfInstance")]).length
      : Nat) : Int) = ((s._masterNodes.length + 1 : Nat) : Int) := by simp
  rw [hlen, zero_add, quorumTest_eq]
  rw [mapSet_absent _ "QuorumMet" _ (by
    simp only [mapKeys, List.map_append, List.map_cons, List.map_nil, List.mem_append,
      List.mem_singleton, not_or]
    exact ⟨by simpa [mapKeys] using (hk ▸ hq : "QuorumMet" ∉ mapKeys (s._masterNodes.map connectionWord)),
      fun e => hownq e.symm⟩)]
  have e1 : ((((s._masterNodes.filter (fun p => p.2.contactable)).length : Nat) : Int) + 1)
      = (((s._masterNodes.filter (fun p => p.2.contactable)).length + 1 : Nat) : Int) := by
    push_cast; rfl
  have e2 : ((((s._masterNodes.map connectionWord ++ [(s._nodeId, "SelfInstance")]
        ++ [("QuorumMet",
            if decide (2 * ((s._masterNodes.filter (fun p => p.2.contactable)).length + 1)
              > s._masterNodes.length + 1) = true then "True" else "False")]).length : Nat) : Int)
        - 1) = ((s._masterNodes.length + 1 : Nat) : Int) := by
    simp only [List.length_append, List.length_map, List.length_cons, List.length_nil]
    push_cast
    ring
  rw [e2, e1, toString_natCast_int, toString_natCast_int]
  simp


theorem mapFind_words (l : List (String × MasterNodeState)) (hkeys : (mapKeys l).Nodup) :
    ∀ p ∈ l, mapFind (l.map connectionWord) p.1
      = some (if p.2.contactable then "Connected" else "NotConnected") := by
  induction l with
  | nil => intro p hp; simp at hp
  | cons x rest ih =>
    intro p hp
    simp only [mapKeys, List.map_cons, List.nodup_cons] at hkeys
    rcases List.mem_cons.1 hp with h | h
    · subst h
      simp [mapFind, connectionWord]
    · have hne : ¬ x.1 = p.1 := by
        intro e
        apply hkeys.1
        rw [e]
        exact List.mem_map.2 ⟨p, h, rfl⟩
      simp only [List.map_cons, connectionWord, mapFind, hne, if_false]
      exact ih hkeys.2 p h

theorem mapFind_words_none (l : List (String × MasterNodeState)) (k : String)
    (h : k ∉ mapKeys l) : mapFind (l.map connectionWord) k = none := by
  rw [mapFind_eq_none_iff]
  simpa [mapKeys, connectionWord, Function.comp_def] using h

/-- C19 (amended): when the peer ids are pairwise distinct and the own id, the
peer ids and the keys `QuorumMet` and `ClusterSize` are all different, the
answer of `handlerGetClusterStatus` has code 200 and n+3 entries: the word
of each peer, `SelfInstance` for the own id, the quorum flag for
2*(c+1) > n+1 and the cluster size `c+1/n+1`. -/
theorem handlerGetClusterStatus_body (s : MasterNode)
    (hkeys : (mapKeys s._masterNodes).Nodup)
    (hown : s._nodeId ∉ mapKeys s._masterNodes)
    (hq : "QuorumMet" ∉ mapKeys s._masterNodes)
    (hc : "ClusterSize" ∉ mapKeys s._masterNodes)
    (hownq : s._nodeId ≠ "QuorumMet") (hownc : s._nodeId ≠ "ClusterSize") :
    (handlerGetClusterStatus s).code = 200
    ∧ (handlerGetClusterStatus s).body.length = s._masterNodes.length + 3
    ∧ (∀ p ∈ s._masterNodes, mapFind (handlerGetClusterStatus s).body p.1
        = some (if p.2.contactable then "Connected" else "NotConnected"))
    ∧ mapFind (handlerGetClusterStatus s).body s._nodeId = some "SelfInstance"
    ∧ mapFind (handlerGetClusterStatus s).body "QuorumMet"
        = some (if 2 * ((s._masterNodes.filter (fun p => p.2.contactable)).length + 1)
                  > s._masterNodes.length + 1 then "True" else "False")
    ∧ mapFind (handlerGetClusterStatus s).body "ClusterSize"
        = some (toString ((s._masterNodes.filter (fun p => p.2.contactable)).length + 1)
            ++ "/" ++ toString (s._masterNodes.length + 1)) := by
  rw [handlerGetClusterStatus_eq s hkeys hown hq hownq]
  have hcq : ¬ "ClusterSize" = "QuorumMet" := by decide
  have hqc : ¬ "QuorumMet" = "ClusterSize" := by decide
  refine ⟨rfl, ?_, ?_, ?_, ?_, ?_⟩
  · rw [mapSet_absent]
    · simp
    · simp only [mapKeys, List.map_append, List.map_cons, List.map_nil, List.mem_append,
        List.mem_cons, List.mem_singleton, not_or]
      refine ⟨?_, fun e => hownc e.symm, hcq, List.not_mem_nil _⟩
      simpa [mapKeys, connectionWord, Function.comp_def] using hc
  · intro p hp
    have hpc : ¬ p.1 = "ClusterSize" := fun e => hc (e ▸ List.mem_map.2 ⟨p, hp, rfl⟩)
    rw [mapFind_mapSet_ne _ _ _ _ hpc, mapFind_append, mapFind_words _ hkeys p hp]
  · rw [mapFind_mapSet_ne _ _ _ _ hownc, mapFind_append, mapFind_words_none _ _ hown]
    simp [mapFind]
  · rw [mapFind_mapSet_ne _ _ _ _ hqc, mapFind_append, mapFind_words_none _ _ hq]
    simp [mapFind, hownq]
  · rw [mapFind_mapSet_self]

/-- Witness for C19: a master with two contactable peers reports the cluster
size 3/3. -/
theorem handlerGetClusterStatus_body_witness :
    mapFind (handlerGetClusterStatus ResourceManager.wonClaimMaster).body "ClusterSize"
      = some (toString (2 + 1) ++ "/" ++ toString (2 + 1)) :=
  (handlerGetClusterStatus_body ResourceManager.wonClaimMaster (by decide) (by decide)
    (by decide) (by decide) (by decide) (by decide)).2.2.2.2.2

/-- C19 (as stated): a master whose own id is `QuorumMet` and that knows no
peer meets the condition on the peer ids, but its answer has two entries, not
three, its own id carries the quorum flag, not `SelfInstance`, and the
cluster size reads `1/0`. -/
theorem handlerGetClusterStatus_own_id_collides :
    (∀ p ∈ quorumMetNamedMaster._masterNodes,
        p.1 ≠ quorumMetNamedMaster._nodeId ∧ p.1 ≠ "QuorumMet" ∧ p.1 ≠ "ClusterSize")
    ∧ (handlerGetClusterStatus quorumMetNamedMaster).body
        = [("QuorumMet", "True"), ("ClusterSize", "1/0")]
    ∧ (handlerGetClusterStatus quorumMetNamedMaster).body.length
        ≠ quorumMetNamedMaster._masterNodes.length + 3
    ∧ mapFind (handlerGetClusterStatus quorumMetNamedMaster).body quorumMetNamedMaster._nodeId
        ≠ some "SelfInstance" := by
  have hb : (handlerGetClusterStatus quorumMetNamedMaster).body
      = [("QuorumMet", "True"), ("ClusterSize", "1/0")] := by
    simp only [handlerGetClusterStatus, quorumMetNamedMaster, MasterNode.new]
    norm_num [mapSet]
    decide
  refine ⟨?_, hb, ?_, ?_⟩
  · intro p hp
    simp [quorumMetNamedMaster, MasterNode.new] at hp
  · rw [hb]; decide
  · rw [hb]; decide

/-- C20 (amended): when the peer ids are pairwise distinct and differ from
the own id, and neither is `QuorumMet`, the denominator of `ClusterSize` is
the number of peers plus one, the node itself included. -/
theorem clusterSize_denominator (s : MasterNode)
    (hkeys : (mapKeys s._masterNodes).Nodup)
    (hown : s._nodeId ∉ mapKeys s._masterNodes)
    (hq : "QuorumMet" ∉ mapKeys s._masterNodes)
    (hownq : s._nodeId ≠ "QuorumMet") :
    mapFind (handlerGetClusterStatus s).body "ClusterSize"
      = some (toString ((s._masterNodes.filter (fun p => p.2.contactable)).length + 1)
          ++ "/" ++ toString (s._masterNodes.length + 1)) := by
  rw [handlerGetClusterStatus_eq s hkeys hown hq hownq, mapFind_mapSet_self]

/-- Witness for C20: a master without peers reports the cluster size 1/1. -/
theorem clusterSize_denominator_witness :
    mapFind (handlerGetClusterStatus singleMaster).body "ClusterSize"
      = some (toString (0 + 1) ++ "/" ++ toString (0 + 1)) :=
  clusterSize_denominator singleMaster (by decide) (by decide) (by decide) (by decide)

/-- C20 (as stated): a master that knows no peer reports the cluster size
`1/1`; its denominator is not the number of peers, which is 0. -/
theorem clusterSize_denominator_not_peers :
    singleMaster._masterNodes.length = 0
    ∧ mapFind (handlerGetClusterStatus singleMaster).body "ClusterSize" = some "1/1"
    ∧ ¬ ∃ C : String, mapFind (handlerGetClusterStatus singleMaster).body "ClusterSize"
        = some (C ++ "/" ++ toString singleMaster._masterNodes.length) := by
  have hb : mapFind (handlerGetClusterStatus singleMaster).body "ClusterSize" = some "1/1" := by
    rw [handlerGetClusterStatus_eq singleMaster (by decide) (by decide) (by decide) (by decide),
      mapFind_mapSet_self]
    rfl
  refine ⟨rfl, hb, ?_⟩
  rintro ⟨C, hC⟩
  rw [hb] at hC
  have h1 : ("1/1" : String).data = (C ++ "/" ++ toString singleMaster._masterNodes.length).data :=
    congrArg String.data (Option.some.inj hC)
  have h0 : (toString singleMaster._masterNodes.length) = "0" := rfl
  rw [h0] at h1
  simp only [String.data_append] at h1
  have h2 := congrArg List.reverse h1
  simp at h2

end MasterNode

namespace GlobalState

/-- C16 (as stated): on a READ_ONLY state over a store that holds the
unassigned group `g`, `claimManagedResourceGroup("m", "g")` returns true and
replaces the Unassigned marker by the Assigned one; on a READ_ONLY state over
a store that holds `g` assigned to `m`, `dropManagedResourceGroup("m", "g")`
returns true and replaces the Assigned marker by the Unassigned one. -/
theorem read_only_claim_and_drop_write :
    readOnlyUnassigned._accessMode = Mode.READ_ONLY
    ∧ claimManagedResourceGroup readOnlyUnassigned "m" "g"
        = (true, ⟨Mode.READ_ONLY,
            ⟨[("ResourceGroups/g", "#0,0,0,0"), ("Assignments/Assigned/m/g", "ASSIGNED")], 16⟩⟩)
    ∧ (claimManagedResourceGroup readOnlyUnassigned "m" "g").2._dataStore
        ≠ readOnlyUnassigned._dataStore
    ∧ readOnlyAssigned._accessMode = Mode.READ_ONLY
    ∧ dropManagedResourceGroup readOnlyAssigned "m" "g"
        = (true, ⟨Mode.READ_ONLY,
            ⟨[("ResourceGroups/g", "#0,0,0,0"), ("Assignments/Unassigned/g", "UNASSIGNED")],
              18⟩⟩)
    ∧ (dropManagedResourceGroup readOnlyAssigned "m" "g").2._dataStore
        ≠ readOnlyAssigned._dataStore := by
  decide

/-- C16 (amended): in READ_ONLY mode `addResourceGroup`, `removeResourceGroup`,
`setResourceInGroup`, `removeResourceInGroup` and `clearEntireState` return
false and leave the state unchanged, for every argument and store;
`claimManagedResourceGroup` and `dropManagedResourceGroup` do not depend on the
mode: they return and store what they do in READ_WRITE mode. -/
theorem read_only_blocks_content_operations (codec : FileStringCodec) (st : GlobalState)
    (hm : st._accessMode = Mode.READ_ONLY) :
    (∀ g, addResourceGroup codec st g = (false, st))
    ∧ (∀ g, removeResourceGroup codec st g = (some false, st))
    ∧ (∀ g r resource, setResourceInGroup codec st g r resource = (some false, st))
    ∧ (∀ g r, removeResourceInGroup codec st g r = (some false, st))
    ∧ clearEntireState st = (false, st)
    ∧ (∀ m g,
        (claimManagedResourceGroup st m g).1
            = (claimManagedResourceGroup ⟨Mode.READ_WRITE, st._dataStore⟩ m g).1
          ∧ (claimManagedResourceGroup st m g).2._dataStore
            = (claimManagedResourceGroup ⟨Mode.READ_WRITE, st._dataStore⟩ m g).2._dataStore
          ∧ (claimManagedResourceGroup st m g).2._accessMode = Mode.READ_ONLY
          ∧ (dropManagedResourceGroup st m g).1
            = (dropManagedResourceGroup ⟨Mode.READ_WRITE, st._dataStore⟩ m g).1
          ∧ (dropManagedResourceGroup st m g).2._dataStore
            = (dropManagedResourceGroup ⟨Mode.READ_WRITE, st._dataStore⟩ m g).2._dataStore
          ∧ (dropManagedResourceGroup st m g).2._accessMode = Mode.READ_ONLY) := by
  have hne : ¬ st._accessMode = Mode.READ_WRITE := by rw [hm]; decide
  refine ⟨?_, ?_, ?_, ?_, ?_, ?_⟩
  · intro g; simp [addResourceGroup, hne]
  · intro g; simp [removeResourceGroup, hne]
  · intro g r resource
    cases resource <;> simp [setResourceInGroup, hne]
  · intro g r; simp [removeResourceInGroup, hne]
  · simp [clearEntireState, hne]
  · intro m g
    refine ⟨?_, ?_, ?_, ?_, ?_, ?_⟩ <;>
      simp only [claimManagedResourceGroup, dropManagedResourceGroup] <;>
      split_ifs <;> first | rfl | exact hm

/-- Witness for C16: the five content operations on the READ_ONLY state over
a store that holds the unassigned group `g`. -/
theorem read_only_blocks_content_operations_witness :
    readOnlyUnassigned._accessMode = Mode.READ_ONLY
    ∧ addResourceGroup FileStringCodec.exactCodec readOnlyUnassigned "h"
        = (false, readOnlyUnassigned)
    ∧ removeResourceGroup FileStringCodec.exactCodec readOnlyUnassigned "g"
        = (some false, readOnlyUnassigned)
    ∧ clearEntireState readOnlyUnassigned = (false, readOnlyUnassigned) :=
  ⟨rfl,
    (read_only_blocks_content_operations FileStringCodec.exactCodec readOnlyUnassigned rfl).1
      "h",
    (read_only_blocks_content_operations FileStringCodec.exactCodec readOnlyUnassigned rfl).2.1
      "g",
    (read_only_blocks_content_operations FileStringCodec.exactCodec readOnlyUnassigned
      rfl).2.2.2.2.1⟩

end GlobalState

namespace FileStringCodec

theorem parseFields_packField (f : List Char) :
    ∀ (field tail : List Char),
      parseFields (packField f ++ tail) false field
        = (parseFields tail false []).map (fun fields => String.mk (field ++ f) :: fields) := by
  induction f with
  | nil =>
    intro field tail
    simp [packField, parseFields]
  | cons c cs ih =>
    intro field tail
    have h1 : ¬ (':' : Char) = ';' := by decide
    simp only [packField, List.cons_append, parseFields, h1, if_false, if_true,
      List.append_eq]
    rw [ih]
    simp

theorem parseFields_packFields (v : List String) :
    parseFields (packFields v) false [] = some v := by
  induction v with
  | nil => simp [packFields, parseFields]
  | cons f rest ih =>
    simp only [packFields]
    rw [parseFields_packField, ih]
    simp

theorem digitChar_spec : ∀ k, k < 10 →
    (Nat.digitChar k).isDigit = true ∧ (Nat.digitChar k).toNat - 48 = k
      ∧ Nat.digitChar k ≠ '-' := by
  decide

theorem parseDigits_foldl_none (cs : List Char) :
    cs.foldl
      (fun acc c => acc.bind (fun a => if c.isDigit then some (10 * a + (c.toNat - 48)) else none))
      (none : Option Nat) = none := by
  induction cs with
  | nil => rfl
  | cons c cs ih => simpa using ih

theorem parseDigits_toDigitsCore :
    ∀ (fuel n : Nat) (ds : List Char), n < fuel →
      (Nat.toDigitsCore 10 fuel n ds).foldl
        (fun acc c =>
          acc.bind (fun a => if c.isDigit then some (10 * a + (c.toNat - 48)) else none))
        (some 0)
      = ds.foldl
        (fun acc c =>
          acc.bind (fun a => if c.isDigit then some (10 * a + (c.toNat - 48)) else none))
        (some n) := by
  intro fuel
  induction fuel with
  | zero => intro n ds h; omega
  | succ fuel ih =>
    intro n ds h
    obtain ⟨d1, d2, _⟩ := digitChar_spec (n % 10) (Nat.mod_lt _ (by decide))
    simp only [Nat.toDigitsCore]
    by_cases h0 : n / 10 = 0
    · have hn : n % 10 = n := Nat.mod_eq_of_lt (by omega)
      simp only [h0, if_true, List.foldl_cons, Option.bind, d1, d2]
      simp [hn]
    · have hlt : n / 10 < fuel := by omega
      simp only [h0, if_false]
      rw [ih (n / 10) _ hlt]
      have hn : 10 * (n / 10) + n % 10 = n := Nat.div_add_mod n 10
      simp only [List.foldl_cons, Option.bind, d1, d2, if_true, hn]

theorem parseDigits_repr (n : Nat) : parseDigits (Nat.toDigits 10 n) = some n := by
  unfold parseDigits Nat.toDigits
  rw [parseDigits_toDigitsCore (n + 1) n [] (by omega)]
  rfl

theorem toDigitsCore_head :
    ∀ (fuel n : Nat) (ds : List Char), ds ≠ [] →
      Nat.toDigitsCore 10 fuel n ds ≠ []
        ∧ ((Nat.toDigitsCore 10 fuel n ds).head? = some '-' → ds.head? = some '-') := by
  intro fuel
  induction fuel with
  | zero => intro n ds h; simpa [Nat.toDigitsCore] using h
  | succ fuel ih =>
    intro n ds h
    obtain ⟨_, _, d3⟩ := digitChar_spec (n % 10) (Nat.mod_lt _ (by decide))
    simp only [Nat.toDigitsCore]
    by_cases h0 : n / 10 = 0
    · simp only [h0, if_true]
      refine ⟨by simp, ?_⟩
      intro hh
      simp at hh
      exact absurd hh d3
    · simp only [h0, if_false]
      obtain ⟨i1, i2⟩ := ih (n / 10) (Nat.digitChar (n % 10) :: ds) (by simp)
      refine ⟨i1, ?_⟩
      intro hh
      have := i2 hh
      simp at this
      exact absurd this d3

theorem toDigits_head (n : Nat) :
    Nat.toDigits 10 n ≠ [] ∧ (Nat.toDigits 10 n).head? ≠ some '-' := by
  obtain ⟨_, _, d3⟩ := digitChar_spec (n % 10) (Nat.mod_lt _ (by decide))
  unfold Nat.toDigits
  simp only [Nat.toDigitsCore]
  by_cases h0 : n / 10 = 0
  · simp only [h0, if_true]
    refine ⟨by simp, ?_⟩
    intro hh
    simp at hh
    exact absurd hh d3
  · simp only [h0, if_false]
    obtain ⟨i1, i2⟩ := toDigitsCore_head n (n / 10) [Nat.digitChar (n % 10)] (by simp)
    refine ⟨i1, ?_⟩
    intro hh
    have := i2 hh
    simp at this
    exact absurd this d3

theorem toString_nat_data (n : Nat) : (toString n).data = Nat.toDigits 10 n := rfl

theorem parseDecimal_toString (n : Int) : parseDecimal (toString n) = some n := by
  cases n with
  | ofNat m =>
    have e : (toString (Int.ofNat m)).data = Nat.toDigits 10 m := rfl
    obtain ⟨h1, h2⟩ := toDigits_head m
    unfold parseDecimal
    rw [e, if_neg h2, if_neg h1, parseDigits_repr]
    rfl
  | negSucc m =>
    have e : (toString (Int.negSucc m)).data = '-' :: Nat.toDigits 10 (m + 1) := rfl
    obtain ⟨h1, _⟩ := toDigits_head (m + 1)
    unfold parseDecimal
    rw [e]
    simp only [List.head?_cons, if_true, List.tail_cons, h1, if_false, parseDigits_repr]
    rfl

theorem exactCodec_faithful : Faithful exactCodec where
  parse_pack := by
    intro v
    simp [exactCodec, parseFields_packFields]
  parse_empty := by
    intro v h
    simp [exactCodec] at h
  stol_toString := by
    intro n hn
    show (match parseDecimal (toString n) with
      | some n => if inLong n then some n else none
      | none => none) = some n
    rw [parseDecimal_toString]
    exact if_pos hn
  stoi_toString := by
    intro n hn
    show (match parseDecimal (toString n) with
      | some n => if inInt n then some n else none
      | none => none) = some n
    rw [parseDecimal_toString]
    exact if_pos hn

end FileStringCodec

theorem wrapLong_inLong (n : Int) : inLong (wrapLong n) := by
  unfold inLong wrapLong
  omega

theorem wrapInt_inInt (n : Int) : inInt (wrapInt n) := by
  unfold inInt wrapInt
  omega

theorem wrapLong_of_inLong (n : Int) (h : inLong n) : wrapLong n = n := by
  unfold inLong at h
  unfold wrapLong
  omega

theorem wrapInt_of_inInt (n : Int) (h : inInt n) : wrapInt n = n := by
  unfold inInt at h
  unfold wrapInt
  omega

theorem wrapLong_add_sub (a b c : Int) : wrapLong (wrapLong a + b - c) = wrapLong (a + b - c) := by
  unfold wrapLong
  omega

theorem wrapInt_add_sub (a b c : Int) : wrapInt (wrapInt a + b - c) = wrapInt (a + b - c) := by
  unfold wrapInt
  omega

theorem wrapLong_sub (a c : Int) : wrapLong (wrapLong a - c) = wrapLong (a - c) := by
  unfold wrapLong
  omega

theorem wrapInt_sub (a c : Int) : wrapInt (wrapInt a - c) = wrapInt (a - c) := by
  unfold wrapInt
  omega

theorem filter_mapSet {α : Type} (P : String → Bool) (m : List (String × α)) (k : String)
    (v : α) :
    (mapSet m k v).filter (fun p => P p.1)
      = if P k = true then mapSet (m.filter (fun p => P p.1)) k v
        else m.filter (fun p => P p.1) := by
  induction m with
  | nil => by_cases h : P k = true <;> simp [mapSet, h]
  | cons x rest ih =>
    obtain ⟨k', v'⟩ := x
    by_cases hk : k' = k
    · subst hk
      by_cases h : P k' = true <;> simp [mapSet, h]
    · by_cases h : P k = true
      · simp only [h, if_true] at ih ⊢
        by_cases h' : P k' = true
        · simp [mapSet, hk, h', ih]
        · simp [mapSet, hk, h', ih]
      · simp only [h, if_false] at ih ⊢
        by_cases h' : P k' = true
        · simp [mapSet, hk, h', ih]
        · simp [mapSet, hk, h', ih]

theorem filter_mapErase {α : Type} (P : String → Bool) (m : List (String × α)) (k : String) :
    (mapErase m k).filter (fun p => P p.1) = mapErase (m.filter (fun p => P p.1)) k := by
  unfold mapErase
  rw [List.filter_filter, List.filter_filter]
  congr 1
  funext p
  exact Bool.and_comm _ _

theorem mapFind_filter {α : Type} (P : String → Bool) (m : List (String × α)) (k : String) :
    mapFind (m.filter (fun p => P p.1)) k = if P k = true then mapFind m k else none := by
  induction m with
  | nil => simp [mapFind]
  | cons x rest ih =>
    obtain ⟨k', v'⟩ := x
    by_cases hk : k' = k
    · subst hk
      by_cases h : P k' = true
      · simp [mapFind, h]
      · simp only [List.filter_cons, h, if_false]
        simp
        rw [ih, if_neg h]
    · by_cases h' : P k' = true
      · simp [mapFind, hk, h', ih]
      · simp [mapFind, hk, h', ih]

theorem nodup_mapSet {α : Type} (m : List (String × α)) (k : String) (v : α)
    (h : (mapKeys m).Nodup) : (mapKeys (mapSet m k v)).Nodup := by
  induction m with
  | nil => simp [mapSet, mapKeys]
  | cons x rest ih =>
    obtain ⟨k', v'⟩ := x
    simp only [mapKeys, List.map_cons, List.nodup_cons] at h
    by_cases hk : k' = k
    · subst hk
      simpa [mapSet, mapKeys] using h
    · simp only [mapSet, hk, if_false, mapKeys, List.map_cons, List.nodup_cons]
      refine ⟨?_, ih h.2⟩
      intro hin
      have := (mapKeys_mapSet rest k v k').1 hin
      rcases this with e | e
      · exact hk e
      · exact h.1 e

theorem nodup_mapErase {α : Type} (m : List (String × α)) (k : String)
    (h : (mapKeys m).Nodup) : (mapKeys (mapErase m k)).Nodup := by
  unfold mapErase mapKeys
  exact (List.Nodup.sublist (List.Sublist.map _ (List.filter_sublist _)) h)

namespace GlobalState

theorem valSum_mapSet (h : String → Int) (rows : List (String × String)) (k v : String) :
    valSum h (mapSet rows k v)
      = valSum h rows - (match mapFind rows k with
          | some v0 => h v0
          | none => 0) + h v := by
  induction rows with
  | nil => simp [valSum, mapSet, mapFind]
  | cons x rest ih =>
    obtain ⟨k', v'⟩ := x
    by_cases hk : k' = k
    · simp [valSum, mapSet, mapFind, hk]
      ring
    · simp only [valSum, mapSet, mapFind, hk, if_false, List.map_cons, List.sum_cons] at ih ⊢
      rw [ih]
      ring

theorem valSum_mapErase (h : String → Int) (rows : List (String × String)) (k : String)
    (hnd : (mapKeys rows).Nodup) :
    valSum h (mapErase rows k)
      = valSum h rows - (match mapFind rows k with
          | some v0 => h v0
          | none => 0) := by
  induction rows with
  | nil => simp [valSum, mapErase, mapFind]
  | cons x rest ih =>
    obtain ⟨k', v'⟩ := x
    simp only [mapKeys, List.map_cons, List.nodup_cons] at hnd
    by_cases hk : k' = k
    · subst hk
      have hnone : mapFind rest k' = none := (mapFind_eq_none_iff rest k').2 hnd.1
      have ih' := ih hnd.2
      rw [hnone] at ih'
      have e : mapErase ((k', v') :: rest) k' = mapErase rest k' := by
        simp [mapErase]
      rw [e, ih']
      simp [valSum, mapFind]
    · have e : mapErase ((k', v') :: rest) k = (k', v') :: mapErase rest k := by
        simp [mapErase, hk]
      rw [e]
      have ih' := ih hnd.2
      simp only [valSum, mapFind, hk, if_false, List.map_cons, List.sum_cons] at ih' ⊢
      rw [ih']
      ring

theorem valSum_one (rows : List (String × String)) :
    valSum (fun _ => 1) rows = (rows.length : Int) := by
  induction rows with
  | nil => simp [valSum]
  | cons x rest ih =>
    simp only [valSum, List.map_cons, List.sum_cons, List.length_cons] at ih ⊢
    rw [ih]
    push_cast
    ring

end GlobalState

theorem mapErase_absent {α : Type} (m : List (String × α)) (k : String)
    (h : k ∉ mapKeys m) : mapErase m k = m := by
  unfold mapErase
  rw [List.filter_eq_self]
  intro p hp
  have : p.1 ≠ k := by
    intro e
    apply h
    rw [← e]
    exact List.mem_map.2 ⟨p, hp, rfl⟩
  simpa using this

namespace GlobalState

theorem isResourceOf_group (g' g : String) :
    isResourceOf g' (getResourceGroupPrefixedKey g) = false := by
  unfold isResourceOf
  rw [resourceKey_data, groupKey_data]
  simp [List.isPrefixOf]

theorem isResourceOf_unassigned (g' g : String) :
    isResourceOf g' (getUnassignedPrefixedKey g) = false := by
  unfold isResourceOf
  rw [resourceKey_data, unassignedKey_data]
  simp [List.isPrefixOf]

theorem isResourceOf_assigned (g' m g : String) :
    isResourceOf g' (getAssignedPrefixedKey m g) = false := by
  unfold isResourceOf
  rw [resourceKey_data, assignedKey_data]
  simp [List.isPrefixOf]

theorem isResourceOf_resource (g' g r : String) (hg' : '/' ∉ g'.data) (hg : '/' ∉ g.data) :
    isResourceOf g' (getResourcePrefixedKey g r) = true ↔ g' = g := by
  unfold isResourceOf
  rw [resourceKey_data, resourceKey_data, List.isPrefixOf_iff_prefix]
  constructor
  · rintro ⟨t, ht⟩
    have h2 : g'.data ++ '/' :: ("".data ++ t) = g.data ++ '/' :: r.data := by
      have := List.append_cancel_left (by simpa [List.append_assoc] using ht :
        "Resources/".data ++ (g'.data ++ '/' :: ("".data ++ t))
          = "Resources/".data ++ (g.data ++ '/' :: r.data))
      exact this
    exact String.ext (split_first_sep '/' _ _ _ _ hg' hg h2).1
  · intro e
    subst e
    refine ⟨r.data, ?_⟩
    simp [List.append_assoc]

theorem resourcesStart_of_isResourceOf (g k : String) (h : isResourceOf g k = true) :
    "Resources/".data.isPrefixOf k.data = true := by
  unfold isResourceOf at h
  rw [resourceKey_data, List.isPrefixOf_iff_prefix] at h
  rw [List.isPrefixOf_iff_prefix]
  exact (List.prefix_append _ _).trans h

theorem resourcesStart_group (g : String) :
    "Resources/".data.isPrefixOf (getResourceGroupPrefixedKey g).data = false := by
  rw [groupKey_data]
  simp [List.isPrefixOf]

theorem resourcesStart_unassigned (g : String) :
    "Resources/".data.isPrefixOf (getUnassignedPrefixedKey g).data = false := by
  rw [unassignedKey_data]
  simp [List.isPrefixOf]

theorem resourcesStart_assigned (m g : String) :
    "Resources/".data.isPrefixOf (getAssignedPrefixedKey m g).data = false := by
  rw [assignedKey_data]
  simp [List.isPrefixOf]

theorem live_mapSet_other (o : List (String × String)) (g k v : String)
    (h : isResourceOf g k = false) :
    liveResources (mapSet o k v) g = liveResources o g := by
  unfold liveResources
  rw [filter_mapSet (fun key => isResourceOf g key)]
  simp [h]

theorem live_mapSet_self (o : List (String × String)) (g k v : String)
    (h : isResourceOf g k = true) :
    liveResources (mapSet o k v) g = mapSet (liveResources o g) k v := by
  unfold liveResources
  rw [filter_mapSet (fun key => isResourceOf g key)]
  simp [h]

theorem live_mapErase (o : List (String × String)) (g k : String) :
    liveResources (mapErase o k) g = mapErase (liveResources o g) k := by
  unfold liveResources
  exact filter_mapErase (fun key => isResourceOf g key) o k

theorem mapFind_live (o : List (String × String)) (g k : String) :
    mapFind (liveResources o g) k = if isResourceOf g k = true then mapFind o k else none := by
  unfold liveResources
  exact mapFind_filter (fun key => isResourceOf g key) o k

theorem live_mapErase_other (o : List (String × String)) (g k : String)
    (h : isResourceOf g k = false) :
    liveResources (mapErase o k) g = liveResources o g := by
  rw [live_mapErase, mapErase_absent]
  rw [← mapFind_eq_none_iff, mapFind_live]
  simp [h]

theorem nodup_live (o : List (String × String)) (g : String) (h : (mapKeys o).Nodup) :
    (mapKeys (liveResources o g)).Nodup := by
  unfold liveResources mapKeys
  exact (List.Nodup.sublist (List.Sublist.map _ (List.filter_sublist _)) h)

end GlobalState

namespace GlobalState

theorem setResourceInGroup_cases (codec : FileStringCodec) (st : GlobalState) (g r : String)
    (resource : Option Resource) :
    ((setResourceInGroup codec st g r resource).2 = st
      ∧ (setResourceInGroup codec st g r resource).1 ≠ some true)
    ∨ ∃ res currCost currCount old,
        resource = some res ∧ st._accessMode = Mode.READ_WRITE
        ∧ getResourceInGroupCost codec st g r = some old
        ∧ (currDetailsVect codec st g).length ≥ 4
        ∧ currCostAndCount codec (currDetailsVect codec st g) = some (currCost, currCount)
        ∧ (setResourceInGroup codec st g r resource).1 = some true
        ∧ (setResourceInGroup codec st g r resource).2._accessMode = st._accessMode
        ∧ (setResourceInGroup codec st g r resource).2._dataStore.objects
          = mapSet
              (mapSet st._dataStore.objects (getResourcePrefixedKey g r)
                ((SimpleResourceWrapper.ofResource codec res).getFileString codec))
              (getResourceGroupPrefixedKey g)
              (codec.getFileString
                [toString (wrapLong (currCost._resourceSize
                    + res.getResourceCost._resourceSize - old._resourceSize)),
                 toString (wrapLong (currCost._memorySize
                    + res.getResourceCost._memorySize - old._memorySize)),
                 toString (wrapInt (currCost._threadCount
                    + res.getResourceCost._threadCount - old._threadCount)),
                 toString (wrapInt (currCount + 1))]) := by
  obtain ⟨hr1, hr2⟩ := groupKey_valid g
  obtain ⟨hk1, hk2⟩ := resourceKey_valid g r
  cases resource with
  | none => left; exact ⟨rfl, by simp [setResourceInGroup]⟩
  | some res =>
    unfold setResourceInGroup
    simp only
    split
    · rename_i hm
      split
      · split
        · left; exact ⟨rfl, by simp⟩
        · rename_i old hold
          split
          · rename_i hlen
            split
            · left; exact ⟨rfl, by simp⟩
            · rename_i currCost currCount hcc
              right
              obtain ⟨a1, a2⟩ := S3DataStore.addItem_valid st._dataStore
                (getResourcePrefixedKey g r)
                ((SimpleResourceWrapper.ofResource codec res).getFileString codec) hk1 hk2
              have b := fun item => S3DataStore.addItem_valid
                (st._dataStore.addItem (getResourcePrefixedKey g r)
                  ((SimpleResourceWrapper.ofResource codec res).getFileString codec)).2
                (getResourceGroupPrefixedKey g) item hr1 hr2
              refine ⟨res, currCost, currCount, old, rfl, hm, hold, hlen, hcc, ?_, ?_, ?_⟩
              · simp only [a1, if_true]
                rw [(b _).1]
              · simp only [a1, if_true]
              · simp only [a1, if_true]
                rw [(b _).2, a2]
          · left; exact ⟨rfl, by simp⟩
      · left; exact ⟨rfl, by simp⟩
    · left; exact ⟨rfl, by simp⟩

theorem removeResourceInGroup_cases (codec : FileStringCodec) (st : GlobalState)
    (g r : String) :
    ((removeResourceInGroup codec st g r).2 = st
      ∧ (removeResourceInGroup codec st g r).1 ≠ some true)
    ∨ ((removeResourceInGroup codec st g r).2._accessMode = st._accessMode
        ∧ (removeResourceInGroup codec st g r).2._dataStore.objects
          = mapErase st._dataStore.objects (getResourcePrefixedKey g r)
        ∧ (removeResourceInGroup codec st g r).1 ≠ some true
        ∧ (st._dataStore.getItem (getResourcePrefixedKey g r) = ""
          ∨ SimpleResourceWrapper.ofFileString codec
              (st._dataStore.getItem (getResourcePrefixedKey g r)) = none))
    ∨ ∃ currCost currCount wrapper,
        st._accessMode = Mode.READ_WRITE
        ∧ st._dataStore.getItem (getResourcePrefixedKey g r) ≠ ""
        ∧ SimpleResourceWrapper.ofFileString codec
            (st._dataStore.getItem (getResourcePrefixedKey g r)) = some wrapper
        ∧ (currDetailsVect codec st g).length ≥ 4
        ∧ currCostAndCount codec (currDetailsVect codec st g) = some (currCost, currCount)
        ∧ (removeResourceInGroup codec st g r).1 = some true
        ∧ (removeResourceInGroup codec st g r).2._accessMode = st._accessMode
        ∧ (removeResourceInGroup codec st g r).2._dataStore.objects
          = mapSet (mapErase st._dataStore.objects (getResourcePrefixedKey g r))
              (getResourceGroupPrefixedKey g)
              (codec.getFileString
                [toString (wrapLong
                    (currCost._resourceSize - wrapper._resourceCost._resourceSize)),
                 toString (wrapLong
                    (currCost._memorySize - wrapper._resourceCost._memorySize)),
                 toString (wrapInt
                    (currCost._threadCount - wrapper._resourceCost._threadCount)),
                 toString (wrapInt (currCount - 1))]) := by
  obtain ⟨hr1, hr2⟩ := groupKey_valid g
  obtain ⟨hk1, _⟩ := resourceKey_valid g r
  obtain ⟨d1, d2⟩ := S3DataStore.deleteItem_valid st._dataStore (getResourcePrefixedKey g r) hk1
  have b := fun item => S3DataStore.addItem_valid
    (st._dataStore.deleteItem (getResourcePrefixedKey g r)).2
    (getResourceGroupPrefixedKey g) item hr1 hr2
  unfold removeResourceInGroup
  split
  · rename_i hm
    split
    · simp only
      split
      · rename_i hlen
        split
        · left; exact ⟨rfl, by simp⟩
        · rename_i currCost currCount hcc
          split
          · rename_i hne
            split
            · rename_i hw
              right; left
              exact ⟨rfl, d2, by simp, Or.inr hw⟩
            · rename_i wrapper hw
              right; right
              refine ⟨currCost, currCount, wrapper, hm, hne.2, hw, hlen, hcc, ?_, rfl, ?_⟩
              · simp only
                rw [(b _).1]
              · simp only
                rw [(b _).2, d2]
          · rename_i hne
            right; left
            refine ⟨rfl, d2, by simp, Or.inl ?_⟩
            by_contra hx
            exact hne ⟨d1, hx⟩
      · left; exact ⟨rfl, by simp⟩
    · left; exact ⟨rfl, by simp⟩
  · left; exact ⟨rfl, by simp⟩

end GlobalState

namespace GlobalState

theorem pack_ne_empty (codec : FileStringCodec) (hc : codec.Faithful) (v : List String)
    (hv : v.length = 4) : codec.getFileString v ≠ "" := by
  intro e
  have h1 := hc.parse_pack v
  rw [e] at h1
  have h2 := hc.parse_empty v h1
  omega

theorem ofFileString_empty (codec : FileStringCodec) (hc : codec.Faithful) :
    SimpleResourceWrapper.ofFileString codec "" = some ⟨default, ""⟩ := by
  unfold SimpleResourceWrapper.ofFileString
  cases hp : codec.parseFileString "" with
  | none => rfl
  | some v =>
    have h2 := hc.parse_empty v hp
    have h3 : ¬ v.length ≥ 4 := by omega
    simp only [h3, if_false]

theorem ofFileString_pack (codec : FileStringCodec) (hc : codec.Faithful) (s m t : Int)
    (payload : String) (hs : inLong s) (hm : inLong m) (ht : inInt t) :
    SimpleResourceWrapper.ofFileString codec
        (codec.getFileString [toString s, toString m, toString t, payload])
      = some ⟨⟨s, m, t⟩, payload⟩ := by
  unfold SimpleResourceWrapper.ofFileString
  rw [hc.parse_pack]
  simp [hc.stol_toString _ hs, hc.stol_toString _ hm, hc.stoi_toString _ ht]

theorem ofFileString_resourceData (codec : FileStringCodec) (hc : codec.Faithful)
    (res : Resource) (hres : res.getResourceCost.InRange) :
    SimpleResourceWrapper.ofFileString codec
        ((SimpleResourceWrapper.ofResource codec res).getFileString codec)
      = some ⟨res.getResourceCost, codec.getFileString res.getPackedVector⟩ := by
  unfold SimpleResourceWrapper.getFileString SimpleResourceWrapper.getPackedVector
    SimpleResourceWrapper.ofResource
  exact ofFileString_pack codec hc _ _ _ _ hres.1 hres.2.1 hres.2.2

theorem storedCost_empty (codec : FileStringCodec) (hc : codec.Faithful) :
    storedCost codec "" = default := by
  unfold storedCost
  rw [ofFileString_empty codec hc]

theorem details_of_row (codec : FileStringCodec) (hc : codec.Faithful) (st : GlobalState)
    (g : String) (d : List String)
    (h : mapFind st._dataStore.objects (getResourceGroupPrefixedKey g)
      = some (codec.getFileString d)) :
    currDetailsVect codec st g = d := by
  unfold currDetailsVect
  rw [S3DataStore.getItem_eq_find _ _ (groupKey_valid g).1, h]
  simp [hc.parse_pack]

theorem currCostAndCount_row (codec : FileStringCodec) (hc : codec.Faithful)
    (S M T K : Int) (hS : inLong S) (hM : inLong M) (hT : inInt T) (hK : inInt K) :
    currCostAndCount codec [toString S, toString M, toString T, toString K]
      = some (⟨S, M, T⟩, K) := by
  unfold currCostAndCount
  simp [hc.stol_toString _ hS, hc.stol_toString _ hM, hc.stoi_toString _ hT,
    hc.stoi_toString _ hK]

theorem cost_read (codec : FileStringCodec) (hc : codec.Faithful) (st : GlobalState)
    (g r : String) (old : ResourceCost)
    (h : getResourceInGroupCost codec st g r = some old) :
    old = match mapFind st._dataStore.objects (getResourcePrefixedKey g r) with
      | some v0 => storedCost codec v0
      | none => default := by
  unfold getResourceInGroupCost at h
  rw [S3DataStore.getItem_eq_find _ _ (resourceKey_valid g r).1] at h
  cases hf : mapFind st._dataStore.objects (getResourcePrefixedKey g r) with
  | none =>
    rw [hf] at h
    simp only [Option.getD_none, ofFileString_empty codec hc, Option.map_some'] at h
    exact (Option.some.inj h).symm
  | some v0 =>
    rw [hf] at h
    simp only [Option.getD_some] at h
    show old = storedCost codec v0
    unfold storedCost
    cases hw : SimpleResourceWrapper.ofFileString codec v0 with
    | none => rw [hw] at h; simp at h
    | some w =>
      rw [hw] at h
      simp only [Option.map_some'] at h
      exact (Option.some.inj h).symm

theorem valSum_live_set (h : String → Int) (o : List (String × String)) (g k v : String)
    (hk : isResourceOf g k = true) :
    valSum h (liveResources (mapSet o k v) g)
      = valSum h (liveResources o g) - (match mapFind o k with
          | some v0 => h v0
          | none => 0) + h v := by
  rw [live_mapSet_self o g k v hk, valSum_mapSet, mapFind_live, if_pos hk]

theorem valSum_live_erase (h : String → Int) (o : List (String × String)) (g k : String)
    (hnd : (mapKeys o).Nodup) (hk : isResourceOf g k = true) :
    valSum h (liveResources (mapErase o k) g)
      = valSum h (liveResources o g) - (match mapFind o k with
          | some v0 => h v0
          | none => 0) := by
  rw [live_mapErase, valSum_mapErase _ _ _ (nodup_live o g hnd), mapFind_live, if_pos hk]

theorem isResourceOf_marker (g k : String)
    (hk : "Resources/".data.isPrefixOf k.data = false) : isResourceOf g k = false := by
  cases h : isResourceOf g k with
  | false => rfl
  | true =>
    have := resourcesStart_of_isResourceOf g k h
    rw [hk] at this
    exact absurd this (by decide)

theorem accounted_mono (codec : FileStringCodec) (n m : Nat) (o : List (String × String))
    (h : Accounted codec n o) (hnm : n ≤ m) : Accounted codec m o := by
  obtain ⟨hnd, hwf, hrows⟩ := h
  refine ⟨hnd, hwf, ?_⟩
  intro g hg
  refine ⟨(hrows g hg).1, ?_⟩
  intro v hv
  obtain ⟨count, h1, h2, h3⟩ := (hrows g hg).2 v hv
  exact ⟨count, h1, by omega, h3⟩

theorem accounted_frame_set (codec : FileStringCodec) (n : Nat) (o : List (String × String))
    (k v : String) (h : Accounted codec n o)
    (hk1 : "Resources/".data.isPrefixOf k.data = false)
    (hk2 : ∀ g, getResourceGroupPrefixedKey g ≠ k) :
    Accounted codec n (mapSet o k v) := by
  obtain ⟨hnd, hwf, hrows⟩ := h
  refine ⟨nodup_mapSet _ _ _ hnd, ?_, ?_⟩
  · intro k' v' hf hp
    rw [mapFind_mapSet] at hf
    by_cases e : k' = k
    · rw [e, hk1] at hp
      exact absurd hp (by decide)
    · rw [if_neg e] at hf
      exact hwf k' v' hf hp
  · intro g hg
    rw [live_mapSet_other _ _ _ _ (isResourceOf_marker g k hk1),
      mapFind_mapSet_ne _ _ _ _ (hk2 g)]
    exact hrows g hg

theorem accounted_frame_erase (codec : FileStringCodec) (n : Nat)
    (o : List (String × String))
    (k : String) (h : Accounted codec n o)
    (hk1 : "Resources/".data.isPrefixOf k.data = false)
    (hk2 : ∀ g, getResourceGroupPrefixedKey g ≠ k) :
    Accounted codec n (mapErase o k) := by
  obtain ⟨hnd, hwf, hrows⟩ := h
  refine ⟨nodup_mapErase _ _ hnd, ?_, ?_⟩
  · intro k' v' hf hp
    rw [mapFind_mapErase] at hf
    by_cases e : k' = k
    · rw [if_pos e] at hf
      exact absurd hf (by simp)
    · rw [if_neg e] at hf
      exact hwf k' v' hf hp
  · intro g hg
    rw [live_mapErase_other _ _ _ (isResourceOf_marker g k hk1),
      mapFind_mapErase_ne _ _ _ (hk2 g)]
    exact hrows g hg

theorem accounted_add_row (codec : FileStringCodec) (n : Nat) (o : List (String × String))
    (g : String) (h : Accounted codec n o) (hg : validId g)
    (hnone : mapFind o (getResourceGroupPrefixedKey g) = none) :
    Accounted codec n
      (mapSet o (getResourceGroupPrefixedKey g) (codec.getFileString ["0", "0", "0", "0"])) := by
  obtain ⟨hnd, hwf, hrows⟩ := h
  refine ⟨nodup_mapSet _ _ _ hnd, ?_, ?_⟩
  · intro k' v' hf hp
    rw [mapFind_mapSet] at hf
    by_cases e : k' = getResourceGroupPrefixedKey g
    · rw [e, resourcesStart_group] at hp
      exact absurd hp (by decide)
    · rw [if_neg e] at hf
      exact hwf k' v' hf hp
  · intro g' hg'
    rw [live_mapSet_other _ _ _ _ (isResourceOf_group g' g)]
    by_cases e : g' = g
    · subst e
      rw [mapFind_mapSet_self, (hrows g' hg').1 hnone]
      refine ⟨fun hx => absurd hx (by simp), ?_⟩
      intro v hv
      refine ⟨0, by simp, by omega, ?_⟩
      rw [← Option.some.inj hv]
      rfl
    · have hne : getResourceGroupPrefixedKey g' ≠ getResourceGroupPrefixedKey g :=
        fun e2 => e ((groupKey_inj g' g).1 e2)
      rw [mapFind_mapSet_ne _ _ _ _ hne]
      exact hrows g' hg'

theorem accounted_erase_row (codec : FileStringCodec) (n : Nat) (o : List (String × String))
    (g : String) (h : Accounted codec n o) (hlive : liveResources o g = []) :
    Accounted codec n (mapErase o (getResourceGroupPrefixedKey g)) := by
  obtain ⟨hnd, hwf, hrows⟩ := h
  refine ⟨nodup_mapErase _ _ hnd, ?_, ?_⟩
  · intro k' v' hf hp
    rw [mapFind_mapErase] at hf
    by_cases e : k' = getResourceGroupPrefixedKey g
    · rw [if_pos e] at hf
      exact absurd hf (by simp)
    · rw [if_neg e] at hf
      exact hwf k' v' hf hp
  · intro g' hg'
    rw [live_mapErase_other _ _ _ (isResourceOf_group g' g)]
    by_cases e : g' = g
    · subst e
      rw [mapFind_mapErase_self]
      exact ⟨fun _ => hlive, fun v hv => absurd hv (by simp)⟩
    · have hne : getResourceGroupPrefixedKey g' ≠ getResourceGroupPrefixedKey g :=
        fun e2 => e ((groupKey_inj g' g).1 e2)
      rw [mapFind_mapErase_ne _ _ _ hne]
      exact hrows g' hg'

end GlobalState

namespace GlobalState

theorem live_count_set (o : List (String × String)) (g k v : String)
    (hk : isResourceOf g k = true) :
    ((liveResources (mapSet o k v) g).length : Int) ≤ ((liveResources o g).length : Int) + 1 := by
  rw [← valSum_one, ← valSum_one, valSum_live_set _ _ _ _ _ hk]
  cases mapFind o k <;> simp

theorem live_count_erase (o : List (String × String)) (g k : String)
    (hnd : (mapKeys o).Nodup) (hk : isResourceOf g k = true) :
    ((liveResources (mapErase o k) g).length : Int)
      = ((liveResources o g).length : Int) - (match mapFind o k with
          | some _ => 1
          | none => 0) := by
  rw [← valSum_one, ← valSum_one, valSum_live_erase _ _ _ _ hnd hk]

theorem accounted_set_resource (codec : FileStringCodec) (o : List (String × String))
    (g r data payload : String) (c : ResourceCost) (count : Int) (n : Nat)
    (h : Accounted codec n o) (hg : validId g)
    (hdata : SimpleResourceWrapper.ofFileString codec data = some ⟨c, payload⟩)
    (hcount : ((liveResources o g).length : Int) ≤ count) (hbound : count ≤ (n : Int)) :
    Accounted codec (n + 1)
      (mapSet (mapSet o (getResourcePrefixedKey g r) data) (getResourceGroupPrefixedKey g)
        (codec.getFileString
          [toString (wrapLong (sizeOfResources codec (liveResources o g) + c._resourceSize
              - (costAt codec o (getResourcePrefixedKey g r))._resourceSize)),
           toString (wrapLong (memoryOfResources codec (liveResources o g) + c._memorySize
              - (costAt codec o (getResourcePrefixedKey g r))._memorySize)),
           toString (wrapInt (threadsOfResources codec (liveResources o g) + c._threadCount
              - (costAt codec o (getResourcePrefixedKey g r))._threadCount)),
           toString (count + 1)])) := by
  obtain ⟨hnd, hwf, hrows⟩ := h
  have hself : isResourceOf g (getResourcePrefixedKey g r) = true :=
    (isResourceOf_resource g g r hg.2 hg.2).2 rfl
  have hsc : storedCost codec data = c := by
    unfold storedCost
    rw [hdata]
  have hmono := accounted_mono codec n (n + 1) o ⟨hnd, hwf, hrows⟩ (Nat.le_succ n)
  refine ⟨nodup_mapSet _ _ _ (nodup_mapSet _ _ _ hnd), ?_, ?_⟩
  · intro k' v' hf hp
    rw [mapFind_mapSet] at hf
    by_cases e : k' = getResourceGroupPrefixedKey g
    · rw [e, resourcesStart_group] at hp
      exact absurd hp (by decide)
    · rw [if_neg e, mapFind_mapSet] at hf
      by_cases e2 : k' = getResourcePrefixedKey g r
      · rw [if_pos e2] at hf
        rw [← Option.some.inj hf, hdata]
        simp
      · rw [if_neg e2] at hf
        exact hwf k' v' hf hp
  · intro g' hg'
    rw [live_mapSet_other _ _ _ _ (isResourceOf_group g' g)]
    by_cases e : g' = g
    · subst e
      rw [mapFind_mapSet_self]
      refine ⟨fun hx => absurd hx (by simp), ?_⟩
      intro v hv
      refine ⟨count + 1, ?_, by push_cast; omega, ?_⟩
      · have := live_count_set o g' (getResourcePrefixedKey g' r) data hself
        omega
      · rw [← Option.some.inj hv]
        have e1 : sizeOfResources codec
              (liveResources (mapSet o (getResourcePrefixedKey g' r) data) g')
            = sizeOfResources codec (liveResources o g') + c._resourceSize
              - (costAt codec o (getResourcePrefixedKey g' r))._resourceSize := by
          unfold sizeOfResources costAt
          rw [valSum_live_set _ _ _ _ _ hself, hsc]
          cases mapFind o (getResourcePrefixedKey g' r) with
          | none => show _ - 0 + _ = _ + _ - 0; ring
          | some v0 => simp only; ring
        have e2 : memoryOfResources codec
              (liveResources (mapSet o (getResourcePrefixedKey g' r) data) g')
            = memoryOfResources codec (liveResources o g') + c._memorySize
              - (costAt codec o (getResourcePrefixedKey g' r))._memorySize := by
          unfold memoryOfResources costAt
          rw [valSum_live_set _ _ _ _ _ hself, hsc]
          cases mapFind o (getResourcePrefixedKey g' r) with
          | none => show _ - 0 + _ = _ + _ - 0; ring
          | some v0 => simp only; ring
        have e3 : threadsOfResources codec
              (liveResources (mapSet o (getResourcePrefixedKey g' r) data) g')
            = threadsOfResources codec (liveResources o g') + c._threadCount
              - (costAt codec o (getResourcePrefixedKey g' r))._threadCount := by
          unfold threadsOfResources costAt
          rw [valSum_live_set _ _ _ _ _ hself, hsc]
          cases mapFind o (getResourcePrefixedKey g' r) with
          | none => show _ - 0 + _ = _ + _ - 0; ring
          | some v0 => simp only; ring
        rw [e1, e2, e3]
    · have hne : getResourceGroupPrefixedKey g' ≠ getResourceGroupPrefixedKey g :=
        fun e2 => e ((groupKey_inj g' g).1 e2)
      have hother : isResourceOf g' (getResourcePrefixedKey g r) = false := by
        cases hx : isResourceOf g' (getResourcePrefixedKey g r) with
        | false => rfl
        | true => exact absurd ((isResourceOf_resource g' g r hg'.2 hg.2).1 hx) e
      rw [mapFind_mapSet_ne _ _ _ _ hne,
        mapFind_mapSet_ne _ _ _ _ (group_ne_resource g' g r),
        live_mapSet_other _ _ _ _ hother]
      exact hmono.2.2 g' hg'

theorem accounted_remove_resource (codec : FileStringCodec) (o : List (String × String))
    (g r v0 : String) (count : Int) (n : Nat)
    (h : Accounted codec n o) (hg : validId g)
    (hfind : mapFind o (getResourcePrefixedKey g r) = some v0)
    (hcount : ((liveResources o g).length : Int) ≤ count) (hbound : count ≤ (n : Int)) :
    Accounted codec n
      (mapSet (mapErase o (getResourcePrefixedKey g r)) (getResourceGroupPrefixedKey g)
        (codec.getFileString
          [toString (wrapLong (sizeOfResources codec (liveResources o g)
              - (storedCost codec v0)._resourceSize)),
           toString (wrapLong (memoryOfResources codec (liveResources o g)
              - (storedCost codec v0)._memorySize)),
           toString (wrapInt (threadsOfResources codec (liveResources o g)
              - (storedCost codec v0)._threadCount)),
           toString (count - 1)])) := by
  obtain ⟨hnd, hwf, hrows⟩ := h
  have hself : isResourceOf g (getResourcePrefixedKey g r) = true :=
    (isResourceOf_resource g g r hg.2 hg.2).2 rfl
  refine ⟨nodup_mapSet _ _ _ (nodup_mapErase _ _ hnd), ?_, ?_⟩
  · intro k' v' hf hp
    rw [mapFind_mapSet] at hf
    by_cases e : k' = getResourceGroupPrefixedKey g
    · rw [e, resourcesStart_group] at hp
      exact absurd hp (by decide)
    · rw [if_neg e, mapFind_mapErase] at hf
      by_cases e2 : k' = getResourcePrefixedKey g r
      · rw [if_pos e2] at hf
        exact absurd hf (by simp)
      · rw [if_neg e2] at hf
        exact hwf k' v' hf hp
  · intro g' hg'
    rw [live_mapSet_other _ _ _ _ (isResourceOf_group g' g)]
    by_cases e : g' = g
    · subst e
      rw [mapFind_mapSet_self]
      refine ⟨fun hx => absurd hx (by simp), ?_⟩
      intro v hv
      refine ⟨count - 1, ?_, by omega, ?_⟩
      · have := live_count_erase o g' (getResourcePrefixedKey g' r) hnd hself
        rw [hfind] at this
        simp only at this
        omega
      · rw [← Option.some.inj hv]
        have e1 : sizeOfResources codec
              (liveResources (mapErase o (getResourcePrefixedKey g' r)) g')
            = sizeOfResources codec (liveResources o g')
              - (storedCost codec v0)._resourceSize := by
          unfold sizeOfResources
          rw [valSum_live_erase _ _ _ _ hnd hself, hfind]
        have e2 : memoryOfResources codec
              (liveResources (mapErase o (getResourcePrefixedKey g' r)) g')
            = memoryOfResources codec (liveResources o g')
              - (storedCost codec v0)._memorySize := by
          unfold memoryOfResources
          rw [valSum_live_erase _ _ _ _ hnd hself, hfind]
        have e3 : threadsOfResources codec
              (liveResources (mapErase o (getResourcePrefixedKey g' r)) g')
            = threadsOfResources codec (liveResources o g')
              - (storedCost codec v0)._threadCount := by
          unfold threadsOfResources
          rw [valSum_live_erase _ _ _ _ hnd hself, hfind]
        rw [e1, e2, e3]
    · have hne : getResourceGroupPrefixedKey g' ≠ getResourceGroupPrefixedKey g :=
        fun e2 => e ((groupKey_inj g' g).1 e2)
      have hother : isResourceOf g' (getResourcePrefixedKey g r) = false := by
        cases hx : isResourceOf g' (getResourcePrefixedKey g r) with
        | false => rfl
        | true => exact absurd ((isResourceOf_resource g' g r hg'.2 hg.2).1 hx) e
      rw [mapFind_mapSet_ne _ _ _ _ hne,
        mapFind_mapErase_ne _ _ _ (group_ne_resource g' g r),
        live_mapErase_other _ _ _ hother]
      exact hrows g' hg'

theorem accounted_erase_resource (codec : FileStringCodec) (n : Nat)
    (o : List (String × String))
    (g r : String) (h : Accounted codec n o) (hg : validId g)
    (hzero : ∀ v0, mapFind o (getResourcePrefixedKey g r) = some v0 →
      storedCost codec v0 = default) :
    Accounted codec n (mapErase o (getResourcePrefixedKey g r)) := by
  obtain ⟨hnd, hwf, hrows⟩ := h
  have hself : isResourceOf g (getResourcePrefixedKey g r) = true :=
    (isResourceOf_resource g g r hg.2 hg.2).2 rfl
  refine ⟨nodup_mapErase _ _ hnd, ?_, ?_⟩
  · intro k' v' hf hp
    rw [mapFind_mapErase] at hf
    by_cases e2 : k' = getResourcePrefixedKey g r
    · rw [if_pos e2] at hf
      exact absurd hf (by simp)
    · rw [if_neg e2] at hf
      exact hwf k' v' hf hp
  · intro g' hg'
    rw [mapFind_mapErase_ne _ _ _ (group_ne_resource g' g r)]
    by_cases e : g' = g
    · subst e
      have hz : ∀ f : ResourceCost → Int, f default = 0 →
          valSum (fun v => f (storedCost codec v))
              (liveResources (mapErase o (getResourcePrefixedKey g' r)) g')
            = valSum (fun v => f (storedCost codec v)) (liveResources o g') := by
        intro f hf0
        rw [valSum_live_erase _ _ _ _ hnd hself]
        cases hf : mapFind o (getResourcePrefixedKey g' r) with
        | none => simp
        | some v0 => simp [hzero v0 hf, hf0]
      have hlen := live_count_erase o g' (getResourcePrefixedKey g' r) hnd hself
      refine ⟨?_, ?_⟩
      · intro hnone
        rw [live_mapErase, (hrows g' hg').1 hnone]
        rfl
      · intro v hv
        obtain ⟨count, hc1, hcb, hc2⟩ := (hrows g' hg').2 v hv
        refine ⟨count, ?_, hcb, ?_⟩
        · have h01 : (0 : Int) ≤ (match mapFind o (getResourcePrefixedKey g' r) with
              | some _ => (1 : Int)
              | none => 0) := by
            cases mapFind o (getResourcePrefixedKey g' r) <;> simp
          omega
        · have e1 := hz (fun c => c._resourceSize) rfl
          have e2 := hz (fun c => c._memorySize) rfl
          have e3 := hz (fun c => c._threadCount) rfl
          unfold sizeOfResources memoryOfResources threadsOfResources
          rw [e1, e2, e3]
          exact hc2
    · have hother : isResourceOf g' (getResourcePrefixedKey g r) = false := by
        cases hx : isResourceOf g' (getResourcePrefixedKey g r) with
        | false => rfl
        | true => exact absurd ((isResourceOf_resource g' g r hg'.2 hg.2).1 hx) e
      rw [live_mapErase_other _ _ _ hother]
      exact hrows g' hg'

end GlobalState

namespace GlobalState

theorem addResourceGroup_cases (codec : FileStringCodec) (st : GlobalState) (g : String) :
    (addResourceGroup codec st g).2 = st
    ∨ (st._dataStore.getItem (getResourceGroupPrefixedKey g) = ""
      ∧ (addResourceGroup codec st g).1 = true
      ∧ (addResourceGroup codec st g).2._accessMode = st._accessMode
      ∧ (addResourceGroup codec st g).2._dataStore.objects
        = mapSet
            (mapSet st._dataStore.objects (getResourceGroupPrefixedKey g)
              (codec.getFileString ["0", "0", "0", "0"]))
            (getUnassignedPrefixedKey g) "UNASSIGNED") := by
  obtain ⟨hr1, hr2⟩ := groupKey_valid g
  obtain ⟨hu1, hu2⟩ := unassignedKey_valid g
  obtain ⟨a1, a2⟩ := S3DataStore.addItem_valid st._dataStore (getResourceGroupPrefixedKey g)
    (codec.getFileString ["0", "0", "0", "0"]) hr1 hr2
  obtain ⟨b1, b2⟩ := S3DataStore.addItem_valid
    (st._dataStore.addItem (getResourceGroupPrefixedKey g)
      (codec.getFileString ["0", "0", "0", "0"])).2
    (getUnassignedPrefixedKey g) "UNASSIGNED" hu1 hu2
  unfold addResourceGroup
  split
  · simp only
    split
    · rename_i hc
      right
      refine ⟨hc.2, ?_, ?_, ?_⟩
      · simp only [a1, if_true]
        exact b1
      · simp only [a1, if_true]
      · simp only [a1, if_true]
        rw [b2, a2]
    · left; rfl
  · left; rfl

theorem removeResourceGroup_cases (codec : FileStringCodec) (st : GlobalState) (g : String) :
    ((removeResourceGroup codec st g).2 = st ∧ (removeResourceGroup codec st g).1 ≠ some true)
    ∨ ∃ count : Int,
        st._accessMode = Mode.READ_WRITE
        ∧ st._dataStore.getItem (getUnassignedPrefixedKey g) = "UNASSIGNED"
        ∧ (currDetailsVect codec st g).length ≥ 4
        ∧ codec.stoi ((currDetailsVect codec st g).getD 3 "") = some count
        ∧ count ≤ 0
        ∧ (removeResourceGroup codec st g).1 = some true
        ∧ (removeResourceGroup codec st g).2._accessMode = st._accessMode
        ∧ (removeResourceGroup codec st g).2._dataStore.objects
          = mapErase (mapErase st._dataStore.objects (getResourceGroupPrefixedKey g))
              (getUnassignedPrefixedKey g) := by
  obtain ⟨hr1, _⟩ := groupKey_valid g
  obtain ⟨hu1, _⟩ := unassignedKey_valid g
  obtain ⟨d1, d2⟩ := S3DataStore.deleteItem_valid st._dataStore
    (getResourceGroupPrefixedKey g) hr1
  obtain ⟨e1, e2⟩ := S3DataStore.deleteItem_valid
    (st._dataStore.deleteItem (getResourceGroupPrefixedKey g)).2
    (getUnassignedPrefixedKey g) hu1
  unfold removeResourceGroup
  split
  · rename_i hm
    simp only
    split
    · rename_i hc
      split
      · rename_i hlen
        split
        · left; exact ⟨rfl, by simp⟩
        · rename_i count hcount
          split
          · rename_i hle
            right
            refine ⟨count, hm, hc.2, hlen, hcount, hle, ?_, rfl, ?_⟩
            · simp only [d1, e1, Bool.and_self]
            · simp only
              rw [e2, d2]
          · left; exact ⟨rfl, by simp⟩
      · left; exact ⟨rfl, by simp⟩
    · left; exact ⟨rfl, by simp⟩
  · left; exact ⟨rfl, by simp⟩

theorem claimManagedResourceGroup_objects (st : GlobalState) (m g : String) :
    (claimManagedResourceGroup st m g).2._dataStore.objects = st._dataStore.objects
    ∨ (claimManagedResourceGroup st m g).2._dataStore.objects
        = mapErase (mapSet st._dataStore.objects (getAssignedPrefixedKey m g) "ASSIGNED")
            (getUnassignedPrefixedKey g) := by
  obtain ⟨ha1, ha2⟩ := assignedKey_valid m g
  obtain ⟨hu1, _⟩ := unassignedKey_valid g
  obtain ⟨a1, a2⟩ := S3DataStore.addItem_valid st._dataStore _ "ASSIGNED" ha1 ha2
  obtain ⟨_, d2⟩ := S3DataStore.deleteItem_valid
    (st._dataStore.addItem (getAssignedPrefixedKey m g) "ASSIGNED").2 _ hu1
  by_cases hcnd : st._dataStore.getItem (getUnassignedPrefixedKey g) = "UNASSIGNED"
  · right
    simp only [claimManagedResourceGroup, hcnd, a1, if_true]
    rw [d2, a2]
  · left
    simp only [claimManagedResourceGroup, hcnd, if_false]

theorem dropManagedResourceGroup_objects (st : GlobalState) (m g : String) :
    (dropManagedResourceGroup st m g).2._dataStore.objects = st._dataStore.objects
    ∨ (dropManagedResourceGroup st m g).2._dataStore.objects
        = mapErase (mapSet st._dataStore.objects (getUnassignedPrefixedKey g) "UNASSIGNED")
            (getAssignedPrefixedKey m g) := by
  obtain ⟨ha1, _⟩ := assignedKey_valid m g
  obtain ⟨hu1, hu2⟩ := unassignedKey_valid g
  obtain ⟨a1, a2⟩ := S3DataStore.addItem_valid st._dataStore _ "UNASSIGNED" hu1 hu2
  obtain ⟨_, d2⟩ := S3DataStore.deleteItem_valid
    (st._dataStore.addItem (getUnassignedPrefixedKey g) "UNASSIGNED").2 _ ha1
  by_cases hcnd : st._dataStore.getItem (getAssignedPrefixedKey m g) = "ASSIGNED"
  · right
    simp only [dropManagedResourceGroup, hcnd, a1, if_true]
    rw [d2, a2]
  · left
    simp only [dropManagedResourceGroup, hcnd, if_false]

/-- The row of a group in an accounted store, and what the operations read
from it. -/
theorem accounted_row (codec : FileStringCodec) (hc : codec.Faithful) (n : Nat)
    (st : GlobalState)
    (g : String) (hg : validId g) (h : Accounted codec n st._dataStore.objects)
    (hlen : (currDetailsVect codec st g).length ≥ 4) :
    ∃ count : Int, ((liveResources st._dataStore.objects g).length : Int) ≤ count
      ∧ count ≤ (n : Int)
      ∧ mapFind st._dataStore.objects (getResourceGroupPrefixedKey g)
        = some (codec.getFileString
            [toString (wrapLong (sizeOfResources codec (liveResources st._dataStore.objects g))),
             toString (wrapLong
               (memoryOfResources codec (liveResources st._dataStore.objects g))),
             toString (wrapInt
               (threadsOfResources codec (liveResources st._dataStore.objects g))),
             toString count])
      ∧ currDetailsVect codec st g
        = [toString (wrapLong (sizeOfResources codec (liveResources st._dataStore.objects g))),
           toString (wrapLong (memoryOfResources codec (liveResources st._dataStore.objects g))),
           toString (wrapInt (threadsOfResources codec (liveResources st._dataStore.objects g))),
           toString count] := by
  have hrow := row_present_of_details codec hc.parse_empty st g hlen
  obtain ⟨v, hv⟩ := Option.ne_none_iff_exists'.mp hrow
  obtain ⟨count, h1, hb, h2⟩ := (h.2.2 g hg).2 v hv
  refine ⟨count, h1, hb, by rw [hv, h2], ?_⟩
  exact details_of_row codec hc st g _ (by rw [hv, h2])

theorem count_inInt (len : Nat) (count : Int) (n : Nat) (h1 : (len : Int) ≤ count)
    (hb : count ≤ (n : Int)) (hn : n ≤ 2147483647) : inInt count := by
  unfold inInt
  omega

theorem setResource_accounted (codec : FileStringCodec) (hc : codec.Faithful) (n : Nat)
    (hn : n < 2147483647)
    (st : GlobalState) (g r : String) (resource : Option Resource) (hg : validId g)
    (hres : ∀ res, resource = some res → res.getResourceCost.InRange)
    (h : Accounted codec n st._dataStore.objects) :
    Accounted codec (n + 1) (setResourceInGroup codec st g r resource).2._dataStore.objects := by
  rcases setResourceInGroup_cases codec st g r resource with
    ⟨e, _⟩ | ⟨res, cc, cn, old, hr, _, hold, hlen, hcc, _, _, hobj⟩
  · rw [e]; exact accounted_mono codec n (n + 1) _ h (Nat.le_succ n)
  · obtain ⟨count, h1, hb, _, h3⟩ := accounted_row codec hc n st g hg h hlen
    have hcnt : inInt count := count_inInt _ count n h1 hb (by omega)
    rw [h3, currCostAndCount_row codec hc _ _ _ _ (wrapLong_inLong _) (wrapLong_inLong _)
      (wrapInt_inInt _) hcnt] at hcc
    have hcc2 := Option.some.inj hcc
    have e1 : cc = ⟨wrapLong (sizeOfResources codec (liveResources st._dataStore.objects g)),
        wrapLong (memoryOfResources codec (liveResources st._dataStore.objects g)),
        wrapInt (threadsOfResources codec (liveResources st._dataStore.objects g))⟩ :=
      (congrArg Prod.fst hcc2).symm
    have e2 : cn = count := (congrArg Prod.snd hcc2).symm
    have e3 : old = costAt codec st._dataStore.objects (getResourcePrefixedKey g r) :=
      cost_read codec hc st g r old hold
    have e4 : wrapInt (count + 1) = count + 1 := by
      apply wrapInt_of_inInt
      unfold inInt at hcnt ⊢
      omega
    rw [hobj, e1, e2, e3]
    simp only [wrapLong_add_sub, wrapInt_add_sub, e4]
    exact accounted_set_resource codec _ g r _ _ _ count n h hg
      (ofFileString_resourceData codec hc res (hres res hr)) h1 hb

theorem removeResource_accounted (codec : FileStringCodec) (hc : codec.Faithful) (n : Nat)
    (hn : n ≤ 2147483647)
    (st : GlobalState) (g r : String) (hg : validId g)
    (h : Accounted codec n st._dataStore.objects) :
    Accounted codec n (removeResourceInGroup codec st g r).2._dataStore.objects := by
  have hget := S3DataStore.getItem_eq_find st._dataStore _ (resourceKey_valid g r).1
  rcases removeResourceInGroup_cases codec st g r with
    ⟨e, _⟩ | ⟨_, hobj, _, hz⟩ | ⟨cc, cn, w, _, hne, hw, hlen, hcc, _, _, hobj⟩
  · rw [e]; exact h
  · rw [hobj]
    apply accounted_erase_resource codec n _ g r h hg
    intro v0 hf
    rw [hget, hf] at hz
    simp only [Option.getD_some] at hz
    rcases hz with hz | hz
    · rw [hz]; exact storedCost_empty codec hc
    · unfold storedCost
      rw [hz]
  · obtain ⟨count, h1, hb, _, h3⟩ := accounted_row codec hc n st g hg h hlen
    have hcnt : inInt count := count_inInt _ count n h1 hb hn
    rw [h3, currCostAndCount_row codec hc _ _ _ _ (wrapLong_inLong _) (wrapLong_inLong _)
      (wrapInt_inInt _) hcnt] at hcc
    have hcc2 := Option.some.inj hcc
    have e1 : cc = ⟨wrapLong (sizeOfResources codec (liveResources st._dataStore.objects g)),
        wrapLong (memoryOfResources codec (liveResources st._dataStore.objects g)),
        wrapInt (threadsOfResources codec (liveResources st._dataStore.objects g))⟩ :=
      (congrArg Prod.fst hcc2).symm
    have e2 : cn = count := (congrArg Prod.snd hcc2).symm
    have hf := S3DataStore.find_of_getItem st._dataStore _ _ hne rfl
    have e3 : w._resourceCost
        = storedCost codec (st._dataStore.getItem (getResourcePrefixedKey g r)) := by
      unfold storedCost
      rw [hw]
    have hlive : (1 : Int) ≤ ((liveResources st._dataStore.objects g).length : Int) := by
      have hself : isResourceOf g (getResourcePrefixedKey g r) = true :=
        (isResourceOf_resource g g r hg.2 hg.2).2 rfl
      have hl := live_count_erase st._dataStore.objects g (getResourcePrefixedKey g r) h.1 hself
      rw [hf] at hl
      simp only at hl
      have h0 : (0 : Int)
          ≤ ((liveResources (mapErase st._dataStore.objects (getResourcePrefixedKey g r))
              g).length : Int) := Int.natCast_nonneg _
      omega
    have e4 : wrapInt (count - 1) = count - 1 := by
      apply wrapInt_of_inInt
      unfold inInt at hcnt ⊢
      omega
    rw [hobj, e1, e2, e3]
    simp only [wrapLong_sub, wrapInt_sub, e4]
    exact accounted_remove_resource codec _ g r _ count n h hg hf h1 hb

theorem addGroup_accounted (codec : FileStringCodec) (hc : codec.Faithful) (n : Nat)
    (st : GlobalState) (g : String) (hg : validId g)
    (h : Accounted codec n st._dataStore.objects) :
    Accounted codec n (addResourceGroup codec st g).2._dataStore.objects := by
  rcases addResourceGroup_cases codec st g with e | ⟨hget, _, _, hobj⟩
  · rw [e]; exact h
  · rw [hobj]
    have hnone : mapFind st._dataStore.objects (getResourceGroupPrefixedKey g) = none := by
      cases hf : mapFind st._dataStore.objects (getResourceGroupPrefixedKey g) with
      | none => rfl
      | some v =>
        obtain ⟨count, _, _, hv⟩ := (h.2.2 g hg).2 v hf
        rw [S3DataStore.getItem_eq_find _ _ (groupKey_valid g).1, hf] at hget
        simp only [Option.getD_some] at hget
        rw [hget] at hv
        exact absurd hv.symm (pack_ne_empty codec hc _ rfl)
    exact accounted_frame_set codec n _ _ _ (accounted_add_row codec n _ g h hg hnone)
      (resourcesStart_unassigned g) (fun g' => group_ne_unassigned g' g)

/-- In an accounted store a call of `removeResourceGroup` that returns true
read the count 0 from a row without live resources. -/
theorem removeGroup_count_zero (codec : FileStringCodec) (hc : codec.Faithful) (n : Nat)
    (hn : n ≤ 2147483647)
    (st : GlobalState) (g : String) (hg : validId g)
    (h : Accounted codec n st._dataStore.objects)
    (htrue : (removeResourceGroup codec st g).1 = some true) :
    liveResources st._dataStore.objects g = []
      ∧ mapFind st._dataStore.objects (getResourceGroupPrefixedKey g)
        = some (codec.getFileString
            [toString (0 : Int), toString (0 : Int), toString (0 : Int), toString (0 : Int)]) := by
  rcases removeResourceGroup_cases codec st g with
    ⟨_, hne⟩ | ⟨cnt, _, _, hlen, hstoi, hle, _, _, _⟩
  · exact absurd htrue hne
  · obtain ⟨count, h1, hb, h2, h3⟩ := accounted_row codec hc n st g hg h hlen
    have hcnt : inInt count := count_inInt _ count n h1 hb hn
    rw [h3] at hstoi
    simp only [List.getD_cons_succ, List.getD_cons_zero, hc.stoi_toString _ hcnt] at hstoi
    have e2 : count = cnt := Option.some.inj hstoi
    have hlive : liveResources st._dataStore.objects g = [] := by
      apply List.eq_nil_of_length_eq_zero
      omega
    have e0 : count = 0 := by
      rw [hlive] at h1
      simp only [List.length_nil, Nat.cast_zero] at h1
      omega
    refine ⟨hlive, ?_⟩
    rw [h2, hlive, e0]
    rfl

theorem removeGroup_accounted (codec : FileStringCodec) (hc : codec.Faithful) (n : Nat)
    (hn : n ≤ 2147483647)
    (st : GlobalState) (g : String) (hg : validId g)
    (h : Accounted codec n st._dataStore.objects) :
    Accounted codec n (removeResourceGroup codec st g).2._dataStore.objects := by
  rcases removeResourceGroup_cases codec st g with
    ⟨e, _⟩ | ⟨cnt, _, _, _, _, _, htrue, _, hobj⟩
  · rw [e]; exact h
  · have hlive := (removeGroup_count_zero codec hc n hn st g hg h htrue).1
    rw [hobj]
    exact accounted_frame_erase codec n _ _ (accounted_erase_row codec n _ g h hlive)
      (resourcesStart_unassigned g) (fun g' => group_ne_unassigned g' g)

theorem claim_accounted (codec : FileStringCodec) (n : Nat) (st : GlobalState) (m g : String)
    (h : Accounted codec n st._dataStore.objects) :
    Accounted codec n (claimManagedResourceGroup st m g).2._dataStore.objects := by
  rcases claimManagedResourceGroup_objects st m g with e | e
  · rw [e]; exact h
  · rw [e]
    exact accounted_frame_erase codec n _ _
      (accounted_frame_set codec n _ _ _ h (resourcesStart_assigned m g)
        (fun g' => group_ne_assigned g' m g))
      (resourcesStart_unassigned g) (fun g' => group_ne_unassigned g' g)

theorem drop_accounted (codec : FileStringCodec) (n : Nat) (st : GlobalState) (m g : String)
    (h : Accounted codec n st._dataStore.objects) :
    Accounted codec n (dropManagedResourceGroup st m g).2._dataStore.objects := by
  rcases dropManagedResourceGroup_objects st m g with e | e
  · rw [e]; exact h
  · rw [e]
    exact accounted_frame_erase codec n _ _
      (accounted_frame_set codec n _ _ _ h (resourcesStart_unassigned g)
        (fun g' => group_ne_unassigned g' g))
      (resourcesStart_assigned m g) (fun g' => group_ne_assigned g' m g)

theorem applyOperation_accounted (codec : FileStringCodec) (hc : codec.Faithful) (n : Nat)
    (hn : n < 2147483647)
    (st : GlobalState) (op : Operation) (hop : op.idsValid) (hcost : op.costsInRange)
    (h : Accounted codec n st._dataStore.objects) :
    Accounted codec (n + 1) (applyOperation codec st op)._dataStore.objects := by
  have hle : n ≤ 2147483647 := by omega
  cases op with
  | addResourceGroup g =>
    exact accounted_mono codec n (n + 1) _ (addGroup_accounted codec hc n st g hop h)
      (Nat.le_succ n)
  | removeResourceGroup g =>
    exact accounted_mono codec n (n + 1) _ (removeGroup_accounted codec hc n hle st g hop h)
      (Nat.le_succ n)
  | claimManagedResourceGroup m g =>
    exact accounted_mono codec n (n + 1) _ (claim_accounted codec n st m g h) (Nat.le_succ n)
  | dropManagedResourceGroup m g =>
    exact accounted_mono codec n (n + 1) _ (drop_accounted codec n st m g h) (Nat.le_succ n)
  | setResourceInGroup g r resource =>
    refine setResource_accounted codec hc n hn st g r resource hop.1 ?_ h
    intro res hr
    subst hr
    exact hcost
  | removeResourceInGroup g r =>
    exact accounted_mono codec n (n + 1) _
      (removeResource_accounted codec hc n hle st g r hop.1 h) (Nat.le_succ n)

theorem applyOperations_accounted (codec : FileStringCodec) (hc : codec.Faithful)
    (ops : List Operation) (n : Nat) (st : GlobalState) (hops : ∀ op ∈ ops, op.idsValid)
    (hcosts : ∀ op ∈ ops, op.costsInRange) (hn : n + ops.length ≤ 2147483647)
    (h : Accounted codec n st._dataStore.objects) :
    Accounted codec (n + ops.length) (applyOperations codec st ops)._dataStore.objects := by
  induction ops generalizing st n with
  | nil => exact h
  | cons op rest ih =>
    simp only [List.length_cons] at hn ⊢
    have e : n + (rest.length + 1) = (n + 1) + rest.length := by omega
    rw [e]
    exact ih (n + 1) (applyOperation codec st op)
      (fun o ho => hops o (List.mem_cons_of_mem _ ho))
      (fun o ho => hcosts o (List.mem_cons_of_mem _ ho))
      (by omega)
      (applyOperation_accounted codec hc n (by omega) st op (hops op (by simp))
        (hcosts op (by simp)) h)

theorem accounted_empty (codec : FileStringCodec) : Accounted codec 0 [] := by
  refine ⟨by simp [mapKeys], ?_, ?_⟩
  · intro k v hf
    simp [mapFind] at hf
  · intro g _
    exact ⟨fun _ => rfl, fun v hv => by simp [mapFind] at hv⟩

end GlobalState

namespace GlobalState

theorem claim_mode (st : GlobalState) (m g : String) :
    (claimManagedResourceGroup st m g).2._accessMode = st._accessMode := by
  simp only [claimManagedResourceGroup]
  split_ifs <;> rfl

theorem drop_mode (st : GlobalState) (m g : String) :
    (dropManagedResourceGroup st m g).2._accessMode = st._accessMode := by
  simp only [dropManagedResourceGroup]
  split_ifs <;> rfl

theorem applyOperation_mode (codec : FileStringCodec) (st : GlobalState) (op : Operation) :
    (applyOperation codec st op)._accessMode = st._accessMode := by
  cases op with
  | addResourceGroup g =>
    rcases addResourceGroup_cases codec st g with e | ⟨_, _, hm, _⟩
    · exact congrArg GlobalState._accessMode e
    · exact hm
  | removeResourceGroup g =>
    rcases removeResourceGroup_cases codec st g with ⟨e, _⟩ | ⟨_, _, _, _, _, _, _, hm, _⟩
    · exact congrArg GlobalState._accessMode e
    · exact hm
  | claimManagedResourceGroup m g => exact claim_mode st m g
  | dropManagedResourceGroup m g => exact drop_mode st m g
  | setResourceInGroup g r resource =>
    rcases setResourceInGroup_cases codec st g r resource with
      ⟨e, _⟩ | ⟨_, _, _, _, _, _, _, _, _, _, hm, _⟩
    · exact congrArg GlobalState._accessMode e
    · exact hm
  | removeResourceInGroup g r =>
    rcases removeResourceInGroup_cases codec st g r with
      ⟨e, _⟩ | ⟨hm, _⟩ | ⟨_, _, _, _, _, _, _, _, _, hm, _⟩
    · exact congrArg GlobalState._accessMode e
    · exact hm
    · exact hm

theorem applyOperations_mode (codec : FileStringCodec) (ops : List Operation)
    (st : GlobalState) : (applyOperations codec st ops)._accessMode = st._accessMode := by
  induction ops generalizing st with
  | nil => rfl
  | cons op rest ih =>
    exact (ih (applyOperation codec st op)).trans (applyOperation_mode codec st op)

theorem removeResourceGroup_succeeds (codec : FileStringCodec) (st : GlobalState)
    (g : String) (count : Int) (hm : st._accessMode = Mode.READ_WRITE) (hg : g ≠ "")
    (hu : st._dataStore.getItem (getUnassignedPrefixedKey g) = "UNASSIGNED")
    (hlen : (currDetailsVect codec st g).length ≥ 4)
    (hs : codec.stoi ((currDetailsVect codec st g).getD 3 "") = some count)
    (hle : count ≤ 0) :
    (removeResourceGroup codec st g).1 = some true := by
  obtain ⟨d1, _⟩ := S3DataStore.deleteItem_valid st._dataStore
    (getResourceGroupPrefixedKey g) (groupKey_valid g).1
  obtain ⟨e1, _⟩ := S3DataStore.deleteItem_valid
    (st._dataStore.deleteItem (getResourceGroupPrefixedKey g)).2
    (getUnassignedPrefixedKey g) (unassignedKey_valid g).1
  unfold removeResourceGroup
  simp only [hm, if_true, hg, hu, ne_eq, not_false_eq_true, and_self, hlen, hs, hle, d1, e1,
    Bool.and_self]

end GlobalState

namespace GlobalState

theorem reachable_facts (codec : FileStringCodec) (hc : codec.Faithful)
    (ops : List Operation) (hops : ∀ op ∈ ops, op.idsValid)
    (hcosts : ∀ op ∈ ops, op.costsInRange) (hlen : ops.length ≤ 2147483647) :
    Accounted codec ops.length (applyOperations codec emptyReadWrite ops)._dataStore.objects
      ∧ MarkersConsistent (applyOperations codec emptyReadWrite ops)._dataStore.objects
      ∧ (applyOperations codec emptyReadWrite ops)._accessMode = Mode.READ_WRITE := by
  refine ⟨?_, ?_, ?_⟩
  · have h := applyOperations_accounted codec hc ops 0 emptyReadWrite hops hcosts
      (by omega) (accounted_empty codec)
    rw [Nat.zero_add] at h
    exact h
  · have hinit : MarkersConsistent emptyReadWrite._dataStore.objects := by
      simp [MarkersConsistent, emptyReadWrite, mapFind]
    exact applyOperations_consistent codec (fun v hv => pack_ne_empty codec hc v hv)
      hc.parse_empty ops emptyReadWrite hops hinit
  · rw [applyOperations_mode]
    rfl

/-- What `removeResourceGroup` reads as the details of a group whose row is
stored. -/
theorem details_of_find (codec : FileStringCodec) (st : GlobalState) (g v : String)
    (h : mapFind st._dataStore.objects (getResourceGroupPrefixedKey g) = some v) :
    currDetailsVect codec st g
      = match codec.parseFileString v with
        | some parsed => parsed
        | none => [] := by
  unfold currDetailsVect
  rw [S3DataStore.getItem_eq_find _ _ (groupKey_valid g).1, h]
  rfl

theorem removeResourceGroup_not_true (codec : FileStringCodec) (st : GlobalState)
    (g : String) (count : Int)
    (h : st._accessMode ≠ Mode.READ_WRITE ∨ g = ""
      ∨ st._dataStore.getItem (getUnassignedPrefixedKey g) ≠ "UNASSIGNED"
      ∨ (currDetailsVect codec st g).length < 4
      ∨ (codec.stoi ((currDetailsVect codec st g).getD 3 "") = some count ∧ 0 < count)) :
    removeResourceGroup codec st g = (some false, st) := by
  unfold removeResourceGroup
  split
  · simp only
    split
    · rename_i hgu
      split
      · rename_i hlen
        split
        · rename_i hs
          rcases h with h | h | h | h | h
          · rename_i hm _
            exact absurd hm h
          · exact absurd h hgu.1
          · exact absurd hgu.2 h
          · omega
          · rw [h.1] at hs
            exact absurd hs (by simp)
        · rename_i cnt hs
          split
          · rename_i hle
            rcases h with h | h | h | h | h
            · rename_i hm _
              exact absurd hm h
            · exact absurd h hgu.1
            · exact absurd hgu.2 h
            · omega
            · rw [h.1] at hs
              have := Option.some.inj hs
              omega
          · rfl
      · rfl
    · rfl
  · rfl

/-- C17 (as stated): after the groups `a` and `a/b` are added, the resource
`b/c` is set in `a` and the resource `c` is removed from `a/b`, the store is in
READ_WRITE mode, the row of `a/b` holds the count -1, and
`removeResourceGroup("a/b")` returns true with a count that is not 0. -/
theorem removeResourceGroup_accepts_negative_count :
    negativeCount._accessMode = Mode.READ_WRITE
    ∧ mapFind negativeCount._dataStore.objects (getResourceGroupPrefixedKey "a/b")
        = some (FileStringCodec.exactCodec.getFileString
            [toString (-1 : Int), toString (-2 : Int), toString (-3 : Int), toString (-1 : Int)])
    ∧ mapFind negativeCount._dataStore.objects (getUnassignedPrefixedKey "a/b")
        = some "UNASSIGNED"
    ∧ (removeResourceGroup FileStringCodec.exactCodec negativeCount "a/b").1 = some true := by
  decide

/-- C17 (amended): in READ_WRITE mode `removeResourceGroup g` returns true
exactly when `g` is not empty, the Unassigned marker of `g` is present and the
row of `g` exists with at least four fields and a count that is at most 0; it
then deletes the row and the marker.  Whenever it does not return true the
state is unchanged, and it returns false when the marker is absent, when the
row is absent and when the count is positive; on a store built from the empty
one by calls with valid ids a group assigned to a manager has no Unassigned
marker, and, when the costs are in range and the calls are at most 2147483647,
a count that is accepted is 0 and the group has no live resource. -/
theorem removeResourceGroup_true_iff_count_le_zero (codec : FileStringCodec)
    (hc : codec.Faithful) (st : GlobalState) (hm : st._accessMode = Mode.READ_WRITE)
    (g : String) :
    ((removeResourceGroup codec st g).1 = some true ↔
      (g ≠ ""
        ∧ mapFind st._dataStore.objects (getUnassignedPrefixedKey g) = some "UNASSIGNED"
        ∧ ∃ (v : String) (details : List String) (count : Int),
            mapFind st._dataStore.objects (getResourceGroupPrefixedKey g) = some v
            ∧ codec.parseFileString v = some details
            ∧ details.length ≥ 4
            ∧ codec.stoi (details.getD 3 "") = some count
            ∧ count ≤ 0))
    ∧ ((removeResourceGroup codec st g).1 = some true →
        (removeResourceGroup codec st g).2._accessMode = st._accessMode
          ∧ (removeResourceGroup codec st g).2._dataStore.objects
            = mapErase (mapErase st._dataStore.objects (getResourceGroupPrefixedKey g))
                (getUnassignedPrefixedKey g)
          ∧ mapFind (removeResourceGroup codec st g).2._dataStore.objects
              (getResourceGroupPrefixedKey g) = none
          ∧ mapFind (removeResourceGroup codec st g).2._dataStore.objects
              (getUnassignedPrefixedKey g) = none)
    ∧ ((removeResourceGroup codec st g).1 ≠ some true →
        (removeResourceGroup codec st g).2 = st)
    ∧ (mapFind st._dataStore.objects (getUnassignedPrefixedKey g) ≠ some "UNASSIGNED" →
        removeResourceGroup codec st g = (some false, st))
    ∧ (mapFind st._dataStore.objects (getResourceGroupPrefixedKey g) = none →
        removeResourceGroup codec st g = (some false, st))
    ∧ (∀ (v : String) (details : List String) (count : Int),
        mapFind st._dataStore.objects (getResourceGroupPrefixedKey g) = some v →
        codec.parseFileString v = some details →
        codec.stoi (details.getD 3 "") = some count → 0 < count →
        removeResourceGroup codec st g = (some false, st))
    ∧ (∀ ops : List Operation, (∀ op ∈ ops, op.idsValid) →
        st = applyOperations codec emptyReadWrite ops → validId g →
        (∃ m, mapFind st._dataStore.objects (getAssignedPrefixedKey m g) ≠ none) →
        removeResourceGroup codec st g = (some false, st))
    ∧ (∀ ops : List Operation, (∀ op ∈ ops, op.idsValid) → (∀ op ∈ ops, op.costsInRange) →
        ops.length ≤ 2147483647 →
        st = applyOperations codec emptyReadWrite ops → validId g →
        (removeResourceGroup codec st g).1 = some true →
        liveResources st._dataStore.objects g = []
          ∧ mapFind st._dataStore.objects (getResourceGroupPrefixedKey g)
            = some (codec.getFileString
                [toString (0 : Int), toString (0 : Int), toString (0 : Int),
                 toString (0 : Int)])) := by
  have hgetU : st._dataStore.getItem (getUnassignedPrefixedKey g)
      = (mapFind st._dataStore.objects (getUnassignedPrefixedKey g)).getD "" :=
    S3DataStore.getItem_eq_find _ _ (unassignedKey_valid g).1
  have hnoU : mapFind st._dataStore.objects (getUnassignedPrefixedKey g) ≠ some "UNASSIGNED" →
      removeResourceGroup codec st g = (some false, st) := by
    intro hne
    apply removeResourceGroup_not_true codec st g 0
    right; right; left
    intro hx
    exact hne (S3DataStore.find_of_getItem _ _ _ (by decide) hx)
  have hiff : (removeResourceGroup codec st g).1 = some true ↔
      (g ≠ ""
        ∧ mapFind st._dataStore.objects (getUnassignedPrefixedKey g) = some "UNASSIGNED"
        ∧ ∃ (v : String) (details : List String) (count : Int),
            mapFind st._dataStore.objects (getResourceGroupPrefixedKey g) = some v
            ∧ codec.parseFileString v = some details
            ∧ details.length ≥ 4
            ∧ codec.stoi (details.getD 3 "") = some count
            ∧ count ≤ 0) := by
    constructor
    · intro htrue
      rcases removeResourceGroup_cases codec st g with
        ⟨_, hne⟩ | ⟨cnt, _, hu, hlen, hstoi, hle, _, _, _⟩
      · exact absurd htrue hne
      · have hg : g ≠ "" := by
          intro hg
          rw [removeResourceGroup_not_true codec st g 0 (Or.inr (Or.inl hg))] at htrue
          exact absurd htrue (by simp)
        have hrow := row_present_of_details codec hc.parse_empty st g hlen
        obtain ⟨v, hv⟩ := Option.ne_none_iff_exists'.mp hrow
        have hd := details_of_find codec st g v hv
        cases hp : codec.parseFileString v with
        | none =>
          rw [hd, hp] at hlen
          simp at hlen
        | some details =>
          rw [hd, hp] at hlen hstoi
          exact ⟨hg, S3DataStore.find_of_getItem _ _ _ (by decide) hu, v, details, cnt, hv, hp,
            hlen, hstoi, hle⟩
    · rintro ⟨hg, hu, v, details, count, hv, hp, hlen, hstoi, hle⟩
      have hd := details_of_find codec st g v hv
      rw [hp] at hd
      apply removeResourceGroup_succeeds codec st g count hm hg
      · rw [hgetU, hu]
        rfl
      · rw [hd]; exact hlen
      · rw [hd]; exact hstoi
      · exact hle
  refine ⟨hiff, ?_, ?_, hnoU, ?_, ?_, ?_, ?_⟩
  · intro htrue
    rcases removeResourceGroup_cases codec st g with
      ⟨_, hne⟩ | ⟨_, _, _, _, _, _, _, hmode, hobj⟩
    · exact absurd htrue hne
    · refine ⟨hmode, hobj, ?_, ?_⟩
      · rw [hobj, mapFind_mapErase_ne _ _ _ (group_ne_unassigned g g), mapFind_mapErase_self]
      · rw [hobj]
        exact mapFind_mapErase_self _ _
  · intro hne
    rcases removeResourceGroup_cases codec st g with ⟨e, _⟩ | ⟨_, _, _, _, _, _, ht, _, _⟩
    · exact e
    · exact absurd ht hne
  · intro hnone
    apply removeResourceGroup_not_true codec st g 0
    right; right; right; left
    by_contra hlen
    exact row_present_of_details codec hc.parse_empty st g (by omega) hnone
  · intro v details count hv hp hstoi hpos
    apply removeResourceGroup_not_true codec st g count
    right; right; right; right
    have hd := details_of_find codec st g v hv
    rw [hp] at hd
    rw [hd]
    exact ⟨hstoi, hpos⟩
  · intro ops hops hst hg hassigned
    obtain ⟨m, hma⟩ := hassigned
    have hinit : MarkersConsistent emptyReadWrite._dataStore.objects := by
      simp [MarkersConsistent, emptyReadWrite, mapFind]
    have hmk := applyOperations_consistent codec (fun v hv => pack_ne_empty codec hc v hv)
      hc.parse_empty ops emptyReadWrite hops hinit
    rw [← hst] at hmk
    apply hnoU
    intro hu
    obtain ⟨a, ha⟩ := Option.ne_none_iff_exists'.mp hma
    have hno := (hmk.2.2.1 m g a hg.2 ha).2.2.1
    rw [hu] at hno
    exact absurd hno (by simp)
  · intro ops hops hcosts hlen hst hg htrue
    obtain ⟨hacc, _, _⟩ := reachable_facts codec hc ops hops hcosts hlen
    rw [← hst] at hacc
    exact removeGroup_count_zero codec hc ops.length hlen st g hg hacc htrue

/-- Witness for C17: after `addResourceGroup("g")` the group has its marker and
a row with count 0, and `removeResourceGroup("g")` returns true. -/
theorem removeResourceGroup_true_iff_count_le_zero_witness :
    (applyOperations FileStringCodec.exactCodec emptyReadWrite
        [Operation.addResourceGroup "g"])._accessMode = Mode.READ_WRITE
    ∧ (removeResourceGroup FileStringCodec.exactCodec
        (applyOperations FileStringCodec.exactCodec emptyReadWrite
          [Operation.addResourceGroup "g"]) "g").1 = some true :=
  ⟨by decide,
    (removeResourceGroup_true_iff_count_le_zero FileStringCodec.exactCodec
      FileStringCodec.exactCodec_faithful
      (applyOperations FileStringCodec.exactCodec emptyReadWrite
        [Operation.addResourceGroup "g"]) (by decide) "g").1.2
      ⟨by decide, by decide, "#:0;:0;:0;:0;", ["0", "0", "0", "0"], 0, by decide, by decide,
        by decide, by decide, by decide⟩⟩

end GlobalState

namespace GlobalState

/-- C15 (as stated): after `addResourceGroup("g")` and `setResourceInGroup`
of two resources with the thread counts 2147483647 and 1, all ids valid and
both costs in the ranges of their types, the thread field of the row of `g` is
-2147483648 while the thread counts stored in the two live resource rows sum
to 2147483648. -/
theorem group_row_thread_sum_overflows :
    (∀ op ∈ threadsOverflowCalls, op.idsValid ∧ op.costsInRange)
    ∧ mapFind threadsOverflow._dataStore.objects (getResourceGroupPrefixedKey "g")
        = some (FileStringCodec.exactCodec.getFileString
            [toString (0 : Int), toString (0 : Int), toString (-2147483648 : Int),
             toString (2 : Int)])
    ∧ (liveResources threadsOverflow._dataStore.objects "g").length = 2
    ∧ threadsOfResources FileStringCodec.exactCodec
        (liveResources threadsOverflow._dataStore.objects "g") = 2147483648 := by
  decide

/-- C15 (amended): on a store reached from the empty one through fewer than
2147483647 calls with valid ids and costs in the ranges of their types, the
size, memory and thread fields of the row of a group are the sums of the costs
stored in its live resource rows reduced to the ranges of `long`, `long` and
`int`, hence the sums themselves when these are in range; a
`setResourceInGroup` that returns true leaves the row at the old sums plus the
new cost minus the cost stored before under that resource, reduced likewise; a
`setResourceInGroup` or `removeResourceInGroup` that returns false leaves the
row as it was. -/
theorem group_row_holds_wrapped_cost_sums (codec : FileStringCodec) (hc : codec.Faithful)
    (ops : List Operation) (hops : ∀ op ∈ ops, op.idsValid)
    (hcosts : ∀ op ∈ ops, op.costsInRange) (hlen : ops.length < 2147483647)
    (st : GlobalState)
    (hst : st = applyOperations codec emptyReadWrite ops) (g : String) (hg : validId g) :
    (∀ v, mapFind st._dataStore.objects (getResourceGroupPrefixedKey g) = some v →
      ∃ count : Int, v = codec.getFileString
        [toString (wrapLong (sizeOfResources codec (liveResources st._dataStore.objects g))),
         toString (wrapLong (memoryOfResources codec (liveResources st._dataStore.objects g))),
         toString (wrapInt (threadsOfResources codec (liveResources st._dataStore.objects g))),
         toString count])
    ∧ (∀ v, mapFind st._dataStore.objects (getResourceGroupPrefixedKey g) = some v →
        inLong (sizeOfResources codec (liveResources st._dataStore.objects g)) →
        inLong (memoryOfResources codec (liveResources st._dataStore.objects g)) →
        inInt (threadsOfResources codec (liveResources st._dataStore.objects g)) →
        ∃ count : Int, v = codec.getFileString
          [toString (sizeOfResources codec (liveResources st._dataStore.objects g)),
           toString (memoryOfResources codec (liveResources st._dataStore.objects g)),
           toString (threadsOfResources codec (liveResources st._dataStore.objects g)),
           toString count])
    ∧ (∀ r res, (setResourceInGroup codec st g r (some res)).1 = some true →
        ∃ count : Int,
          mapFind (setResourceInGroup codec st g r (some res)).2._dataStore.objects
              (getResourceGroupPrefixedKey g)
            = some (codec.getFileString
              [toString (wrapLong
                  (sizeOfResources codec (liveResources st._dataStore.objects g)
                    + res.getResourceCost._resourceSize
                    - (costAt codec st._dataStore.objects
                        (getResourcePrefixedKey g r))._resourceSize)),
               toString (wrapLong
                  (memoryOfResources codec (liveResources st._dataStore.objects g)
                    + res.getResourceCost._memorySize
                    - (costAt codec st._dataStore.objects
                        (getResourcePrefixedKey g r))._memorySize)),
               toString (wrapInt
                  (threadsOfResources codec (liveResources st._dataStore.objects g)
                    + res.getResourceCost._threadCount
                    - (costAt codec st._dataStore.objects
                        (getResourcePrefixedKey g r))._threadCount)),
               toString count]))
    ∧ (∀ r resource, (setResourceInGroup codec st g r resource).1 = some false →
        mapFind (setResourceInGroup codec st g r resource).2._dataStore.objects
            (getResourceGroupPrefixedKey g)
          = mapFind st._dataStore.objects (getResourceGroupPrefixedKey g))
    ∧ (∀ r, (removeResourceInGroup codec st g r).1 = some false →
        mapFind (removeResourceInGroup codec st g r).2._dataStore.objects
            (getResourceGroupPrefixedKey g)
          = mapFind st._dataStore.objects (getResourceGroupPrefixedKey g)) := by
  obtain ⟨hacc, _, _⟩ := reachable_facts codec hc ops hops hcosts (by omega)
  rw [← hst] at hacc
  refine ⟨?_, ?_, ?_, ?_, ?_⟩
  · intro v hv
    obtain ⟨count, _, _, h2⟩ := (hacc.2.2 g hg).2 v hv
    exact ⟨count, h2⟩
  · intro v hv h1 h2 h3
    obtain ⟨count, _, _, h4⟩ := (hacc.2.2 g hg).2 v hv
    rw [wrapLong_of_inLong _ h1, wrapLong_of_inLong _ h2, wrapInt_of_inInt _ h3] at h4
    exact ⟨count, h4⟩
  · intro r res htrue
    rcases setResourceInGroup_cases codec st g r (some res) with
      ⟨_, hne⟩ | ⟨res', cc, cn, old, hres, _, hold, hlen4, hcc, _, _, hobj⟩
    · exact absurd htrue hne
    · obtain ⟨count, h1, hb, _, h3⟩ := accounted_row codec hc ops.length st g hg hacc hlen4
      have hcnt : inInt count := count_inInt _ count ops.length h1 hb (by omega)
      rw [h3, currCostAndCount_row codec hc _ _ _ _ (wrapLong_inLong _) (wrapLong_inLong _)
        (wrapInt_inInt _) hcnt] at hcc
      have hcc2 := Option.some.inj hcc
      have e1 : cc
          = ⟨wrapLong (sizeOfResources codec (liveResources st._dataStore.objects g)),
            wrapLong (memoryOfResources codec (liveResources st._dataStore.objects g)),
            wrapInt (threadsOfResources codec (liveResources st._dataStore.objects g))⟩ :=
        (congrArg Prod.fst hcc2).symm
      have e3 : old = costAt codec st._dataStore.objects (getResourcePrefixedKey g r) :=
        cost_read codec hc st g r old hold
      have e4 : res' = res := (Option.some.inj hres).symm
      refine ⟨wrapInt (cn + 1), ?_⟩
      rw [hobj, mapFind_mapSet_self, e1, e3, e4]
      simp only [wrapLong_add_sub, wrapInt_add_sub]
  · intro r resource hf
    rcases setResourceInGroup_cases codec st g r resource with
      ⟨e, _⟩ | ⟨_, _, _, _, _, _, _, _, _, ht, _, _⟩
    · rw [e]
    · rw [ht] at hf
      exact absurd hf (by simp)
  · intro r hf
    rcases removeResourceInGroup_cases codec st g r with
      ⟨e, _⟩ | ⟨_, hobj, _, _⟩ | ⟨_, _, _, _, _, _, _, _, ht, _, _⟩
    · rw [e]
    · rw [hobj, mapFind_mapErase_ne _ _ _ (group_ne_resource g g r)]
    · rw [ht] at hf
      exact absurd hf (by simp)

/-- Witness for C15: after `addResourceGroup("g")` and one
`setResourceInGroup("g", "r", resource)` with cost (1, 2, 3) the row of `g`
holds the sums over its one live resource. -/
theorem group_row_holds_wrapped_cost_sums_witness :
    ∃ count : Int,
      mapFind (applyOperations FileStringCodec.exactCodec emptyReadWrite
          [Operation.addResourceGroup "g",
           Operation.setResourceInGroup "g" "r" (some ⟨⟨1, 2, 3⟩, ["x"]⟩)])._dataStore.objects
        (getResourceGroupPrefixedKey "g") = some "#:1;:2;:3;:1;"
      ∧ "#:1;:2;:3;:1;" = FileStringCodec.exactCodec.getFileString
        [toString (wrapLong (sizeOfResources FileStringCodec.exactCodec
          (liveResources (applyOperations FileStringCodec.exactCodec emptyReadWrite
            [Operation.addResourceGroup "g",
             Operation.setResourceInGroup "g" "r"
               (some ⟨⟨1, 2, 3⟩, ["x"]⟩)])._dataStore.objects "g"))),
         toString (wrapLong (memoryOfResources FileStringCodec.exactCodec
          (liveResources (applyOperations FileStringCodec.exactCodec emptyReadWrite
            [Operation.addResourceGroup "g",
             Operation.setResourceInGroup "g" "r"
               (some ⟨⟨1, 2, 3⟩, ["x"]⟩)])._dataStore.objects "g"))),
         toString (wrapInt (threadsOfResources FileStringCodec.exactCodec
          (liveResources (applyOperations FileStringCodec.exactCodec emptyReadWrite
            [Operation.addResourceGroup "g",
             Operation.setResourceInGroup "g" "r"
               (some ⟨⟨1, 2, 3⟩, ["x"]⟩)])._dataStore.objects "g"))),
         toString count] := by
  obtain ⟨count, h⟩ := (group_row_holds_wrapped_cost_sums FileStringCodec.exactCodec
    FileStringCodec.exactCodec_faithful
    [Operation.addResourceGroup "g",
     Operation.setResourceInGroup "g" "r" (some ⟨⟨1, 2, 3⟩, ["x"]⟩)]
    (by decide) (by decide) (by decide) _ rfl "g" (by decide)).1 "#:1;:2;:3;:1;" (by decide)
  exact ⟨count, by decide, h⟩

end GlobalState

namespace GlobalState

/-- C14: every `setResourceInGroup` that returns true writes the count it
read plus one, computed in `int`, whether or not the resource existed; the
sum is exact unless the count read is the largest `int`.  After one group is
added and the same resource is set twice, the row counts 2 while one resource
row is live; after that resource is removed the row still counts 1, no
resource row is live and `removeResourceGroup` refuses the empty group. -/
theorem setResourceInGroup_overwrite_increments_count :
    (∀ (codec : FileStringCodec) (st : GlobalState) (g r : String) (res : Resource),
        (setResourceInGroup codec st g r (some res)).1 = some true →
        ∃ (currCost : ResourceCost) (currCount : Int) (S M T : String),
          currCostAndCount codec (currDetailsVect codec st g) = some (currCost, currCount)
          ∧ mapFind (setResourceInGroup codec st g r (some res)).2._dataStore.objects
              (getResourceGroupPrefixedKey g)
            = some (codec.getFileString [S, M, T, toString (wrapInt (currCount + 1))])
          ∧ (inInt currCount → currCount ≠ 2147483647 →
              wrapInt (currCount + 1) = currCount + 1))
    ∧ (mapFind setTwice._dataStore.objects (getResourceGroupPrefixedKey "g")
          = some (FileStringCodec.exactCodec.getFileString
              [toString (1 : Int), toString (2 : Int), toString (3 : Int), toString (2 : Int)])
        ∧ (liveResources setTwice._dataStore.objects "g").length = 1)
    ∧ (mapFind (removeResourceInGroup FileStringCodec.exactCodec setTwice "g" "r"
            ).2._dataStore.objects (getResourceGroupPrefixedKey "g")
          = some (FileStringCodec.exactCodec.getFileString
              [toString (0 : Int), toString (0 : Int), toString (0 : Int), toString (1 : Int)])
        ∧ liveResources (removeResourceInGroup FileStringCodec.exactCodec setTwice "g" "r"
            ).2._dataStore.objects "g" = []
        ∧ (removeResourceGroup FileStringCodec.exactCodec
            (removeResourceInGroup FileStringCodec.exactCodec setTwice "g" "r").2 "g").1
          = some false) := by
  refine ⟨?_, ?_, ?_⟩
  · intro codec st g r res htrue
    rcases setResourceInGroup_cases codec st g r (some res) with
      ⟨_, hne⟩ | ⟨res', cc, cn, old, _, _, _, _, hcc, _, _, hobj⟩
    · exact absurd htrue hne
    · refine ⟨cc, cn, _, _, _, hcc, by rw [hobj, mapFind_mapSet_self], ?_⟩
      intro h1 h2
      apply wrapInt_of_inInt
      unfold inInt at h1 ⊢
      omega
  · decide
  · decide

end GlobalState

namespace WorkerNode

/-- C18 (as stated): a worker with timeout 30 that knows eight masters, none
reachable, has left `M0` after seven iterations; at no point of the next 48
iterations, which last 30 * 8 seconds, is `M0` the target of the cursor. -/
theorem round_robin_window_misses_master :
    eightMasters._masterTimout * 8 / 5 = 48
    ∧ eightMasters.getKnownMasters = ["M0", "M1", "M2", "M3", "M4", "M5", "M6", "M7"]
    ∧ ∀ j, j ≤ 48 →
        (runWorkerLoop eightMasters (List.replicate (7 + j) unreachable)).bind getConnectedMaster
          ∈ [some "M1", some "M2", some "M3", some "M4", some "M5", some "M6", some "M7"] := by
  refine ⟨by decide, by decide, ?_⟩
  decide

end WorkerNode

namespace WorkerNode

theorem map_id_set (l : List KnownMasterNode) :
    ∀ (n : Nat) (a b : KnownMasterNode), l[n]? = some b → a.id = b.id →
      (l.set n a).map (fun k => k.id) = l.map (fun k => k.id) := by
  induction l with
  | nil => intro n a b h; simp at h
  | cons x rest ih =>
    intro n a b h hid
    cases n with
    | zero =>
      simp at h
      simp [hid, h]
    | succ m =>
      simp at h
      simp [ih m a b h hid]

theorem getD_set_self (l : List KnownMasterNode) :
    ∀ (n : Nat) (a d : KnownMasterNode), n < l.length → (l.set n a).getD n d = a := by
  induction l with
  | nil => intro n a d h; simp at h
  | cons x rest ih =>
    intro n a d h
    cases n with
    | zero => simp
    | succ m =>
      simp at h
      simpa using ih m a d h

theorem getD_of_getElem? (l : List KnownMasterNode) (n : Nat) (a d : KnownMasterNode)
    (h : l[n]? = some a) : l.getD n d = a := by
  simp [List.getD, h]

theorem step_failed (s : WorkerNode) (ids : List String) (timeout : Int)
    (poll : String → ResponseObj) (h : Rotating s ids timeout)
    (hfail : ∀ url, (poll url).code ≥ 300 ∨ bodyAt (poll url).body "QuorumMet" ≠ "True") :
    ∃ s', handleWorkerEventLoop s poll = some s' ∧ Rotating s' ids timeout
      ∧ s'._nodeId = s._nodeId ∧ s'._inCluster = false
      ∧ (targetAge s + 5 > timeout →
          s'._currMasterNode = (s._currMasterNode + 1) % s._knownMasterNodes.length
            ∧ targetAge s' = 0)
      ∧ (¬ targetAge s + 5 > timeout →
          s'._currMasterNode = s._currMasterNode ∧ targetAge s' = targetAge s + 5) := by
  obtain ⟨hids, hT, hcur, hage⟩ := h
  have hne : s._knownMasterNodes ≠ [] := by
    intro e
    rw [e] at hcur
    simp at hcur
  have hget : s._knownMasterNodes[s._currMasterNode]?
      = some (s._knownMasterNodes[s._currMasterNode]) := List.getElem?_eq_getElem hcur
  have hta : targetAge s = (s._knownMasterNodes[s._currMasterNode]).lastContacted := by
    unfold targetAge
    rw [getD_of_getElem? _ _ _ _ hget]
  generalize hc : s._knownMasterNodes[s._currMasterNode] = current at hget hta
  have hcage : 0 ≤ current.lastContacted := by
    rw [← hc]
    exact hage _ (List.getElem_mem _)
  have hf := hfail (current.url ++ "/internal/master/status/" ++ s._nodeId)
  have hnot : ¬ ((poll (current.url ++ "/internal/master/status/" ++ s._nodeId)).code < 300
      ∧ bodyAt (poll (current.url ++ "/internal/master/status/" ++ s._nodeId)).body
          "QuorumMet" = "True") := by
    rintro ⟨h1, h2⟩
    rcases hf with h3 | h3
    · omega
    · exact h3 h2
  have hlen1 : (s._knownMasterNodes.set s._currMasterNode
      { current with lastContacted := current.lastContacted + 5 }).length
        = s._knownMasterNodes.length := List.length_set _ _ _
  have hids1 : (s._knownMasterNodes.set s._currMasterNode
      { current with lastContacted := current.lastContacted + 5 }).map (fun k => k.id)
        = ids := by
    rw [map_id_set _ _ ⟨current.lastContacted + 5, current.id, current.url⟩ current hget rfl]
    exact hids
  have hage1 : ∀ k ∈ s._knownMasterNodes.set s._currMasterNode
      { current with lastContacted := current.lastContacted + 5 }, 0 ≤ k.lastContacted := by
    intro k hk
    rcases List.mem_or_eq_of_mem_set hk with h1 | h1
    · exact hage k h1
    · rw [h1]
      show 0 ≤ current.lastContacted + 5
      omega
  unfold handleWorkerEventLoop
  simp only [hne, if_false, hget, hf, if_true, hnot, decide_False, Bool.false_eq_true]
  rw [hta, ← hT]
  by_cases hadv : current.lastContacted + 5 > s._masterTimout
  · simp only [hadv, if_true]
    have hnext : (if s._currMasterNode + 1 ≥ (s._knownMasterNodes.set s._currMasterNode
          { current with lastContacted := current.lastContacted + 5 }).length then 0
        else s._currMasterNode + 1)
        = (s._currMasterNode + 1) % s._knownMasterNodes.length := by
      rw [hlen1]
      split_ifs with hw
      · have : s._currMasterNode + 1 = s._knownMasterNodes.length := by omega
        rw [this, Nat.mod_self]
      · rw [Nat.mod_eq_of_lt (by omega)]
    rw [hnext]
    have hlt : (s._currMasterNode + 1) % s._knownMasterNodes.length
        < (s._knownMasterNodes.set s._currMasterNode
          { current with lastContacted := current.lastContacted + 5 }).length := by
      rw [hlen1]
      exact Nat.mod_lt _ (by omega)
    have hget2 := List.getElem?_eq_getElem hlt
    generalize htg : (s._knownMasterNodes.set s._currMasterNode
      { current with lastContacted := current.lastContacted + 5 })[
        (s._currMasterNode + 1) % s._knownMasterNodes.length] = target at hget2
    simp only [hget2]
    refine ⟨_, rfl, ⟨?_, rfl, ?_, ?_⟩, rfl, rfl, ?_, ?_⟩
    · simp only [getKnownMasters]
      rw [map_id_set _ _ ⟨0, target.id, target.url⟩ target hget2 rfl]
      exact hids1
    · simp only [List.length_set]
      rw [hlen1] at hlt
      exact hlt
    · intro k hk
      rcases List.mem_or_eq_of_mem_set hk with h1 | h1
      · exact hage1 k h1
      · rw [h1]
    · intro _
      refine ⟨rfl, ?_⟩
      simp only [targetAge]
      rw [getD_set_self _ _ _ _ hlt]
    · intro hx
      exact absurd trivial hx
  · simp only [hadv, if_false]
    refine ⟨_, rfl, ⟨hids1, rfl, ?_, hage1⟩, rfl, rfl, ?_, ?_⟩
    · simp only [List.length_set]
      exact hcur
    · intro hx
      exact hx.elim
    · intro _
      refine ⟨rfl, ?_⟩
      simp only [targetAge]
      rw [getD_set_self _ _ _ _ hcur]

end WorkerNode

namespace WorkerNode

theorem runWorkerLoop_append (a : List (String → ResponseObj)) :
    ∀ (s : WorkerNode) (b : List (String → ResponseObj)),
      runWorkerLoop s (a ++ b) = (runWorkerLoop s a).bind (fun s1 => runWorkerLoop s1 b) := by
  induction a with
  | nil => intro s b; rfl
  | cons p rest ih =>
    intro s b
    simp only [List.cons_append, runWorkerLoop]
    cases handleWorkerEventLoop s p with
    | none => rfl
    | some s1 => exact ih s1 b

theorem allFail_tail (p : String → ResponseObj) (rest : List (String → ResponseObj))
    (h : AllFail (p :: rest)) : AllFail rest :=
  fun q hq => h q (List.mem_cons_of_mem _ hq)

theorem allFail_drop (polls : List (String → ResponseObj)) (j : Nat) (h : AllFail polls) :
    AllFail (polls.drop j) :=
  fun q hq => h q (List.mem_of_mem_drop hq)

/-- While every poll fails the cursor leaves its row after at most `n + 1`
iterations when the age of the row is within `5 * (n + 1)` of the timeout. -/
theorem advance_within (ids : List String) (timeout : Int) :
    ∀ (n : Nat) (s : WorkerNode) (polls : List (String → ResponseObj)),
      Rotating s ids timeout → AllFail polls → targetAge s + 5 * ((n : Int) + 1) > timeout →
      n + 1 ≤ polls.length →
      ∃ j s', 1 ≤ j ∧ j ≤ n + 1 ∧ runWorkerLoop s (polls.take j) = some s'
        ∧ Rotating s' ids timeout
        ∧ s'._currMasterNode = (s._currMasterNode + 1) % s._knownMasterNodes.length
        ∧ s'._knownMasterNodes.length = s._knownMasterNodes.length
        ∧ targetAge s' = 0 := by
  intro n
  induction n with
  | zero =>
    intro s polls hrot hfail hage hlen
    cases polls with
    | nil => simp at hlen
    | cons p rest =>
      obtain ⟨s1, h1, hrot1, _, _, hadv, _⟩ :=
        step_failed s ids timeout p hrot (hfail p (List.mem_cons_self _ _))
      have hgt : targetAge s + 5 > timeout := by
        simpa using hage
      refine ⟨1, s1, le_refl _, le_refl _, ?_, hrot1, (hadv hgt).1, ?_, (hadv hgt).2⟩
      · simp [runWorkerLoop, h1]
      · have e1 := congrArg List.length hrot1.1
        have e2 := congrArg List.length hrot.1
        simp only [getKnownMasters, List.length_map] at e1 e2
        omega
  | succ m ih =>
    intro s polls hrot hfail hage hlen
    cases polls with
    | nil => simp at hlen
    | cons p rest =>
      obtain ⟨s1, h1, hrot1, _, _, hadv, hstay⟩ :=
        step_failed s ids timeout p hrot (hfail p (List.mem_cons_self _ _))
      have hl1 : s1._knownMasterNodes.length = s._knownMasterNodes.length := by
        have e1 := congrArg List.length hrot1.1
        have e2 := congrArg List.length hrot.1
        simp only [getKnownMasters, List.length_map] at e1 e2
        omega
      by_cases hgt : targetAge s + 5 > timeout
      · refine ⟨1, s1, le_refl _, by omega, ?_, hrot1, (hadv hgt).1, hl1, (hadv hgt).2⟩
        simp [runWorkerLoop, h1]
      · obtain ⟨hc1, ha1⟩ := hstay hgt
        have hage1 : targetAge s1 + 5 * ((m : Int) + 1) > timeout := by
          rw [ha1]
          push_cast at hage
          omega
        have hlen1 : m + 1 ≤ rest.length := by
          simp only [List.length_cons] at hlen
          omega
        obtain ⟨j, s2, hj1, hj2, hrun, hrot2, hcur2, hl2, hage2⟩ :=
          ih s1 rest hrot1 (allFail_tail p rest hfail) hage1 hlen1
        refine ⟨j + 1, s2, by omega, by omega, ?_, hrot2, ?_, by omega, hage2⟩
        · simp only [List.take_succ_cons, runWorkerLoop, h1]
          exact hrun
        · rw [hcur2, hc1, hl1]

/-- While every poll fails the cursor is `d` rows further, cyclically, after
at most `d * (timeout / 5 + 1)` iterations. -/
theorem visit_within (ids : List String) (timeout : Int) (hT : 0 ≤ timeout) :
    ∀ (d : Nat) (s : WorkerNode) (polls : List (String → ResponseObj)),
      Rotating s ids timeout → AllFail polls →
      d * ((timeout / 5).toNat + 1) ≤ polls.length →
      ∃ j s', j ≤ d * ((timeout / 5).toNat + 1) ∧ runWorkerLoop s (polls.take j) = some s'
        ∧ Rotating s' ids timeout
        ∧ s'._currMasterNode = (s._currMasterNode + d) % s._knownMasterNodes.length := by
  intro d
  induction d with
  | zero =>
    intro s polls hrot _ _
    refine ⟨0, s, by simp, by simp [runWorkerLoop], hrot, ?_⟩
    rw [Nat.add_zero, Nat.mod_eq_of_lt hrot.2.2.1]
  | succ e ih =>
    intro s polls hrot hfail hlen
    have hcur : s._currMasterNode < s._knownMasterNodes.length := hrot.2.2.1
    have h0 : 0 ≤ targetAge s := by
      unfold targetAge
      have hget : s._knownMasterNodes[s._currMasterNode]?
          = some (s._knownMasterNodes[s._currMasterNode]) :=
        List.getElem?_eq_getElem hcur
      rw [getD_of_getElem? _ _ _ _ hget]
      exact hrot.2.2.2 _ (List.getElem_mem _)
    have hk : targetAge s + 5 * ((((timeout / 5).toNat : Nat) : Int) + 1) > timeout := by
      rw [Int.toNat_of_nonneg (Int.ediv_nonneg hT (by decide))]
      omega
    have hlen1 : (timeout / 5).toNat + 1 ≤ polls.length := by
      have : (e + 1) * ((timeout / 5).toNat + 1)
          = e * ((timeout / 5).toNat + 1) + ((timeout / 5).toNat + 1) := by ring
      omega
    obtain ⟨j1, s1, _, hj1, hrun1, hrot1, hcur1, hl1, _⟩ :=
      advance_within ids timeout (timeout / 5).toNat s polls hrot hfail hk hlen1
    have hlen2 : e * ((timeout / 5).toNat + 1) ≤ (polls.drop j1).length := by
      rw [List.length_drop]
      have : (e + 1) * ((timeout / 5).toNat + 1)
          = e * ((timeout / 5).toNat + 1) + ((timeout / 5).toNat + 1) := by ring
      omega
    obtain ⟨j2, s2, hj2, hrun2, hrot2, hcur2⟩ :=
      ih s1 (polls.drop j1) hrot1 (allFail_drop polls j1 hfail) hlen2
    refine ⟨j1 + j2, s2, ?_, ?_, hrot2, ?_⟩
    · have : (e + 1) * ((timeout / 5).toNat + 1)
          = e * ((timeout / 5).toNat + 1) + ((timeout / 5).toNat + 1) := by ring
      omega
    · rw [List.take_add, runWorkerLoop_append, hrun1]
      exact hrun2
    · rw [hcur2, hcur1, hl1, Nat.mod_add_mod]
      congr 1
      omega

end WorkerNode

namespace WorkerNode

theorem allFail_unreachable (n : Nat) : AllFail (List.replicate n unreachable) := by
  intro poll hp url
  rw [List.eq_of_mem_replicate hp]
  left
  show (500 : Int) ≥ 300
  decide

/-- C18 (amended): a worker whose cursor is a valid index, whose rows have
no negative `lastContacted` and whose timeout T is not negative, and whose
polls all fail or report no quorum, has every one of its N known masters as
the target of its cursor at some point of any (N-1) * (T/5 + 1)
consecutive iterations, with the known masters unchanged; and one such
iteration moves the cursor to (current+1) mod N with the new target's
`lastContacted` at 0 exactly when it raises the polled row above T, and
otherwise leaves the cursor and adds 5. -/
theorem round_robin_visits_every_master (s : WorkerNode)
    (polls : List (String → ResponseObj))
    (hcur : s._currMasterNode < s._knownMasterNodes.length)
    (hage : ∀ k ∈ s._knownMasterNodes, 0 ≤ k.lastContacted)
    (hT : 0 ≤ s._masterTimout) (hfail : AllFail polls)
    (hlen : (s._knownMasterNodes.length - 1) * ((s._masterTimout / 5).toNat + 1)
      ≤ polls.length) :
    (∀ i, i < s._knownMasterNodes.length →
      ∃ j s', j ≤ (s._knownMasterNodes.length - 1) * ((s._masterTimout / 5).toNat + 1)
        ∧ runWorkerLoop s (polls.take j) = some s'
        ∧ s'._currMasterNode = i
        ∧ s'.getKnownMasters = s.getKnownMasters
        ∧ s'.getConnectedMaster = s.getKnownMasters[i]?)
    ∧ (∀ poll : String → ResponseObj,
        (∀ url, (poll url).code ≥ 300 ∨ bodyAt (poll url).body "QuorumMet" ≠ "True") →
        ∃ s', handleWorkerEventLoop s poll = some s'
          ∧ s'.getKnownMasters = s.getKnownMasters
          ∧ s'._inCluster = false
          ∧ (targetAge s + 5 > s._masterTimout →
              s'._currMasterNode = (s._currMasterNode + 1) % s._knownMasterNodes.length
                ∧ targetAge s' = 0)
          ∧ (¬ targetAge s + 5 > s._masterTimout →
              s'._currMasterNode = s._currMasterNode
                ∧ targetAge s' = targetAge s + 5)) := by
  have hrot : Rotating s s.getKnownMasters s._masterTimout := ⟨rfl, rfl, hcur, hage⟩
  refine ⟨?_, ?_⟩
  · intro i hi
    have hd : (i + s._knownMasterNodes.length - s._currMasterNode) % s._knownMasterNodes.length
        ≤ s._knownMasterNodes.length - 1 := by
      have := Nat.mod_lt (i + s._knownMasterNodes.length - s._currMasterNode)
        (by omega : s._knownMasterNodes.length > 0)
      omega
    have hmul := Nat.mul_le_mul_right ((s._masterTimout / 5).toNat + 1) hd
    obtain ⟨j, s', hj, hrun, hrot', hcur'⟩ := visit_within s.getKnownMasters s._masterTimout hT
      ((i + s._knownMasterNodes.length - s._currMasterNode) % s._knownMasterNodes.length)
      s polls hrot hfail (le_trans hmul hlen)
    have hci : s'._currMasterNode = i := by
      rw [hcur', Nat.add_mod_mod]
      have e : s._currMasterNode + (i + s._knownMasterNodes.length - s._currMasterNode)
          = i + s._knownMasterNodes.length := by omega
      rw [e, Nat.add_mod_right, Nat.mod_eq_of_lt hi]
    refine ⟨j, s', le_trans hj hmul, hrun, hci, hrot'.1, ?_⟩
    have hne : s'._knownMasterNodes ≠ [] := by
      intro e
      have := hrot'.2.2.1
      rw [e] at this
      simp at this
    unfold getConnectedMaster
    rw [if_pos hne, hci, ← hrot'.1]
    unfold getKnownMasters
    rw [List.getElem?_map]
  · intro poll hp
    obtain ⟨s', h1, hrot', _, hin, hadv, hstay⟩ :=
      step_failed s s.getKnownMasters s._masterTimout poll hrot hp
    exact ⟨s', h1, hrot'.1, hin, hadv, hstay⟩

/-- Witness for C18: with eight unreachable masters and timeout 30 the cursor
is at the eighth master at some point of the first 49 iterations. -/
theorem round_robin_visits_every_master_witness :
    ∃ j s', j ≤ (eightMasters._knownMasterNodes.length - 1)
          * ((eightMasters._masterTimout / 5).toNat + 1)
      ∧ runWorkerLoop eightMasters ((List.replicate 49 unreachable).take j) = some s'
      ∧ s'._currMasterNode = 7
      ∧ s'.getKnownMasters = eightMasters.getKnownMasters
      ∧ s'.getConnectedMaster = eightMasters.getKnownMasters[7]? :=
  (round_robin_visits_every_master eightMasters (List.replicate 49 unreachable)
    (by decide) (by decide) (by decide) (allFail_unreachable 49) (by decide)).1 7 (by decide)

end WorkerNode

namespace MasterNode

theorem singleMaster_status :
    (handlerGetClusterStatus singleMaster).body
      = [("N1", "SelfInstance"), ("QuorumMet", "True"), ("ClusterSize", "1/1")] := by
  rw [handlerGetClusterStatus_eq singleMaster (by decide) (by decide) (by decide) (by decide)]
  decide

theorem ghostLeft_status :
    (handlerGetClusterStatus ghostLeft).body
      = [("ghost", "NotConnected"), ("N1", "SelfInstance"), ("QuorumMet", "False"),
         ("ClusterSize", "1/2")] := by
  rw [handlerGetClusterStatus_eq ghostLeft (by decide) (by decide) (by decide) (by decide)]
  decide

theorem quorumTest_int (a b : Int) :
    decide ((a : ℚ) > (1 / 2 : ℚ) * (b : ℚ)) = decide (2 * a > b) := by
  apply Bool.decide_congr
  constructor
  · intro h
    have h2 : (b : ℚ) < 2 * (a : ℚ) := by linarith
    exact_mod_cast h2
  · intro h
    have h2 : (b : ℚ) < 2 * (a : ℚ) := by exact_mod_cast h
    linarith

theorem selfLeft_status :
    (handlerGetClusterStatus selfLeft).body
      = [("N1", "SelfInstance"), ("QuorumMet", "True"), ("ClusterSize", "1/1")] := by
  simp only [handlerGetClusterStatus, quorumTest_int]
  decide

/-- C25: a leave request with an empty id is rejected and changes nothing,
but a leave request for an id that is no peer, rejected with 400 as well,
leaves a row for that id among the peers: the read `_masterNodes[nodeId]`
inserts it.  A master without peers that rejects the leave of `ghost` has one
peer afterwards, is out of quorum and reports another cluster status. -/
theorem rejected_leave_inserts_row :
    (∀ (s : MasterNode) (body : List (String × String)), bodyAt body "NodeId" = "" →
        (handlerPostInternalMasterLeave s body).1.code = 400
          ∧ (handlerPostInternalMasterLeave s body).2 = s)
    ∧ (∀ (s : MasterNode) (body : List (String × String)), bodyAt body "NodeId" ≠ "" →
        mapFind s._masterNodes (bodyAt body "NodeId") = none →
        (handlerPostInternalMasterLeave s body).1.code = 400
          ∧ (handlerPostInternalMasterLeave s body).2
            = { s with _masterNodes :=
                  s._masterNodes ++ [(bodyAt body "NodeId", ⟨false, "", ""⟩)] })
    ∧ ((handlerPostInternalMasterLeave singleMaster [("NodeId", "ghost")]).1.code = 400
        ∧ singleMaster._masterNodes = []
        ∧ ghostLeft._masterNodes = [("ghost", ⟨false, "", ""⟩)]
        ∧ singleMaster.isInQuorum = true
        ∧ ghostLeft.isInQuorum = false
        ∧ (handlerGetClusterStatus singleMaster).body
            = [("N1", "SelfInstance"), ("QuorumMet", "True"), ("ClusterSize", "1/1")]
        ∧ (handlerGetClusterStatus ghostLeft).body
            = [("ghost", "NotConnected"), ("N1", "SelfInstance"), ("QuorumMet", "False"),
               ("ClusterSize", "1/2")]) := by
  refine ⟨?_, ?_, ?_⟩
  · intro s body h
    refine ⟨?_, (handlerPostInternalMasterLeave_state s body).1 h⟩
    simp [handlerPostInternalMasterLeave, h]
  · intro s body h hnone
    have hidx : mapIndex s._masterNodes (bodyAt body "NodeId")
        = (⟨false, "", ""⟩, s._masterNodes ++ [(bodyAt body "NodeId", ⟨false, "", ""⟩)]) := by
      unfold mapIndex
      rw [hnone]
      simp only
      rw [mapSet_absent _ _ _ ((mapFind_eq_none_iff _ _).1 hnone)]
      rfl
    have hne : (mapIndex s._masterNodes (bodyAt body "NodeId")).1.id ≠ bodyAt body "NodeId" := by
      rw [hidx]
      exact fun e => h e.symm
    obtain ⟨h1, h2⟩ := (handlerPostInternalMasterLeave_state s body).2.2 h hne
    rw [hidx] at h2
    exact ⟨h1, h2⟩
  · refine ⟨by decide, by decide, by decide, ?_, ?_, singleMaster_status, ghostLeft_status⟩
    · rw [isInQuorum_eq_decide]; decide
    · rw [isInQuorum_eq_decide]; decide

/-- C26: when the peers are stored under pairwise distinct ids other than the
own id, and neither is `QuorumMet`, the cluster status reports `QuorumMet`
as `True` exactly when `isInQuorum` holds; but after a master has rejected a
leave request for its own id, a state it reaches by one request, the row
inserted under its own id counts for `isInQuorum` and not for the status:
`isInQuorum` is false and the status says `True`. -/
theorem quorum_computations_disagree :
    (∀ s : MasterNode, (mapKeys s._masterNodes).Nodup → s._nodeId ∉ mapKeys s._masterNodes →
        "QuorumMet" ∉ mapKeys s._masterNodes → s._nodeId ≠ "QuorumMet" →
        (mapFind (handlerGetClusterStatus s).body "QuorumMet" = some "True"
          ↔ s.isInQuorum = true))
    ∧ (Reachable selfLeft
        ∧ selfLeft._nodeId = "N1"
        ∧ selfLeft._masterNodes = [("N1", ⟨false, "", ""⟩)]
        ∧ selfLeft.isInQuorum = false
        ∧ mapFind (handlerGetClusterStatus selfLeft).body "QuorumMet" = some "True") := by
  refine ⟨?_, ?_⟩
  · intro s hkeys hown hq hownq
    have hqc : ¬ "QuorumMet" = "ClusterSize" := by decide
    rw [handlerGetClusterStatus_eq s hkeys hown hq hownq, isInQuorum_eq_decide,
      mapFind_mapSet_ne _ _ _ _ hqc, mapFind_append, mapFind_words_none _ _ hq]
    by_cases hc : 2 * ((s._masterNodes.filter (fun p => p.2.contactable)).length + 1)
        > s._masterNodes.length + 1
    · simp [mapFind, hownq, hc]
    · simp [mapFind, hownq, hc]
  · refine ⟨?_, by decide, by decide, ?_, ?_⟩
    · exact Reachable.leave _ _ (Reachable.init "5e3a" "localhost" 9996 "N1" (by decide))
    · rw [isInQuorum_eq_decide]; decide
    · rw [selfLeft_status]; decide

end MasterNode

namespace WorkerNode

/-- C24: a worker that knows `M1`, `M2` and `M3` polls its target `M1`, which
answers with quorum and reports no other master.  After that iteration the
worker is in the cluster with `M1` at `lastContacted` 0 and the cursor on
`M1`, and it has removed `M2` but still knows `M3`: the row that moved into
the place of the erased one is passed over.  The next such iteration removes
`M3`. -/
theorem diff_skips_row_after_erased :
    remoteNodesOf (aloneInQuorum "").body = []
    ∧ handleWorkerEventLoop threeMasters aloneInQuorum
        = some { threeMasters with
            _inCluster := true
            _currMasterNode := 0
            _knownMasterNodes :=
              [⟨0, "M1", "http://localhost:9996"⟩, ⟨0, "M3", "http://localhost:9998"⟩] }
    ∧ (runWorkerLoop threeMasters [aloneInQuorum, aloneInQuorum]).map getKnownMasters
        = some ["M1"] := by
  refine ⟨by decide, by decide, by decide⟩

end WorkerNode

namespace GlobalState

theorem assignedStart_iff (m m' g' : String) (hm : '/' ∉ m.data) (hm' : '/' ∉ m'.data) :
    (getAssignedPrefixedKey m "").data.isPrefixOf (getAssignedPrefixedKey m' g').data = true
      ↔ m = m' := by
  rw [assignedKey_data, assignedKey_data, List.isPrefixOf_iff_prefix]
  constructor
  · rintro ⟨t, ht⟩
    have h2 : m.data ++ '/' :: ("".data ++ t) = m'.data ++ '/' :: g'.data := by
      have := List.append_cancel_left (by simpa [List.append_assoc] using ht :
        "Assignments/Assigned/".data ++ (m.data ++ '/' :: ("".data ++ t))
          = "Assignments/Assigned/".data ++ (m'.data ++ '/' :: g'.data))
      exact this
    exact String.ext (split_first_sep '/' _ _ _ _ hm hm' h2).1
  · intro e
    subst e
    refine ⟨g'.data, ?_⟩
    simp [List.append_assoc]

theorem assignedKey_inj_first (m g m' g' : String) (hm : '/' ∉ m.data) (hm' : '/' ∉ m'.data) :
    getAssignedPrefixedKey m g = getAssignedPrefixedKey m' g' ↔ m = m' ∧ g = g' := by
  constructor
  · intro h
    have h2 := congrArg String.data h
    rw [assignedKey_data, assignedKey_data] at h2
    obtain ⟨e1, e2⟩ := split_first_sep '/' _ _ _ _ hm hm' (List.append_cancel_left h2)
    exact ⟨String.ext e1, String.ext e2⟩
  · rintro ⟨h1, h2⟩; rw [h1, h2]

theorem resourceKey_inj_first (g r g' r' : String) (hg : '/' ∉ g.data) (hg' : '/' ∉ g'.data) :
    getResourcePrefixedKey g r = getResourcePrefixedKey g' r' ↔ g = g' ∧ r = r' := by
  constructor
  · intro h
    have h2 := congrArg String.data h
    rw [resourceKey_data, resourceKey_data] at h2
    obtain ⟨e1, e2⟩ := split_first_sep '/' _ _ _ _ hg hg' (List.append_cancel_left h2)
    exact ⟨String.ext e1, String.ext e2⟩
  · rintro ⟨h1, h2⟩; rw [h1, h2]

/-- C28 (as stated): the manager ids `a/b` and `a` with the groups `c` and
`b/c` give one Assigned key, the group ids `a/b` and `a` with the resources
`c` and `b/c` give one Resources key; the manager `a` lists the group held
by the manager `a/b` as its own and its drop deletes the row of `a/b`. -/
theorem key_builders_collide :
    (("a/b", "c") : String × String) ≠ ("a", "b/c")
    ∧ getAssignedPrefixedKey "a/b" "c" = getAssignedPrefixedKey "a" "b/c"
    ∧ getResourcePrefixedKey "a/b" "c" = getResourcePrefixedKey "a" "b/c"
    ∧ mapFind slashedManagerStore._dataStore.objects (getAssignedPrefixedKey "a/b" "c")
        = some "ASSIGNED"
    ∧ listManagedResourceGroups slashedManagerStore "a" = ["b/c"]
    ∧ (dropManagedResourceGroup slashedManagerStore "a" "b/c").1 = true
    ∧ mapFind (dropManagedResourceGroup slashedManagerStore "a" "b/c").2._dataStore.objects
        (getAssignedPrefixedKey "a/b" "c") = none := by
  decide

/-- C28 (amended): for manager ids free of `/` the Assigned key determines
the manager and the group, and the keys listed for one manager are those of
that manager; for group ids free of `/` the Resources key determines the
group and the resource, and the keys listed for one group are those of that
group; a drop by another manager or of another group then leaves the
Assigned row as it is, and so does the removal of another resource the
resource row. -/
theorem key_builders_injective (m g m' g' r r' : String)
    (hm : '/' ∉ m.data) (hm' : '/' ∉ m'.data) (hg : '/' ∉ g.data) (hg' : '/' ∉ g'.data) :
    (getAssignedPrefixedKey m g = getAssignedPrefixedKey m' g' ↔ m = m' ∧ g = g')
    ∧ (getResourcePrefixedKey g r = getResourcePrefixedKey g' r' ↔ g = g' ∧ r = r')
    ∧ ((getAssignedPrefixedKey m "").data.isPrefixOf (getAssignedPrefixedKey m' g').data = true
        ↔ m = m')
    ∧ ((getResourcePrefixedKey g "").data.isPrefixOf (getResourcePrefixedKey g' r').data = true
        ↔ g = g')
    ∧ (∀ st : GlobalState, ¬ (m = m' ∧ g = g') →
        mapFind (dropManagedResourceGroup st m' g').2._dataStore.objects
            (getAssignedPrefixedKey m g)
          = mapFind st._dataStore.objects (getAssignedPrefixedKey m g))
    ∧ (∀ (codec : FileStringCodec) (st : GlobalState), ¬ (g = g' ∧ r = r') →
        mapFind (removeResourceInGroup codec st g' r').2._dataStore.objects
            (getResourcePrefixedKey g r)
          = mapFind st._dataStore.objects (getResourcePrefixedKey g r)) := by
  have hA := assignedKey_inj_first m g m' g' hm hm'
  have hR := resourceKey_inj_first g r g' r' hg hg'
  refine ⟨hA, hR, assignedStart_iff m m' g' hm hm', isResourceOf_resource g g' r' hg hg', ?_, ?_⟩
  · intro st hne
    have hk : getAssignedPrefixedKey m g ≠ getAssignedPrefixedKey m' g' :=
      fun e => hne (hA.1 e)
    rcases dropManagedResourceGroup_objects st m' g' with e | e
    · rw [e]
    · rw [e, mapFind_mapErase_ne _ _ _ hk,
        mapFind_mapSet_ne _ _ _ _ (fun e2 => unassigned_ne_assigned g' m g e2.symm)]
  · intro codec st hne
    have hk : getResourcePrefixedKey g r ≠ getResourcePrefixedKey g' r' :=
      fun e => hne (hR.1 e)
    rcases removeResourceInGroup_cases codec st g' r' with
      ⟨e, _⟩ | ⟨_, hobj, _, _⟩ | ⟨_, _, _, _, _, _, _, _, _, _, hobj⟩
    · rw [e]
    · rw [hobj, mapFind_mapErase_ne _ _ _ hk]
    · rw [hobj, mapFind_mapSet_ne _ _ _ _ (fun e2 => group_ne_resource g' g r e2.symm),
        mapFind_mapErase_ne _ _ _ hk]

/-- Witness for C28: the managers `N1` and `N2`, the groups `g1` and `g2`. -/
theorem key_builders_injective_witness :
    (getAssignedPrefixedKey "N1" "g1" = getAssignedPrefixedKey "N2" "g2"
      ↔ "N1" = "N2" ∧ "g1" = "g2") :=
  (key_builders_injective "N1" "g1" "N2" "g2" "r1" "r2"
    (by decide) (by decide) (by decide) (by decide)).1

end GlobalState

theorem getElem?_append_length {α : Type} (l : List α) (a : α) :
    (l ++ [a])[l.length]? = some a := by
  induction l with
  | nil => rfl
  | cons x rest ih => simp [ih]

theorem set_append_length {α : Type} (l : List α) (a b : α) :
    (l ++ [a]).set l.length b = l ++ [b] := by
  induction l with
  | nil => rfl
  | cons x rest ih => simp [ih]

theorem eraseIdx_append_length {α : Type} (l : List α) (a : α) :
    (l ++ [a]).eraseIdx l.length = l := by
  induction l with
  | nil => rfl
  | cons x rest ih => simp [ih]

namespace MasterNode

/-- The rounds of the loop over `remoteNodes`, run one after the other. -/
theorem statusRequestVisit_rounds (response : ResponseObj) :
    ∀ (remoteNodes : List String) (rounds : List Nat) (s : MasterNode)
      (running : List StatusRequest) (r : StatusRequest),
      remoteNodes.length ≤ rounds.length →
      s.statusRequests = running ++ [r] → r.response = some response →
      r.remoteNodes = some remoteNodes →
      rounds.foldl (fun st _ => statusRequestVisit st running.length) s
        = { s with
            _masterNodesToJoin :=
              remoteNodes.foldl
                (fun q remoteNode =>
                  if remoteNode ≠ r.thisNodeId then
                    if remoteNode ∉ r.ourMasterNodes then
                      q ++ [(remoteNode, bodyAt response.body ("URL-" ++ remoteNode))]
                    else q
                  else q)
                s._masterNodesToJoin
            statusRequests := running ++ [{ r with remoteNodes := some [] }] } := by
  intro remoteNodes
  induction remoteNodes with
  | nil =>
    intro rounds s running r _ hs hresp hrem
    have hr : ({ r with remoteNodes := some [] } : StatusRequest) = r := by
      cases r
      simp only at hrem
      simp [hrem]
    have hstep : statusRequestVisit s running.length = s := by
      unfold statusRequestVisit
      rw [hs, getElem?_append_length]
      simp only [hresp, hrem]
    have hfold : ∀ l : List Nat,
        l.foldl (fun st _ => statusRequestVisit st running.length) s = s := by
      intro l
      induction l with
      | nil => rfl
      | cons x rest ih => rw [List.foldl_cons, hstep, ih]
    rw [hfold, hr, ← hs]
    rfl
  | cons x rest ih =>
    intro rounds s running r hlen hs hresp hrem
    cases rounds with
    | nil => simp at hlen
    | cons k ks =>
      have hstep : statusRequestVisit s running.length
          = { s with
              _masterNodesToJoin :=
                if x ≠ r.thisNodeId ∧ x ∉ r.ourMasterNodes then
                  s._masterNodesToJoin ++ [(x, bodyAt response.body ("URL-" ++ x))]
                else s._masterNodesToJoin
              statusRequests := running ++ [{ r with remoteNodes := some rest }] } := by
        unfold statusRequestVisit
        rw [hs, getElem?_append_length]
        simp only [hresp, hrem, set_append_length]
      rw [List.foldl_cons, hstep,
        ih ks _ running { r with remoteNodes := some rest }
          (by simpa using hlen) rfl hresp rfl]
      simp only [List.foldl_cons]
      by_cases c1 : x = r.thisNodeId
      · simp [c1]
      · by_cases c2 : x ∈ r.ourMasterNodes
        · simp [c1, c2]
        · simp [c1, c2]

/-- The status request run without interruption, in closed form: the row of
the polled node is written back with the new `contactable`, the pair of the
polled node is queued when the answer does not name this node, and so is every
remote node that is neither this node, nor a peer, nor in the left ledger,
when the answer lists more nodes than there are peers. -/
theorem handleMasterNodeStatusRequest_eq (s : MasterNode) (nodeId : String)
    (makeRequest : String → ResponseObj) :
    handleMasterNodeStatusRequest s nodeId makeRequest
      = { s with
          _masterNodes :=
            mapSet (mapIndex s._masterNodes nodeId).2 nodeId
              { (mapIndex s._masterNodes nodeId).1 with
                contactable := decide ((makeRequest ((mapIndex s._masterNodes nodeId).1.url
                  ++ "/internal/master/status")).code < 300) }
          _masterNodesToJoin :=
            if ((makeRequest ((mapIndex s._masterNodes nodeId).1.url
                  ++ "/internal/master/status")).body.filter
                (fun p => decide (p.2 = "Connected") || decide (p.2 = "NotConnected"))).length
                > s._masterNodes.length then
              (((makeRequest ((mapIndex s._masterNodes nodeId).1.url
                  ++ "/internal/master/status")).body.filter
                (fun p => decide (p.2 = "Connected")
                  || decide (p.2 = "NotConnected"))).map Prod.fst).foldl
                (fun q remoteNode =>
                  if remoteNode ≠ s._nodeId then
                    if remoteNode ∉ mapKeys (mapIndex s._masterNodes nodeId).2
                        ++ s._leftMasterNodes then
                      q ++ [(remoteNode,
                        bodyAt (makeRequest ((mapIndex s._masterNodes nodeId).1.url
                          ++ "/internal/master/status")).body ("URL-" ++ remoteNode))]
                    else q
                  else q)
                (if bodyAt (makeRequest ((mapIndex s._masterNodes nodeId).1.url
                    ++ "/internal/master/status")).body s._nodeId = "" then
                  s._masterNodesToJoin ++ [((mapIndex s._masterNodes nodeId).1.id,
                    (mapIndex s._masterNodes nodeId).1.url)]
                else s._masterNodesToJoin)
            else
              (if bodyAt (makeRequest ((mapIndex s._masterNodes nodeId).1.url
                  ++ "/internal/master/status")).body s._nodeId = "" then
                s._masterNodesToJoin ++ [((mapIndex s._masterNodes nodeId).1.id,
                  (mapIndex s._masterNodes nodeId).1.url)]
              else s._masterNodesToJoin) } := by
  generalize hresp : makeRequest ((mapIndex s._masterNodes nodeId).1.url
    ++ "/internal/master/status") = response
  unfold handleMasterNodeStatusRequest
  simp only [hresp]
  have hanswer : statusRequestAnswer (statusRequestBegin s nodeId) s.statusRequests.length response
      = { s with
          _masterNodes := (mapIndex s._masterNodes nodeId).2
          _masterNodesToJoin :=
            if bodyAt response.body s._nodeId = "" then
              s._masterNodesToJoin ++ [((mapIndex s._masterNodes nodeId).1.id,
                (mapIndex s._masterNodes nodeId).1.url)]
            else s._masterNodesToJoin
          statusRequests := s.statusRequests ++
            [{ nodeId := nodeId, thisNodeId := s._nodeId,
               masterNodeCount := s._masterNodes.length,
               nodeState := { (mapIndex s._masterNodes nodeId).1 with
                 contactable := decide (response.code < 300) },
               response := some response, ourMasterNodes := [], remoteNodes := none }] } := by
    unfold statusRequestAnswer statusRequestBegin
    simp only [getElem?_append_length, if_true, set_append_length]
  rw [hanswer]
  unfold statusRequestCompare
  simp only [getElem?_append_length, set_append_length, List.length_map]
  by_cases hgt : (response.body.filter
      (fun p => decide (p.2 = "Connected") || decide (p.2 = "NotConnected"))).length
      > s._masterNodes.length
  · simp only [hgt, if_true]
    rw [statusRequestVisit_rounds response _ _ _ s.statusRequests _
      (by
        simp only [List.length_range, List.length_map]
        exact List.length_filter_le _ _) rfl rfl rfl]
    unfold statusRequestCommit
    simp only [getElem?_append_length, if_true, eraseIdx_append_length]
  · simp only [hgt, if_false]
    rw [statusRequestVisit_rounds response [] _ _ s.statusRequests _
      (Nat.zero_le _) rfl rfl rfl]
    unfold statusRequestCommit
    simp only [getElem?_append_length, if_true, eraseIdx_append_length, List.foldl_nil]

end MasterNode

namespace MasterNode

/-- The answer code of a join request, as a function of the state. -/
theorem handlerPostInternalMasterJoin_code (s : MasterNode) (body : List (String × String)) :
    (handlerPostInternalMasterJoin s body).1.code
      = if bodyAt body "NodeId" = "" ∨ bodyAt body "NodeUrl" = ""
            ∨ bodyAt body "NodeId" = s._nodeId
            ∨ bodyAt body "NodeId" ∈ mapKeys s._masterNodes
            ∨ bodyAt body "NodeUrl" = s._nodeUrl
            ∨ bodyAt body "NodeUrl" ∈ s._masterNodes.map (fun p => p.2.url)
        then 400 else 201 := by
  unfold handlerPostInternalMasterJoin
  simp only [foldl_join_flags, Bool.false_or]
  by_cases h0 : bodyAt body "NodeId" = ""
  · simp only [h0, ne_eq, not_true_eq_false, false_and, if_false, if_true, true_or]
    split_ifs <;> rfl
  by_cases h00 : bodyAt body "NodeUrl" = ""
  · simp [h0, h00]
  simp only [h0, h00, ne_eq, not_false_eq_true, and_self, if_true, if_false, false_or]
  by_cases h1 : bodyAt body "NodeId" = s._nodeId <;>
    by_cases h2 : bodyAt body "NodeId" ∈ mapKeys s._masterNodes <;>
    by_cases h3 : bodyAt body "NodeUrl" = s._nodeUrl <;>
    by_cases h4 : bodyAt body "NodeUrl" ∈ s._masterNodes.map (fun p => p.2.url) <;>
    simp [h0, h00, h1, h2, h3, h4]

/-- The state after a join request: untouched on a 400, and on a 201 changed
in the peers, the ledger and the ages only. -/
theorem handlerPostInternalMasterJoin_exact (s : MasterNode) (body : List (String × String)) :
    ((handlerPostInternalMasterJoin s body).1.code = 400
        → (handlerPostInternalMasterJoin s body).2 = s)
      ∧ ((handlerPostInternalMasterJoin s body).1.code = 201
        → (handlerPostInternalMasterJoin s body).2
            = { s with
                _leftMasterNodes := s._leftMasterNodes.erase (bodyAt body "NodeId")
                _leftMasterNodeTimes :=
                  if bodyAt body "NodeId" ∈ s._leftMasterNodes
                  then mapErase s._leftMasterNodeTimes (bodyAt body "NodeId")
                  else s._leftMasterNodeTimes
                _masterNodes := mapSet s._masterNodes (bodyAt body "NodeId")
                  ⟨false, bodyAt body "NodeId", bodyAt body "NodeUrl"⟩ }) := by
  unfold handlerPostInternalMasterJoin
  simp only [foldl_join_flags, Bool.false_or]
  by_cases h0 : bodyAt body "NodeId" = ""
  · simp only [h0, ne_eq, not_true_eq_false, false_and, if_false, if_true, true_or]
    refine ⟨fun _ => trivial, fun h => ?_⟩
    split_ifs at h <;> exact absurd h (by decide)
  by_cases h00 : bodyAt body "NodeUrl" = ""
  · simp [h0, h00]
  simp only [h0, h00, ne_eq, not_false_eq_true, and_self, if_true, if_false, false_or]
  by_cases h1 : bodyAt body "NodeId" = s._nodeId <;>
    by_cases h2 : bodyAt body "NodeId" ∈ mapKeys s._masterNodes <;>
    by_cases h3 : bodyAt body "NodeUrl" = s._nodeUrl <;>
    by_cases h4 : bodyAt body "NodeUrl" ∈ s._masterNodes.map (fun p => p.2.url) <;>
    by_cases h5 : bodyAt body "NodeId" ∈ s._leftMasterNodes <;>
    simp [h0, h00, h1, h2, h3, h4, h5, List.erase_of_not_mem]

theorem mapKeys_mapIndex {α : Type} [Inhabited α] (m : List (String × α)) (k x : String) :
    x ∈ mapKeys (mapIndex m k).2 ↔ x = k ∨ x ∈ mapKeys m := by
  unfold mapIndex
  cases h : mapFind m k with
  | none => simp only; exact mapKeys_mapSet m k default x
  | some v =>
    simp only
    constructor
    · exact Or.inr
    · rintro (e | e)
      · subst e
        induction m with
        | nil => simp [mapFind] at h
        | cons p rest ih =>
          simp only [mapFind] at h
          by_cases hp : p.1 = x
          · simp [mapKeys, hp]
          · simp only [hp, if_false] at h
            simp only [mapKeys, List.map_cons, List.mem_cons]
            exact Or.inr (ih h)
      · exact e

theorem markTimedOutNodes_keys (T : Int) (l : List String)
    (acc : List String × List (String × Int)) (x : String)
    (hx : x ∈ mapKeys (markTimedOutNodes T l acc).2) : x ∈ l ∨ x ∈ mapKeys acc.2 := by
  induction l generalizing acc with
  | nil => exact Or.inr hx
  | cons y rest ih =>
    rw [markTimedOutNodes_cons] at hx
    rcases ih _ hx with h | h
    · exact Or.inl (List.mem_cons_of_mem _ h)
    · simp only at h
      rw [mapKeys_mapSet, mapKeys_mapIndex] at h
      rcases h with h | h | h
      · exact Or.inl (h ▸ List.mem_cons_self _ _)
      · exact Or.inl (h ▸ List.mem_cons_self _ _)
      · exact Or.inr h

theorem removeTimedOutNodes_within (mk : List String) (s : MasterNode)
    (h : ∀ x ∈ mapKeys s._leftMasterNodeTimes, x ∈ s._leftMasterNodes) :
    ∀ x ∈ mapKeys (removeTimedOutNodes mk s)._leftMasterNodeTimes,
      x ∈ (removeTimedOutNodes mk s)._leftMasterNodes := by
  induction mk generalizing s with
  | nil => exact h
  | cons y rest ih =>
    rw [removeTimedOutNodes_cons]
    apply ih
    split_ifs with hy
    · intro x hx
      have hx' : x ∈ mapKeys (mapErase s._leftMasterNodeTimes y) := hx
      rw [mapKeys_mapErase] at hx'
      exact (List.mem_erase_of_ne hx'.1).mpr (h x hx'.2)
    · exact h


theorem statusRequestAnswer_frame (s : MasterNode) (i : Nat) (response : ResponseObj) :
    (statusRequestAnswer s i response)._leftMasterNodes = s._leftMasterNodes
    ∧ (statusRequestAnswer s i response)._leftMasterNodeTimes = s._leftMasterNodeTimes
    ∧ (statusRequestAnswer s i response)._connectedWorkerNodes = s._connectedWorkerNodes
    ∧ (statusRequestAnswer s i response)._workerTimeout = s._workerTimeout
    ∧ (statusRequestAnswer s i response)._leftTimeout = s._leftTimeout
    ∧ (statusRequestAnswer s i response)._nodeId = s._nodeId
    ∧ (statusRequestAnswer s i response)._nodeUrl = s._nodeUrl
    ∧ (statusRequestAnswer s i response)._masterNodes = s._masterNodes := by
  unfold statusRequestAnswer
  split
  · split
    · exact ⟨rfl, rfl, rfl, rfl, rfl, rfl, rfl, rfl⟩
    · exact ⟨rfl, rfl, rfl, rfl, rfl, rfl, rfl, rfl⟩
  · exact ⟨rfl, rfl, rfl, rfl, rfl, rfl, rfl, rfl⟩

theorem statusRequestCompare_frame (s : MasterNode) (i : Nat) :
    (statusRequestCompare s i)._leftMasterNodes = s._leftMasterNodes
    ∧ (statusRequestCompare s i)._leftMasterNodeTimes = s._leftMasterNodeTimes
    ∧ (statusRequestCompare s i)._connectedWorkerNodes = s._connectedWorkerNodes
    ∧ (statusRequestCompare s i)._workerTimeout = s._workerTimeout
    ∧ (statusRequestCompare s i)._leftTimeout = s._leftTimeout
    ∧ (statusRequestCompare s i)._nodeId = s._nodeId
    ∧ (statusRequestCompare s i)._nodeUrl = s._nodeUrl
    ∧ (statusRequestCompare s i)._masterNodes = s._masterNodes
    ∧ (statusRequestCompare s i)._masterNodesToJoin = s._masterNodesToJoin := by
  unfold statusRequestCompare
  split
  · split
    · simp only
      split <;> exact ⟨rfl, rfl, rfl, rfl, rfl, rfl, rfl, rfl, rfl⟩
    · exact ⟨rfl, rfl, rfl, rfl, rfl, rfl, rfl, rfl, rfl⟩
  · exact ⟨rfl, rfl, rfl, rfl, rfl, rfl, rfl, rfl, rfl⟩

theorem statusRequestVisit_frame (s : MasterNode) (i : Nat) :
    (statusRequestVisit s i)._leftMasterNodes = s._leftMasterNodes
    ∧ (statusRequestVisit s i)._leftMasterNodeTimes = s._leftMasterNodeTimes
    ∧ (statusRequestVisit s i)._connectedWorkerNodes = s._connectedWorkerNodes
    ∧ (statusRequestVisit s i)._workerTimeout = s._workerTimeout
    ∧ (statusRequestVisit s i)._leftTimeout = s._leftTimeout
    ∧ (statusRequestVisit s i)._nodeId = s._nodeId
    ∧ (statusRequestVisit s i)._nodeUrl = s._nodeUrl
    ∧ (statusRequestVisit s i)._masterNodes = s._masterNodes := by
  unfold statusRequestVisit
  split
  · split
    · exact ⟨rfl, rfl, rfl, rfl, rfl, rfl, rfl, rfl⟩
    · exact ⟨rfl, rfl, rfl, rfl, rfl, rfl, rfl, rfl⟩
  · exact ⟨rfl, rfl, rfl, rfl, rfl, rfl, rfl, rfl⟩

theorem statusRequestCommit_frame (s : MasterNode) (i : Nat) :
    (statusRequestCommit s i)._leftMasterNodes = s._leftMasterNodes
    ∧ (statusRequestCommit s i)._leftMasterNodeTimes = s._leftMasterNodeTimes
    ∧ (statusRequestCommit s i)._connectedWorkerNodes = s._connectedWorkerNodes
    ∧ (statusRequestCommit s i)._workerTimeout = s._workerTimeout
    ∧ (statusRequestCommit s i)._leftTimeout = s._leftTimeout
    ∧ (statusRequestCommit s i)._nodeId = s._nodeId
    ∧ (statusRequestCommit s i)._nodeUrl = s._nodeUrl
    ∧ (statusRequestCommit s i)._masterNodesToJoin = s._masterNodesToJoin := by
  unfold statusRequestCommit
  split
  · split
    · exact ⟨rfl, rfl, rfl, rfl, rfl, rfl, rfl, rfl⟩
    · exact ⟨rfl, rfl, rfl, rfl, rfl, rfl, rfl, rfl⟩
  · exact ⟨rfl, rfl, rfl, rfl, rfl, rfl, rfl, rfl⟩

theorem drainBegin_frame (s : MasterNode) :
    (drainBegin s)._leftMasterNodes = s._leftMasterNodes
    ∧ (drainBegin s)._leftMasterNodeTimes = s._leftMasterNodeTimes
    ∧ (drainBegin s)._connectedWorkerNodes = s._connectedWorkerNodes
    ∧ (drainBegin s)._workerTimeout = s._workerTimeout
    ∧ (drainBegin s)._leftTimeout = s._leftTimeout
    ∧ (drainBegin s)._nodeId = s._nodeId
    ∧ (drainBegin s)._nodeUrl = s._nodeUrl
    ∧ (drainBegin s)._masterNodes = s._masterNodes
    ∧ (drainBegin s)._masterNodesToJoin = s._masterNodesToJoin
    ∧ (drainBegin s).statusRequests = s.statusRequests := by
  unfold drainBegin
  split <;> exact ⟨rfl, rfl, rfl, rfl, rfl, rfl, rfl, rfl, rfl, rfl⟩

theorem drainDequeue_frame (s : MasterNode) :
    (drainDequeue s)._leftMasterNodes = s._leftMasterNodes
    ∧ (drainDequeue s)._leftMasterNodeTimes = s._leftMasterNodeTimes
    ∧ (drainDequeue s)._connectedWorkerNodes = s._connectedWorkerNodes
    ∧ (drainDequeue s)._workerTimeout = s._workerTimeout
    ∧ (drainDequeue s)._leftTimeout = s._leftTimeout
    ∧ (drainDequeue s)._nodeId = s._nodeId
    ∧ (drainDequeue s)._nodeUrl = s._nodeUrl
    ∧ (drainDequeue s)._masterNodes = s._masterNodes
    ∧ (drainDequeue s).statusRequests = s.statusRequests := by
  unfold drainDequeue
  split
  · split
    · split
      · exact ⟨rfl, rfl, rfl, rfl, rfl, rfl, rfl, rfl, rfl⟩
      · split <;> exact ⟨rfl, rfl, rfl, rfl, rfl, rfl, rfl, rfl, rfl⟩
    · exact ⟨rfl, rfl, rfl, rfl, rfl, rfl, rfl, rfl, rfl⟩
  · exact ⟨rfl, rfl, rfl, rfl, rfl, rfl, rfl, rfl, rfl⟩

theorem drainInsert_frame (s : MasterNode) :
    (drainInsert s)._leftMasterNodes = s._leftMasterNodes
    ∧ (drainInsert s)._leftMasterNodeTimes = s._leftMasterNodeTimes
    ∧ (drainInsert s)._connectedWorkerNodes = s._connectedWorkerNodes
    ∧ (drainInsert s)._workerTimeout = s._workerTimeout
    ∧ (drainInsert s)._leftTimeout = s._leftTimeout
    ∧ (drainInsert s)._nodeId = s._nodeId
    ∧ (drainInsert s)._nodeUrl = s._nodeUrl
    ∧ (drainInsert s)._masterNodesToJoin = s._masterNodesToJoin
    ∧ (drainInsert s).statusRequests = s.statusRequests := by
  unfold drainInsert
  split
  · split
    · exact ⟨rfl, rfl, rfl, rfl, rfl, rfl, rfl, rfl, rfl⟩
    · exact ⟨rfl, rfl, rfl, rfl, rfl, rfl, rfl, rfl, rfl⟩
  · exact ⟨rfl, rfl, rfl, rfl, rfl, rfl, rfl, rfl, rfl⟩

/-- In a reachable state every id that has an age is in the left ledger. -/
theorem reachable_agesWithinLedger (s : MasterNode) (hs : Reachable s) :
    ∀ x ∈ mapKeys s._leftMasterNodeTimes, x ∈ s._leftMasterNodes := by
  induction hs with
  | init randomSha hostname port nodeId _ => simp [new, mapKeys]
  | join s body _ ih =>
    obtain ⟨j400, j201⟩ := handlerPostInternalMasterJoin_exact s body
    have hc := handlerPostInternalMasterJoin_code s body
    split_ifs at hc
    · rw [j400 hc]; exact ih
    · rw [j201 hc]
      intro x hx
      simp only at hx ⊢
      split_ifs at hx with hin
      · rw [mapKeys_mapErase] at hx
        exact (List.mem_erase_of_ne hx.1).mpr (ih x hx.2)
      · have hne : x ≠ bodyAt body "NodeId" := fun e => hin (e ▸ ih x hx)
        exact (List.mem_erase_of_ne hne).mpr (ih x hx)
  | leave s body _ ih =>
    obtain ⟨l1, l2, l3⟩ := handlerPostInternalMasterLeave_state s body
    by_cases hne : bodyAt body "NodeId" = ""
    · rw [l1 hne]; exact ih
    · by_cases hfound : (mapIndex s._masterNodes (bodyAt body "NodeId")).1.id
          = bodyAt body "NodeId"
      · rw [(l2 hne hfound).2]
        intro x hx
        simp only at hx ⊢
        rw [mapKeys_mapSet] at hx
        rw [List.mem_append, List.mem_singleton]
        rcases hx with hx | hx
        · exact Or.inr hx
        · exact Or.inl (ih x hx)
      · rw [(l3 hne hfound).2]; exact ih
  | status s routeArg _ ih =>
    unfold handlerGetInternalMasterStatus
    simp only
    split_ifs <;> exact ih
  | leftTimeout s timeout _ ih =>
    unfold setLeftNodeTimeout
    split <;> exact ih
  | workerTimeout s timeout _ ih =>
    unfold setWorkerNodeTimeout
    split <;> exact ih
  | dispatch s _ ih => exact ih
  | pollBegin s nodeId _ _ ih => exact ih
  | pollAnswer s i response _ ih =>
    obtain ⟨h1, h2, _⟩ := statusRequestAnswer_frame s i response
    rw [h1, h2]; exact ih
  | pollCompare s i _ ih =>
    obtain ⟨h1, h2, _⟩ := statusRequestCompare_frame s i
    rw [h1, h2]; exact ih
  | pollVisit s i _ ih =>
    obtain ⟨h1, h2, _⟩ := statusRequestVisit_frame s i
    rw [h1, h2]; exact ih
  | pollCommit s i _ ih =>
    obtain ⟨h1, h2, _⟩ := statusRequestCommit_frame s i
    rw [h1, h2]; exact ih
  | age s _ ih =>
    unfold ageLeftMasterNodes
    apply removeTimedOutNodes_within
    intro x hx
    rcases markTimedOutNodes_keys _ _ _ x hx with h | h
    · exact h
    · exact ih x h
  | drainBegin s _ ih =>
    obtain ⟨h1, h2, _⟩ := drainBegin_frame s
    rw [h1, h2]; exact ih
  | drainDequeue s _ ih =>
    obtain ⟨h1, h2, _⟩ := drainDequeue_frame s
    rw [h1, h2]; exact ih
  | drainInsert s _ ih =>
    obtain ⟨h1, h2, _⟩ := drainInsert_frame s
    rw [h1, h2]; exact ih
  | workerLoop s _ ih => exact ih

end MasterNode

namespace MasterNode

theorem removeTimedOutNodes_requests (mk : List String) (s : MasterNode) :
    (removeTimedOutNodes mk s).statusRequests = s.statusRequests
      ∧ (removeTimedOutNodes mk s).joinDrain = s.joinDrain := by
  induction mk generalizing s with
  | nil => exact ⟨rfl, rfl⟩
  | cons y rest ih =>
    rw [removeTimedOutNodes_cons]
    split_ifs
    · exact ih _
    · exact ih _

theorem ageLeftMasterNodes_peers (s : MasterNode) :
    (ageLeftMasterNodes s)._masterNodes = s._masterNodes
      ∧ (ageLeftMasterNodes s)._masterNodesToJoin = s._masterNodesToJoin
      ∧ (ageLeftMasterNodes s)._nodeId = s._nodeId
      ∧ (ageLeftMasterNodes s)._nodeUrl = s._nodeUrl
      ∧ (ageLeftMasterNodes s).statusRequests = s.statusRequests
      ∧ (ageLeftMasterNodes s).joinDrain = s.joinDrain := by
  obtain ⟨h1, _, h3, h4, h5, _⟩ := removeTimedOutNodes_spec
    (markTimedOutNodes s._leftTimeout s._leftMasterNodes ([], s._leftMasterNodeTimes)).1
    { s with _leftMasterNodeTimes :=
        (markTimedOutNodes s._leftTimeout s._leftMasterNodes ([], s._leftMasterNodeTimes)).2 }
  obtain ⟨h6, h7⟩ := removeTimedOutNodes_requests
    (markTimedOutNodes s._leftTimeout s._leftMasterNodes ([], s._leftMasterNodeTimes)).1
    { s with _leftMasterNodeTimes :=
        (markTimedOutNodes s._leftTimeout s._leftMasterNodes ([], s._leftMasterNodeTimes)).2 }
  unfold ageLeftMasterNodes
  exact ⟨h1, h3, h4, h5, h6, h7⟩

/-- A status request run without interruption is a sequence of its lock
sections and queue operations. -/
theorem statusRequest_steps (P : MasterNode → Prop)
    (ha : ∀ s i response, P s → P (statusRequestAnswer s i response))
    (hc : ∀ s i, P s → P (statusRequestCompare s i))
    (hv : ∀ s i, P s → P (statusRequestVisit s i))
    (hm : ∀ s i, P s → P (statusRequestCommit s i))
    (s : MasterNode) (nodeId : String) (makeRequest : String → ResponseObj)
    (hb : P (statusRequestBegin s nodeId)) :
    P (handleMasterNodeStatusRequest s nodeId makeRequest) := by
  have hfold : ∀ (l : List Nat) (i : Nat) (st : MasterNode), P st →
      P (l.foldl (fun st _ => statusRequestVisit st i) st) := by
    intro l i
    induction l with
    | nil => intro st h; exact h
    | cons x rest ih => intro st h; exact ih _ (hv st i h)
  unfold handleMasterNodeStatusRequest
  exact hm _ _ (hfold _ _ _ (hc _ _ (ha _ _ _ hb)))

/-- The dequeuing loop run without interruption is a sequence of dequeue and
insert steps. -/
theorem dequeue_steps (P : MasterNode → Prop)
    (hd : ∀ s, P s → P (drainDequeue s)) (hi : ∀ s, P s → P (drainInsert s)) :
    ∀ (queue : List (String × String)) (s : MasterNode) (nodesRequested : List String),
      P s → s._masterNodesToJoin = queue → s.joinDrain = some ⟨nodesRequested, none⟩ →
      P { s with
          _masterNodes := (dequeueMasterNodesToJoin queue (s._masterNodes, nodesRequested)).1
          _masterNodesToJoin := []
          joinDrain := none } := by
  intro queue
  induction queue with
  | nil =>
    intro s req hP hq hj
    have h := hd s hP
    unfold drainDequeue at h
    rw [hj] at h
    simp only [if_true, hq] at h
    exact h
  | cons item rest ih =>
    intro s req hP hq hj
    have h := hd s hP
    unfold drainDequeue at h
    rw [hj] at h
    simp only [if_true, hq] at h
    rw [dequeueMasterNodesToJoin_cons]
    by_cases hin : item.1 ∉ req
    · rw [if_pos hin] at h ⊢
      have h2 := hi _ h
      unfold drainInsert at h2
      simp only at h2
      exact ih _ (req ++ [item.1]) h2 rfl rfl
    · rw [if_neg hin] at h ⊢
      exact ih { s with _masterNodesToJoin := rest, joinDrain := some ⟨req, none⟩ } req h rfl rfl

/-- The join block run without interruption is a sequence of its steps. -/
theorem drain_steps (P : MasterNode → Prop)
    (hb : ∀ s, P s → P (drainBegin s))
    (hd : ∀ s, P s → P (drainDequeue s)) (hi : ∀ s, P s → P (drainInsert s))
    (s : MasterNode) (hP : P s) (hj : s.joinDrain = none) :
    P (drainMasterNodesToJoin s) := by
  unfold drainMasterNodesToJoin
  split_ifs with hq
  · have h := hb s hP
    unfold drainBegin at h
    rw [if_pos ⟨hq, hj⟩] at h
    have h2 := dequeue_steps P hd hi s._masterNodesToJoin _ s._leftMasterNodes h rfl rfl
    simp only at h2
    rw [← hj] at h2
    exact h2
  · exact hP

theorem reachable_runStatusRequest (s : MasterNode) (nodeId : String)
    (makeRequest : String → ResponseObj) (hs : Reachable s)
    (hp : nodeId ∈ s._masterThreadPool) : Reachable (runStatusRequest s nodeId makeRequest) :=
  statusRequest_steps Reachable Reachable.pollAnswer Reachable.pollCompare Reachable.pollVisit
    Reachable.pollCommit _ nodeId makeRequest (Reachable.pollBegin s nodeId hs hp)

theorem reachable_drain (s : MasterNode) (hs : Reachable s) (hj : s.joinDrain = none) :
    Reachable (drainMasterNodesToJoin s) :=
  drain_steps Reachable Reachable.drainBegin Reachable.drainDequeue Reachable.drainInsert s hs hj

theorem statusRequest_pool (s : MasterNode) (i : Nat) (response : ResponseObj) :
    ((statusRequestAnswer s i response)._masterThreadPool = s._masterThreadPool
      ∧ (statusRequestAnswer s i response).joinDrain = s.joinDrain)
    ∧ ((statusRequestCompare s i)._masterThreadPool = s._masterThreadPool
      ∧ (statusRequestCompare s i).joinDrain = s.joinDrain)
    ∧ ((statusRequestVisit s i)._masterThreadPool = s._masterThreadPool
      ∧ (statusRequestVisit s i).joinDrain = s.joinDrain)
    ∧ ((statusRequestCommit s i)._masterThreadPool = s._masterThreadPool
      ∧ (statusRequestCommit s i).joinDrain = s.joinDrain) := by
  refine ⟨?_, ?_, ?_, ?_⟩
  · unfold statusRequestAnswer
    split
    · split <;> exact ⟨rfl, rfl⟩
    · exact ⟨rfl, rfl⟩
  · unfold statusRequestCompare
    split
    · split
      · simp only
        split <;> exact ⟨rfl, rfl⟩
      · exact ⟨rfl, rfl⟩
    · exact ⟨rfl, rfl⟩
  · unfold statusRequestVisit
    split
    · split <;> exact ⟨rfl, rfl⟩
    · exact ⟨rfl, rfl⟩
  · unfold statusRequestCommit
    split
    · split <;> exact ⟨rfl, rfl⟩
    · exact ⟨rfl, rfl⟩

theorem runStatusRequest_pool (s : MasterNode) (nodeId : String)
    (makeRequest : String → ResponseObj) :
    (runStatusRequest s nodeId makeRequest)._masterThreadPool = s._masterThreadPool.erase nodeId
      ∧ (runStatusRequest s nodeId makeRequest).joinDrain = s.joinDrain := by
  have hfold : ∀ (l : List Nat) (i : Nat) (st : MasterNode),
      (l.foldl (fun st _ => statusRequestVisit st i) st)._masterThreadPool = st._masterThreadPool
        ∧ (l.foldl (fun st _ => statusRequestVisit st i) st).joinDrain = st.joinDrain := by
    intro l i
    induction l with
    | nil => intro st; exact ⟨rfl, rfl⟩
    | cons x rest ih =>
      intro st
      obtain ⟨h1, h2⟩ := ih (statusRequestVisit st i)
      obtain ⟨_, _, ⟨h3, h4⟩, _⟩ := statusRequest_pool st i default
      exact ⟨h1.trans h3, h2.trans h4⟩
  unfold runStatusRequest handleMasterNodeStatusRequest
  simp only
  obtain ⟨_, _, _, ⟨c1, c2⟩⟩ := statusRequest_pool
    ((List.range (makeRequest ((mapIndex (takeStatusRequest s nodeId)._masterNodes nodeId).1.url
        ++ "/internal/master/status")).body.length).foldl
      (fun st _ => statusRequestVisit st (takeStatusRequest s nodeId).statusRequests.length)
      (statusRequestCompare
        (statusRequestAnswer (statusRequestBegin (takeStatusRequest s nodeId) nodeId)
          (takeStatusRequest s nodeId).statusRequests.length
          (makeRequest ((mapIndex (takeStatusRequest s nodeId)._masterNodes nodeId).1.url
            ++ "/internal/master/status")))
        (takeStatusRequest s nodeId).statusRequests.length))
    (takeStatusRequest s nodeId).statusRequests.length default
  obtain ⟨f1, f2⟩ := hfold
    (List.range (makeRequest ((mapIndex (takeStatusRequest s nodeId)._masterNodes nodeId).1.url
        ++ "/internal/master/status")).body.length)
    (takeStatusRequest s nodeId).statusRequests.length
    (statusRequestCompare
        (statusRequestAnswer (statusRequestBegin (takeStatusRequest s nodeId) nodeId)
          (takeStatusRequest s nodeId).statusRequests.length
          (makeRequest ((mapIndex (takeStatusRequest s nodeId)._masterNodes nodeId).1.url
            ++ "/internal/master/status")))
        (takeStatusRequest s nodeId).statusRequests.length)
  obtain ⟨_, ⟨b1, b2⟩, _, _⟩ := statusRequest_pool
    (statusRequestAnswer (statusRequestBegin (takeStatusRequest s nodeId) nodeId)
          (takeStatusRequest s nodeId).statusRequests.length
          (makeRequest ((mapIndex (takeStatusRequest s nodeId)._masterNodes nodeId).1.url
            ++ "/internal/master/status")))
    (takeStatusRequest s nodeId).statusRequests.length default
  obtain ⟨⟨a1, a2⟩, _, _, _⟩ := statusRequest_pool
    (statusRequestBegin (takeStatusRequest s nodeId) nodeId)
    (takeStatusRequest s nodeId).statusRequests.length
    (makeRequest ((mapIndex (takeStatusRequest s nodeId)._masterNodes nodeId).1.url
            ++ "/internal/master/status"))
  exact ⟨c1.trans (f1.trans (b1.trans a1)), c2.trans (f2.trans (b2.trans a2))⟩

/-- The status requests of a whole thread pool, run one after the other, are a
sequence of steps. -/
theorem pool_steps (respond : String → String → ResponseObj) :
    ∀ (pool : List String) (s : MasterNode), Reachable s → s._masterThreadPool = pool →
      Reachable (pool.foldl (fun st nodeId => runStatusRequest st nodeId (respond nodeId)) s)
        ∧ (pool.foldl (fun st nodeId => runStatusRequest st nodeId (respond nodeId)) s).joinDrain
          = s.joinDrain := by
  intro pool
  induction pool with
  | nil => intro s hs _; exact ⟨hs, rfl⟩
  | cons x rest ih =>
    intro s hs hp
    obtain ⟨p1, p2⟩ := runStatusRequest_pool s x (respond x)
    have hx : x ∈ s._masterThreadPool := by rw [hp]; exact List.mem_cons_self _ _
    have hrest : (runStatusRequest s x (respond x))._masterThreadPool = rest := by
      rw [p1, hp]
      simp
    obtain ⟨q1, q2⟩ := ih _ (reachable_runStatusRequest s x (respond x) hs hx) hrest
    exact ⟨q1, q2.trans p2⟩

/-- An iteration of the master loop in which no other thread runs between the
lock sections is a sequence of steps. -/
theorem reachable_handleMasterEventLoop (s : MasterNode)
    (respond : String → String → ResponseObj) (hs : Reachable s) (hj : s.joinDrain = none) :
    Reachable (handleMasterEventLoop s respond) := by
  unfold handleMasterEventLoop
  simp only
  obtain ⟨h1, h2⟩ := pool_steps respond (dispatchStatusRequests s)._masterThreadPool
    (dispatchStatusRequests s) (Reachable.dispatch s hs) rfl
  apply reachable_drain _ (Reachable.age _ h1)
  rw [(ageLeftMasterNodes_peers _).2.2.2.2.2, h2]
  exact hj

theorem reachable_staleBegun : Reachable staleBegun :=
  Reachable.pollBegin _ "N2"
    (Reachable.dispatch _
      (Reachable.join _ _ (Reachable.init "5e3a" "localhost" 9996 "N1" (by decide))))
    (by decide)

theorem reachable_staleLeft : Reachable staleLeft :=
  Reachable.leave _ _ reachable_staleBegun

theorem reachable_staleCommitted : Reachable staleCommitted :=
  Reachable.pollCommit _ 0
    (Reachable.pollCompare _ 0 (Reachable.pollAnswer _ 0 ⟨500, []⟩ reachable_staleLeft))

theorem reachable_doubledLedger : Reachable doubledLedger :=
  Reachable.leave _ _ reachable_staleCommitted

/-- The last lock section of a status request stores the row it holds under
the polled id and leaves the left ledger as it is. -/
theorem statusRequestCommit_writes (s : MasterNode) (i : Nat) (r : StatusRequest)
    (hr : s.statusRequests[i]? = some r) (hdone : r.remoteNodes = some []) :
    mapFind (statusRequestCommit s i)._masterNodes r.nodeId = some r.nodeState
      ∧ (statusRequestCommit s i)._leftMasterNodes = s._leftMasterNodes
      ∧ (statusRequestCommit s i)._leftMasterNodeTimes = s._leftMasterNodeTimes := by
  unfold statusRequestCommit
  rw [hr]
  simp [hdone, mapFind_mapSet_self]

end MasterNode

namespace MasterNode

/-- C4: the last lock section of a status request writes the row read in the
first one back under the polled id without looking at the left ledger, while
the join block skips every id of the ledger.  The master `N1` accepts the join
of `N2`; the status request for `N2` takes its snapshot; the leave of `N2` is
accepted (202), after which `N2` is no peer and is in the ledger at age 0; the
request fails and writes its snapshot back: `N2` is a peer again while it is in
the ledger at age 0, with no join request in between, and it still is after the
ledger block and the join block of that iteration, where its age is 5 of 300.
A second leave of `N2` is then accepted; the ledger lists `N2` twice and one
ledger block ages it by 10.  When the leave of `N2` is accepted after `N2` was
handed to the thread pool and before its status request begins, the request
inserts a row for `N2` by `_masterNodes[nodeId]` and writes it back: after that
iteration of the master loop, run without interruption, `N2` is a peer again
and is in the ledger at age 5. -/
theorem stale_write_back_readds_left_peer :
    (∀ (s : MasterNode) (i : Nat) (r : StatusRequest),
        s.statusRequests[i]? = some r → r.remoteNodes = some [] →
        mapFind (statusRequestCommit s i)._masterNodes r.nodeId = some r.nodeState
          ∧ (statusRequestCommit s i)._leftMasterNodes = s._leftMasterNodes
          ∧ (statusRequestCommit s i)._leftMasterNodeTimes = s._leftMasterNodeTimes)
    ∧ (∀ (s : MasterNode) (x : String), x ∈ s._leftMasterNodes →
        mapFind (drainMasterNodesToJoin s)._masterNodes x = mapFind s._masterNodes x)
    ∧ (Reachable staleBegun
        ∧ mapFind staleBegun._masterNodes "N2" = some ⟨false, "N2", "http://localhost:9997"⟩
        ∧ (handlerPostInternalMasterLeave staleBegun [("NodeId", "N2")]).1.code = 202
        ∧ (handlerPostInternalMasterLeave staleBegun [("NodeId", "N2")]).2 = staleLeft
        ∧ mapFind staleLeft._masterNodes "N2" = none
        ∧ staleLeft._leftMasterNodes = ["N2"]
        ∧ mapFind staleLeft._leftMasterNodeTimes "N2" = some 0)
    ∧ (Reachable staleCommitted
        ∧ statusRequestCommit
            (statusRequestCompare (statusRequestAnswer staleLeft 0 ⟨500, []⟩) 0) 0
          = staleCommitted
        ∧ mapFind staleCommitted._masterNodes "N2"
          = some ⟨false, "N2", "http://localhost:9997"⟩
        ∧ staleCommitted._leftMasterNodes = ["N2"]
        ∧ mapFind staleCommitted._leftMasterNodeTimes "N2" = some 0)
    ∧ (Reachable (drainDequeue (drainDequeue (drainBegin (ageLeftMasterNodes staleCommitted))))
        ∧ drainDequeue (drainDequeue (drainBegin (ageLeftMasterNodes staleCommitted)))
          = drainMasterNodesToJoin (ageLeftMasterNodes staleCommitted)
        ∧ mapFind (drainMasterNodesToJoin (ageLeftMasterNodes staleCommitted))._masterNodes "N2"
          = some ⟨false, "N2", "http://localhost:9997"⟩
        ∧ (drainMasterNodesToJoin (ageLeftMasterNodes staleCommitted))._leftMasterNodes = ["N2"]
        ∧ mapFind (drainMasterNodesToJoin
            (ageLeftMasterNodes staleCommitted))._leftMasterNodeTimes "N2" = some 5
        ∧ (drainMasterNodesToJoin (ageLeftMasterNodes staleCommitted))._leftTimeout = 300)
    ∧ (Reachable doubledLedger
        ∧ (handlerPostInternalMasterLeave staleCommitted [("NodeId", "N2")]).1.code = 202
        ∧ doubledLedger._leftMasterNodes = ["N2", "N2"]
        ∧ mapFind doubledLedger._leftMasterNodeTimes "N2" = some 0
        ∧ mapFind (ageLeftMasterNodes doubledLedger)._leftMasterNodeTimes "N2" = some 10)
    ∧ (∀ (s : MasterNode) (respond : String → String → ResponseObj),
        Reachable s → s.joinDrain = none → Reachable (handleMasterEventLoop s respond))
    ∧ (Reachable staleQueued
        ∧ (handlerPostInternalMasterLeave (dispatchStatusRequests urlTakenJoined)
            [("NodeId", "N2")]).1.code = 202
        ∧ "N2" ∈ staleQueued._masterThreadPool
        ∧ mapFind staleQueued._masterNodes "N2" = none
        ∧ staleQueued._leftMasterNodes = ["N2"]
        ∧ mapFind staleQueued._leftMasterNodeTimes "N2" = some 0
        ∧ Reachable (handleMasterEventLoop staleQueued noAnswer)
        ∧ (handleMasterEventLoop staleQueued noAnswer)._masterNodes
          = [("N2", ⟨false, "", ""⟩), ("", ⟨false, "", ""⟩)]
        ∧ (handleMasterEventLoop staleQueued noAnswer)._leftMasterNodes = ["N2"]
        ∧ mapFind (handleMasterEventLoop staleQueued noAnswer)._leftMasterNodeTimes "N2"
          = some 5) := by
  have hqueued : Reachable staleQueued :=
    Reachable.leave _ _ (Reachable.dispatch _
      (Reachable.join _ _ (Reachable.init "5e3a" "localhost" 9996 "N1" (by decide))))
  refine ⟨statusRequestCommit_writes, drainMasterNodesToJoin_skips_ledger, ?_, ?_, ?_, ?_,
    reachable_handleMasterEventLoop, ?_⟩
  · exact ⟨reachable_staleBegun, by decide, by decide, rfl, by decide, by decide, by decide⟩
  · exact ⟨reachable_staleCommitted, rfl, by decide, by decide, by decide⟩
  · exact ⟨Reachable.drainDequeue _ (Reachable.drainDequeue _ (Reachable.drainBegin _
        (Reachable.age _ reachable_staleCommitted))),
      by decide, by decide, by decide, by decide, by decide⟩
  · exact ⟨reachable_doubledLedger, by decide, by decide, by decide, by decide⟩
  · exact ⟨hqueued, by decide, by decide, by decide, by decide, by decide,
      reachable_handleMasterEventLoop _ _ hqueued rfl, by decide, by decide, by decide⟩

end MasterNode

namespace MasterNode

/-- C21: a join request is answered 201 or 400, and on 400 the state is
unchanged.  On 201 the id was not a peer and the state afterwards is the old
one with the row `id -> (contactable = false, id, url)` added to the peers,
one occurrence of the id erased from the left ledger and, when the ledger held
the id, its age erased; the other ledger entries and ages are kept, and the id
is then absent from a ledger that listed no id twice.  A join that follows an
accepted leave of the same id is answered 201 as soon as the id and the url
differ from the own ones and the url from that of every other peer.  But the
ledger of a reachable state can list an id twice: in the state `doubledLedger`,
reached through the write-back of a status request that was under way while
`N2` left, the ledger is `[N2, N2]`, and the join of `N2` that is accepted then
leaves `N2` in the ledger, without an age, while `N2` is a peer. -/
theorem accepted_join_keeps_doubled_ledger_entry :
    (∀ (s : MasterNode) (body : List (String × String)),
      ((handlerPostInternalMasterJoin s body).1.code = 201
        ∨ (handlerPostInternalMasterJoin s body).1.code = 400)
      ∧ ((handlerPostInternalMasterJoin s body).1.code = 400 →
          (handlerPostInternalMasterJoin s body).2 = s)
      ∧ ((handlerPostInternalMasterJoin s body).1.code = 201 →
          bodyAt body "NodeId" ∉ mapKeys s._masterNodes
          ∧ (handlerPostInternalMasterJoin s body).2
            = { s with
                  _masterNodes := s._masterNodes
                    ++ [(bodyAt body "NodeId",
                          ⟨false, bodyAt body "NodeId", bodyAt body "NodeUrl"⟩)]
                  _leftMasterNodes := s._leftMasterNodes.erase (bodyAt body "NodeId")
                  _leftMasterNodeTimes :=
                    if bodyAt body "NodeId" ∈ s._leftMasterNodes then
                      mapErase s._leftMasterNodeTimes (bodyAt body "NodeId")
                    else s._leftMasterNodeTimes }
          ∧ (s._leftMasterNodes.Nodup →
              bodyAt body "NodeId" ∉ (handlerPostInternalMasterJoin s body).2._leftMasterNodes)
          ∧ ((∀ x ∈ mapKeys s._leftMasterNodeTimes, x ∈ s._leftMasterNodes) →
              bodyAt body "NodeId"
                ∉ mapKeys (handlerPostInternalMasterJoin s body).2._leftMasterNodeTimes)
          ∧ ∀ x, x ≠ bodyAt body "NodeId" →
              (x ∈ (handlerPostInternalMasterJoin s body).2._leftMasterNodes
                  ↔ x ∈ s._leftMasterNodes)
              ∧ mapFind (handlerPostInternalMasterJoin s body).2._leftMasterNodeTimes x
                  = mapFind s._leftMasterNodeTimes x))
    ∧ (∀ s : MasterNode, Reachable s →
        ∀ x ∈ mapKeys s._leftMasterNodeTimes, x ∈ s._leftMasterNodes)
    ∧ (∀ (s : MasterNode) (leaveBody : List (String × String)) (url : String),
          (handlerPostInternalMasterLeave s leaveBody).1.code = 202 → url ≠ "" →
          ((handlerPostInternalMasterJoin (handlerPostInternalMasterLeave s leaveBody).2
              [("NodeId", bodyAt leaveBody "NodeId"), ("NodeUrl", url)]).1.code = 201
            ↔ bodyAt leaveBody "NodeId" ≠ s._nodeId ∧ url ≠ s._nodeUrl
              ∧ ∀ p ∈ s._masterNodes, p.1 ≠ bodyAt leaveBody "NodeId" → p.2.url ≠ url))
    ∧ (Reachable doubledLedger
        ∧ doubledLedger._leftMasterNodes = ["N2", "N2"]
        ∧ (handlerPostInternalMasterJoin doubledLedger
            [("NodeId", "N2"), ("NodeUrl", "http://localhost:9998")]).1.code = 201
        ∧ (handlerPostInternalMasterJoin doubledLedger
            [("NodeId", "N2"), ("NodeUrl", "http://localhost:9998")]).2._leftMasterNodes
          = ["N2"]
        ∧ mapFind (handlerPostInternalMasterJoin doubledLedger
            [("NodeId", "N2"), ("NodeUrl", "http://localhost:9998")]).2._leftMasterNodeTimes
            "N2" = none
        ∧ mapFind (handlerPostInternalMasterJoin doubledLedger
            [("NodeId", "N2"), ("NodeUrl", "http://localhost:9998")]).2._masterNodes "N2"
          = some ⟨false, "N2", "http://localhost:9998"⟩) := by
  refine ⟨?_, reachable_agesWithinLedger, ?_, ?_⟩
  · intro s body
    obtain ⟨j400, j201⟩ := handlerPostInternalMasterJoin_exact s body
    have hc := handlerPostInternalMasterJoin_code s body
    refine ⟨?_, j400, ?_⟩
    · split_ifs at hc
      · exact Or.inr hc
      · exact Or.inl hc
    · intro h201
      have hcond : ¬ (bodyAt body "NodeId" = "" ∨ bodyAt body "NodeUrl" = ""
              ∨ bodyAt body "NodeId" = s._nodeId
              ∨ bodyAt body "NodeId" ∈ mapKeys s._masterNodes
              ∨ bodyAt body "NodeUrl" = s._nodeUrl
              ∨ bodyAt body "NodeUrl" ∈ s._masterNodes.map (fun p => p.2.url)) := by
        intro hcond
        rw [if_pos hcond] at hc
        rw [hc] at h201
        exact absurd h201 (by decide)
      have hkey : bodyAt body "NodeId" ∉ mapKeys s._masterNodes := fun h =>
        hcond (Or.inr (Or.inr (Or.inr (Or.inl h))))
      have hstate := j201 h201
      rw [mapSet_absent _ _ _ hkey] at hstate
      refine ⟨hkey, hstate, ?_, ?_, ?_⟩
      · intro hnd
        rw [hstate]
        exact fun h => ((List.Nodup.mem_erase_iff hnd).mp h).1 rfl
      · intro hin
        rw [hstate]
        simp only
        split_ifs with hl
        · exact fun h => ((mapKeys_mapErase _ _ _).mp h).1 rfl
        · exact fun h => hl (hin _ h)
      · intro x hx
        rw [hstate]
        simp only
        refine ⟨List.mem_erase_of_ne hx, ?_⟩
        split_ifs
        · exact mapFind_mapErase_ne _ _ _ hx
        · rfl
  · intro s leaveBody url h202 hurl
    obtain ⟨l1, l2, l3⟩ := handlerPostInternalMasterLeave_state s leaveBody
    have hne : bodyAt leaveBody "NodeId" ≠ "" := by
      intro h
      simp [handlerPostInternalMasterLeave, h] at h202
    have hfound : (mapIndex s._masterNodes (bodyAt leaveBody "NodeId")).1.id
        = bodyAt leaveBody "NodeId" := by
      by_contra hf
      rw [(l3 hne hf).1] at h202
      exact absurd h202 (by decide)
    have hsome : (mapIndex s._masterNodes (bodyAt leaveBody "NodeId")).2 = s._masterNodes := by
      unfold mapIndex at hfound ⊢
      cases hf : mapFind s._masterNodes (bodyAt leaveBody "NodeId") with
      | none =>
        rw [hf] at hfound
        exact absurd hfound.symm hne
      | some v => rfl
    have e1 : bodyAt [("NodeId", bodyAt leaveBody "NodeId"), ("NodeUrl", url)] "NodeId"
        = bodyAt leaveBody "NodeId" := by
      simp [bodyAt, mapIndex, mapFind]
    have e2 : bodyAt [("NodeId", bodyAt leaveBody "NodeId"), ("NodeUrl", url)] "NodeUrl"
        = url := by
      simp [bodyAt, mapIndex, mapFind]
    rw [handlerPostInternalMasterJoin_code, e1, e2, (l2 hne hfound).2, hsome]
    simp only
    have hk : bodyAt leaveBody "NodeId"
        ∉ mapKeys (mapErase s._masterNodes (bodyAt leaveBody "NodeId")) :=
      fun h => ((mapKeys_mapErase _ _ _).mp h).1 rfl
    have hu : url ∈ (mapErase s._masterNodes (bodyAt leaveBody "NodeId")).map (fun p => p.2.url)
        ↔ ¬ ∀ p ∈ s._masterNodes, p.1 ≠ bodyAt leaveBody "NodeId" → p.2.url ≠ url := by
      simp only [mapErase, List.mem_map, List.mem_filter]
      push_neg
      constructor
      · rintro ⟨p, ⟨hp, hpk⟩, hpu⟩
        exact ⟨p, hp, by simpa using hpk, hpu⟩
      · rintro ⟨p, hp, hpk, hpu⟩
        exact ⟨p, ⟨hp, by simpa using hpk⟩, hpu⟩
    by_cases c1 : bodyAt leaveBody "NodeId" = s._nodeId <;>
      by_cases c2 : url = s._nodeUrl <;>
      by_cases c3 : ∀ p ∈ s._masterNodes, p.1 ≠ bodyAt leaveBody "NodeId" → p.2.url ≠ url <;>
      simp [hne, hurl, hk, hu, c1, c2, c3]

  · exact ⟨reachable_doubledLedger, by decide, by decide, by decide, by decide, by decide⟩

end MasterNode

theorem mapFind_of_mem_nodup {α : Type} (m : List (String × α)) (k : String) (v : α)
    (hnd : (mapKeys m).Nodup) (h : (k, v) ∈ m) : mapFind m k = some v := by
  induction m with
  | nil => simp at h
  | cons p rest ih =>
    obtain ⟨k', v'⟩ := p
    simp only [mapKeys, List.map_cons, List.nodup_cons] at hnd
    rcases List.mem_cons.mp h with e | e
    · cases e
      simp [mapFind]
    · have hk : k' ≠ k := by
        intro e2
        subst e2
        exact hnd.1 (List.mem_map.mpr ⟨(k', v), e, rfl⟩)
      simp only [mapFind, hk, if_false]
      exact ih hnd.2 e

theorem mapFind_eraseAll {α : Type} (l : List String) (m : List (String × α)) (x : String) :
    mapFind (l.foldl (fun m w => mapErase m w) m) x
      = if x ∈ l then none else mapFind m x := by
  induction l generalizing m with
  | nil => simp
  | cons y rest ih =>
    simp only [List.foldl, ih, mapFind_mapErase, List.mem_cons]
    by_cases h1 : x ∈ rest <;> by_cases h2 : x = y <;> simp [h1, h2]

theorem nodup_eraseAll {α : Type} (l : List String) (m : List (String × α))
    (h : (mapKeys m).Nodup) : (mapKeys (l.foldl (fun m w => mapErase m w) m)).Nodup := by
  induction l generalizing m with
  | nil => exact h
  | cons y rest ih => exact ih _ (nodup_mapErase m y h)

theorem mapFind_map_val {α β : Type} (f : α → β) (m : List (String × α)) (x : String) :
    mapFind (m.map (fun w => (w.1, f w.2))) x = (mapFind m x).map f := by
  induction m with
  | nil => rfl
  | cons p rest ih =>
    by_cases h : p.1 = x <;> simp [mapFind, h, ih]

namespace MasterNode

/-- One iteration of the worker loop, read per worker: with pairwise distinct
worker ids, a worker found with idle seconds `i` is gone when `i` has reached
the timeout and is otherwise kept with `i + 5`; no worker is added. -/
theorem handleWorkerEventLoop_find (s : MasterNode)
    (hnd : (mapKeys s._connectedWorkerNodes).Nodup) (w : String) :
    mapFind (handleWorkerEventLoop s)._connectedWorkerNodes w
      = match mapFind s._connectedWorkerNodes w with
        | some i => if i ≥ s._workerTimeout then none else some (i + 5)
        | none => none := by
  have haged : mapFind (s._connectedWorkerNodes.map (fun w => (w.1, w.2 + 5))) w
      = (mapFind s._connectedWorkerNodes w).map (fun i => i + 5) :=
    mapFind_map_val (fun i : Int => i + 5) _ _
  unfold handleWorkerEventLoop
  simp only [mapFind_eraseAll, haged]
  cases hf : mapFind s._connectedWorkerNodes w with
  | none => simp
  | some i =>
    have hmem : w ∈ (s._connectedWorkerNodes.filter
        (fun w => decide (w.2 ≥ s._workerTimeout))).map Prod.fst ↔ i ≥ s._workerTimeout := by
      simp only [List.mem_map, List.mem_filter, decide_eq_true_eq]
      constructor
      · rintro ⟨p, ⟨hp, hge⟩, rfl⟩
        have := mapFind_of_mem_nodup _ p.1 p.2 hnd hp
        rw [hf] at this
        cases this
        exact hge
      · intro hge
        exact ⟨(w, i), ⟨mapFind_mem _ _ _ hf, hge⟩, rfl⟩
    by_cases hge : i ≥ s._workerTimeout
    · simp [hmem.mpr hge, hge]
    · simp only [Option.map_some', hge, if_false]
      rw [if_neg (fun h => hge (hmem.mp h))]

theorem handleWorkerEventLoop_nodup (s : MasterNode)
    (hnd : (mapKeys s._connectedWorkerNodes).Nodup) :
    (mapKeys (handleWorkerEventLoop s)._connectedWorkerNodes).Nodup := by
  unfold handleWorkerEventLoop
  apply nodup_eraseAll
  simpa [mapKeys, List.map_map, Function.comp_def] using hnd

theorem removeTimedOutNodes_frame_workers (mk : List String) (s : MasterNode) :
    (removeTimedOutNodes mk s)._connectedWorkerNodes = s._connectedWorkerNodes
      ∧ (removeTimedOutNodes mk s)._workerTimeout = s._workerTimeout := by
  induction mk generalizing s with
  | nil => exact ⟨rfl, rfl⟩
  | cons y rest ih =>
    rw [removeTimedOutNodes_cons]
    split_ifs
    · exact ih _
    · exact ih _

/-- In a reachable state the connected workers have pairwise distinct ids. -/
theorem reachable_workersNodup (s : MasterNode) (hs : Reachable s) :
    (mapKeys s._connectedWorkerNodes).Nodup := by
  induction hs with
  | init randomSha hostname port nodeId _ => simp [new, mapKeys]
  | join s body _ ih =>
    obtain ⟨j400, j201⟩ := handlerPostInternalMasterJoin_exact s body
    have hc := handlerPostInternalMasterJoin_code s body
    split_ifs at hc
    · rw [j400 hc]; exact ih
    · rw [j201 hc]; exact ih
  | leave s body _ ih =>
    obtain ⟨l1, l2, l3⟩ := handlerPostInternalMasterLeave_state s body
    by_cases hne : bodyAt body "NodeId" = ""
    · rw [l1 hne]; exact ih
    · by_cases hfound : (mapIndex s._masterNodes (bodyAt body "NodeId")).1.id
          = bodyAt body "NodeId"
      · rw [(l2 hne hfound).2]; exact ih
      · rw [(l3 hne hfound).2]; exact ih
  | status s routeArg _ ih =>
    unfold handlerGetInternalMasterStatus
    simp only
    split_ifs <;> first | exact ih | exact nodup_mapSet _ _ _ ih
  | leftTimeout s timeout _ ih =>
    unfold setLeftNodeTimeout
    split <;> exact ih
  | workerTimeout s timeout _ ih =>
    unfold setWorkerNodeTimeout
    split <;> exact ih
  | dispatch s _ ih => exact ih
  | pollBegin s nodeId _ _ ih => exact ih
  | pollAnswer s i response _ ih =>
    rw [(statusRequestAnswer_frame s i response).2.2.1]; exact ih
  | pollCompare s i _ ih =>
    rw [(statusRequestCompare_frame s i).2.2.1]; exact ih
  | pollVisit s i _ ih =>
    rw [(statusRequestVisit_frame s i).2.2.1]; exact ih
  | pollCommit s i _ ih =>
    rw [(statusRequestCommit_frame s i).2.2.1]; exact ih
  | age s _ ih =>
    have h := (removeTimedOutNodes_frame_workers
      (markTimedOutNodes s._leftTimeout s._leftMasterNodes ([], s._leftMasterNodeTimes)).1
      { s with _leftMasterNodeTimes :=
          (markTimedOutNodes s._leftTimeout s._leftMasterNodes ([], s._leftMasterNodeTimes)).2 }).1
    unfold ageLeftMasterNodes
    rw [h]
    exact ih
  | drainBegin s _ ih =>
    rw [(drainBegin_frame s).2.2.1]; exact ih
  | drainDequeue s _ ih =>
    rw [(drainDequeue_frame s).2.2.1]; exact ih
  | drainInsert s _ ih =>
    rw [(drainInsert_frame s).2.2.1]; exact ih
  | workerLoop s _ ih => exact handleWorkerEventLoop_nodup s ih

end MasterNode

namespace MasterNode

theorem runWorkerLoop_frame (s : MasterNode) (k : Nat) :
    (runWorkerLoop s k)._workerTimeout = s._workerTimeout := by
  induction k generalizing s with
  | zero => rfl
  | succ n ih => exact ih (handleWorkerEventLoop s)

theorem runWorkerLoop_none (s : MasterNode) (hnd : (mapKeys s._connectedWorkerNodes).Nodup)
    (w : String) (hf : mapFind s._connectedWorkerNodes w = none) (k : Nat) :
    mapFind (runWorkerLoop s k)._connectedWorkerNodes w = none := by
  induction k generalizing s with
  | zero => exact hf
  | succ n ih =>
    apply ih (handleWorkerEventLoop s) (handleWorkerEventLoop_nodup s hnd)
    rw [handleWorkerEventLoop_find s hnd w, hf]

/-- A worker found with idle seconds `i` that sends no heartbeat: after `k`
iterations it is gone when `i + 5 (k - 1)` has reached the timeout, and is
otherwise kept with `i + 5 k`. -/
theorem runWorkerLoop_find (s : MasterNode) (hnd : (mapKeys s._connectedWorkerNodes).Nodup)
    (w : String) (i : Int) (hf : mapFind s._connectedWorkerNodes w = some i) (k : Nat) :
    mapFind (runWorkerLoop s k)._connectedWorkerNodes w
      = if 1 ≤ k ∧ s._workerTimeout ≤ i + 5 * ((k : Int) - 1) then none
        else some (i + 5 * (k : Int)) := by
  induction k generalizing s i with
  | zero => simp [runWorkerLoop, hf]
  | succ n ih =>
    have hstep := handleWorkerEventLoop_find s hnd w
    rw [hf] at hstep
    simp only at hstep
    show mapFind (runWorkerLoop (handleWorkerEventLoop s) n)._connectedWorkerNodes w = _
    by_cases hge : i ≥ s._workerTimeout
    · rw [if_pos hge] at hstep
      have hc : 1 ≤ n + 1 ∧ s._workerTimeout ≤ i + 5 * (((n + 1 : Nat) : Int) - 1) :=
        ⟨by omega, by omega⟩
      rw [runWorkerLoop_none _ (handleWorkerEventLoop_nodup s hnd) w hstep n, if_pos hc]
    · rw [if_neg hge] at hstep
      rw [ih _ (handleWorkerEventLoop_nodup s hnd) (i + 5) hstep]
      have hT : (handleWorkerEventLoop s)._workerTimeout = s._workerTimeout := rfl
      rw [hT]
      split_ifs with c1 c2 c2
      · rfl
      · exfalso; omega
      · exfalso; omega
      · congr 1; push_cast; ring

/-- C22: in a reachable state of the master, a status request with a worker
id records that worker with idle 0 and leaves the other workers as they are;
one iteration of the worker loop drops exactly the workers whose idle seconds
had reached `_workerTimeout` and adds 5 to the idle seconds of all others; so a
worker with idle 0 that sends no further heartbeat is among the connected
workers after `k` iterations exactly when `k` is at most
`ceil(_workerTimeout / 5)`. -/
theorem worker_idle_accounting (s : MasterNode) (hs : Reachable s) :
    (∀ routeArg, routeArg ≠ "" →
        mapFind (handlerGetInternalMasterStatus s routeArg).2._connectedWorkerNodes routeArg
          = some 0
        ∧ routeArg ∈ getConnectedWorkers (handlerGetInternalMasterStatus s routeArg).2
        ∧ ∀ w, w ≠ routeArg →
            mapFind (handlerGetInternalMasterStatus s routeArg).2._connectedWorkerNodes w
              = mapFind s._connectedWorkerNodes w)
      ∧ (∀ w, mapFind (handleWorkerEventLoop s)._connectedWorkerNodes w
          = match mapFind s._connectedWorkerNodes w with
            | some i => if i ≥ s._workerTimeout then none else some (i + 5)
            | none => none)
      ∧ (∀ w, w ∈ getConnectedWorkers (handleWorkerEventLoop s)
          ↔ ∃ i, mapFind s._connectedWorkerNodes w = some i ∧ i < s._workerTimeout)
      ∧ (∀ w, mapFind s._connectedWorkerNodes w = some 0 → ∀ k : Nat,
          (w ∈ getConnectedWorkers (runWorkerLoop s k)
            ↔ k ≤ ((s._workerTimeout + 4) / 5).toNat)) := by
  have hnd := reachable_workersNodup s hs
  have hkeys : ∀ (t : MasterNode) (w : String),
      w ∈ getConnectedWorkers t ↔ mapFind t._connectedWorkerNodes w ≠ none := by
    intro t w
    rw [Ne, mapFind_eq_none_iff, not_not]
    rfl
  refine ⟨?_, handleWorkerEventLoop_find s hnd, ?_, ?_⟩
  · intro routeArg hne
    have hstate : (handlerGetInternalMasterStatus s routeArg).2
        = { s with _connectedWorkerNodes := mapSet s._connectedWorkerNodes routeArg 0 } := by
      unfold handlerGetInternalMasterStatus
      have hcode : (handlerGetClusterStatus s).code = 200 := rfl
      simp [hne, hcode]
    refine ⟨?_, ?_, ?_⟩
    · rw [hstate]; exact mapFind_mapSet_self _ _ _
    · rw [hkeys, hstate]
      show mapFind (mapSet s._connectedWorkerNodes routeArg 0) routeArg ≠ none
      rw [mapFind_mapSet_self]
      exact Option.some_ne_none _
    · intro w hw
      rw [hstate]
      exact mapFind_mapSet_ne _ _ _ _ hw
  · intro w
    rw [hkeys, handleWorkerEventLoop_find s hnd w]
    cases hf : mapFind s._connectedWorkerNodes w with
    | none => simp
    | some i =>
      by_cases hge : i ≥ s._workerTimeout
      · simp [hge]
      · simp only [hge, if_false, ne_eq, not_false_eq_true, Option.some.injEq, exists_eq_left',
          true_iff, reduceCtorEq]
        omega
  · intro w hf k
    rw [hkeys, runWorkerLoop_find s hnd w 0 hf k]
    split_ifs with c
    · simp only [ne_eq, not_true_eq_false, false_iff]
      omega
    · simp only [ne_eq, reduceCtorEq, not_false_eq_true, true_iff]
      rw [not_and_or] at c
      omega

/-- Witness for C22: with the default timeout of 30 seconds the worker `W1` is
still connected after 6 iterations that follow its status request and is gone
after the 7th. -/
theorem worker_idle_accounting_witness :
    Reachable afterHeartbeat
      ∧ afterHeartbeat._workerTimeout = 30
      ∧ "W1" ∈ getConnectedWorkers (runWorkerLoop afterHeartbeat 6)
      ∧ "W1" ∉ getConnectedWorkers (runWorkerLoop afterHeartbeat 7) :=
  ⟨Reachable.status _ _ (Reachable.init "5e3a" "localhost" 9996 "N1" (by decide)),
    rfl,
    (((worker_idle_accounting afterHeartbeat
      (Reachable.status _ _ (Reachable.init "5e3a" "localhost" 9996 "N1" (by decide)))).2.2.2
        "W1" (by decide) 6).mpr (by decide)),
    fun h => absurd (((worker_idle_accounting afterHeartbeat
      (Reachable.status _ _ (Reachable.init "5e3a" "localhost" 9996 "N1" (by decide)))).2.2.2
        "W1" (by decide) 7).mp h) (by decide)⟩

end MasterNode

namespace ResourceManager

end ResourceManager

namespace ResourceManager

end ResourceManager

namespace WorkerNode

theorem range_fold_last (P : Nat → Prop) [DecidablePred P] (start : Nat) (n : Nat) :
    ((List.range n).foldl (fun item ii => if P ii then ii else item) start = start
        ∧ ∀ ii, ii < n → ¬ P ii)
      ∨ ((List.range n).foldl (fun item ii => if P ii then ii else item) start < n
        ∧ P ((List.range n).foldl (fun item ii => if P ii then ii else item) start)) := by
  induction n with
  | zero => left; simp
  | succ n ih =>
    rw [List.range_succ, List.foldl_append]
    simp only [List.foldl_cons, List.foldl_nil]
    by_cases hp : P n
    · right
      rw [if_pos hp]
      exact ⟨Nat.lt_succ_self n, hp⟩
    · rw [if_neg hp]
      rcases ih with ⟨h1, h2⟩ | ⟨h1, h2⟩
      · left
        refine ⟨h1, ?_⟩
        intro ii hii
        rcases Nat.lt_succ_iff_lt_or_eq.mp hii with h | h
        · exact h2 ii h
        · rw [h]; exact hp
      · right
        exact ⟨Nat.lt_succ_of_lt h1, h2⟩

theorem lastIndexOf_spec (known : List KnownMasterNode) (id : String) (start : Nat) :
    (lastIndexOf known id start = start
        ∧ ∀ ii, ii < known.length → (known.getD ii default).id ≠ id)
      ∨ (lastIndexOf known id start < known.length
        ∧ (known.getD (lastIndexOf known id start) default).id = id) :=
  range_fold_last (fun ii => (known.getD ii default).id = id) start known.length

theorem lastIndexOf_found (known : List KnownMasterNode) (id : String) (start : Nat)
    (h : ∃ row ∈ known, row.id = id) :
    lastIndexOf known id start < known.length
      ∧ (known.getD (lastIndexOf known id start) default).id = id := by
  rcases lastIndexOf_spec known id start with ⟨_, h2⟩ | h2
  · obtain ⟨row, hrow, hid⟩ := h
    obtain ⟨ii, hii, e⟩ := List.getElem_of_mem hrow
    exfalso
    apply h2 ii hii
    rw [List.getD_eq_getElem _ _ hii, e]
    exact hid
  · exact h2

theorem addMissingNodes_prefix (body : List (String × String)) (remote : List String) :
    ∀ known : List KnownMasterNode, ∃ extra, addMissingNodes body remote known = known ++ extra := by
  induction remote with
  | nil => intro known; exact ⟨[], by simp [addMissingNodes]⟩
  | cons r rest ih =>
    intro known
    unfold addMissingNodes
    split_ifs
    · exact ih known
    · obtain ⟨extra, he⟩ := ih (known ++ [⟨0, r, bodyAt body ("URL-" ++ r)⟩])
      exact ⟨_ :: extra, by rw [he, List.append_assoc]; rfl⟩

theorem removeMissingNodes_spec (remote : List String) (connectedId : String) (fuel : Nat) :
    ∀ (pos : Nat) (known : List KnownMasterNode) (flag : Bool),
      ((∃ row ∈ known, row.id = connectedId) →
          ∃ row ∈ (removeMissingNodes remote connectedId fuel pos known flag).1,
            row.id = connectedId)
        ∧ (flag = true → (removeMissingNodes remote connectedId fuel pos known flag).2 = true)
        ∧ ((removeMissingNodes remote connectedId fuel pos known flag).2 = false →
            (removeMissingNodes remote connectedId fuel pos known flag).1 = known) := by
  induction fuel with
  | zero =>
    intro pos known flag
    simp [removeMissingNodes]
  | succ fuel ih =>
    intro pos known flag
    unfold removeMissingNodes
    cases hk : known[pos]? with
    | none => simp only; exact ih (pos + 1) known flag
    | some localNode =>
      simp only
      by_cases hc : localNode.id ∉ remote ∧ localNode.id ≠ connectedId
      · rw [if_pos hc]
        by_cases hi : lastIndexOf known localNode.id (known.length + 1) < known.length
        · simp only [hi, if_true]
          obtain ⟨i1, i2, i3⟩ := ih (pos + 1)
            (known.eraseIdx (lastIndexOf known localNode.id (known.length + 1))) true
          refine ⟨?_, fun _ => i2 rfl, ?_⟩
          · rintro ⟨row, hrow, hid⟩
            apply i1
            refine ⟨row, ?_, hid⟩
            obtain ⟨ii, hii, e⟩ := List.getElem_of_mem hrow
            rw [List.mem_eraseIdx_iff_getElem]
            refine ⟨ii, hii, ?_, e⟩
            intro heq
            have hspec := lastIndexOf_spec known localNode.id (known.length + 1)
            rcases hspec with ⟨h1, _⟩ | ⟨_, h2⟩
            · rw [h1] at hi; omega
            · rw [← heq, List.getD_eq_getElem _ _ hii, e, hid] at h2
              exact hc.2 h2.symm
          · intro hf
            rw [i2 rfl] at hf
            exact absurd hf (by decide)
        · simp only [hi, if_false]
          exact ih (pos + 1) known flag
      · rw [if_neg hc]
        exact ih (pos + 1) known flag

end WorkerNode

namespace WorkerNode

theorem synced_within {known1 : List KnownMasterNode} (c : Nat) {cid : String}
    {body : List (String × String)} (hc : c < known1.length)
    (hid : (known1.getD c default).id = cid) :
    (removeMissingNodes (remoteNodesOf body) cid
        (addMissingNodes body (remoteNodesOf body) known1).length 0
        (addMissingNodes body (remoteNodesOf body) known1) false).2 = true →
      lastIndexOf (removeMissingNodes (remoteNodesOf body) cid
        (addMissingNodes body (remoteNodesOf body) known1).length 0
        (addMissingNodes body (remoteNodesOf body) known1) false).1 cid c
        < (removeMissingNodes (remoteNodesOf body) cid
        (addMissingNodes body (remoteNodesOf body) known1).length 0
        (addMissingNodes body (remoteNodesOf body) known1) false).1.length := by
  intro _
  obtain ⟨extra, he⟩ := addMissingNodes_prefix body (remoteNodesOf body) known1
  have hrow : ∃ row ∈ addMissingNodes body (remoteNodesOf body) known1, row.id = cid := by
    refine ⟨known1[c], ?_, ?_⟩
    · rw [he]; exact List.mem_append_left _ (List.getElem_mem hc)
    · rw [List.getD_eq_getElem _ _ hc] at hid; exact hid
  exact (lastIndexOf_found _ cid c
    ((removeMissingNodes_spec (remoteNodesOf body) cid _ 0 _ false).1 hrow)).1

theorem unsynced_within {known1 : List KnownMasterNode} (c : Nat) {cid : String}
    {body : List (String × String)} (hc : c < known1.length) :
    (removeMissingNodes (remoteNodesOf body) cid
        (addMissingNodes body (remoteNodesOf body) known1).length 0
        (addMissingNodes body (remoteNodesOf body) known1) false).2 = false →
      c < (removeMissingNodes (remoteNodesOf body) cid
        (addMissingNodes body (remoteNodesOf body) known1).length 0
        (addMissingNodes body (remoteNodesOf body) known1) false).1.length := by
  intro hf
  obtain ⟨extra, he⟩ := addMissingNodes_prefix body (remoteNodesOf body) known1
  rw [(removeMissingNodes_spec (remoteNodesOf body) cid _ 0 _ false).2.2 hf, he,
    List.length_append]
  omega

theorem handleWorkerEventLoop_valid (s : WorkerNode) (makeRequest : String → ResponseObj)
    (h : s._currMasterNode < s._knownMasterNodes.length) :
    ∃ next, handleWorkerEventLoop s makeRequest = some next
      ∧ next._currMasterNode < next._knownMasterNodes.length := by
  have hne : s._knownMasterNodes ≠ [] := by
    intro e; rw [e] at h; exact absurd h (Nat.not_lt_zero _)
  have hcur : s._knownMasterNodes[s._currMasterNode]? = some s._knownMasterNodes[s._currMasterNode] :=
    List.getElem?_eq_getElem h
  have finish : ∀ (flag : Bool) (lc : Int) (L : List KnownMasterNode) (c : Nat),
      c < L.length →
      ∃ next,
        (if lc > s._masterTimout then
          match L[if c + 1 ≥ L.length then 0 else c + 1]? with
          | none => none
          | some target =>
            some { s with _inCluster := flag
                          _currMasterNode := if c + 1 ≥ L.length then 0 else c + 1
                          _knownMasterNodes :=
                            L.set (if c + 1 ≥ L.length then 0 else c + 1)
                              { target with lastContacted := 0 } }
        else
          some { s with _inCluster := flag
                        _currMasterNode := c
                        _knownMasterNodes := L }) = some next
        ∧ next._currMasterNode < next._knownMasterNodes.length := by
    intro flag lc L c hlt
    by_cases hT : lc > s._masterTimout
    · rw [if_pos hT]
      have hn : (if c + 1 ≥ L.length then 0 else c + 1) < L.length := by
        split_ifs <;> omega
      rw [List.getElem?_eq_getElem hn]
      exact ⟨_, rfl, by simpa using hn⟩
    · rw [if_neg hT]
      exact ⟨_, rfl, hlt⟩
  unfold handleWorkerEventLoop
  simp only [hne, if_false, hcur]
  generalize makeRequest (s._knownMasterNodes[s._currMasterNode].url
    ++ "/internal/master/status/" ++ s._nodeId) = response
  generalize hcm : (if response.code ≥ 300 ∨ bodyAt response.body "QuorumMet" ≠ "True" then
      { s._knownMasterNodes[s._currMasterNode] with
        lastContacted := s._knownMasterNodes[s._currMasterNode].lastContacted + 5 }
    else { s._knownMasterNodes[s._currMasterNode] with lastContacted := 0 }) = cm
  have hid : ((s._knownMasterNodes.set s._currMasterNode cm).getD s._currMasterNode default).id
      = cm.id := by
    rw [List.getD_eq_getElem _ _ (by simpa using h)]
    simp
  have hlen : s._currMasterNode < (s._knownMasterNodes.set s._currMasterNode cm).length := by
    simpa using h
  generalize decide (response.code < 300 ∧ bodyAt response.body "QuorumMet" = "True") = flag
  cases flag
  · simp only [Bool.false_eq_true, if_false]
    exact finish false _ _ _ hlen
  · simp only [if_true]
    cases hr : (removeMissingNodes (remoteNodesOf response.body) cm.id
        (addMissingNodes response.body (remoteNodesOf response.body)
          (s._knownMasterNodes.set s._currMasterNode cm)).length 0
        (addMissingNodes response.body (remoteNodesOf response.body)
          (s._knownMasterNodes.set s._currMasterNode cm)) false).2
    · simp only [Bool.false_eq_true, if_false]
      exact finish true _ _ _ (unsynced_within s._currMasterNode hlen hr)
    · simp only [if_true]
      exact finish true _ _ _ (synced_within s._currMasterNode hlen hid hr)

theorem handleWorkerEventLoop_inv (s : WorkerNode) (makeRequest : String → ResponseObj)
    (h : s._currMasterNode < s._knownMasterNodes.length
      ∨ (s._knownMasterNodes = [] ∧ s._currMasterNode = 0)) :
    ∃ next, handleWorkerEventLoop s makeRequest = some next
      ∧ (next._currMasterNode < next._knownMasterNodes.length
        ∨ (next._knownMasterNodes = [] ∧ next._currMasterNode = 0)) := by
  rcases h with h | ⟨h1, h2⟩
  · obtain ⟨next, e, hv⟩ := handleWorkerEventLoop_valid s makeRequest h
    exact ⟨next, e, Or.inl hv⟩
  · refine ⟨{ s with _inCluster := false }, ?_, Or.inr ⟨h1, h2⟩⟩
    unfold handleWorkerEventLoop
    rw [if_pos h1]

theorem handlerPostInternalMasterJoin_appends (s : WorkerNode)
    (body : List (String × String)) :
    (handlerPostInternalMasterJoin s body).2 = s
      ∨ ∃ row, (handlerPostInternalMasterJoin s body).2
          = { s with _knownMasterNodes := s._knownMasterNodes ++ [row] } := by
  unfold handlerPostInternalMasterJoin
  simp only
  split_ifs <;> first | exact Or.inl rfl | exact Or.inr ⟨_, rfl⟩

/-- In a reachable state of the worker the cursor is a valid index, or no
master is known and the cursor is 0. -/
theorem reachable_cursor (s : WorkerNode) (hs : Reachable s) :
    s._currMasterNode < s._knownMasterNodes.length
      ∨ (s._knownMasterNodes = [] ∧ s._currMasterNode = 0) := by
  induction hs with
  | init randomSha hostname port nodeId => right; exact ⟨rfl, rfl⟩
  | join s body _ ih =>
    rcases handlerPostInternalMasterJoin_appends s body with e | ⟨row, e⟩
    · rw [e]; exact ih
    · rw [e]
      left
      simp only [List.length_append, List.length_singleton]
      rcases ih with ih | ⟨ih1, ih2⟩
      · omega
      · rw [ih2]; omega
  | masterTimeout s timeout _ ih =>
    unfold setMasterNodeTimeout
    split <;> exact ih
  | loop s next makeRequest _ hstep ih =>
    obtain ⟨next2, e, hv⟩ := handleWorkerEventLoop_inv s makeRequest ih
    rw [hstep] at e
    cases e
    exact hv

theorem runWorkerLoop_total (polls : List (String → ResponseObj)) :
    ∀ s : WorkerNode,
      (s._currMasterNode < s._knownMasterNodes.length
        ∨ (s._knownMasterNodes = [] ∧ s._currMasterNode = 0)) →
      ∃ final, runWorkerLoop s polls = some final := by
  induction polls with
  | nil => intro s _; exact ⟨s, rfl⟩
  | cons makeRequest rest ih =>
    intro s h
    obtain ⟨next, e, hv⟩ := handleWorkerEventLoop_inv s makeRequest h
    obtain ⟨final, hf⟩ := ih next hv
    refine ⟨final, ?_⟩
    unfold runWorkerLoop
    rw [e]
    exact hf

/-- C30: in every state of the worker reached from the constructed one by join
requests, timeout settings and loop iterations with any poll answers, the
cursor `_currMasterNode` is below the size of the known masters whenever one
is known; so an iteration of the loop, and any run of iterations, indexes the
vector within its bounds and yields a state, `getConnectedMaster` reads a row
that exists, and the status handler reports the id of that row. -/
theorem cursor_stays_valid (s : WorkerNode) (hs : Reachable s) :
    (s._knownMasterNodes ≠ [] → s._currMasterNode < s._knownMasterNodes.length)
      ∧ (∀ makeRequest, ∃ next, handleWorkerEventLoop s makeRequest = some next)
      ∧ (∀ polls, ∃ final, runWorkerLoop s polls = some final)
      ∧ (∃ id, getConnectedMaster s = some id)
      ∧ (s._knownMasterNodes ≠ [] →
          ∃ row, s._knownMasterNodes[s._currMasterNode]? = some row
            ∧ getConnectedMaster s = some row.id
            ∧ mapFind (handlerGetInternalWorkerStatus s).body "ConnectedTo" = some row.id) := by
  have hinv := reachable_cursor s hs
  have hvalid : s._knownMasterNodes ≠ [] → s._currMasterNode < s._knownMasterNodes.length := by
    intro hne
    rcases hinv with h | ⟨h, _⟩
    · exact h
    · exact absurd h hne
  have hrow : s._knownMasterNodes ≠ [] →
      ∃ row, s._knownMasterNodes[s._currMasterNode]? = some row
        ∧ getConnectedMaster s = some row.id
        ∧ mapFind (handlerGetInternalWorkerStatus s).body "ConnectedTo" = some row.id := by
    intro hne
    have hlt := hvalid hne
    refine ⟨s._knownMasterNodes[s._currMasterNode], List.getElem?_eq_getElem hlt, ?_, ?_⟩
    · unfold getConnectedMaster
      rw [if_pos hne, List.getElem?_eq_getElem hlt]
      rfl
    · unfold handlerGetInternalWorkerStatus
      simp only [hne, hlt, ne_eq, not_false_eq_true, and_self, if_true]
      rw [mapFind_mapSet_self, List.getD_eq_getElem _ _ hlt]
  refine ⟨hvalid, fun makeRequest => ?_, fun polls => runWorkerLoop_total polls s hinv, ?_, hrow⟩
  · obtain ⟨next, e, _⟩ := handleWorkerEventLoop_inv s makeRequest hinv
    exact ⟨next, e⟩
  · by_cases hne : s._knownMasterNodes = []
    · refine ⟨"", ?_⟩
      unfold getConnectedMaster
      simp [hne]
    · obtain ⟨row, _, h2, _⟩ := hrow hne
      exact ⟨row.id, h2⟩

/-- Witness for C30: the worker `W1` that accepted the join of `M1` is
reachable, knows a master and has a valid cursor. -/
theorem cursor_stays_valid_witness :
    Reachable joinedOne
      ∧ joinedOne._knownMasterNodes ≠ []
      ∧ joinedOne._currMasterNode < joinedOne._knownMasterNodes.length :=
  ⟨Reachable.join _ _ (Reachable.init "5e3a" "localhost" 9990 "W1"),
    by decide,
    (cursor_stays_valid joinedOne
      (Reachable.join _ _ (Reachable.init "5e3a" "localhost" 9990 "W1"))).1 (by decide)⟩

end WorkerNode

theorem mapIndex_known {α : Type} [Inhabited α] (m : List (String × α)) (k : String)
    (h : k ∈ mapKeys m) :
    ∃ row, mapFind m k = some row ∧ mapIndex m k = (row, m) := by
  cases hf : mapFind m k with
  | none => exact absurd h ((mapFind_eq_none_iff m k).mp hf)
  | some row => exact ⟨row, rfl, by simp [mapIndex, hf]⟩

namespace MasterNode

end MasterNode

namespace MasterNode

end MasterNode

namespace MasterNode

end MasterNode

namespace MasterNode

end MasterNode

namespace MasterState

theorem exists_fold (w : String) (l : List (String × Int)) (b : Bool) :
    l.foldl (fun retFlag (workerRefItem : String × Int) =>
        if workerRefItem.1 = w then true else retFlag) b
      = (b || decide (w ∈ mapKeys l)) := by
  induction l generalizing b with
  | nil => simp [mapKeys]
  | cons p rest ih =>
    simp only [List.foldl_cons, ih, mapKeys, List.map_cons, List.mem_cons]
    by_cases h : p.1 = w
    · simp [h]
    · have h2 : ¬ w = p.1 := fun e => h e.symm
      simp [h, h2]

theorem doesWorkerExistLocally_iff (s : MasterState) (w : String) :
    doesWorkerExistLocally s w = true ↔ w ≠ "" ∧ w ∈ mapKeys s._workerRef := by
  unfold doesWorkerExistLocally
  by_cases h : w = ""
  · simp [h]
  · rw [if_pos h, exists_fold]
    simp [h]

theorem readVector_set_self (codec : FileStringCodec) (hc : codec.Faithful)
    (items : List (String × String)) (k : String) (v : List String) :
    readVector codec ⟨mapSet items k (codec.getFileString v)⟩ k = v := by
  simp [readVector, DataStore.getItem, mapFind_mapSet_self, hc.parse_pack]

theorem readVector_set_ne (codec : FileStringCodec)
    (items : List (String × String)) (k x value : String) (h : x ≠ k) :
    readVector codec ⟨mapSet items k value⟩ x = readVector codec ⟨items⟩ x := by
  simp [readVector, DataStore.getItem, mapFind_mapSet_ne _ _ _ _ h]

theorem consistent_new (codec : FileStringCodec)
    (he : ∀ v, codec.parseFileString "" = some v → v = []) (isGroup : String → Bool) :
    Consistent codec isGroup new := by
  have hread : ∀ k, readVector codec new._dataStore k = [] := by
    intro k
    simp only [readVector, DataStore.getItem, new, mapFind, Option.getD_none]
    cases hp : codec.parseFileString "" with
    | none => rfl
    | some v => exact he v hp
  unfold Consistent getResourceGroupsForWorker getWorkersForResourceGroup
  simp only [hread]
  simp [new, mapKeys, mapFind]

end MasterState

namespace MasterState

/-- C27 (as stated): after `addWorker("a")`, `addAssociation("a", "b")` and
`addWorker("b")`, all three returning true, the worker `b` has the counter 0
while `getResourceGroupsForWorker("b")` returns the one group `a`, and
`removeWorker("b")` returns true. -/
theorem counter_misses_group_stored_under_worker_id :
    (addWorker new "a").1 = true
    ∧ (addAssociation FileStringCodec.exactCodec (addWorker new "a").2 "a" "b").1 = true
    ∧ (addWorker (addAssociation FileStringCodec.exactCodec (addWorker new "a").2 "a" "b").2
        "b").1 = true
    ∧ listWorkers sharedKeyState = ["a", "b"]
    ∧ mapFind sharedKeyState._workerRef "b" = some 0
    ∧ getResourceGroupsForWorker FileStringCodec.exactCodec sharedKeyState "b" = ["a"]
    ∧ (removeWorker sharedKeyState "b").1 = true := by
  decide

end MasterState

namespace MasterState

/-- Rewriting the list of the worker `w` and the list of the group `g`
together, with the counter of `w` set to the new number of its groups,
keeps the state consistent when the two lists change in the pair `(w, g)`
only and agree on it. -/
theorem consistent_update (codec : FileStringCodec) (hc : codec.Faithful)
    (isGroup : String → Bool) (s : MasterState) (h : Consistent codec isGroup s)
    (w g : String) (hw : isGroup w = false) (hg : isGroup g = true)
    (hkey : w ∈ mapKeys s._workerRef) (L M : List String)
    (hL : L.Nodup) (hM : M.Nodup)
    (hLx : ∀ x, x ≠ g → (x ∈ L ↔ x ∈ getResourceGroupsForWorker codec s w))
    (hMx : ∀ y, y ≠ w → (y ∈ M ↔ y ∈ getWorkersForResourceGroup codec s g))
    (hpair : g ∈ L ↔ w ∈ M) :
    Consistent codec isGroup
      { _dataStore :=
          ⟨mapSet (mapSet s._dataStore.items w (codec.getFileString L)) g
            (codec.getFileString M)⟩
        _workerRef := mapSet s._workerRef w (L.length : Int) } := by
  obtain ⟨k1, k2, k3, k4⟩ := h
  have hwg : w ≠ g := by
    intro e
    rw [e, hg] at hw
    exact absurd hw (by decide)
  have rg : readVector codec
      ⟨mapSet (mapSet s._dataStore.items w (codec.getFileString L)) g
        (codec.getFileString M)⟩ g = M := readVector_set_self codec hc _ _ _
  have rw' : readVector codec
      ⟨mapSet (mapSet s._dataStore.items w (codec.getFileString L)) g
        (codec.getFileString M)⟩ w = L := by
    rw [readVector_set_ne _ _ _ _ _ hwg]
    exact readVector_set_self codec hc _ _ _
  have ro : ∀ x, x ≠ w → x ≠ g → readVector codec
      ⟨mapSet (mapSet s._dataStore.items w (codec.getFileString L)) g
        (codec.getFileString M)⟩ x = readVector codec s._dataStore x := by
    intro x h1 h2
    rw [readVector_set_ne _ _ _ _ _ h2, readVector_set_ne _ _ _ _ _ h1]
  have groupOf : ∀ x, isGroup x = true → x ≠ w := by
    intro x hx e
    rw [e, hw] at hx
    exact absurd hx (by decide)
  have workerOf : ∀ x, isGroup x = false → x ≠ g := by
    intro x hx e
    rw [e, hg] at hx
    exact absurd hx (by decide)
  unfold Consistent getResourceGroupsForWorker getWorkersForResourceGroup at *
  simp only
  refine ⟨nodup_mapSet _ _ _ k1, ?_, ?_, ?_⟩
  · intro x hx
    rcases (mapKeys_mapSet _ _ _ _).mp hx with e | e
    · rw [e]; exact k2 w hkey
    · exact k2 x e
  · intro w0 hw0
    by_cases e : w0 = w
    · subst e
      rw [rw']
      refine ⟨hL, ?_, ?_, ?_⟩
      · intro g0 hg0
        by_cases eg : g0 = g
        · subst eg
          rw [rg]
          exact ⟨hg, hpair.mp hg0⟩
        · have hold := (k3 w0 hw0).2.1 g0 ((hLx g0 eg).mp hg0)
          rw [ro g0 (groupOf g0 hold.1) eg]
          exact hold
      · intro n hn
        rw [mapFind_mapSet_self] at hn
        exact (Option.some.inj hn).symm
      · intro hnot
        exact absurd ((mapKeys_mapSet _ _ _ _).mpr (Or.inl rfl)) hnot
    · have hne := workerOf w0 hw0
      rw [ro w0 e hne]
      obtain ⟨o1, o2, o3, o4⟩ := k3 w0 hw0
      refine ⟨o1, ?_, ?_, ?_⟩
      · intro g0 hg0
        have hold := o2 g0 hg0
        by_cases eg : g0 = g
        · subst eg
          rw [rg]
          exact ⟨hold.1, (hMx w0 e).mpr hold.2⟩
        · rw [ro g0 (groupOf g0 hold.1) eg]
          exact hold
      · intro n hn
        rw [mapFind_mapSet_ne _ _ _ _ e] at hn
        exact o3 n hn
      · intro hnot
        apply o4
        intro hin
        exact hnot ((mapKeys_mapSet _ _ _ _).mpr (Or.inr hin))
  · intro g0 hg0
    by_cases eg : g0 = g
    · subst eg
      rw [rg]
      refine ⟨hM, ?_⟩
      intro w0 hw0
      by_cases e : w0 = w
      · subst e
        rw [rw']
        exact ⟨hw, hpair.mpr hw0⟩
      · have hold := (k4 g0 hg0).2 w0 ((hMx w0 e).mp hw0)
        rw [ro w0 e (workerOf w0 hold.1)]
        exact hold
    · have hne := groupOf g0 hg0
      rw [ro g0 hne eg]
      obtain ⟨o1, o2⟩ := k4 g0 hg0
      refine ⟨o1, ?_⟩
      intro w0 hw0
      have hold := o2 w0 hw0
      by_cases e : w0 = w
      · subst e
        rw [rw']
        exact ⟨hold.1, (hLx g0 eg).mpr hold.2⟩
      · rw [ro w0 e (workerOf w0 hold.1)]
        exact hold

end MasterState
end BitQuark
namespace BitQuark
namespace MasterState

theorem addWorker_consistent (codec : FileStringCodec) (isGroup : String → Bool)
    (s : MasterState) (h : Consistent codec isGroup s) (w : String)
    (hw : w ≠ "" ∧ isGroup w = false) : Consistent codec isGroup (addWorker s w).2 := by
  unfold addWorker
  by_cases hcnd : w ≠ "" ∧ doesWorkerExistLocally s w = false
  · rw [if_pos hcnd]
    have hnot : w ∉ mapKeys s._workerRef := by
      intro hin
      have := (doesWorkerExistLocally_iff s w).mpr ⟨hw.1, hin⟩
      rw [hcnd.2] at this
      exact absurd this (by decide)
    obtain ⟨k1, k2, k3, k4⟩ := h
    unfold Consistent getResourceGroupsForWorker getWorkersForResourceGroup at *
    simp only
    refine ⟨nodup_mapSet _ _ _ k1, ?_, ?_, k4⟩
    · intro x hx
      rcases (mapKeys_mapSet _ _ _ _).mp hx with e | e
      · rw [e]; exact hw
      · exact k2 x e
    · intro w0 hw0
      obtain ⟨o1, o2, o3, o4⟩ := k3 w0 hw0
      refine ⟨o1, o2, ?_, ?_⟩
      · intro n hn
        by_cases e : w0 = w
        · subst e
          rw [mapFind_mapSet_self] at hn
          rw [o4 hnot]
          exact (Option.some.inj hn).symm
        · rw [mapFind_mapSet_ne _ _ _ _ e] at hn
          exact o3 n hn
      · intro hnot2
        apply o4
        intro hin
        exact hnot2 ((mapKeys_mapSet _ _ _ _).mpr (Or.inr hin))
  · rw [if_neg hcnd]
    exact h

theorem removeWorker_iff (codec : FileStringCodec) (isGroup : String → Bool)
    (s : MasterState) (h : Consistent codec isGroup s) (w : String) :
    (w ≠ "" ∧ doesWorkerExistLocally s w = true ∧ (mapIndex s._workerRef w).1 ≤ 0)
      ↔ (w ∈ listWorkers s ∧ getResourceGroupsForWorker codec s w = []) := by
  obtain ⟨_, k2, k3, _⟩ := h
  constructor
  · rintro ⟨h1, h2, h3⟩
    have hin := ((doesWorkerExistLocally_iff s w).mp h2).2
    obtain ⟨n, hn, hidx⟩ := mapIndex_known s._workerRef w hin
    rw [hidx] at h3
    have hlen := (k3 w (k2 w hin).2).2.2.1 n hn
    refine ⟨hin, ?_⟩
    apply List.eq_nil_of_length_eq_zero
    simp only at h3
    omega
  · rintro ⟨hin, hnil⟩
    have hin' : w ∈ mapKeys s._workerRef := hin
    obtain ⟨n, hn, hidx⟩ := mapIndex_known s._workerRef w hin'
    have hlen := (k3 w (k2 w hin').2).2.2.1 n hn
    refine ⟨(k2 w hin').1, (doesWorkerExistLocally_iff s w).mpr ⟨(k2 w hin').1, hin'⟩, ?_⟩
    rw [hidx]
    rw [hnil] at hlen
    simp only [List.length_nil, Nat.cast_zero] at hlen
    simp only
    omega

theorem removeWorker_consistent (codec : FileStringCodec) (isGroup : String → Bool)
    (s : MasterState) (h : Consistent codec isGroup s) (w : String) :
    Consistent codec isGroup (removeWorker s w).2 := by
  unfold removeWorker
  by_cases hcnd : w ≠ "" ∧ doesWorkerExistLocally s w = true ∧ (mapIndex s._workerRef w).1 ≤ 0
  · rw [if_pos hcnd]
    obtain ⟨hin, hnil⟩ := (removeWorker_iff codec isGroup s h w).mp hcnd
    obtain ⟨n, hn, hidx⟩ := mapIndex_known s._workerRef w hin
    rw [hidx]
    obtain ⟨k1, k2, k3, k4⟩ := h
    unfold Consistent getResourceGroupsForWorker getWorkersForResourceGroup at *
    simp only
    refine ⟨nodup_mapErase _ _ k1, ?_, ?_, k4⟩
    · intro x hx
      exact k2 x ((mapKeys_mapErase _ _ _).mp hx).2
    · intro w0 hw0
      obtain ⟨o1, o2, o3, o4⟩ := k3 w0 hw0
      refine ⟨o1, o2, ?_, ?_⟩
      · intro m hm
        by_cases e : w0 = w
        · subst e
          rw [mapFind_mapErase_self] at hm
          exact Option.noConfusion hm
        · rw [mapFind_mapErase_ne _ _ _ e] at hm
          exact o3 m hm
      · intro hnot
        by_cases e : w0 = w
        · subst e; exact hnil
        · apply o4
          intro hin2
          exact hnot ((mapKeys_mapErase _ _ _).mpr ⟨e, hin2⟩)
  · rw [if_neg hcnd]
    exact h

theorem addAssociation_consistent (codec : FileStringCodec) (hc : codec.Faithful)
    (isGroup : String → Bool) (s : MasterState) (h : Consistent codec isGroup s)
    (w g : String) (hw : isGroup w = false) (hg : isGroup g = true) :
    Consistent codec isGroup (addAssociation codec s w g).2 := by
  unfold addAssociation
  by_cases hcnd : w ≠ "" ∧ g ≠ "" ∧ doesWorkerExistLocally s w = true
  · rw [if_pos hcnd]
    simp only
    by_cases h1 : g ∉ readVector codec s._dataStore w
    · rw [if_pos h1]
      by_cases h2 : w ∉ readVector codec s._dataStore g
      · rw [if_pos h2]
        have hin := ((doesWorkerExistLocally_iff s w).mp hcnd.2.2).2
        obtain ⟨n, hn, hidx⟩ := mapIndex_known s._workerRef w hin
        have hlen := (h.2.2.1 w hw).2.2.1 n hn
        have hupd := consistent_update codec hc isGroup s h w g hw hg hin
          (readVector codec s._dataStore w ++ [g]) (readVector codec s._dataStore g ++ [w])
          (by
            rw [List.nodup_append]
            refine ⟨(h.2.2.1 w hw).1, List.nodup_singleton _, ?_⟩
            intro a ha hb
            rw [List.mem_singleton] at hb
            exact h1 (hb ▸ ha))
          (by
            rw [List.nodup_append]
            refine ⟨(h.2.2.2 g hg).1, List.nodup_singleton _, ?_⟩
            intro a ha hb
            rw [List.mem_singleton] at hb
            exact h2 (hb ▸ ha))
          (by
            intro x hx
            simp only [List.mem_append, List.mem_singleton, hx, or_false]
            rfl)
          (by
            intro y hy
            simp only [List.mem_append, List.mem_singleton, hy, or_false]
            rfl)
          (by simp)
        simp only [DataStore.addItem, Bool.and_self, if_true, hidx]
        have hcount : ((readVector codec s._dataStore w ++ [g]).length : Int) = n + 1 := by
          rw [List.length_append, List.length_singleton, hlen]
          unfold getResourceGroupsForWorker
          push_cast
          rfl
        rw [hcount] at hupd
        exact hupd
      · rw [if_neg h2]; exact h
    · rw [if_neg h1]; exact h
  · rw [if_neg hcnd]
    exact h

theorem removeAssociation_consistent (codec : FileStringCodec) (hc : codec.Faithful)
    (isGroup : String → Bool) (s : MasterState) (h : Consistent codec isGroup s)
    (w g : String) (hw : isGroup w = false) (hg : isGroup g = true) :
    Consistent codec isGroup (removeAssociation codec s w g).2 := by
  have hwg : w ≠ g := by
    intro e
    rw [e, hg] at hw
    exact absurd hw (by decide)
  unfold removeAssociation
  by_cases hcnd : w ≠ "" ∧ g ≠ "" ∧ doesWorkerExistLocally s w = true
  · rw [if_pos hcnd]
    simp only
    by_cases h1 : g ∈ readVector codec s._dataStore w
    · have h2 : w ∈ readVector codec s._dataStore g := ((h.2.2.1 w hw).2.1 g h1).2
      have hin := ((doesWorkerExistLocally_iff s w).mp hcnd.2.2).2
      obtain ⟨n, hn, hidx⟩ := mapIndex_known s._workerRef w hin
      have hlen := (h.2.2.1 w hw).2.2.1 n hn
      have hLn := (h.2.2.1 w hw).1
      have hMn := (h.2.2.2 g hg).1
      have hupd := consistent_update codec hc isGroup s h w g hw hg hin
        ((readVector codec s._dataStore w).erase g) ((readVector codec s._dataStore g).erase w)
        (hLn.erase _) (hMn.erase _)
        (by
          intro x hx
          exact List.mem_erase_of_ne hx)
        (by
          intro y hy
          exact List.mem_erase_of_ne hy)
        (by
          constructor
          · intro hmem
            exact absurd rfl ((List.Nodup.mem_erase_iff hLn).mp hmem).1
          · intro hmem
            exact absurd rfl ((List.Nodup.mem_erase_iff hMn).mp hmem).1)
      have hread : readVector codec
          ⟨mapSet s._dataStore.items w
            (codec.getFileString ((readVector codec s._dataStore w).erase g))⟩ g
          = readVector codec s._dataStore g :=
        readVector_set_ne _ _ _ _ _ hwg.symm
      simp only [h1, if_true, DataStore.addItem, hread, h2, Bool.and_self, hidx]
      have hcount : (((readVector codec s._dataStore w).erase g).length : Int) = n - 1 := by
        rw [List.length_erase_of_mem h1, hlen]
        have hpos : 0 < (readVector codec s._dataStore w).length := List.length_pos_of_mem h1
        unfold getResourceGroupsForWorker
        omega
      rw [hcount] at hupd
      exact hupd
    · have h2 : w ∉ readVector codec s._dataStore g := fun hmem =>
        h1 ((h.2.2.2 g hg).2 w hmem).2
      simp only [h1, if_false, h2, Bool.and_self, Bool.false_eq_true]
      exact h
  · rw [if_neg hcnd]
    exact h

end MasterState
end BitQuark
namespace BitQuark
namespace MasterState

theorem applyCall_consistent (codec : FileStringCodec) (hc : codec.Faithful)
    (isGroup : String → Bool) (s : MasterState) (h : Consistent codec isGroup s)
    (call : Call) (hsep : call.separate isGroup) :
    Consistent codec isGroup (applyCall codec s call) := by
  cases call with
  | addWorker w => exact addWorker_consistent codec isGroup s h w hsep
  | removeWorker w => exact removeWorker_consistent codec isGroup s h w
  | addAssociation w g =>
    exact addAssociation_consistent codec hc isGroup s h w g hsep.2.1 hsep.2.2.2
  | removeAssociation w g =>
    exact removeAssociation_consistent codec hc isGroup s h w g hsep.2.1 hsep.2.2.2

theorem applyCalls_consistent (codec : FileStringCodec) (hc : codec.Faithful)
    (isGroup : String → Bool) (calls : List Call) :
    ∀ s : MasterState, Consistent codec isGroup s →
      (∀ call ∈ calls, call.separate isGroup) →
      Consistent codec isGroup (applyCalls codec s calls) := by
  induction calls with
  | nil => intro s h _; exact h
  | cons call rest ih =>
    intro s h hsep
    exact ih (applyCall codec s call)
      (applyCall_consistent codec hc isGroup s h call (hsep call (List.mem_cons_self _ _)))
      (fun c hcm => hsep c (List.mem_cons_of_mem _ hcm))

/-- C27 (amended): let the calls use non-empty ids and no string both as a
worker id and as a group id, with a file-string encoding that loses nothing
and reads no field from the empty string.  In the state reached from the
empty one, the counter of every worker is the number of groups
`getResourceGroupsForWorker` returns for it; a group id `g` is among the
groups of a worker id `w` exactly when `w` is among the workers of `g`; and
`removeWorker(w)` returns true exactly when `w` is a listed worker for which
no group is returned, the worker being gone afterwards. -/
theorem counters_match_associations (codec : FileStringCodec) (hc : codec.Faithful)
    (he : ∀ v, codec.parseFileString "" = some v → v = [])
    (isGroup : String → Bool) (calls : List Call)
    (hsep : ∀ call ∈ calls, call.separate isGroup) :
    (∀ w n, mapFind (applyCalls codec new calls)._workerRef w = some n →
        n = ((getResourceGroupsForWorker codec (applyCalls codec new calls) w).length : Int))
      ∧ (∀ w g, isGroup w = false → isGroup g = true →
          (g ∈ getResourceGroupsForWorker codec (applyCalls codec new calls) w
            ↔ w ∈ getWorkersForResourceGroup codec (applyCalls codec new calls) g))
      ∧ (∀ w, (removeWorker (applyCalls codec new calls) w).1 = true
          ↔ (w ∈ listWorkers (applyCalls codec new calls)
              ∧ getResourceGroupsForWorker codec (applyCalls codec new calls) w = []))
      ∧ (∀ w, (removeWorker (applyCalls codec new calls) w).1 = true →
          w ∉ listWorkers (removeWorker (applyCalls codec new calls) w).2) := by
  have hcons := applyCalls_consistent codec hc isGroup calls new
    (consistent_new codec he isGroup) hsep
  generalize applyCalls codec new calls = s at hcons
  have hflag : ∀ w, (removeWorker s w).1 = true
      ↔ (w ≠ "" ∧ doesWorkerExistLocally s w = true ∧ (mapIndex s._workerRef w).1 ≤ 0) := by
    intro w
    unfold removeWorker
    split_ifs with hcnd
    · exact ⟨fun _ => hcnd, fun _ => rfl⟩
    · exact ⟨fun hf => absurd hf (by decide), fun hh => absurd hh hcnd⟩
  refine ⟨?_, ?_, ?_, ?_⟩
  · intro w n hn
    have hin : w ∈ mapKeys s._workerRef := by
      by_contra hnot
      rw [(mapFind_eq_none_iff _ _).mpr hnot] at hn
      exact Option.noConfusion hn
    exact (hcons.2.2.1 w (hcons.2.1 w hin).2).2.2.1 n hn
  · intro w g hw hg
    exact ⟨fun hmem => ((hcons.2.2.1 w hw).2.1 g hmem).2,
      fun hmem => ((hcons.2.2.2 g hg).2 w hmem).2⟩
  · intro w
    rw [hflag w]
    exact removeWorker_iff codec isGroup s hcons w
  · intro w hrem
    have hcnd := (hflag w).mp hrem
    unfold removeWorker listWorkers
    rw [if_pos hcnd]
    exact fun hmem => ((mapKeys_mapErase _ _ _).mp hmem).1 rfl

/-- Witness for C27: after `addWorker("Worker1")` and
`addAssociation("Worker1", "Resource1")` the counter of `Worker1` is the
number of its groups and `removeWorker("Worker1")` returns false. -/
theorem counters_match_associations_witness :
    mapFind (applyCalls FileStringCodec.exactCodec new
        [Call.addWorker "Worker1", Call.addAssociation "Worker1" "Resource1"])._workerRef
        "Worker1" = some 1
      ∧ ((1 : Int) = ((getResourceGroupsForWorker FileStringCodec.exactCodec
          (applyCalls FileStringCodec.exactCodec new
            [Call.addWorker "Worker1", Call.addAssociation "Worker1" "Resource1"])
          "Worker1").length : Int)) :=
  ⟨by decide,
    (counters_match_associations FileStringCodec.exactCodec FileStringCodec.exactCodec_faithful
      (fun v hv => Option.noConfusion
        ((show FileStringCodec.exactCodec.parseFileString "" = none from rfl).symm.trans hv))
      startsWithR
      [Call.addWorker "Worker1", Call.addAssociation "Worker1" "Resource1"]
      (by
        intro call hcall
        simp only [List.mem_cons, List.mem_singleton, List.not_mem_nil, or_false] at hcall
        rcases hcall with e | e <;> subst e <;> simp [Call.separate, startsWithR])).1
      "Worker1" 1 (by decide)⟩

end MasterState

end BitQuark
